import Mathlib

/-!
# GD32 firmware: button classifier (`drv_key.c`), scheduler (`task.c`), time source
(`sys_tick.c`), LED driver (`drv_led.c`), UART frame parsers (`app_uart.c`), NTC lookup
(`drv_temp.c`)

Shallow embedding of `key_scan` and `drv_get_key_val` from
`19-ADC/Driver/drv_key/drv_key.c` (the copy under `21-SENSOR` has the same code), of
`task_loop`, `task_tick_hook` and `task_init` from `19-ADC/User/task.c` (the copies under
`18_DGT` and `22-modbus` differ in the table only) and of `SysTick_Handler`,
`sys_callback` and `sys_tick_get_runtime` from `19-ADC/Sys/sys_tick/sys_tick.c`; of
`drv_led_on`, `drv_led_off` and `drv_led_toggle` from `19-ADC/Driver/drv_led/drv_led.c`; of
`cal_xor_sum`, `ctrl_led` and `app_uart_task` from `19-ADC/App/app_uart/app_uart.c` and
`app_uart_task2` from `21-SENSOR/App/app_uart/app_uart.c`; and of `DescBinarySearch` and
`adc_temp_10mpl` from `22-modbus/Driver/drv_temp/drv_temp.c`.

Conventions of the embedding

* `uint8_t` and `uint64_t` values are natural numbers; every arithmetic operation of the
  source that can leave the range is followed by an explicit reduction (`u8`, `u64_sub`).
* The static array `g_key_info` is passed in and returned (state passing).  Array reads use
  checked indexing: an access outside the array makes the function return `none`.
* The two platform calls made by `key_scan` are parameters: `gpio_input_bit_get` (the pin
  level, a `FlagStatus`) and the value returned by `sys_tick_get_runtime`.
* The receive queue of `app_uart.c` is a parameter: the list of bytes `QueuePop` delivers.
  The text written by `printf` is not kept, only the reads of the buffer it makes.
* Function-static variables (`frame`, `idx`, `len`, `need`, `st`, `stream`) are passed in
  and returned like the global arrays.
-/

namespace GD32

/-! ## Constants and types -/

/-- Macro `KEY_DEBOUNCE_MS` (`20U`): debounce time in ms. -/
def KEY_DEBOUNCE_MS : Nat := 20

/-- Macro `KEY_LONG_MS` (`800U`): long-press time in ms. -/
def KEY_LONG_MS : Nat := 800

/-- Macro `KEY_DOUBLE_GAP_MS` (`300U`): double-click window in ms. -/
def KEY_DOUBLE_GAP_MS : Nat := 300

/-- Vendor type `FlagStatus` (`RESET = 0`, `SET = !RESET`), the result of
`gpio_input_bit_get`. -/
inductive FlagStatus where
  | RESET
  | SET
  deriving DecidableEq, Repr

/-- The GPIO ports named in `g_gpio_list`.  The vendor header defines them as distinct
base addresses; only their identity matters here. -/
inductive gpio_port where
  | GPIOA
  | GPIOG
  deriving DecidableEq, Repr

/-- Vendor macro `GPIO_PIN_n`, the bit mask `BIT(n)`. -/
def GPIO_PIN (n : Nat) : Nat := 2 ^ n

/-- Struct `Key_GPIO_t` without its `rcu` field, which only `key_gpio_init` reads. -/
structure Key_GPIO_t where
  gpio : gpio_port
  gpio_pin : Nat
  deriving DecidableEq, Repr

/-- Table `static const Key_GPIO_t g_gpio_list[]`: KEY1 = PA0, KEY2 = PG13, KEY3 = PG14,
KEY4 = PG15. -/
def g_gpio_list : List Key_GPIO_t :=
  [ ⟨gpio_port.GPIOA, GPIO_PIN 0⟩,
    ⟨gpio_port.GPIOG, GPIO_PIN 13⟩,
    ⟨gpio_port.GPIOG, GPIO_PIN 14⟩,
    ⟨gpio_port.GPIOG, GPIO_PIN 15⟩ ]

/-- Macro `KEY_MAX_NUM`: `(sizeof(g_gpio_list)) / (sizeof(g_gpio_list[0]))`. -/
def KEY_MAX_NUM : Nat := g_gpio_list.length

/-- Enum `key_state_t`.  The `default:` arm of the `switch` in `key_scan` is for values outside
the enumeration; `g_key_info[..].state` is zero-initialised and only ever assigned one of
the four enumerators, so the arm has no counterpart here. -/
inductive key_state_t where
  | KEY_STATE_RELEASE
  | KEY_STATE_CONFIRM
  | KEY_STATE_PRESSING
  | KEY_STATE_LONG
  deriving DecidableEq, Repr

/-- Struct `key_info_t`: `click_cnt` is a `uint8_t`, the two times are `uint64_t`. -/
structure key_info_t where
  state : key_state_t
  click_cnt : Nat
  press_time : Nat
  release_time : Nat
  deriving DecidableEq, Repr

/-- Conversion to `uint8_t`. -/
def u8 (n : Nat) : Nat := n % 256

/-- Subtraction of two `uint64_t` values (wraps modulo `2^64`). -/
def u64_sub (a b : Nat) : Nat := (a + (2 ^ 64 - b % 2 ^ 64)) % 2 ^ 64

/-- Event codes of `drv_key.h`: `KEYn_SHORT_PRESS`, `KEYn_DOUBLE_PRESS`, `KEYn_LONG_PRESS`
are `n - 1` plus these bases; `KEY_NULL_PRESS = 0x00`, `KEY_ERROR_PRESS = 0xFF`. -/
def KEY_NULL_PRESS : Nat := 0x00

/-- Macro `KEY_ERROR_PRESS` (`0xFF`): the error sentinel. -/
def KEY_ERROR_PRESS : Nat := 0xFF

/-! ## `key_scan` -/

/-- The `switch (g_key_info[key_index].state)` statement of `key_scan` together with the
final `return 0`, as a function of the polled element `k = g_key_info[key_index]`, the
sampled level `pressed` and the time `now`.  Returns the value returned by `key_scan` and
the new contents of `g_key_info[key_index]`. -/
def key_scan_switch (key_index : Nat) (pressed : Bool) (now : Nat) (k : key_info_t) :
    Nat × key_info_t :=
  match k.state with
  | key_state_t.KEY_STATE_RELEASE =>
    if k.click_cnt = 1 ∧ u64_sub now k.release_time > KEY_DOUBLE_GAP_MS then
      (u8 (key_index + 0x01), { k with click_cnt := 0 })
    else if pressed then
      (0, { k with press_time := now, state := key_state_t.KEY_STATE_CONFIRM })
    else
      (0, k)
  | key_state_t.KEY_STATE_CONFIRM =>
    if pressed then
      if u64_sub now k.press_time ≥ KEY_DEBOUNCE_MS then
        (0, { k with press_time := now, state := key_state_t.KEY_STATE_PRESSING })
      else
        (0, k)
    else
      (0, { k with state := key_state_t.KEY_STATE_RELEASE })
  | key_state_t.KEY_STATE_PRESSING =>
    if !pressed then
      let k1 : key_info_t :=
        { k with state := key_state_t.KEY_STATE_RELEASE, click_cnt := u8 (k.click_cnt + 1) }
      if k1.click_cnt = 1 then
        (0, { k1 with release_time := now })
      else if u64_sub now k1.release_time ≤ KEY_DOUBLE_GAP_MS then
        (u8 (key_index + 0x51), { k1 with click_cnt := 0 })
      else
        (0, { k1 with click_cnt := 1, release_time := now })
    else
      if u64_sub now k.press_time ≥ KEY_LONG_MS then
        (0, { k with state := key_state_t.KEY_STATE_LONG })
      else
        (0, k)
  | key_state_t.KEY_STATE_LONG =>
    if !pressed then
      (u8 (key_index + 0x81),
        { k with state := key_state_t.KEY_STATE_RELEASE, click_cnt := 0 })
    else
      (0, k)

/-- Function `static uint8_t key_scan(uint8_t key_index)`.

`gpio_input_bit_get port pin` is the level the platform call returns during this call,
`sys_tick_get_runtime` the time it returns, `g_key_info` the array before the call.
The result is `none` if an array is indexed out of range, otherwise the returned byte
and the array after the call. -/
def key_scan (gpio_input_bit_get : gpio_port → Nat → FlagStatus) (sys_tick_get_runtime : Nat)
    (g_key_info : List key_info_t) (key_index : Nat) : Option (Nat × List key_info_t) :=
  if key_index ≥ KEY_MAX_NUM then
    some (0xFF, g_key_info)
  else
    match g_gpio_list[key_index]? with
    | none => none
    | some pin =>
      let pressed : Bool := gpio_input_bit_get pin.gpio pin.gpio_pin == FlagStatus.RESET
      let now : Nat := sys_tick_get_runtime
      match g_key_info[key_index]? with
      | none => none
      | some k =>
        let r := key_scan_switch key_index pressed now k
        some (r.1, g_key_info.set key_index r.2)

/-- Loop of `uint8_t drv_get_key_val(void)`: the `for` loop from index `i` on, with `fuel` bounding
the number of loop tests.  The `n`-th call of `key_scan` made by the loop observes the pin
levels `gpio_input_bit_get n` and the time `sys_tick_get_runtime n`.  The third component
of the result lists the indices passed to `key_scan`, in call order. -/
def drv_get_key_val_loop (gpio_input_bit_get : Nat → gpio_port → Nat → FlagStatus)
    (sys_tick_get_runtime : Nat → Nat) :
    Nat → Nat → Nat → List key_info_t → List Nat → Option (Nat × List key_info_t × List Nat)
  | 0, _, _, _, _ => none
  | fuel + 1, i, res, g_key_info, polled =>
    if i < KEY_MAX_NUM then
      match key_scan (gpio_input_bit_get polled.length) (sys_tick_get_runtime polled.length)
          g_key_info i with
      | none => none
      | some (r, g_key_info1) =>
        if r ≠ 0 then
          some (r, g_key_info1, polled ++ [i])
        else
          drv_get_key_val_loop gpio_input_bit_get sys_tick_get_runtime fuel (u8 (i + 1)) r
            g_key_info1 (polled ++ [i])
    else
      some (res, g_key_info, polled)

/-- Function `uint8_t drv_get_key_val(void)`: `res = 0`, then the loop from `i = 0`.  The loop test
runs at most `KEY_MAX_NUM + 1` times. -/
def drv_get_key_val (gpio_input_bit_get : Nat → gpio_port → Nat → FlagStatus)
    (sys_tick_get_runtime : Nat → Nat) (g_key_info : List key_info_t) :
    Option (Nat × List key_info_t × List Nat) :=
  drv_get_key_val_loop gpio_input_bit_get sys_tick_get_runtime (KEY_MAX_NUM + 1) 0 0
    g_key_info []

/-! ## Driving `key_scan` over time -/

/-- The zero-initialised `static key_info_t g_key_info[KEY_MAX_NUM]`. -/
def g_key_info_init : List key_info_t :=
  List.replicate KEY_MAX_NUM ⟨key_state_t.KEY_STATE_RELEASE, 0, 0, 0⟩

/-- One call `key_scan(key_index)` together with what the platform returns during it. -/
structure key_poll where
  key_index : Nat
  gpio : gpio_port → Nat → FlagStatus
  now : Nat

/-- A sequence of `key_scan` calls, threading `g_key_info`; returns the bytes returned by
the calls, in order, and the final array. -/
def key_scan_seq : List key_poll → List key_info_t → Option (List Nat × List key_info_t)
  | [], g_key_info => some ([], g_key_info)
  | p :: ps, g_key_info =>
    match key_scan p.gpio p.now g_key_info p.key_index with
    | none => none
    | some (r, g_key_info1) =>
      match key_scan_seq ps g_key_info1 with
      | none => none
      | some (rs, g_key_info2) => some (r :: rs, g_key_info2)

/-- Button `key_index` polled once per millisecond: `n` calls at the times
`start, start + 1, ..`, the call at time `t` seeing the pin levels `gpio t`. -/
def key_polls_every_ms (key_index : Nat) (gpio : Nat → gpio_port → Nat → FlagStatus)
    (start n : Nat) : List key_poll :=
  (List.range' start n).map (fun t => ⟨key_index, gpio t, t⟩)

/-- The level `key_scan(key_index)` samples under the pin levels `g`: asserted (pressed)
iff the pin of the button reads `RESET`. -/
def key_asserted (g : gpio_port → Nat → FlagStatus) (key_index : Nat) : Bool :=
  match g_gpio_list[key_index]? with
  | some pin => g pin.gpio pin.gpio_pin == FlagStatus.RESET
  | none => false

/-! ## Scenarios and auxiliary definitions used by the theorems -/

/-- State of the button before the poll at time `t` in the short-press scenario: first
asserted poll `t0`, first deasserted poll `t1`, initial state `k0`. -/
def short_press_state (k0 : key_info_t) (t0 t1 t : Nat) : key_info_t :=
  if t ≤ t0 then k0
  else if t ≤ t0 + 20 then ⟨key_state_t.KEY_STATE_CONFIRM, 0, t0, k0.release_time⟩
  else if t ≤ t1 then ⟨key_state_t.KEY_STATE_PRESSING, 0, t0 + 20, k0.release_time⟩
  else if t ≤ t1 + 301 then ⟨key_state_t.KEY_STATE_RELEASE, 1, t0 + 20, t1⟩
  else ⟨key_state_t.KEY_STATE_RELEASE, 0, t0 + 20, t1⟩

/-- Byte returned by the poll at time `t` in the short-press scenario. -/
def short_press_event (i t1 t : Nat) : Nat :=
  if t = t1 + 301 then i + 0x01 else 0

/-- State of the button before the poll at time `t` when the level is asserted on
`[t0, t1)` only, with `t1 ≤ t0 + 20`. -/
def bounce_state (k0 : key_info_t) (t0 t1 t : Nat) : key_info_t :=
  if t ≤ t0 then k0
  else if t ≤ t1 then ⟨key_state_t.KEY_STATE_CONFIRM, 0, t0, k0.release_time⟩
  else ⟨key_state_t.KEY_STATE_RELEASE, 0, t0, k0.release_time⟩

/-- Pin levels over time under which every key pin reads asserted (`RESET`) exactly at
the times `t` with `lvl t = true`. -/
def gpio_of_level (lvl : Nat → Bool) : Nat → gpio_port → Nat → FlagStatus :=
  fun t _ _ => if lvl t then FlagStatus.RESET else FlagStatus.SET

/-- State of the button before the poll at time `t` in the double-press scenario: first
press at `t0`, first release at `t1`, second press at `p`, second release at `t2`. -/
def double_press_state (k0 : key_info_t) (t0 t1 p t2 t : Nat) : key_info_t :=
  if t ≤ t0 then k0
  else if t ≤ t0 + 20 then ⟨key_state_t.KEY_STATE_CONFIRM, 0, t0, k0.release_time⟩
  else if t ≤ t1 then ⟨key_state_t.KEY_STATE_PRESSING, 0, t0 + 20, k0.release_time⟩
  else if t ≤ p then ⟨key_state_t.KEY_STATE_RELEASE, 1, t0 + 20, t1⟩
  else if t ≤ p + 20 then ⟨key_state_t.KEY_STATE_CONFIRM, 1, p, t1⟩
  else if t ≤ t2 then ⟨key_state_t.KEY_STATE_PRESSING, 1, p + 20, t1⟩
  else ⟨key_state_t.KEY_STATE_RELEASE, 0, p + 20, t1⟩

/-- Byte returned by the poll at time `t` in the double-press scenario. -/
def double_press_event (i t2 t : Nat) : Nat :=
  if t = t2 then i + 0x51 else 0

/-- Whether the ShortPress of an earlier click is due at time `t`: the test made first in
the RELEASE state. -/
def click_pending (k0 : key_info_t) (t : Nat) : Bool :=
  decide (k0.click_cnt = 1 ∧ u64_sub t k0.release_time > KEY_DOUBLE_GAP_MS)

/-- Time of the poll that moves the button to CONFIRM when the level is asserted from
the poll at `t0` on: `t0` itself, or `t0 + 1` when the poll at `t0` reports the pending
ShortPress. -/
def confirm_time (k0 : key_info_t) (t0 : Nat) : Nat :=
  if click_pending k0 t0 then t0 + 1 else t0

/-- State of the button before the poll at time `t` in the long-press scenario: level
asserted on `[t0, t1)`, the poll at `c` enters CONFIRM with `click_cnt = cc`. -/
def long_press_state (k0 : key_info_t) (t0 c cc t1 t : Nat) : key_info_t :=
  if t ≤ t0 then k0
  else if t ≤ c then ⟨key_state_t.KEY_STATE_RELEASE, 0, k0.press_time, k0.release_time⟩
  else if t ≤ c + 20 then ⟨key_state_t.KEY_STATE_CONFIRM, cc, c, k0.release_time⟩
  else if t ≤ c + 820 then ⟨key_state_t.KEY_STATE_PRESSING, cc, c + 20, k0.release_time⟩
  else if t ≤ t1 then ⟨key_state_t.KEY_STATE_LONG, cc, c + 20, k0.release_time⟩
  else ⟨key_state_t.KEY_STATE_RELEASE, 0, c + 20, k0.release_time⟩

/-- Byte returned by the poll at time `t` in the long-press scenario. -/
def long_press_event (i : Nat) (k0 : key_info_t) (t0 t1 t : Nat) : Nat :=
  if t = t1 then i + 0x81
  else if t = t0 ∧ click_pending k0 t0 = true then i + 0x01
  else 0

/-- The `click_cnt` with which the button enters CONFIRM in the long-press scenario. -/
def confirm_click_cnt (k0 : key_info_t) (t0 : Nat) : Nat :=
  if click_pending k0 t0 then 0 else k0.click_cnt

/-- Invariant of `g_key_info`: the array has `KEY_MAX_NUM` elements, each with
`click_cnt ≤ 1`. -/
def click_cnt_inv (ks : List key_info_t) : Prop :=
  ks.length = KEY_MAX_NUM ∧ ∀ k ∈ ks, k.click_cnt ≤ 1

/-- The calls `key_scan(0)`, .., `key_scan(m - 1)` made by one `drv_get_key_val`. -/
def scan_polls (gpio : Nat → gpio_port → Nat → FlagStatus) (tick : Nat → Nat) (m : Nat) :
    List key_poll :=
  (List.range m).map (fun j => ⟨j, gpio j, tick j⟩)

/-! ## Scheduler (`task.c`) and time source (`sys_tick.c`) -/

/-- Values of the function pointers of `task.c` and `sys_tick.c` (`task_cb_t` and
`void (*)(void)`): the scheduler's own `task_tick_hook`, or a function of another module,
identified by a number (its address).  The null pointer is `none` in `Option fn_ptr`. -/
inductive fn_ptr where
  | task_tick_hook
  | extern_fn (a : Nat)
  deriving DecidableEq, Repr

/-- Struct `task_t`: `is_ready` is a `volatile bool`, `ticks_left` and `period_ticks` are
`uint64_t`, `cb` is a `task_cb_t`. -/
structure task_t where
  is_ready : Bool
  ticks_left : Nat
  period_ticks : Nat
  cb : Option fn_ptr
  deriving DecidableEq, Repr

/-- The static variables of `sys_tick.c` and `task.c`, and in `ext` everything else the
functions of other modules can read or write. -/
structure fw_state (W : Type) where
  g_sys_tick_count : Nat
  p_sys_callback : Option fn_ptr
  g_task_table : List task_t
  ext : W

/-- Initial value of `static task_t g_task_table[]` in `19-ADC/User/task.c`; the callbacks
`app_uart_task`, `app_key_task`, `rtc_task`, `feed_dog` are the external functions
0, 1, 2, 3. -/
def g_task_table_init : List task_t :=
  [ ⟨false, 100, 100, some (fn_ptr.extern_fn 0)⟩,
    ⟨false, 5, 5, some (fn_ptr.extern_fn 1)⟩,
    ⟨false, 100, 100, some (fn_ptr.extern_fn 2)⟩,
    ⟨false, 1000, 1000, some (fn_ptr.extern_fn 3)⟩ ]

/-- Macro `TASK_COUNT`: `(uint8_t)(sizeof(g_task_table) / sizeof(g_task_table[0]))`. -/
def TASK_COUNT (g_task_table : List task_t) : Nat := u8 g_task_table.length

/-- Lines 97 to 108 of `task.c`, the part of the body of the loop of `task_tick_hook`
after the `continue`: count down if `ticks_left > 0` (so the decrement cannot wrap), then
mark ready and reload if `ticks_left == 0`. -/
def task_tick_update (t : task_t) : task_t :=
  let t1 : task_t := if t.ticks_left > 0 then { t with ticks_left := t.ticks_left - 1 } else t
  if t1.ticks_left = 0 then { t1 with is_ready := true, ticks_left := t1.period_ticks }
  else t1

/-- Loop of `task_tick_hook` from index `i` on, with `fuel` bounding the number of loop
tests and `n` the value of `TASK_COUNT`. -/
def task_tick_hook_loop (n : Nat) : Nat → Nat → List task_t → Option (List task_t)
  | 0, _, _ => none
  | fuel + 1, i, g_task_table =>
    if i < n then
      match g_task_table[i]? with
      | none => none
      | some t =>
        if t.period_ticks = 0 then
          task_tick_hook_loop n fuel (u8 (i + 1)) g_task_table
        else
          task_tick_hook_loop n fuel (u8 (i + 1)) (g_task_table.set i (task_tick_update t))
    else
      some g_task_table

/-- Function `static void task_tick_hook(void)`.  The result is `none` if the table is
indexed out of range, otherwise the state after the call and the list of the calls made
through a callback pointer (there is none in this function). -/
def task_tick_hook {W : Type} (w : fw_state W) : Option (fw_state W × List (Nat × fn_ptr)) :=
  match task_tick_hook_loop (TASK_COUNT w.g_task_table) (TASK_COUNT w.g_task_table + 1) 0
      w.g_task_table with
  | none => none
  | some g_task_table1 => some ({ w with g_task_table := g_task_table1 }, [])

/-- A call through a function pointer: `task_tick_hook` itself, or the function of another
module at address `a`, whose effect on the state is `extern_code a` (`none` if it does
not return). -/
def call_ptr {W : Type} (extern_code : Nat → fw_state W → Option (fw_state W)) :
    fn_ptr → fw_state W → Option (fw_state W)
  | fn_ptr.task_tick_hook, w => (task_tick_hook w).map Prod.fst
  | fn_ptr.extern_fn a, w => extern_code a w

/-- Loop of `task_loop` from index `i` on, with `fuel` bounding the number of loop tests
and `n` the value of `TASK_COUNT`; `calls` lists the calls `g_task_table[i].cb()` made so
far, as pairs of the index `i` and the pointer called. -/
def task_loop_loop {W : Type} (extern_code : Nat → fw_state W → Option (fw_state W))
    (n : Nat) :
    Nat → Nat → fw_state W → List (Nat × fn_ptr) → Option (fw_state W × List (Nat × fn_ptr))
  | 0, _, _, _ => none
  | fuel + 1, i, w, calls =>
    if i < n then
      match w.g_task_table[i]? with
      | none => none
      | some t =>
        if t.is_ready then
          let w1 : fw_state W :=
            { w with g_task_table := w.g_task_table.set i { t with is_ready := false } }
          match t.cb with
          | none => task_loop_loop extern_code n fuel (u8 (i + 1)) w1 calls
          | some f =>
            match call_ptr extern_code f w1 with
            | none => none
            | some w2 => task_loop_loop extern_code n fuel (u8 (i + 1)) w2 (calls ++ [(i, f)])
        else
          task_loop_loop extern_code n fuel (u8 (i + 1)) w calls
    else
      some (w, calls)

/-- Function `void task_loop(void)`.  The result is `none` if the table is indexed out of
range or a callback does not return, otherwise the state after the call and the list of
the callback calls made, in order, as pairs of table index and pointer. -/
def task_loop {W : Type} (extern_code : Nat → fw_state W → Option (fw_state W))
    (w : fw_state W) : Option (fw_state W × List (Nat × fn_ptr)) :=
  task_loop_loop extern_code (TASK_COUNT w.g_task_table) (TASK_COUNT w.g_task_table + 1) 0 w []

/-- Function `void sys_callback(void (*func)(void))`. -/
def sys_callback {W : Type} (func : Option fn_ptr) (w : fw_state W) : fw_state W :=
  { w with p_sys_callback := func }

/-- Function `void task_init(void)`: registers `task_tick_hook`. -/
def task_init {W : Type} (w : fw_state W) : fw_state W :=
  sys_callback (some fn_ptr.task_tick_hook) w

/-- Function `uint64_t sys_tick_get_runtime(void)`. -/
def sys_tick_get_runtime {W : Type} (w : fw_state W) : Nat := w.g_sys_tick_count

/-- Function `void SysTick_Handler(void)`: `g_sys_tick_count++` on a `uint64_t`, then the
call of the registered callback if it is not null.  Returns the state after the call and
the list of the pointers called by the handler itself. -/
def SysTick_Handler {W : Type} (extern_code : Nat → fw_state W → Option (fw_state W))
    (w : fw_state W) : Option (fw_state W × List fn_ptr) :=
  let w1 : fw_state W := { w with g_sys_tick_count := (w.g_sys_tick_count + 1) % 2 ^ 64 }
  match w1.p_sys_callback with
  | none => some (w1, [])
  | some cb =>
    match call_ptr extern_code cb w1 with
    | none => none
    | some w2 => some (w2, [cb])

/-- One scheduler event: a call of `task_tick_hook` or a call of `task_loop`. -/
inductive sched_op where
  | tick
  | loop
  deriving DecidableEq, Repr

/-- A sequence of calls of `task_tick_hook` and `task_loop`, threading the state; returns
the final state and the callback calls made, in order. -/
def sched_run {W : Type} (extern_code : Nat → fw_state W → Option (fw_state W)) :
    List sched_op → fw_state W → Option (fw_state W × List (Nat × fn_ptr))
  | [], w => some (w, [])
  | op :: ops, w =>
    match (match op with
      | sched_op.tick => task_tick_hook w
      | sched_op.loop => task_loop extern_code w) with
    | none => none
    | some (w1, calls1) =>
      match sched_run extern_code ops w1 with
      | none => none
      | some (w2, calls2) => some (w2, calls1 ++ calls2)

/-- The effect of one `task_tick_hook` on one task, in the words of the specification:
a task with `period_ticks = 0` is skipped; otherwise `ticks_left` is decremented if it
is `> 0`, and if it is 0 after that, `ready` is set and `ticks_left` reloaded. -/
def task_tick_one (t : task_t) : task_t :=
  if t.period_ticks = 0 then t else task_tick_update t

/-- The task with its `is_ready` flag cleared. -/
def task_clear (t : task_t) : task_t := { t with is_ready := false }

/-- The callback call `task_loop` makes for index `j` of the table, if any: the task is
ready and its callback is not null. -/
def task_call (g_task_table : List task_t) (j : Nat) : Option (Nat × fn_ptr) :=
  match g_task_table[j]? with
  | none => none
  | some t => if t.is_ready then t.cb.map (fun f => (j, f)) else none

/-- A callback pointer is benign for the scheduler if its call always returns and leaves
`g_task_table` as it is. -/
def cb_benign {W : Type} (extern_code : Nat → fw_state W → Option (fw_state W))
    (f : fn_ptr) : Prop :=
  ∀ w : fw_state W, ∃ w1, call_ptr extern_code f w = some w1 ∧
    w1.g_task_table = w.g_task_table

/-- Every callback of the table is benign. -/
def cbs_benign {W : Type} (extern_code : Nat → fw_state W → Option (fw_state W))
    (g_task_table : List task_t) : Prop :=
  ∀ t ∈ g_task_table, ∀ f, t.cb = some f → cb_benign extern_code f

/-- The state graph of the button: `key_state_edge s s1` holds for `s = RELEASE` and
`s1` among RELEASE, CONFIRM; for `s = CONFIRM` and `s1` among CONFIRM, PRESSING, RELEASE;
for `s = PRESSING` and `s1` among PRESSING, LONG, RELEASE; for `s = LONG` and `s1` among
LONG, RELEASE. -/
def key_state_edge : key_state_t → key_state_t → Bool
  | key_state_t.KEY_STATE_RELEASE, key_state_t.KEY_STATE_RELEASE => true
  | key_state_t.KEY_STATE_RELEASE, key_state_t.KEY_STATE_CONFIRM => true
  | key_state_t.KEY_STATE_CONFIRM, key_state_t.KEY_STATE_CONFIRM => true
  | key_state_t.KEY_STATE_CONFIRM, key_state_t.KEY_STATE_PRESSING => true
  | key_state_t.KEY_STATE_CONFIRM, key_state_t.KEY_STATE_RELEASE => true
  | key_state_t.KEY_STATE_PRESSING, key_state_t.KEY_STATE_PRESSING => true
  | key_state_t.KEY_STATE_PRESSING, key_state_t.KEY_STATE_LONG => true
  | key_state_t.KEY_STATE_PRESSING, key_state_t.KEY_STATE_RELEASE => true
  | key_state_t.KEY_STATE_LONG, key_state_t.KEY_STATE_LONG => true
  | key_state_t.KEY_STATE_LONG, key_state_t.KEY_STATE_RELEASE => true
  | _, _ => false

/-! ## LED driver (`drv_led.c`) -/

namespace drv_led

/-- GPIO ports the LEDs hang on. -/
inductive gpio_periph where
  | GPIOA
  | GPIOE
  | GPIOF
  deriving DecidableEq, Repr

/-- Clock gates of the LED ports. -/
inductive rcu_periph_enum where
  | RCU_GPIOA
  | RCU_GPIOE
  | RCU_GPIOF
  deriving DecidableEq, Repr

/-- Struct `Led_GPIO_t`: clock, port and pin of one LED. -/
structure Led_GPIO_t where
  rcu : rcu_periph_enum
  gpio : gpio_periph
  gpio_pin : Nat
  deriving DecidableEq, Repr

/-- Table `g_gpio_list` of `drv_led.c`: LED1 on PA8, LED2 on PE6, LED3 on PF6. -/
def g_gpio_list : List Led_GPIO_t :=
  [ ⟨.RCU_GPIOA, .GPIOA, GPIO_PIN 8⟩,
    ⟨.RCU_GPIOE, .GPIOE, GPIO_PIN 6⟩,
    ⟨.RCU_GPIOF, .GPIOF, GPIO_PIN 6⟩ ]

/-- Macro `LED_NUM_MAX`: `sizeof(g_gpio_list) / sizeof(g_gpio_list[0])`. -/
def LED_NUM_MAX : Nat := g_gpio_list.length

/-- Output latch of the GPIO block: the level driven on each pin of each port. -/
abbrev gpio_out := gpio_periph → Nat → FlagStatus

/-- Library call `gpio_bit_set`: drive the pin high. -/
def gpio_bit_set (gpio : gpio_periph) (pin : Nat) (o : gpio_out) : gpio_out :=
  fun g p => if g = gpio ∧ p = pin then FlagStatus.SET else o g p

/-- Library call `gpio_bit_reset`: drive the pin low. -/
def gpio_bit_reset (gpio : gpio_periph) (pin : Nat) (o : gpio_out) : gpio_out :=
  fun g p => if g = gpio ∧ p = pin then FlagStatus.RESET else o g p

/-- Library call `gpio_output_bit_get`: read the level driven on the pin. -/
def gpio_output_bit_get (gpio : gpio_periph) (pin : Nat) (o : gpio_out) : FlagStatus :=
  o gpio pin

end drv_led

/-- Function `drv_led_on`. The guard is `led_id > LED_NUM_MAX`; after it the table is
indexed with `led_id`. The result is `none` when that index lies outside the table. -/
def drv_led_on (led_id : Nat) (o : drv_led.gpio_out) : Option drv_led.gpio_out :=
  if led_id > drv_led.LED_NUM_MAX then some o
  else
    match drv_led.g_gpio_list[led_id]? with
    | none => none
    | some g => some (drv_led.gpio_bit_set g.gpio g.gpio_pin o)

/-- Function `drv_led_off`, with the same guard as `drv_led_on`. -/
def drv_led_off (led_id : Nat) (o : drv_led.gpio_out) : Option drv_led.gpio_out :=
  if led_id > drv_led.LED_NUM_MAX then some o
  else
    match drv_led.g_gpio_list[led_id]? with
    | none => none
    | some g => some (drv_led.gpio_bit_reset g.gpio g.gpio_pin o)

/-- Function `drv_led_toggle`, with the same guard as `drv_led_on`. -/
def drv_led_toggle (led_id : Nat) (o : drv_led.gpio_out) : Option drv_led.gpio_out :=
  if led_id > drv_led.LED_NUM_MAX then some o
  else
    match drv_led.g_gpio_list[led_id]? with
    | none => none
    | some g =>
      if drv_led.gpio_output_bit_get g.gpio g.gpio_pin o = FlagStatus.SET then
        some (drv_led.gpio_bit_reset g.gpio g.gpio_pin o)
      else
        some (drv_led.gpio_bit_set g.gpio g.gpio_pin o)

/-! ## NTC temperature sensor (`drv_temp.c`) -/

/-- Table `g_ntcAdcTable`: ADC readings for 0 to 99 degrees, in descending order. -/
def g_ntcAdcTable : List Nat :=
  [ 3123, 3089, 3051, 3013, 2973, 2933, 2893, 2852, 2810, 2767,
    2720, 2681, 2637, 2593, 2548, 2503, 2458, 2412, 2367, 2321,
    2275, 2230, 2184, 2138, 2093, 2048, 2002, 1958, 1913, 1869,
    1825, 1782, 1739, 1697, 1655, 1614, 1573, 1533, 1494, 1455,
    1417, 1380, 1343, 1307, 1272, 1237, 1203, 1170, 1138, 1106,
    1081, 1045, 1016, 987,  959,  932,  905,  879,  854,  829,
    806,  782,  760,  738,  716,  696,  675,  656,  637,  618,
    600,  583,  566,  550,  534,  518,  503,  489,  475,  461,
    448,  435,  422,  410,  398,  387,  376,  365,  355,  345,
    335,  326,  316,  308,  299,  290,  283,  274,  267,  259 ]

/-- Macro `NTC_TABLE_SIZE`. -/
def NTC_TABLE_SIZE : Nat := g_ntcAdcTable.length

/-- Macro `INDEX_TO_TEMP`. -/
def INDEX_TO_TEMP (index : Int) : Int := index

/-- Loop of `DescBinarySearch` (the `DROP_OR_LITRE = 1` variant). The first argument
bounds the number of iterations; `none` is an out-of-range read of `arr` or an exhausted
bound. -/
def DescBinarySearch_loop (arr : List Nat) (key : Nat) : Nat → Int → Int → Int → Option Int
  | 0, _, _, _ => none
  | fuel + 1, left, right, index =>
    if left ≤ right then
      let mid := left + Int.tdiv (right - left) 2
      if mid < 0 then none
      else
        match arr[mid.toNat]? with
        | none => none
        | some a =>
          if key ≥ a then DescBinarySearch_loop arr key fuel left (mid - 1) mid
          else DescBinarySearch_loop arr key fuel (mid + 1) right index
    else some index

/-- Function `DescBinarySearch`: index of the first element not above `key` in a descending
array, `size - 1` when there is none. -/
def DescBinarySearch (arr : List Nat) (size : Int) (key : Nat) : Option Int :=
  DescBinarySearch_loop arr key (size.toNat + 1) 0 (size - 1) (size - 1)

/-- Function `adc_temp_10mpl`: table lookup and linear interpolation, the `int` result
stored into a `uint16_t`. `none` is an out-of-range table read or a division by zero. -/
def adc_temp_10mpl (adcval : Nat) : Option Nat :=
  match DescBinarySearch g_ntcAdcTable NTC_TABLE_SIZE adcval with
  | none => none
  | some index =>
    if index = 0 then some 0
    else if index - 1 < 0 then none
    else
      match g_ntcAdcTable[(index - 1).toNat]?, g_ntcAdcTable[index.toNat]? with
      | some hi, some lo =>
        if (hi : Int) - lo = 0 then none
        else
          let temp10mpl : Int :=
            INDEX_TO_TEMP (index - 1) * 10 + Int.tdiv (((hi : Int) - adcval) * 10) ((hi : Int) - lo)
          some (temp10mpl % 65536).toNat
      | _, _ => none

/-- State of the button before the poll at time `t` when the level is asserted from the
poll at `t0` on and the button starts RELEASED in state `k0` with no ShortPress due. -/
def hold_state (k0 : key_info_t) (t0 t : Nat) : key_info_t :=
  if t ≤ t0 then k0
  else if t ≤ t0 + 20 then ⟨key_state_t.KEY_STATE_CONFIRM, k0.click_cnt, t0, k0.release_time⟩
  else if t ≤ t0 + 820 then
    ⟨key_state_t.KEY_STATE_PRESSING, k0.click_cnt, t0 + 20, k0.release_time⟩
  else ⟨key_state_t.KEY_STATE_LONG, k0.click_cnt, t0 + 20, k0.release_time⟩

/-- State of the button before the poll at time `t` in the late-release scenario: first
press at `t0`, first release at `t1`, second press at `p` (within 300 ms of `t1`), second
release at `t2` (more than 300 ms after `t1`). -/
def late_release_state (k0 : key_info_t) (t0 t1 p t2 t : Nat) : key_info_t :=
  if t ≤ t0 then k0
  else if t ≤ t0 + 20 then ⟨key_state_t.KEY_STATE_CONFIRM, 0, t0, k0.release_time⟩
  else if t ≤ t1 then ⟨key_state_t.KEY_STATE_PRESSING, 0, t0 + 20, k0.release_time⟩
  else if t ≤ p then ⟨key_state_t.KEY_STATE_RELEASE, 1, t0 + 20, t1⟩
  else if t ≤ p + 20 then ⟨key_state_t.KEY_STATE_CONFIRM, 1, p, t1⟩
  else if t ≤ t2 then ⟨key_state_t.KEY_STATE_PRESSING, 1, p + 20, t1⟩
  else if t ≤ t2 + 301 then ⟨key_state_t.KEY_STATE_RELEASE, 1, p + 20, t2⟩
  else ⟨key_state_t.KEY_STATE_RELEASE, 0, p + 20, t2⟩

/-- Byte returned by the poll at time `t` in the late-release scenario. -/
def late_release_event (i t2 t : Nat) : Nat :=
  if t = t2 + 301 then i + 0x01 else 0

/-- The schedule in which `task_loop` runs after every tick: `n` rounds of one
`task_tick_hook` followed by one `task_loop`. -/
def tick_drain_rounds : Nat → List sched_op
  | 0 => []
  | n + 1 => sched_op.tick :: sched_op.loop :: tick_drain_rounds n

/-! ## UART application layer (`app_uart.c`) -/

/-- Macro `RX_BUF_SIZE`. -/
def RX_BUF_SIZE : Nat := 77

/-- Macro `DATA_HEAD_ONE`. -/
def DATA_HEAD_ONE : Nat := 0x55

/-- Macro `DATA_HEAD_TWO` (spelled `DATA_HEAD_TOW` in `21-SENSOR`). -/
def DATA_HEAD_TWO : Nat := 0xAA

/-- Macro `PACKET_DATA_LEN_MAX`. -/
def PACKET_DATA_LEN_MAX : Nat := 11

/-- Macro `FUNC_DATA_IDX`. -/
def FUNC_DATA_IDX : Nat := 3

/-- Macro `LED_CTRL_CODE`. -/
def LED_CTRL_CODE : Nat := 0x06

/-- Struct `led_ctrl_info_t` (spelled `led_ctrl_inof_t` in `21-SENSOR`). -/
structure led_ctrl_info_t where
  led_num : Nat
  led_state : Nat
  deriving DecidableEq, Repr

/-- Enum `parse_state_t` of `app_uart_task`. -/
inductive parse_state_t where
  | ST_WAIT_HEAD1
  | ST_WAIT_HEAD2
  | ST_WAIT_LEN
  | ST_WAIT_PAYLOAD_XOR
  deriving DecidableEq, Repr

/-- The function-static variables of `app_uart_task`: `st`, `frame`, `idx`, `len`, `need`. -/
structure uart_fsm where
  st : parse_state_t
  frame : List Nat
  idx : Nat
  len : Nat
  need : Nat
  deriving DecidableEq, Repr

/-- The initial values of the statics: `ST_WAIT_HEAD1`, a zeroed `frame` of
`PACKET_DATA_LEN_MAX` bytes, and zero counters. -/
def uart_fsm_init : uart_fsm :=
  ⟨parse_state_t.ST_WAIT_HEAD1, List.replicate PACKET_DATA_LEN_MAX 0, 0, 0, 0⟩

/-- Loop of `cal_xor_sum` with `n` iterations left, at index `i` with accumulator
`xor_sum`; `none` is a read outside `data`. -/
def cal_xor_sum_loop (data : List Nat) : Nat → Nat → Nat → Option Nat
  | 0, _, xor_sum => some xor_sum
  | n + 1, i, xor_sum =>
    match data[i]? with
    | none => none
    | some d => cal_xor_sum_loop data n (i + 1) (xor_sum ^^^ d)

/-- Function `cal_xor_sum`: XOR of `data[0] .. data[len - 1]`. -/
def cal_xor_sum (data : List Nat) (len : Nat) : Option Nat :=
  cal_xor_sum_loop data len 0 0

/-- The debug loop `for (i = 0; i < total; i++) printf("%02x ", frame[i])`: the bytes it
prints, `none` on a read outside `data`. -/
def hex_dump_loop (data : List Nat) : Nat → Nat → Option (List Nat)
  | 0, _ => some []
  | n + 1, i =>
    match data[i]? with
    | none => none
    | some d =>
      match hex_dump_loop data n (i + 1) with
      | none => none
      | some ds => some (d :: ds)

/-- A write `frame[i] = v` into the array `frame`; `none` when `i` is outside it. -/
def frame_write (frame : List Nat) (i v : Nat) : Option (List Nat) :=
  if i < frame.length then some (frame.set i v) else none

/-- Function `ctrl_led`: `drv_led_on` when `led_state` is not 0, else `drv_led_off`. -/
def ctrl_led (ctrl_data : led_ctrl_info_t) (o : drv_led.gpio_out) : Option drv_led.gpio_out :=
  if ctrl_data.led_state ≠ 0 then drv_led_on ctrl_data.led_num o
  else drv_led_off ctrl_data.led_num o

/-- The dispatch on the function code, shared by both parsers: if `data[FUNC_DATA_IDX]` is
`LED_CTRL_CODE` and `len ≥ 3`, `ctrl_led` is called with `led_num = data[4]` and
`led_state = data[5]`.  Returns the `ctrl_led` calls made; `none` is a read outside
`data`. -/
def led_dispatch (data : List Nat) (len : Nat) : Option (List led_ctrl_info_t) :=
  match data[FUNC_DATA_IDX]? with
  | none => none
  | some func =>
    if func = LED_CTRL_CODE then
      if len ≥ 3 then
        match data[FUNC_DATA_IDX + 1]?, data[FUNC_DATA_IDX + 2]? with
        | some led_num, some led_state => some [⟨led_num, led_state⟩]
        | _, _ => none
      else some []
    else some []

/-- The body of the `while` loop of `app_uart_task` for one popped `byte`: the `switch` on
`st`.  Returns the statics after the byte and the `ctrl_led` calls made; `none` is an
access outside `frame`. -/
def app_uart_task_step (p : uart_fsm) (byte : Nat) :
    Option (uart_fsm × List led_ctrl_info_t) :=
  match p.st with
  | parse_state_t.ST_WAIT_HEAD1 =>
    if byte = DATA_HEAD_ONE then
      match frame_write p.frame 0 byte with
      | none => none
      | some frame =>
        some ({ p with frame := frame, idx := 1, st := parse_state_t.ST_WAIT_HEAD2 }, [])
    else some (p, [])
  | parse_state_t.ST_WAIT_HEAD2 =>
    if byte = DATA_HEAD_TWO then
      match frame_write p.frame 1 byte with
      | none => none
      | some frame =>
        some ({ p with frame := frame, idx := 2, st := parse_state_t.ST_WAIT_LEN }, [])
    else if byte = DATA_HEAD_ONE then
      match frame_write p.frame 0 byte with
      | none => none
      | some frame =>
        some ({ p with frame := frame, idx := 1, st := parse_state_t.ST_WAIT_HEAD2 }, [])
    else some ({ p with st := parse_state_t.ST_WAIT_HEAD1, idx := 0 }, [])
  | parse_state_t.ST_WAIT_LEN =>
    let len := byte
    if len < 1 ∨ (len + 4) % 65536 > PACKET_DATA_LEN_MAX then
      some ({ p with len := len, st := parse_state_t.ST_WAIT_HEAD1, idx := 0 }, [])
    else
      match frame_write p.frame 2 len with
      | none => none
      | some frame =>
        some ({ p with len := len, frame := frame, idx := 3, need := u8 (len + 1),
                       st := parse_state_t.ST_WAIT_PAYLOAD_XOR }, [])
  | parse_state_t.ST_WAIT_PAYLOAD_XOR =>
    match frame_write p.frame p.idx byte with
    | none => none
    | some frame =>
      let idx := u8 (p.idx + 1)
      let need := u8 (p.need + 255)
      if need = 0 then
        let total := u8 (p.len + 4)
        match cal_xor_sum frame (u8 (p.len + 3)), frame[p.len + 3]? with
        | some xor_calc, some xor_recv =>
          if xor_calc = xor_recv then
            match led_dispatch frame p.len, hex_dump_loop frame total 0 with
            | some calls, some _ =>
              some ({ p with frame := frame, idx := 0, need := need,
                             st := parse_state_t.ST_WAIT_HEAD1 }, calls)
            | _, _ => none
          else
            some ({ p with frame := frame, idx := 0, need := need,
                           st := parse_state_t.ST_WAIT_HEAD1 }, [])
        | _, _ => none
      else some ({ p with frame := frame, idx := idx, need := need }, [])

/-- Function `app_uart_task`, identical in `19-ADC` and `21-SENSOR`.  `queue` lists the
bytes `QueuePop` delivers, in order, until the queue is empty; `p` holds the statics
before the call.  Returns the statics after the call and the `ctrl_led` calls made, in
order; `none` is an access outside `frame`. -/
def app_uart_task : List Nat → uart_fsm → Option (uart_fsm × List led_ctrl_info_t)
  | [], p => some (p, [])
  | byte :: queue, p =>
    match app_uart_task_step p byte with
    | none => none
    | some (p1, calls1) =>
      match app_uart_task queue p1 with
      | none => none
      | some (p2, calls2) => some (p2, calls1 ++ calls2)

/-- Stage 1 of `app_uart_task2` for one popped byte: append it to `stream`, dropping the
oldest byte when the `2 * RX_BUF_SIZE` bytes are full.  The list holds the first
`stream_len` bytes of the array `stream`. -/
def stream_push (stream : List Nat) (byte : Nat) : List Nat :=
  if stream.length < RX_BUF_SIZE * 2 then stream ++ [byte]
  else stream.tail ++ [byte]

/-- Stage 2 of `app_uart_task2`: the `while (1)` loop over the stream, the first argument
bounding the number of iterations.  Returns the stream left and the `ctrl_led` calls
made; `none` is a read outside the live bytes or an exhausted bound. -/
def app_uart_task2_loop : Nat → List Nat → Option (List Nat × List led_ctrl_info_t)
  | 0, _ => none
  | fuel + 1, stream =>
    if stream.length < 3 then some (stream, [])
    else
      match stream[0]?, stream[1]?, stream[2]? with
      | some head1, some head2, some len =>
        if head1 ≠ DATA_HEAD_ONE then app_uart_task2_loop fuel stream.tail
        else if head2 ≠ DATA_HEAD_TWO then app_uart_task2_loop fuel stream.tail
        else if len < 1 ∨ (len + 4) % 65536 > PACKET_DATA_LEN_MAX then
          app_uart_task2_loop fuel stream.tail
        else
          let total := u8 (len + 4)
          if stream.length < total then some (stream, [])
          else
            match cal_xor_sum stream (u8 (len + 3)), stream[len + 3]? with
            | some xor_calc, some xor_recv =>
              if xor_calc ≠ xor_recv then app_uart_task2_loop fuel stream.tail
              else
                match led_dispatch stream len, hex_dump_loop stream total 0 with
                | some calls, some _ =>
                  match app_uart_task2_loop fuel (stream.drop total) with
                  | none => none
                  | some (stream1, calls1) => some (stream1, calls ++ calls1)
                | _, _ => none
            | _, _ => none
      | _, _, _ => none

/-- Function `app_uart_task2` of `21-SENSOR`.  `queue` lists the bytes `QueuePop` delivers,
`stream` the live bytes of the static stream buffer before the call. -/
def app_uart_task2 (queue : List Nat) (stream : List Nat) :
    Option (List Nat × List led_ctrl_info_t) :=
  let stream1 := queue.foldl stream_push stream
  app_uart_task2_loop (stream1.length + 1) stream1

/-- Invariant of the statics of `app_uart_task`: `frame` has `PACKET_DATA_LEN_MAX` bytes,
and while the payload is collected `1 ≤ len ≤ 7`, `3 ≤ idx`, `1 ≤ need` and
`idx + need = len + 4`. -/
def uart_inv (p : uart_fsm) : Prop :=
  p.frame.length = PACKET_DATA_LEN_MAX ∧
  (p.st = parse_state_t.ST_WAIT_PAYLOAD_XOR →
    1 ≤ p.len ∧ p.len ≤ 7 ∧ 1 ≤ p.need ∧ 3 ≤ p.idx ∧ p.idx + p.need = p.len + 4)

/-- The `ctrl_led` calls the frame `0x55 0xAA LEN b1..bLEN X` is to produce, in the words
of the protocol: one call with `led_num = b2`, `led_state = b3` when `X` is the XOR of all
bytes before it, `b1` is `LED_CTRL_CODE` and `LEN ≥ 3`; none otherwise. -/
def frame_led_calls (LEN : Nat) (bs : List Nat) (X : Nat) : List led_ctrl_info_t :=
  if X = (0x55 :: 0xAA :: LEN :: bs).foldl (fun a b => a ^^^ b) 0 ∧ bs.head? = some 0x06 ∧
      3 ≤ LEN then
    [⟨bs.getD 1 0, bs.getD 2 0⟩]
  else []

/-- Whether the bytes `s` begin with a frame that `app_uart_task2` does not skip: the
header `0x55 0xAA`, an accepted length byte, and then either fewer bytes than the frame
needs (the parser waits for more) or a matching checksum (the parser takes the frame). -/
def frame_start (s : List Nat) : Bool :=
  match s[0]?, s[1]?, s[2]? with
  | some head1, some head2, some len =>
    decide (head1 = DATA_HEAD_ONE) && decide (head2 = DATA_HEAD_TWO) &&
      !decide (len < 1 ∨ (len + 4) % 65536 > PACKET_DATA_LEN_MAX) &&
      (decide (s.length < u8 (len + 4)) ||
        decide (cal_xor_sum s (u8 (len + 3)) = s[len + 3]?))
  | _, _, _ => false

/-- No byte of the block `d`, read together with the bytes `r` that follow the block,
begins a frame in the sense of `frame_start`. -/
def no_frame_start_in : List Nat → List Nat → Bool
  | [], _ => true
  | b :: d, r => !frame_start (b :: d ++ r) && no_frame_start_in d r

/-- The block of bytes the step of `app_uart_task` on `byte` throws away, if any: the
header and the length byte when the length byte is rejected, the whole collected frame
when its checksum does not match. -/
def uart_step_discards (p : uart_fsm) (byte : Nat) : Option (List Nat) :=
  match p.st with
  | parse_state_t.ST_WAIT_LEN =>
    if byte < 1 ∨ (byte + 4) % 65536 > PACKET_DATA_LEN_MAX then
      some (p.frame.take p.idx ++ [byte])
    else none
  | parse_state_t.ST_WAIT_PAYLOAD_XOR =>
    if u8 (p.need + 255) = 0 then
      match frame_write p.frame p.idx byte with
      | none => none
      | some frame =>
        if cal_xor_sum frame (u8 (p.len + 3)) = frame[p.len + 3]? then none
        else some (p.frame.take p.idx ++ [byte])
    else none
  | _ => none

/-- No block thrown away during the run of `app_uart_task` over `queue` from the statics
`p` hides a frame start: in every such block, no byte after the first begins a frame in
the sense of `frame_start` when read together with the rest of the queue. -/
def uart_run_clean : List Nat → uart_fsm → Bool
  | [], _ => true
  | byte :: queue, p =>
    (match uart_step_discards p byte with
     | none => true
     | some d => no_frame_start_in d.tail queue) &&
      (match app_uart_task_step p byte with
       | none => false
       | some (p1, _) => uart_run_clean queue p1)

/-! ## One `task_loop` pass, statement by statement, with an interrupting tick -/

/-- Program points of `task_loop`: the statement about to be executed, with the value of
the loop variable `i`. -/
inductive loop_pc where
  /-- Loop test `i < TASK_COUNT`. -/
  | for_test (i : Nat)
  /-- Test `if (g_task_table[i].is_ready)`. -/
  | ready_test (i : Nat)
  /-- Assignment `g_task_table[i].is_ready = false;`. -/
  | clear (i : Nat)
  /-- Test `if (g_task_table[i].cb)`. -/
  | cb_test (i : Nat)
  /-- Call `g_task_table[i].cb();`. -/
  | call (i : Nat)
  /-- Increment `i++`. -/
  | incr (i : Nat)
  /-- After the loop. -/
  | done
  deriving DecidableEq, Repr

/-- One statement of `task_loop` at program point `pc`, with `n` the value of `TASK_COUNT`:
the next program point, the state after the statement and the callback call it made, if
any.  `none` is a read outside the table, a call through a null pointer or a callback that
does not return. -/
def task_loop_stmt {W : Type} (extern_code : Nat → fw_state W → Option (fw_state W))
    (n : Nat) : loop_pc → fw_state W → Option (loop_pc × fw_state W × List (Nat × fn_ptr))
  | loop_pc.for_test i, w =>
    if i < n then some (loop_pc.ready_test i, w, []) else some (loop_pc.done, w, [])
  | loop_pc.ready_test i, w =>
    match w.g_task_table[i]? with
    | none => none
    | some t =>
      if t.is_ready then some (loop_pc.clear i, w, []) else some (loop_pc.incr i, w, [])
  | loop_pc.clear i, w =>
    match w.g_task_table[i]? with
    | none => none
    | some t =>
      some (loop_pc.cb_test i,
        { w with g_task_table := w.g_task_table.set i { t with is_ready := false } }, [])
  | loop_pc.cb_test i, w =>
    match w.g_task_table[i]? with
    | none => none
    | some t =>
      match t.cb with
      | none => some (loop_pc.incr i, w, [])
      | some _ => some (loop_pc.call i, w, [])
  | loop_pc.call i, w =>
    match w.g_task_table[i]? with
    | none => none
    | some t =>
      match t.cb with
      | none => none
      | some f =>
        match call_ptr extern_code f w with
        | none => none
        | some w1 => some (loop_pc.incr i, w1, [(i, f)])
  | loop_pc.incr i, w => some (loop_pc.for_test (u8 (i + 1)), w, [])
  | loop_pc.done, w => some (loop_pc.done, w, [])

/-- The first `k` statements of a `task_loop` pass from program point `pc`; once the pass
is over nothing more happens. -/
def task_loop_steps {W : Type} (extern_code : Nat → fw_state W → Option (fw_state W))
    (n : Nat) : Nat → loop_pc → fw_state W → List (Nat × fn_ptr) →
    Option (loop_pc × fw_state W × List (Nat × fn_ptr))
  | 0, pc, w, calls => some (pc, w, calls)
  | k + 1, pc, w, calls =>
    match task_loop_stmt extern_code n pc w with
    | none => none
    | some (pc1, w1, calls1) => task_loop_steps extern_code n k pc1 w1 (calls ++ calls1)

/-- The rest of a `task_loop` pass from program point `pc`, the first argument bounding the
number of statements. -/
def task_loop_finish {W : Type} (extern_code : Nat → fw_state W → Option (fw_state W))
    (n : Nat) : Nat → loop_pc → fw_state W → List (Nat × fn_ptr) →
    Option (fw_state W × List (Nat × fn_ptr))
  | 0, _, _, _ => none
  | fuel + 1, pc, w, calls =>
    if pc = loop_pc.done then some (w, calls)
    else
      match task_loop_stmt extern_code n pc w with
      | none => none
      | some (pc1, w1, calls1) => task_loop_finish extern_code n fuel pc1 w1 (calls ++ calls1)

/-- One `task_loop` pass interrupted once by the tick: `k` statements of the pass, then one
complete `task_tick_hook` (the interrupt handler runs to its end), then the rest of the
pass.  A callback call counts as one statement.  `k = 0` is the tick before the pass, a
large `k` the tick after it. -/
def task_loop_irq {W : Type} (extern_code : Nat → fw_state W → Option (fw_state W))
    (k : Nat) (w : fw_state W) : Option (fw_state W × List (Nat × fn_ptr)) :=
  match task_loop_steps extern_code (TASK_COUNT w.g_task_table) k (loop_pc.for_test 0) w [] with
  | none => none
  | some (pc, w1, calls1) =>
    match task_tick_hook w1 with
    | none => none
    | some (w2, _) =>
      task_loop_finish extern_code (TASK_COUNT w.g_task_table)
        (6 * TASK_COUNT w.g_task_table + 2) pc w2 calls1

/-- Number of leading tasks whose ready flag the pass has already cleared (or found
clear) at program point `pc`. -/
def loop_pc_cleared (n : Nat) : loop_pc → Nat
  | loop_pc.for_test i => i
  | loop_pc.ready_test i => i
  | loop_pc.clear i => i
  | loop_pc.cb_test i => i + 1
  | loop_pc.call i => i + 1
  | loop_pc.incr i => i + 1
  | loop_pc.done => n

/-- Number of leading tasks whose callback call, if due, has been made at `pc`. -/
def loop_pc_called (n : Nat) : loop_pc → Nat
  | loop_pc.for_test i => i
  | loop_pc.ready_test i => i
  | loop_pc.clear i => i
  | loop_pc.cb_test i => i
  | loop_pc.call i => i
  | loop_pc.incr i => i + 1
  | loop_pc.done => n

/-- What is known at program point `pc` about the table `tbl0` the pass started with. -/
def loop_pc_ok (tbl0 : List task_t) (n : Nat) : loop_pc → Prop
  | loop_pc.for_test i => i ≤ n
  | loop_pc.ready_test i => i < n
  | loop_pc.clear i => i < n ∧ ∃ t, tbl0[i]? = some t ∧ t.is_ready = true
  | loop_pc.cb_test i => i < n ∧ ∃ t, tbl0[i]? = some t ∧ t.is_ready = true
  | loop_pc.call i => i < n ∧ ∃ t f, tbl0[i]? = some t ∧ t.is_ready = true ∧ t.cb = some f
  | loop_pc.incr i => i < n
  | loop_pc.done => True

/-- Invariant of an uninterrupted `task_loop` pass that started with table `tbl0`: at `pc`
the table is `tbl0` with the flags of the first `loop_pc_cleared` tasks cleared, and the
calls made are those due for the first `loop_pc_called` tasks. -/
def loop_inv (tbl0 : List task_t) (n : Nat) (pc : loop_pc) (tbl : List task_t)
    (calls : List (Nat × fn_ptr)) : Prop :=
  loop_pc_ok tbl0 n pc ∧ tbl.length = n ∧
  (∀ j, tbl[j]? = if j < loop_pc_cleared n pc then (tbl0[j]?).map task_clear else tbl0[j]?) ∧
  calls = (List.range (loop_pc_called n pc)).filterMap (task_call tbl0)

/-- The table right after the interrupting tick, when the pass that started with `tbl0` had
dealt with the first `m` tasks: these were cleared and then ticked, the others only
ticked. -/
def irq_pre (tbl0 : List task_t) (m : Nat) (tbl : List task_t) : Prop :=
  ∀ j, tbl[j]? = if j < m then (tbl0[j]?).map (fun t => task_tick_one (task_clear t))
    else (tbl0[j]?).map task_tick_one

/-- The table at the end of the interrupted pass: the first `m` tasks were cleared by the
pass and then ticked, the others ticked and then cleared by the pass. -/
def irq_post (tbl0 : List task_t) (m : Nat) (tbl : List task_t) : Prop :=
  ∀ j, tbl[j]? = if j < m then (tbl0[j]?).map (fun t => task_tick_one (task_clear t))
    else (tbl0[j]?).map (fun t => task_clear (task_tick_one t))

/-- The callback calls of the interrupted pass: those due before the tick for the first
`m` tasks, those due after the tick for the others. -/
def irq_calls (tbl0 : List task_t) (m : Nat) : List (Nat × fn_ptr) :=
  (List.range m).filterMap (task_call tbl0) ++
    (List.range' m (tbl0.length - m)).filterMap (task_call (tbl0.map task_tick_one))

/-! # Theorems -/

/-! ## General lemmas -/

theorem KEY_MAX_NUM_eq : KEY_MAX_NUM = 4 := rfl

theorem g_gpio_list_some {i : Nat} (hi : i < KEY_MAX_NUM) :
    ∃ pin, g_gpio_list[i]? = some pin := by
  rw [KEY_MAX_NUM_eq] at hi
  interval_cases i <;> exact ⟨_, rfl⟩

/-- For a valid index, `key_scan` is the `switch` applied to the polled element. -/
theorem key_scan_of_lt {g : gpio_port → Nat → FlagStatus} {now : Nat}
    {ks : List key_info_t} {i : Nat} {k : key_info_t}
    (hi : i < KEY_MAX_NUM) (hk : ks[i]? = some k) :
    key_scan g now ks i
      = some ((key_scan_switch i (key_asserted g i) now k).1,
              ks.set i (key_scan_switch i (key_asserted g i) now k).2) := by
  obtain ⟨pin, hpin⟩ := g_gpio_list_some hi
  simp [key_scan, key_asserted, hpin, hk, Nat.not_le.mpr hi]

theorem key_scan_of_ge {g : gpio_port → Nat → FlagStatus} {now : Nat}
    {ks : List key_info_t} {i : Nat} (hi : KEY_MAX_NUM ≤ i) :
    key_scan g now ks i = some (0xFF, ks) := by
  simp [key_scan, hi]

theorem getElem?_lt_length {ks : List key_info_t} {i : Nat} {k : key_info_t}
    (hk : ks[i]? = some k) : i < ks.length := by
  by_contra h
  rw [List.getElem?_eq_none (Nat.le_of_not_lt h)] at hk
  exact Option.noConfusion hk

theorem set_same {ks : List key_info_t} {i : Nat} {k : key_info_t}
    (hk : ks[i]? = some k) : ks.set i k = ks := by
  apply List.ext_getElem?
  intro j
  rw [List.getElem?_set]
  by_cases hij : i = j
  · subst hij
    simp [getElem?_lt_length hk, hk]
  · simp [hij]

theorem getElem?_set_self {ks : List key_info_t} {i : Nat} {k k1 : key_info_t}
    (hk : ks[i]? = some k) : (ks.set i k1)[i]? = some k1 := by
  rw [List.getElem?_set]
  simp [getElem?_lt_length hk]

/-- Trace lemma: if `σ t` is the state of button `i` before the poll at time `t` and each
poll maps `σ t` to `σ (t + 1)` returning `ev t`, then `n` polls from time `s` return
`ev s, ev (s + 1), ..` and leave button `i` in state `σ (s + n)`. -/
theorem key_scan_seq_trace (i : Nat) (hi : i < KEY_MAX_NUM)
    (gpio : Nat → gpio_port → Nat → FlagStatus) (σ : Nat → key_info_t) (ev : Nat → Nat) :
    ∀ (n s : Nat) (ks : List key_info_t), ks[i]? = some (σ s) →
      (∀ t, s ≤ t → t < s + n →
        key_scan_switch i (key_asserted (gpio t) i) t (σ t) = (ev t, σ (t + 1))) →
      key_scan_seq (key_polls_every_ms i gpio s n) ks
        = some ((List.range' s n).map ev, ks.set i (σ (s + n))) := by
  intro n
  induction n with
  | zero =>
    intro s ks hk _
    simp [key_polls_every_ms, key_scan_seq, set_same hk]
  | succ n ih =>
    intro s ks hk hstep
    have h0 := hstep s (Nat.le_refl s) (by omega)
    have hrec := ih (s + 1) (ks.set i (σ (s + 1))) (getElem?_set_self hk)
      (fun t h1 h2 => hstep t (by omega) (by omega))
    simp only [key_polls_every_ms] at hrec ⊢
    rw [List.range'_succ, List.map_cons, key_scan_seq, key_scan_of_lt hi hk, h0]
    simp only [hrec, List.map_cons, List.set_set]
    have : s + 1 + n = s + (n + 1) := by omega
    rw [this]

theorem key_scan_seq_append (a b : List key_poll) :
    ∀ (ks ks1 ks2 : List key_info_t) (ra rb : List Nat),
      key_scan_seq a ks = some (ra, ks1) → key_scan_seq b ks1 = some (rb, ks2) →
      key_scan_seq (a ++ b) ks = some (ra ++ rb, ks2) := by
  induction a with
  | nil =>
    intro ks ks1 ks2 ra rb ha hb
    simp only [key_scan_seq, Option.some.injEq, Prod.mk.injEq] at ha
    obtain ⟨h1, h2⟩ := ha
    subst h1 h2
    simpa using hb
  | cons q qs ih =>
    intro ks ks1 ks2 ra rb ha hb
    simp only [List.cons_append, key_scan_seq] at ha ⊢
    cases h1 : key_scan q.gpio q.now ks q.key_index with
    | none => simp [h1] at ha
    | some r1 =>
      obtain ⟨r, ksa⟩ := r1
      simp only [h1] at ha ⊢
      cases h2 : key_scan_seq qs ksa with
      | none => simp [h2] at ha
      | some r2 =>
        obtain ⟨rs, ksb⟩ := r2
        simp only [h2, Option.some.injEq, Prod.mk.injEq] at ha
        obtain ⟨e1, e2⟩ := ha
        subst e1 e2
        simp [ih ksa ksb ks2 rs rb h2 hb]

theorem key_polls_every_ms_add (i : Nat) (gpio : Nat → gpio_port → Nat → FlagStatus)
    (s a b : Nat) :
    key_polls_every_ms i gpio s (a + b)
      = key_polls_every_ms i gpio s a ++ key_polls_every_ms i gpio (s + a) b := by
  have h := List.range'_append s a b 1
  rw [Nat.one_mul, Nat.add_comm b a] at h
  simp only [key_polls_every_ms, ← h, List.map_append]

theorem u64_sub_of_le {a b : Nat} (hb : b ≤ a) (ha : a < 2 ^ 64) : u64_sub a b = a - b := by
  unfold u64_sub
  omega

theorem u8_of_lt {n : Nat} (h : n < 256) : u8 n = n := by
  unfold u8
  omega

theorem count_map_range'_zero (ev : Nat → Nat) (v : Nat) (n s : Nat)
    (h : ∀ t, s ≤ t → t < s + n → ev t ≠ v) :
    ((List.range' s n).map ev).count v = 0 := by
  rw [List.count_eq_zero]
  intro hmem
  rw [List.mem_map] at hmem
  obtain ⟨t, ht, htv⟩ := hmem
  rw [List.mem_range'_1] at ht
  exact h t ht.1 ht.2 htv

theorem count_map_range'_unique (ev : Nat → Nat) (v c : Nat) :
    ∀ (n s : Nat), (∀ t, s ≤ t → t < s + n → (ev t = v ↔ t = c)) → s ≤ c → c < s + n →
      ((List.range' s n).map ev).count v = 1 := by
  intro n
  induction n with
  | zero => intro s _ h1 h2; omega
  | succ n ih =>
    intro s h h1 h2
    rw [List.range'_succ, List.map_cons, List.count_cons]
    by_cases hsc : s = c
    · have hev : ev s = v := (h s (Nat.le_refl s) (by omega)).mpr hsc
      have hz := count_map_range'_zero ev v n (s + 1)
        (fun t ht1 ht2 htv => by
          have := (h t (by omega) (by omega)).mp htv
          omega)
      simp [hz, hev]
    · have hev : ev s ≠ v := fun e => hsc ((h s (Nat.le_refl s) (by omega)).mp e)
      have h1s := ih (s + 1) (fun t ht1 ht2 => h t (by omega) (by omega)) (by omega) (by omega)
      simp [h1s, hev]

/-! ## Short press (one click) -/

theorem short_press_step (i : Nat) (hi : i < KEY_MAX_NUM) (k0 : key_info_t)
    (hst : k0.state = key_state_t.KEY_STATE_RELEASE) (hcc : k0.click_cnt = 0)
    (lvl : Nat → Bool) (s t0 t1 e : Nat)
    (h01 : t0 + 20 < t1) (h800 : t1 ≤ t0 + 820) (he : e ≤ 2 ^ 64)
    (hidle : ∀ t, s ≤ t → t < t0 → lvl t = false)
    (hpress : ∀ t, t0 ≤ t → t < t1 → lvl t = true)
    (hrel : ∀ t, t1 ≤ t → t < e → lvl t = false)
    (t : Nat) (hs : s ≤ t) (hte : t < e) :
    key_scan_switch i (lvl t) t (short_press_state k0 t0 t1 t)
      = (short_press_event i t1 t, short_press_state k0 t0 t1 (t + 1)) := by
  obtain ⟨st, cc, pt, rt⟩ := k0
  simp only at hst hcc
  subst hst hcc
  rw [KEY_MAX_NUM_eq] at hi
  have hu8 : u8 (i + 1) = i + 1 := u8_of_lt (by omega)
  have ht64 : t < 2 ^ 64 := by omega
  rcases Nat.lt_or_ge t t0 with c1 | c1
  · have hl := hidle t hs c1
    have e1 : t ≤ t0 := by omega
    have e2 : t + 1 ≤ t0 := by omega
    have e3 : ¬ t = t1 + 301 := by omega
    simp [short_press_state, short_press_event, key_scan_switch, e1, e2, e3, hl]
  rcases Nat.eq_or_lt_of_le c1 with c2 | c2
  · subst c2
    have hl := hpress t0 (Nat.le_refl _) (by omega)
    have e3 : ¬ t0 = t1 + 301 := by omega
    simp [short_press_state, short_press_event, key_scan_switch, e3, hl]
  rcases Nat.lt_or_ge t (t0 + 20) with c3 | c3
  · have hl := hpress t c1 (by omega)
    have e1 : ¬ t ≤ t0 := by omega
    have e2 : t ≤ t0 + 20 := by omega
    have e3 : ¬ t = t1 + 301 := by omega
    have e4 : t + 1 ≤ t0 + 20 := by omega
    have e5 : ¬ t + 1 ≤ t0 := by omega
    have hsub : u64_sub t t0 = t - t0 := u64_sub_of_le (by omega) ht64
    have e6 : ¬ 20 ≤ t - t0 := by omega
    simp [short_press_state, short_press_event, key_scan_switch, e1, e2, e3, e4, e5, hl,
      hsub, KEY_DEBOUNCE_MS, e6]
  rcases Nat.eq_or_lt_of_le c3 with c4 | c4
  · subst c4
    have hl := hpress (t0 + 20) (by omega) h01
    have e3 : ¬ t0 + 20 = t1 + 301 := by omega
    have e4 : t0 + 20 + 1 ≤ t1 := by omega
    have e5 : ¬ t0 + 20 + 1 ≤ t0 := by omega
    have hsub : u64_sub (t0 + 20) t0 = 20 := by
      rw [u64_sub_of_le (by omega) ht64]; omega
    simp [short_press_state, short_press_event, key_scan_switch, e3, e4, e5, hl, hsub,
      KEY_DEBOUNCE_MS]
  rcases Nat.lt_or_ge t t1 with c5 | c5
  · have hl := hpress t c1 c5
    have e1 : ¬ t ≤ t0 := by omega
    have e2 : ¬ t ≤ t0 + 20 := by omega
    have e3 : ¬ t = t1 + 301 := by omega
    have e4 : t ≤ t1 := by omega
    have e5 : ¬ t + 1 ≤ t0 := by omega
    have e6 : ¬ t + 1 ≤ t0 + 20 := by omega
    have e7 : t + 1 ≤ t1 := by omega
    have hsub : u64_sub t (t0 + 20) = t - (t0 + 20) := u64_sub_of_le (by omega) ht64
    have e8 : ¬ 800 ≤ t - (t0 + 20) := by omega
    simp [short_press_state, short_press_event, key_scan_switch, e1, e2, e3, e4, e5, e6, e7,
      hl, hsub, KEY_LONG_MS, e8]
  have hl := hrel t c5 hte
  rcases Nat.eq_or_lt_of_le c5 with c6 | c6
  · subst c6
    have e1 : ¬ t1 ≤ t0 := by omega
    have e2 : ¬ t1 ≤ t0 + 20 := by omega
    have e3 : ¬ t1 + 1 ≤ t0 := by omega
    have e4 : ¬ t1 + 1 ≤ t0 + 20 := by omega
    simp [short_press_state, short_press_event, key_scan_switch, e1, e2, e3, e4, hl, u8]
  have e1 : ¬ t ≤ t0 := by omega
  have e2 : ¬ t ≤ t0 + 20 := by omega
  have e3 : ¬ t ≤ t1 := by omega
  have e4 : ¬ t + 1 ≤ t0 := by omega
  have e5 : ¬ t + 1 ≤ t0 + 20 := by omega
  have e6 : ¬ t + 1 ≤ t1 := by omega
  have hsub : u64_sub t t1 = t - t1 := u64_sub_of_le (by omega) ht64
  rcases Nat.lt_or_ge t (t1 + 301) with c7 | c7
  · have e7 : t ≤ t1 + 301 := by omega
    have e8 : t + 1 ≤ t1 + 301 := by omega
    have e9 : ¬ t = t1 + 301 := by omega
    have e10 : ¬ 300 < t - t1 := by omega
    simp [short_press_state, short_press_event, key_scan_switch, e1, e2, e3, e4, e5, e6, e7,
      e8, e9, hl, hsub, KEY_DOUBLE_GAP_MS, e10]
  rcases Nat.eq_or_lt_of_le c7 with c8 | c8
  · subst c8
    have e7 : ¬ t1 + 301 + 1 ≤ t1 + 301 := by omega
    have e10 : 300 < t1 + 301 - t1 := by omega
    simp [short_press_state, short_press_event, key_scan_switch, e1, e2, e3, e4, e5, e6, e7,
      hl, hsub, KEY_DOUBLE_GAP_MS, e10, hu8]
  · have e7 : ¬ t ≤ t1 + 301 := by omega
    have e8 : ¬ t + 1 ≤ t1 + 301 := by omega
    have e9 : ¬ t = t1 + 301 := by omega
    simp [short_press_state, short_press_event, key_scan_switch, e1, e2, e3, e4, e5, e6, e7,
      e8, e9, hl]

/-- Result of the polls in the short-press scenario (any number of polls). -/
theorem short_press_run (i : Nat) (hi : i < KEY_MAX_NUM)
    (ks : List key_info_t) (k0 : key_info_t) (hk : ks[i]? = some k0)
    (hst : k0.state = key_state_t.KEY_STATE_RELEASE) (hcc : k0.click_cnt = 0)
    (gpio : Nat → gpio_port → Nat → FlagStatus) (s n t0 t1 : Nat)
    (hs : s ≤ t0) (h01 : t0 + 20 < t1) (h800 : t1 ≤ t0 + 820) (hmax : s + n ≤ 2 ^ 64)
    (hidle : ∀ t, s ≤ t → t < t0 → key_asserted (gpio t) i = false)
    (hpress : ∀ t, t0 ≤ t → t < t1 → key_asserted (gpio t) i = true)
    (hrel : ∀ t, t1 ≤ t → t < s + n → key_asserted (gpio t) i = false) :
    key_scan_seq (key_polls_every_ms i gpio s n) ks
      = some ((List.range' s n).map (short_press_event i t1),
              ks.set i (short_press_state k0 t0 t1 (s + n))) := by
  have hσ : ks[i]? = some (short_press_state k0 t0 t1 s) := by
    simp [short_press_state, hs, hk]
  exact key_scan_seq_trace i hi gpio (short_press_state k0 t0 t1)
    (short_press_event i t1) n s ks hσ
    (fun t h1 h2 => short_press_step i hi k0 hst hcc (fun t => key_asserted (gpio t) i)
      s t0 t1 (s + n) h01 h800 hmax hidle hpress hrel t h1 h2)

theorem short_press_event_eq (i t1 t : Nat) :
    short_press_event i t1 t = i + 0x01 ↔ t = t1 + 301 := by
  by_cases h : t = t1 + 301 <;> simp [short_press_event, h]

theorem short_press_event_ne (i t1 t v : Nat) (hv : v ≠ 0) (hv1 : v ≠ i + 0x01) :
    short_press_event i t1 t ≠ v := by
  by_cases h : t = t1 + 301
  · simp [short_press_event, h]; omega
  · simp [short_press_event, h]; omega

/-! ### Bounce: a press released before the debounce is confirmed -/

theorem bounce_step (i : Nat) (k0 : key_info_t)
    (hst : k0.state = key_state_t.KEY_STATE_RELEASE) (hcc : k0.click_cnt = 0)
    (lvl : Nat → Bool) (s t0 t1 e : Nat)
    (h01 : t0 < t1) (h20 : t1 ≤ t0 + 20) (he : e ≤ 2 ^ 64)
    (hidle : ∀ t, s ≤ t → t < t0 → lvl t = false)
    (hpress : ∀ t, t0 ≤ t → t < t1 → lvl t = true)
    (hrel : ∀ t, t1 ≤ t → t < e → lvl t = false)
    (t : Nat) (hs : s ≤ t) (hte : t < e) :
    key_scan_switch i (lvl t) t (bounce_state k0 t0 t1 t)
      = (0, bounce_state k0 t0 t1 (t + 1)) := by
  obtain ⟨st, cc, pt, rt⟩ := k0
  simp only at hst hcc
  subst hst hcc
  have ht64 : t < 2 ^ 64 := by omega
  rcases Nat.lt_or_ge t t0 with c1 | c1
  · have hl := hidle t hs c1
    simp (disch := omega) only [bounce_state, if_pos, if_neg]
    simp [key_scan_switch, hl]
  rcases Nat.lt_or_ge t t1 with c2 | c2
  · have hl := hpress t c1 c2
    rcases Nat.eq_or_lt_of_le c1 with c3 | c3
    · subst c3
      simp (disch := omega) only [bounce_state, if_pos, if_neg]
      simp [key_scan_switch, hl]
    · have hsub : ¬ 20 ≤ u64_sub t t0 := by
        rw [u64_sub_of_le (by omega) ht64]; omega
      simp (disch := omega) only [bounce_state, if_pos, if_neg]
      simp [key_scan_switch, hl, hsub, KEY_DEBOUNCE_MS]
  have hl := hrel t c2 hte
  rcases Nat.eq_or_lt_of_le c2 with c4 | c4
  · subst c4
    simp (disch := omega) only [bounce_state, if_pos, if_neg]
    simp [key_scan_switch, hl]
  · simp (disch := omega) only [bounce_state, if_pos, if_neg]
    simp [key_scan_switch, hl]

/-- Result of the polls in the bounce scenario: no poll returns an event. -/
theorem bounce_run (i : Nat) (hi : i < KEY_MAX_NUM)
    (ks : List key_info_t) (k0 : key_info_t) (hk : ks[i]? = some k0)
    (hst : k0.state = key_state_t.KEY_STATE_RELEASE) (hcc : k0.click_cnt = 0)
    (gpio : Nat → gpio_port → Nat → FlagStatus) (s n t0 t1 : Nat)
    (hs : s ≤ t0) (h01 : t0 < t1) (h20 : t1 ≤ t0 + 20) (hmax : s + n ≤ 2 ^ 64)
    (hidle : ∀ t, s ≤ t → t < t0 → key_asserted (gpio t) i = false)
    (hpress : ∀ t, t0 ≤ t → t < t1 → key_asserted (gpio t) i = true)
    (hrel : ∀ t, t1 ≤ t → t < s + n → key_asserted (gpio t) i = false) :
    key_scan_seq (key_polls_every_ms i gpio s n) ks
      = some ((List.range' s n).map (fun _ => 0),
              ks.set i (bounce_state k0 t0 t1 (s + n))) := by
  have hσ : ks[i]? = some (bounce_state k0 t0 t1 s) := by
    simp [bounce_state, hs, hk]
  exact key_scan_seq_trace i hi gpio (bounce_state k0 t0 t1) (fun _ => 0) n s ks hσ
    (fun t h1 h2 => bounce_step i k0 hst hcc (fun t => key_asserted (gpio t) i)
      s t0 t1 (s + n) h01 h20 hmax hidle hpress hrel t h1 h2)

theorem getElem?_map_range' (ev : Nat → Nat) (s n j : Nat) :
    ((List.range' s n).map ev)[j]? = if j < n then some (ev (s + j)) else none := by
  by_cases h : j < n
  · simp [h, List.getElem?_eq_getElem]
  · have h1 : n ≤ j := Nat.le_of_not_lt h
    simp [h, h1]

theorem key_asserted_gpio_of_level (lvl : Nat → Bool) (t i : Nat) (hi : i < KEY_MAX_NUM) :
    key_asserted (gpio_of_level lvl t) i = lvl t := by
  obtain ⟨pin, hpin⟩ := g_gpio_list_some hi
  cases h : lvl t <;> simp [key_asserted, hpin, gpio_of_level, h]

/-- C1 (amended): short press, end to end.  Button `i` is valid, RELEASED with
`click_cnt = 0`, and polled by `key_scan` once per millisecond at the times
`s, .., s + n - 1`.  The level is deasserted before `t0`, asserted from the first asserted
poll `t0` up to the first deasserted poll `t1`, where `20 < t1 - t0 < 800`, and deasserted
from `t1` to the last poll, which is more than 300 ms after `t1`.  Then every poll
returns, the poll at `t1 + 301` returns ShortPress (`i + 0x01`) and every other poll
returns 0: exactly one ShortPress, no DoublePress (`i + 0x51`), no LongPress
(`i + 0x81`), and the ShortPress poll has `now - t1 ≥ 300`. -/
theorem short_press_end_to_end (i : Nat) (hi : i < KEY_MAX_NUM)
    (ks : List key_info_t) (k0 : key_info_t) (hk : ks[i]? = some k0)
    (hst : k0.state = key_state_t.KEY_STATE_RELEASE) (hcc : k0.click_cnt = 0)
    (gpio : Nat → gpio_port → Nat → FlagStatus) (s n t0 t1 : Nat)
    (hs : s ≤ t0) (hlo : 20 < t1 - t0) (hhi : t1 - t0 < 800)
    (hend : t1 + 300 < s + n - 1) (hmax : s + n ≤ 2 ^ 64)
    (hidle : ∀ t, s ≤ t → t < t0 → key_asserted (gpio t) i = false)
    (hpress : ∀ t, t0 ≤ t → t < t1 → key_asserted (gpio t) i = true)
    (hrel : ∀ t, t1 ≤ t → t < s + n → key_asserted (gpio t) i = false) :
    ∃ evs ks1, key_scan_seq (key_polls_every_ms i gpio s n) ks = some (evs, ks1) ∧
      evs = (List.range' s n).map (fun t => if t = t1 + 301 then i + 0x01 else 0) ∧
      evs.count (i + 0x01) = 1 ∧ evs.count (i + 0x51) = 0 ∧ evs.count (i + 0x81) = 0 ∧
      (∀ j, evs[j]? = some (i + 0x01) → s + j = t1 + 301 ∧ 300 ≤ s + j - t1) := by
  have htr := short_press_run i hi ks k0 hk hst hcc gpio s n t0 t1 hs (by omega) (by omega)
    hmax hidle hpress hrel
  refine ⟨_, _, htr, rfl, ?_, ?_, ?_, ?_⟩
  · apply count_map_range'_unique _ _ (t1 + 301)
    · intro t _ _
      by_cases h : t = t1 + 301 <;> simp [short_press_event, h]
    · omega
    · omega
  · apply count_map_range'_zero
    intro t _ _
    by_cases h : t = t1 + 301 <;> simp [short_press_event, h]
  · apply count_map_range'_zero
    intro t _ _
    by_cases h : t = t1 + 301 <;> simp [short_press_event, h]
  · intro j hj
    rw [getElem?_map_range'] at hj
    by_cases hjn : j < n
    · rw [if_pos hjn] at hj
      have hj1 := Option.some.inj hj
      by_cases h : s + j = t1 + 301
      · omega
      · simp [short_press_event, h] at hj1
    · rw [if_neg hjn] at hj
      exact Option.noConfusion hj

/-- Witness for C1: button 0 of the zero-initialised array, asserted at `t = 0`,
deasserted at `t = 50`, polled at the times `0..399`: the only event is the ShortPress
returned at `t = 351`. -/
theorem short_press_end_to_end_witness :
    ∃ evs ks1, key_scan_seq (key_polls_every_ms 0 (gpio_of_level (fun t => decide (t < 50))) 0 400)
        g_key_info_init = some (evs, ks1) ∧
      evs = (List.range' 0 400).map (fun t => if t = 50 + 301 then 0 + 0x01 else 0) ∧
      evs.count (0 + 0x01) = 1 ∧ evs.count (0 + 0x51) = 0 ∧ evs.count (0 + 0x81) = 0 ∧
      (∀ j, evs[j]? = some (0 + 0x01) → 0 + j = 50 + 301 ∧ 300 ≤ 0 + j - 50) :=
  short_press_end_to_end 0 (by decide) g_key_info_init
    ⟨key_state_t.KEY_STATE_RELEASE, 0, 0, 0⟩ rfl rfl rfl (gpio_of_level (fun t => decide (t < 50))) 0 400 0 50
    (by decide) (by decide) (by decide) (by decide) (by norm_num)
    (fun t _ h => by omega)
    (fun t _ h => by
      rw [key_asserted_gpio_of_level _ t 0 (by decide)]; exact decide_eq_true h)
    (fun t h _ => by
      rw [key_asserted_gpio_of_level _ t 0 (by decide)]
      exact decide_eq_false (by omega))

/-- Counterexample to C1 as stated (`20 ≤ t1 - t0`): button 0 of the zero-initialised
array, asserted at the polls `0..19` and deasserted from `t1 = 20` on, so
`t1 - t0 = 20`; polled at the times `0..399`, every poll returns 0: the press is
rejected as a bounce and no ShortPress is ever returned. -/
theorem short_press_boundary_counterexample :
    (20 ≤ 20 - 0 ∧ 20 - 0 < 800 ∧ 20 + 300 < 0 + 400 - 1) ∧
    (∀ t, t < 20 → key_asserted (gpio_of_level (fun t => decide (t < 20)) t) 0 = true) ∧
    (∀ t, 20 ≤ t → key_asserted (gpio_of_level (fun t => decide (t < 20)) t) 0 = false) ∧
    (key_scan_seq (key_polls_every_ms 0 (gpio_of_level (fun t => decide (t < 20))) 0 400)
        g_key_info_init).map (fun r => (r.1, r.1.count (0 + 0x01)))
      = some (List.replicate 400 0, 0) := by
  have ha : ∀ t, t < 20 →
      key_asserted (gpio_of_level (fun t => decide (t < 20)) t) 0 = true := by
    intro t h
    rw [key_asserted_gpio_of_level _ t 0 (by decide)]; exact decide_eq_true h
  have hd : ∀ t, 20 ≤ t →
      key_asserted (gpio_of_level (fun t => decide (t < 20)) t) 0 = false := by
    intro t h
    rw [key_asserted_gpio_of_level _ t 0 (by decide)]
    exact decide_eq_false (by omega)
  refine ⟨by decide, ha, hd, ?_⟩
  rw [bounce_run 0 (by decide) g_key_info_init ⟨key_state_t.KEY_STATE_RELEASE, 0, 0, 0⟩
    rfl rfl rfl (gpio_of_level (fun t => decide (t < 20))) 0 400 0 20 (by decide)
    (by decide) (by decide) (by norm_num) (fun t _ h => by omega) (fun t _ h => ha t h)
    (fun t h _ => hd t h)]
  simp only [Option.map_some', List.map_const', List.length_range', List.count_replicate]
  rfl

/-! ## Double press (two clicks) -/

theorem double_press_step (i : Nat) (hi : i < KEY_MAX_NUM) (k0 : key_info_t)
    (hst : k0.state = key_state_t.KEY_STATE_RELEASE) (hcc : k0.click_cnt = 0)
    (lvl : Nat → Bool) (s t0 t1 p t2 e : Nat)
    (h01 : t0 + 20 < t1) (h800 : t1 ≤ t0 + 820) (h1p : t1 < p) (hp2 : p + 20 < t2)
    (hgap : t2 - t1 ≤ 300) (he : e ≤ 2 ^ 64)
    (hidle : ∀ t, s ≤ t → t < t0 → lvl t = false)
    (hpress1 : ∀ t, t0 ≤ t → t < t1 → lvl t = true)
    (hrel1 : ∀ t, t1 ≤ t → t < p → lvl t = false)
    (hpress2 : ∀ t, p ≤ t → t < t2 → lvl t = true)
    (hrel2 : ∀ t, t2 ≤ t → t < e → lvl t = false)
    (t : Nat) (hs : s ≤ t) (hte : t < e) :
    key_scan_switch i (lvl t) t (double_press_state k0 t0 t1 p t2 t)
      = (double_press_event i t2 t, double_press_state k0 t0 t1 p t2 (t + 1)) := by
  obtain ⟨st, cc, pt, rt⟩ := k0
  simp only at hst hcc
  subst hst hcc
  rw [KEY_MAX_NUM_eq] at hi
  have ht64 : t < 2 ^ 64 := by omega
  rcases Nat.lt_or_ge t t0 with c1 | c1
  · have hl := hidle t hs c1
    simp (disch := omega) only [double_press_state, double_press_event, if_pos, if_neg]
    simp [key_scan_switch, hl]
  rcases Nat.lt_or_ge t t1 with c2 | c2
  · have hl := hpress1 t c1 c2
    rcases Nat.eq_or_lt_of_le c1 with c3 | c3
    · subst c3
      simp (disch := omega) only [double_press_state, double_press_event, if_pos, if_neg]
      simp [key_scan_switch, hl]
    rcases Nat.lt_or_ge t (t0 + 20) with c4 | c4
    · have hsub : ¬ 20 ≤ u64_sub t t0 := by
        rw [u64_sub_of_le (by omega) ht64]; omega
      simp (disch := omega) only [double_press_state, double_press_event, if_pos, if_neg]
      simp [key_scan_switch, hl, hsub, KEY_DEBOUNCE_MS]
    rcases Nat.eq_or_lt_of_le c4 with c5 | c5
    · subst c5
      have hsub : 20 ≤ u64_sub (t0 + 20) t0 := by
        rw [u64_sub_of_le (by omega) ht64]; omega
      simp (disch := omega) only [double_press_state, double_press_event, if_pos, if_neg]
      simp [key_scan_switch, hl, hsub, KEY_DEBOUNCE_MS]
    · have hsub : ¬ 800 ≤ u64_sub t (t0 + 20) := by
        rw [u64_sub_of_le (by omega) ht64]; omega
      simp (disch := omega) only [double_press_state, double_press_event, if_pos, if_neg]
      simp [key_scan_switch, hl, hsub, KEY_LONG_MS]
  rcases Nat.lt_or_ge t p with c6 | c6
  · have hl := hrel1 t c2 c6
    rcases Nat.eq_or_lt_of_le c2 with c7 | c7
    · subst c7
      simp (disch := omega) only [double_press_state, double_press_event, if_pos, if_neg]
      simp [key_scan_switch, hl, u8]
    · have hsub : ¬ 300 < u64_sub t t1 := by
        rw [u64_sub_of_le (by omega) ht64]; omega
      simp (disch := omega) only [double_press_state, double_press_event, if_pos, if_neg]
      simp [key_scan_switch, hl, hsub, KEY_DOUBLE_GAP_MS]
  rcases Nat.lt_or_ge t t2 with c8 | c8
  · have hl := hpress2 t c6 c8
    rcases Nat.eq_or_lt_of_le c6 with c9 | c9
    · subst c9
      have hsub : ¬ 300 < u64_sub p t1 := by
        rw [u64_sub_of_le (by omega) ht64]; omega
      simp (disch := omega) only [double_press_state, double_press_event, if_pos, if_neg]
      simp [key_scan_switch, hl, hsub, KEY_DOUBLE_GAP_MS]
    rcases Nat.lt_or_ge t (p + 20) with c10 | c10
    · have hsub : ¬ 20 ≤ u64_sub t p := by
        rw [u64_sub_of_le (by omega) ht64]; omega
      simp (disch := omega) only [double_press_state, double_press_event, if_pos, if_neg]
      simp [key_scan_switch, hl, hsub, KEY_DEBOUNCE_MS]
    rcases Nat.eq_or_lt_of_le c10 with c11 | c11
    · subst c11
      have hsub : 20 ≤ u64_sub (p + 20) p := by
        rw [u64_sub_of_le (by omega) ht64]; omega
      simp (disch := omega) only [double_press_state, double_press_event, if_pos, if_neg]
      simp [key_scan_switch, hl, hsub, KEY_DEBOUNCE_MS]
    · have hsub : ¬ 800 ≤ u64_sub t (p + 20) := by
        rw [u64_sub_of_le (by omega) ht64]; omega
      simp (disch := omega) only [double_press_state, double_press_event, if_pos, if_neg]
      simp [key_scan_switch, hl, hsub, KEY_LONG_MS]
  have hl := hrel2 t c8 hte
  rcases Nat.eq_or_lt_of_le c8 with c12 | c12
  · subst c12
    have hsub : u64_sub t2 t1 ≤ 300 := by
      rw [u64_sub_of_le (by omega) ht64]; omega
    simp (disch := omega) only [double_press_state, double_press_event, if_pos, if_neg]
    simp [key_scan_switch, hl, hsub, KEY_DOUBLE_GAP_MS, u8]
    omega
  · simp (disch := omega) only [double_press_state, double_press_event, if_pos, if_neg]
    simp [key_scan_switch, hl]

/-- C2 (amended): double press, end to end.  Button `i` is valid, RELEASED with
`click_cnt = 0`, and polled by `key_scan` once per millisecond at the times
`s, .., s + n - 1`.  The level is asserted on `[t0, t1)` and on `[p, t2)` and deasserted
otherwise; both presses are confirmed by the debounce (`t0 + 20 < t1`, `p + 20 < t2`), the
first press is released before it becomes a long press (`t1 ≤ t0 + 820`), and the second
release satisfies `t2 - t1 ≤ 300`.  Then every poll returns, the poll at `t2` (the one
that observes the second release) returns DoublePress (`i + 0x51`) and every other poll
returns 0: exactly one DoublePress and no ShortPress (`i + 0x01`), however long the
polling continues. -/
theorem double_press_end_to_end (i : Nat) (hi : i < KEY_MAX_NUM)
    (ks : List key_info_t) (k0 : key_info_t) (hk : ks[i]? = some k0)
    (hst : k0.state = key_state_t.KEY_STATE_RELEASE) (hcc : k0.click_cnt = 0)
    (gpio : Nat → gpio_port → Nat → FlagStatus) (s n t0 t1 p t2 : Nat)
    (hs : s ≤ t0) (hconf1 : t0 + 20 < t1) (hshort1 : t1 ≤ t0 + 820) (h1p : t1 < p)
    (hconf2 : p + 20 < t2) (hgap : t2 - t1 ≤ 300)
    (hlast : t2 < s + n) (hmax : s + n ≤ 2 ^ 64)
    (hidle : ∀ t, s ≤ t → t < t0 → key_asserted (gpio t) i = false)
    (hpress1 : ∀ t, t0 ≤ t → t < t1 → key_asserted (gpio t) i = true)
    (hrel1 : ∀ t, t1 ≤ t → t < p → key_asserted (gpio t) i = false)
    (hpress2 : ∀ t, p ≤ t → t < t2 → key_asserted (gpio t) i = true)
    (hrel2 : ∀ t, t2 ≤ t → t < s + n → key_asserted (gpio t) i = false) :
    ∃ evs ks1, key_scan_seq (key_polls_every_ms i gpio s n) ks = some (evs, ks1) ∧
      evs = (List.range' s n).map (fun t => if t = t2 then i + 0x51 else 0) ∧
      evs.count (i + 0x51) = 1 ∧ evs[t2 - s]? = some (i + 0x51) ∧
      evs.count (i + 0x01) = 0 := by
  have hσ : ks[i]? = some (double_press_state k0 t0 t1 p t2 s) := by
    simp [double_press_state, hs, hk]
  have htr := key_scan_seq_trace i hi gpio (double_press_state k0 t0 t1 p t2)
    (double_press_event i t2) n s ks hσ
    (fun t h1 h2 => double_press_step i hi k0 hst hcc (fun t => key_asserted (gpio t) i)
      s t0 t1 p t2 (s + n) hconf1 hshort1 h1p hconf2 hgap hmax hidle hpress1 hrel1 hpress2
      hrel2 t h1 h2)
  refine ⟨_, _, htr, rfl, ?_, ?_, ?_⟩
  · apply count_map_range'_unique _ _ t2
    · intro t _ _
      by_cases h : t = t2 <;> simp [double_press_event, h]
    · omega
    · omega
  · rw [getElem?_map_range', if_pos (by omega)]
    have : s + (t2 - s) = t2 := by omega
    simp [double_press_event, this]
  · apply count_map_range'_zero
    intro t _ _
    by_cases h : t = t2 <;> simp [double_press_event, h]

/-- Witness for C2: button 0 of the zero-initialised array, asserted at `t = 0`,
deasserted at `t = 50`, asserted at `t = 100`, deasserted at `t = 150`, polled at the
times `0..999`: the only event is the DoublePress returned at `t = 150`. -/
theorem double_press_end_to_end_witness :
    ∃ evs ks1, key_scan_seq (key_polls_every_ms 0
          (gpio_of_level (fun t => decide (t < 50 ∨ (100 ≤ t ∧ t < 150)))) 0 1000)
        g_key_info_init = some (evs, ks1) ∧
      evs = (List.range' 0 1000).map (fun t => if t = 150 then 0 + 0x51 else 0) ∧
      evs.count (0 + 0x51) = 1 ∧ evs[150 - 0]? = some (0 + 0x51) ∧
      evs.count (0 + 0x01) = 0 :=
  double_press_end_to_end 0 (by decide) g_key_info_init
    ⟨key_state_t.KEY_STATE_RELEASE, 0, 0, 0⟩ rfl rfl rfl
    (gpio_of_level (fun t => decide (t < 50 ∨ (100 ≤ t ∧ t < 150)))) 0 1000 0 50 100 150
    (by decide) (by decide) (by decide) (by decide) (by decide) (by decide) (by decide)
    (by norm_num)
    (fun t _ h => by omega)
    (fun t _ h => by
      rw [key_asserted_gpio_of_level _ t 0 (by decide)]; exact decide_eq_true (by omega))
    (fun t h1 h2 => by
      rw [key_asserted_gpio_of_level _ t 0 (by decide)]; exact decide_eq_false (by omega))
    (fun t h1 h2 => by
      rw [key_asserted_gpio_of_level _ t 0 (by decide)]; exact decide_eq_true (by omega))
    (fun t h1 h2 => by
      rw [key_asserted_gpio_of_level _ t 0 (by decide)]; exact decide_eq_false (by omega))

/-! ## Long press -/

theorem long_press_step (i : Nat) (hi : i < KEY_MAX_NUM) (k0 : key_info_t)
    (hst : k0.state = key_state_t.KEY_STATE_RELEASE)
    (lvl : Nat → Bool) (t0 c cc t1 e : Nat)
    (hc : (click_pending k0 t0 = true ∧ c = t0 + 1 ∧ cc = 0) ∨
          (click_pending k0 t0 = false ∧ c = t0 ∧ cc = k0.click_cnt))
    (h01 : c + 820 < t1) (he : e ≤ 2 ^ 64)
    (hpress : ∀ t, t0 ≤ t → t < t1 → lvl t = true)
    (hrel : ∀ t, t1 ≤ t → t < e → lvl t = false)
    (t : Nat) (hs : t0 ≤ t) (hte : t < e) :
    key_scan_switch i (lvl t) t (long_press_state k0 t0 c cc t1 t)
      = (long_press_event i k0 t0 t1 t, long_press_state k0 t0 c cc t1 (t + 1)) := by
  obtain ⟨st, cc0, pt, rt⟩ := k0
  simp only at hst
  subst hst
  rw [KEY_MAX_NUM_eq] at hi
  have ht64 : t < 2 ^ 64 := by omega
  have hc0 : t0 ≤ c ∧ c ≤ t0 + 1 := by rcases hc with ⟨_, h, _⟩ | ⟨_, h, _⟩ <;> omega
  rcases Nat.eq_or_lt_of_le hs with c1 | c1
  · subst c1
    have hl := hpress t0 (Nat.le_refl _) (by omega)
    rcases hc with ⟨hp, hc1, hc2⟩ | ⟨hp, hc1, hc2⟩
    · subst hc1 hc2
      have hp1 := hp
      simp only [click_pending, decide_eq_true_eq] at hp1
      obtain ⟨hcc1, hto⟩ := hp1
      subst hcc1
      simp (disch := omega) only [long_press_state, long_press_event, if_pos, if_neg]
      simp [key_scan_switch, hl, hp, hto, u8]
      omega
    · subst hc1 hc2
      have hp1 := hp
      simp only [click_pending, decide_eq_false_iff_not] at hp1
      simp (disch := omega) only [long_press_state, long_press_event, if_pos, if_neg]
      simp [key_scan_switch, hl, hp, hp1]
  rcases Nat.lt_or_ge t t1 with c2 | c2
  · have hl := hpress t hs c2
    have hne : ¬ t = t0 := by omega
    rcases Nat.lt_or_ge c t with c3 | c3
    · rcases Nat.lt_or_ge t (c + 20) with c4 | c4
      · have hsub : ¬ 20 ≤ u64_sub t c := by
          rw [u64_sub_of_le (by omega) ht64]; omega
        simp (disch := omega) only [long_press_state, long_press_event, if_pos, if_neg]
        simp [key_scan_switch, hl, hsub, KEY_DEBOUNCE_MS, hne]
      rcases Nat.eq_or_lt_of_le c4 with c5 | c5
      · subst c5
        have hsub : 20 ≤ u64_sub (c + 20) c := by
          rw [u64_sub_of_le (by omega) ht64]; omega
        simp (disch := omega) only [long_press_state, long_press_event, if_pos, if_neg]
        simp [key_scan_switch, hl, hsub, KEY_DEBOUNCE_MS, hne]
      rcases Nat.lt_or_ge t (c + 820) with c6 | c6
      · have hsub : ¬ 800 ≤ u64_sub t (c + 20) := by
          rw [u64_sub_of_le (by omega) ht64]; omega
        simp (disch := omega) only [long_press_state, long_press_event, if_pos, if_neg]
        simp [key_scan_switch, hl, hsub, KEY_LONG_MS, hne]
      rcases Nat.eq_or_lt_of_le c6 with c7 | c7
      · subst c7
        have hsub : 800 ≤ u64_sub (c + 820) (c + 20) := by
          rw [u64_sub_of_le (by omega) ht64]; omega
        simp (disch := omega) only [long_press_state, long_press_event, if_pos, if_neg]
        simp [key_scan_switch, hl, hsub, KEY_LONG_MS, hne]
      · simp (disch := omega) only [long_press_state, long_press_event, if_pos, if_neg]
        simp [key_scan_switch, hl, hne]
    · have hct : t = c := by omega
      have hcc : cc = 0 := by
        rcases hc with ⟨_, _, h⟩ | ⟨_, h, _⟩
        · exact h
        · omega
      subst hct hcc
      simp (disch := omega) only [long_press_state, long_press_event, if_pos, if_neg]
      simp [key_scan_switch, hl, hne]
  have hl := hrel t c2 hte
  rcases Nat.eq_or_lt_of_le c2 with c8 | c8
  · subst c8
    simp (disch := omega) only [long_press_state, long_press_event, if_pos, if_neg]
    simp [key_scan_switch, hl, u8]
    omega
  · have hne : ¬ t = t0 := by omega
    simp (disch := omega) only [long_press_state, long_press_event, if_pos, if_neg]
    simp [key_scan_switch, hl, hne]

theorem confirm_time_cases (k0 : key_info_t) (t0 : Nat) :
    (click_pending k0 t0 = true ∧ confirm_time k0 t0 = t0 + 1 ∧ confirm_click_cnt k0 t0 = 0) ∨
    (click_pending k0 t0 = false ∧ confirm_time k0 t0 = t0 ∧
      confirm_click_cnt k0 t0 = k0.click_cnt) := by
  cases h : click_pending k0 t0 <;> simp [confirm_time, confirm_click_cnt, h]

theorem long_press_state_after (k0 : key_info_t) (t0 c cc t1 t : Nat)
    (hc : t0 ≤ c) (h01 : c + 820 < t1) (ht : t1 < t) :
    long_press_state k0 t0 c cc t1 t
      = ⟨key_state_t.KEY_STATE_RELEASE, 0, c + 20, k0.release_time⟩ := by
  simp (disch := omega) only [long_press_state, if_pos, if_neg]

/-- Result of the polls in the long-press scenario (any number of polls from `t0`). -/
theorem long_press_run (i : Nat) (hi : i < KEY_MAX_NUM)
    (ks : List key_info_t) (k0 : key_info_t) (hk : ks[i]? = some k0)
    (hst : k0.state = key_state_t.KEY_STATE_RELEASE)
    (gpio : Nat → gpio_port → Nat → FlagStatus) (n t0 t1 : Nat)
    (h01 : confirm_time k0 t0 + 820 < t1) (hmax : t0 + n ≤ 2 ^ 64)
    (hpress : ∀ t, t0 ≤ t → t < t1 → key_asserted (gpio t) i = true)
    (hrel : ∀ t, t1 ≤ t → t < t0 + n → key_asserted (gpio t) i = false) :
    key_scan_seq (key_polls_every_ms i gpio t0 n) ks
      = some ((List.range' t0 n).map (long_press_event i k0 t0 t1),
              ks.set i (long_press_state k0 t0 (confirm_time k0 t0) (confirm_click_cnt k0 t0)
                t1 (t0 + n))) := by
  have hσ : ks[i]? = some (long_press_state k0 t0 (confirm_time k0 t0)
      (confirm_click_cnt k0 t0) t1 t0) := by
    simp [long_press_state, hk]
  exact key_scan_seq_trace i hi gpio _ (long_press_event i k0 t0 t1) n t0 ks hσ
    (fun t h1 h2 => long_press_step i hi k0 hst (fun t => key_asserted (gpio t) i)
      t0 _ _ t1 (t0 + n) (confirm_time_cases k0 t0) h01 hmax hpress hrel t h1 h2)

theorem long_press_event_eq_long (i : Nat) (k0 : key_info_t) (t0 t1 t : Nat) :
    long_press_event i k0 t0 t1 t = i + 0x81 ↔ t = t1 := by
  by_cases h : t = t1
  · simp [long_press_event, h]
  · by_cases h2 : t = t0 ∧ click_pending k0 t0 = true
    · simp [long_press_event, h, h2]
    · simp only [long_press_event, if_neg h, if_neg h2]
      constructor
      · intro h3; omega
      · intro h3; exact absurd h3 h

theorem long_press_event_eq_short (i : Nat) (k0 : key_info_t) (t0 t1 t : Nat)
    (h : long_press_event i k0 t0 t1 t = i + 0x01) :
    t = t0 ∧ click_pending k0 t0 = true := by
  by_cases h1 : t = t1
  · simp [long_press_event, h1] at h
  · by_cases h2 : t = t0 ∧ click_pending k0 t0 = true
    · exact h2
    · simp only [long_press_event, if_neg h1, if_neg h2] at h
      omega

theorem long_press_event_ne (i : Nat) (k0 : key_info_t) (t0 t1 t v : Nat)
    (hv : v ≠ 0) (hv1 : v ≠ i + 0x01) (hv2 : v ≠ i + 0x81) :
    long_press_event i k0 t0 t1 t ≠ v := by
  by_cases h1 : t = t1
  · simp only [long_press_event, if_pos h1]; omega
  · by_cases h2 : t = t0 ∧ click_pending k0 t0 = true
    · simp only [long_press_event, if_neg h1, if_pos h2]; omega
    · simp only [long_press_event, if_neg h1, if_neg h2]; omega

/-- C3 (amended): long press, end to end.  Button `i` is valid and RELEASED (any
`click_cnt`, in particular 0 or 1) and is polled by `key_scan` once per millisecond at
the times `t0, .., t0 + n - 1`.  The level is asserted from the first poll `t0` up to the
first deasserted poll `t1` and deasserted from `t1` on, and the press lasts more than
820 ms from the poll `c` that enters CONFIRM (`c + 820 < t1`, where `c = t0`, or
`c = t0 + 1` when the poll at `t0` reports the pending ShortPress of an earlier click):
20 ms of debounce plus 800 ms counted from the re-armed `press_time`.  Then every poll
returns; the poll at `t1` returns LongPress (`i + 0x81`) and no other poll does; no poll
returns DoublePress (`i + 0x51`); the only poll that can return ShortPress (`i + 0x01`)
is the one at `t0`, for the earlier click; and after the polls `click_cnt = 0` and the
button is RELEASED. -/
theorem long_press_end_to_end (i : Nat) (hi : i < KEY_MAX_NUM)
    (ks : List key_info_t) (k0 : key_info_t) (hk : ks[i]? = some k0)
    (hst : k0.state = key_state_t.KEY_STATE_RELEASE)
    (gpio : Nat → gpio_port → Nat → FlagStatus) (n t0 t1 : Nat)
    (hlong : confirm_time k0 t0 + 820 < t1) (hlast : t1 < t0 + n) (hmax : t0 + n ≤ 2 ^ 64)
    (hpress : ∀ t, t0 ≤ t → t < t1 → key_asserted (gpio t) i = true)
    (hrel : ∀ t, t1 ≤ t → t < t0 + n → key_asserted (gpio t) i = false) :
    ∃ evs ks1, key_scan_seq (key_polls_every_ms i gpio t0 n) ks = some (evs, ks1) ∧
      evs = (List.range' t0 n).map (fun t =>
        if t = t1 then i + 0x81
        else if t = t0 ∧ click_pending k0 t0 = true then i + 0x01 else 0) ∧
      evs.count (i + 0x81) = 1 ∧ evs[t1 - t0]? = some (i + 0x81) ∧
      evs.count (i + 0x51) = 0 ∧
      (∀ j, evs[j]? = some (i + 0x01) → j = 0 ∧ click_pending k0 t0 = true) ∧
      (∃ k1, ks1[i]? = some k1 ∧ k1.click_cnt = 0 ∧
        k1.state = key_state_t.KEY_STATE_RELEASE) := by
  have htr := long_press_run i hi ks k0 hk hst gpio n t0 t1 hlong hmax hpress hrel
  have hc : t0 ≤ confirm_time k0 t0 := by
    rcases confirm_time_cases k0 t0 with ⟨_, h, _⟩ | ⟨_, h, _⟩ <;> omega
  refine ⟨_, _, htr, rfl, ?_, ?_, ?_, ?_, ?_⟩
  · exact count_map_range'_unique _ _ t1 n t0
      (fun t _ _ => long_press_event_eq_long i k0 t0 t1 t) (by omega) hlast
  · rw [getElem?_map_range', if_pos (by omega)]
    have : t0 + (t1 - t0) = t1 := by omega
    rw [this, (long_press_event_eq_long i k0 t0 t1 t1).mpr rfl]
  · exact count_map_range'_zero _ _ n t0
      (fun t _ _ => long_press_event_ne i k0 t0 t1 t _ (by omega) (by omega) (by omega))
  · intro j hj
    rw [getElem?_map_range'] at hj
    by_cases hjn : j < n
    · rw [if_pos hjn] at hj
      have h := long_press_event_eq_short i k0 t0 t1 (t0 + j) (Option.some.inj hj)
      exact ⟨by omega, h.2⟩
    · rw [if_neg hjn] at hj
      exact Option.noConfusion hj
  · refine ⟨_, getElem?_set_self hk, ?_, ?_⟩
    · rw [long_press_state_after k0 t0 _ _ t1 (t0 + n) hc hlong hlast]
    · rw [long_press_state_after k0 t0 _ _ t1 (t0 + n) hc hlong hlast]

/-- Witness for C3: button 0 of the zero-initialised array, asserted from `t = 0`
through `t = 900`, deasserted afterwards, polled at the times `0..999`: the poll at
`t = 901` returns LongPress. -/
theorem long_press_end_to_end_witness :
    ∃ evs ks1, key_scan_seq (key_polls_every_ms 0 (gpio_of_level (fun t => decide (t < 901)))
        0 1000) g_key_info_init = some (evs, ks1) ∧
      evs = (List.range' 0 1000).map (fun t =>
        if t = 901 then 0 + 0x81
        else if t = 0 ∧ click_pending ⟨key_state_t.KEY_STATE_RELEASE, 0, 0, 0⟩ 0 = true
          then 0 + 0x01 else 0) ∧
      evs.count (0 + 0x81) = 1 ∧ evs[901 - 0]? = some (0 + 0x81) ∧
      evs.count (0 + 0x51) = 0 ∧
      (∀ j, evs[j]? = some (0 + 0x01) →
        j = 0 ∧ click_pending ⟨key_state_t.KEY_STATE_RELEASE, 0, 0, 0⟩ 0 = true) ∧
      (∃ k1, ks1[0]? = some k1 ∧ k1.click_cnt = 0 ∧
        k1.state = key_state_t.KEY_STATE_RELEASE) :=
  long_press_end_to_end 0 (by decide) g_key_info_init
    ⟨key_state_t.KEY_STATE_RELEASE, 0, 0, 0⟩ rfl rfl
    (gpio_of_level (fun t => decide (t < 901))) 1000 0 901
    (by decide) (by decide) (by norm_num)
    (fun t _ h => by
      rw [key_asserted_gpio_of_level _ t 0 (by decide)]; exact decide_eq_true h)
    (fun t h _ => by
      rw [key_asserted_gpio_of_level _ t 0 (by decide)]; exact decide_eq_false (by omega))

/-- Counterexample to C3 as stated (asserted for at least 800 ms): button 0 of the
zero-initialised array, asserted at the polls `0..799` and deasserted from `t1 = 800`
on, polled at the times `0..1199`.  No poll returns LongPress; the press is reported as
a ShortPress (at `t = 1101`). -/
theorem long_press_800_counterexample :
    (∀ t, t < 800 → key_asserted (gpio_of_level (fun t => decide (t < 800)) t) 0 = true) ∧
    (∀ t, 800 ≤ t → key_asserted (gpio_of_level (fun t => decide (t < 800)) t) 0 = false) ∧
    (key_scan_seq (key_polls_every_ms 0 (gpio_of_level (fun t => decide (t < 800))) 0 1200)
        g_key_info_init).map
        (fun r => (r.1.count (0 + 0x81), r.1.count (0 + 0x01), r.1[1101]?))
      = some (0, 1, some (0 + 0x01)) := by
  have ha : ∀ t, t < 800 →
      key_asserted (gpio_of_level (fun t => decide (t < 800)) t) 0 = true := by
    intro t h
    rw [key_asserted_gpio_of_level _ t 0 (by decide)]; exact decide_eq_true h
  have hd : ∀ t, 800 ≤ t →
      key_asserted (gpio_of_level (fun t => decide (t < 800)) t) 0 = false := by
    intro t h
    rw [key_asserted_gpio_of_level _ t 0 (by decide)]
    exact decide_eq_false (by omega)
  refine ⟨ha, hd, ?_⟩
  rw [short_press_run 0 (by decide) g_key_info_init ⟨key_state_t.KEY_STATE_RELEASE, 0, 0, 0⟩
    rfl rfl rfl (gpio_of_level (fun t => decide (t < 800))) 0 1200 0 800 (by decide)
    (by decide) (by decide) (by norm_num) (fun t _ h => by omega) (fun t _ h => ha t h)
    (fun t h _ => hd t h)]
  have h1 := count_map_range'_zero (short_press_event 0 800) (0 + 0x81) 1200 0
    (fun t _ _ => short_press_event_ne 0 800 t _ (by decide) (by decide))
  have h2 := count_map_range'_unique (short_press_event 0 800) (0 + 0x01) (800 + 301) 1200 0
    (fun t _ _ => short_press_event_eq 0 800 t) (by decide) (by decide)
  have h3 : ((List.range' 0 1200).map (short_press_event 0 800))[1101]? = some (0 + 0x01) := by
    rw [getElem?_map_range', if_pos (by decide)]
    rfl
  simp only [Option.map_some', h1, h2, h3]

/-- Counterexample to C2 as stated (no bound on the first press): button 0 of the
zero-initialised array, asserted on `[0, 900)`, deasserted on `[900, 1000)`, asserted on
`[1000, 1050)`, deasserted from `1050` on, polled at the times `0..1399`.  Both presses
pass the debounce and the second release is 150 ms after the first, but no poll returns
DoublePress: the first release returns LongPress and the second press is reported as a
ShortPress (at `t = 1351`). -/
theorem double_press_long_first_counterexample :
    (0 + 20 < 900 ∧ 1000 + 20 < 1050 ∧ 1050 - 900 ≤ 300) ∧
    (key_scan_seq (key_polls_every_ms 0
          (gpio_of_level (fun t => decide (t < 900 ∨ (1000 ≤ t ∧ t < 1050)))) 0 1400)
        g_key_info_init).map
        (fun r => (r.1.count (0 + 0x51), r.1.count (0 + 0x01), r.1.count (0 + 0x81)))
      = some (0, 1, 1) := by
  refine ⟨by decide, ?_⟩
  have hlvl : ∀ t, key_asserted
      (gpio_of_level (fun t => decide (t < 900 ∨ (1000 ≤ t ∧ t < 1050))) t) 0
        = decide (t < 900 ∨ (1000 ≤ t ∧ t < 1050)) :=
    fun t => key_asserted_gpio_of_level _ t 0 (by decide)
  have hA := long_press_run 0 (by decide) g_key_info_init
    ⟨key_state_t.KEY_STATE_RELEASE, 0, 0, 0⟩ rfl rfl
    (gpio_of_level (fun t => decide (t < 900 ∨ (1000 ≤ t ∧ t < 1050)))) 1000 0 900
    (by decide) (by norm_num)
    (fun t _ h => by rw [hlvl]; exact decide_eq_true (by omega))
    (fun t h1 h2 => by rw [hlvl]; exact decide_eq_false (by omega))
  rw [long_press_state_after _ 0 _ _ 900 (0 + 1000) (by decide) (by decide) (by decide)]
    at hA
  have hB := short_press_run 0 (by decide)
    (g_key_info_init.set 0 ⟨key_state_t.KEY_STATE_RELEASE, 0,
      confirm_time ⟨key_state_t.KEY_STATE_RELEASE, 0, 0, 0⟩ 0 + 20, 0⟩)
    ⟨key_state_t.KEY_STATE_RELEASE, 0,
      confirm_time ⟨key_state_t.KEY_STATE_RELEASE, 0, 0, 0⟩ 0 + 20, 0⟩ rfl rfl rfl
    (gpio_of_level (fun t => decide (t < 900 ∨ (1000 ≤ t ∧ t < 1050)))) 1000 400 1000 1050
    (by decide) (by decide) (by decide) (by norm_num)
    (fun t _ h => by omega)
    (fun t h1 h2 => by rw [hlvl]; exact decide_eq_true (by omega))
    (fun t h1 h2 => by rw [hlvl]; exact decide_eq_false (by omega))
  have hAB := key_scan_seq_append _ _ _ _ _ _ _ hA hB
  rw [← key_polls_every_ms_add] at hAB
  rw [hAB]
  simp only [Option.map_some', List.count_append]
  have a1 := count_map_range'_zero
    (long_press_event 0 ⟨key_state_t.KEY_STATE_RELEASE, 0, 0, 0⟩ 0 900) (0 + 0x51) 1000 0
    (fun t _ _ => long_press_event_ne 0 _ 0 900 t _ (by decide) (by decide) (by decide))
  have a2 := count_map_range'_zero
    (long_press_event 0 ⟨key_state_t.KEY_STATE_RELEASE, 0, 0, 0⟩ 0 900) (0 + 0x01) 1000 0
    (fun t _ _ h => by
      have := (long_press_event_eq_short 0 _ 0 900 t h).2
      exact absurd this (by decide))
  have a3 := count_map_range'_unique
    (long_press_event 0 ⟨key_state_t.KEY_STATE_RELEASE, 0, 0, 0⟩ 0 900) (0 + 0x81) 900 1000 0
    (fun t _ _ => long_press_event_eq_long 0 _ 0 900 t) (by decide) (by decide)
  have b1 := count_map_range'_zero (short_press_event 0 1050) (0 + 0x51) 400 1000
    (fun t _ _ => short_press_event_ne 0 1050 t _ (by decide) (by decide))
  have b2 := count_map_range'_unique (short_press_event 0 1050) (0 + 0x01) (1050 + 301)
    400 1000 (fun t _ _ => short_press_event_eq 0 1050 t) (by decide) (by decide)
  have b3 := count_map_range'_zero (short_press_event 0 1050) (0 + 0x81) 400 1000
    (fun t _ _ => short_press_event_ne 0 1050 t _ (by decide) (by decide))
  rw [a1, a2, a3, b1, b2, b3]

/-! ## Bounce rejection over arbitrary poll times -/

theorem u64_sub_lt_of_near {now t0 d : Nat} (h1 : t0 ≤ now) (h2 : now < t0 + d)
    (hd : d ≤ 2 ^ 64) : u64_sub now t0 < d := by
  unfold u64_sub
  omega

/-- While the button is in CONFIRM with `press_time = t0`, polls with an asserted level at
times in `[t0, t0 + 20)` return 0 and change nothing. -/
theorem confirm_hold (i : Nat) (hi : i < KEY_MAX_NUM) (cc t0 rt : Nat) :
    ∀ (mid : List key_poll) (ks : List key_info_t),
      ks[i]? = some ⟨key_state_t.KEY_STATE_CONFIRM, cc, t0, rt⟩ →
      (∀ q ∈ mid, q.key_index = i ∧ key_asserted q.gpio i = true ∧ t0 ≤ q.now ∧
        q.now < t0 + 20) →
      key_scan_seq mid ks = some (List.replicate mid.length 0, ks) := by
  intro mid
  induction mid with
  | nil => intro ks _ _; rfl
  | cons q qs ih =>
    intro ks hk hq
    obtain ⟨hqi, hqa, hq1, hq2⟩ := hq q (List.mem_cons_self q qs)
    have hsub : ¬ 20 ≤ u64_sub q.now t0 :=
      Nat.not_le.mpr (u64_sub_lt_of_near hq1 hq2 (by norm_num))
    have hstep : key_scan q.gpio q.now ks q.key_index = some (0, ks) := by
      rw [hqi, key_scan_of_lt hi hk]
      simp [key_scan_switch, hqa, hsub, KEY_DEBOUNCE_MS, set_same hk]
    have hrest := ih ks hk (fun q1 h1 => hq q1 (List.mem_cons_of_mem q h1))
    simp [key_scan_seq, hstep, hrest, List.replicate_succ]

/-- A poll that takes a RELEASED button to CONFIRM returns 0 and only sets `press_time`
(to the time of the poll) and `state`. -/
theorem release_to_confirm (i : Nat) (pressed : Bool) (now : Nat) (k0 : key_info_t)
    (hst : k0.state = key_state_t.KEY_STATE_RELEASE)
    (hc : (key_scan_switch i pressed now k0).2.state = key_state_t.KEY_STATE_CONFIRM) :
    key_scan_switch i pressed now k0
      = (0, ⟨key_state_t.KEY_STATE_CONFIRM, k0.click_cnt, now, k0.release_time⟩) := by
  obtain ⟨st, cc, pt, rt⟩ := k0
  simp only at hst
  subst hst
  by_cases h1 : cc = 1 ∧ u64_sub now rt > KEY_DOUBLE_GAP_MS
  · simp [key_scan_switch, h1] at hc
  · cases pressed
    · simp [key_scan_switch, h1] at hc
    · simp [key_scan_switch, h1]

/-- C4: bounce rejection.  Button `i` is valid and RELEASED; the poll at `t0` moves it to
CONFIRM; the following polls `mid` of the button all see the level asserted; the next
poll, at `td < t0 + 20`, sees it deasserted; the poll times are non-decreasing.  Then
every one of these polls returns 0, and afterwards the button is RELEASED again with
`click_cnt` and `release_time` as before the poll at `t0`. -/
theorem bounce_rejection (i : Nat) (hi : i < KEY_MAX_NUM)
    (ks : List key_info_t) (k0 : key_info_t) (hk : ks[i]? = some k0)
    (hst : k0.state = key_state_t.KEY_STATE_RELEASE)
    (g0 : gpio_port → Nat → FlagStatus) (t0 : Nat)
    (hconf : ∃ r ks0 kc, key_scan g0 t0 ks i = some (r, ks0) ∧ ks0[i]? = some kc ∧
      kc.state = key_state_t.KEY_STATE_CONFIRM)
    (mid : List key_poll)
    (hmid : ∀ q ∈ mid, q.key_index = i ∧ key_asserted q.gpio i = true)
    (gd : gpio_port → Nat → FlagStatus) (td : Nat)
    (hd : key_asserted gd i = false) (hlt : td < t0 + 20)
    (hmono : List.Pairwise (fun a b => a ≤ b) (t0 :: (mid.map key_poll.now ++ [td]))) :
    ∃ ks1 k1, key_scan_seq (⟨i, g0, t0⟩ :: (mid ++ [⟨i, gd, td⟩])) ks
        = some (List.replicate (mid.length + 2) 0, ks1) ∧
      ks1[i]? = some k1 ∧ k1.state = key_state_t.KEY_STATE_RELEASE ∧
      k1.click_cnt = k0.click_cnt ∧ k1.release_time = k0.release_time := by
  obtain ⟨r, ks0, kc, h0, hkc, hkcst⟩ := hconf
  rw [key_scan_of_lt hi hk] at h0
  simp only [Option.some.injEq, Prod.mk.injEq] at h0
  obtain ⟨hr, hks0⟩ := h0
  subst hks0
  rw [getElem?_set_self hk] at hkc
  have hkc1 := Option.some.inj hkc
  have hsw := release_to_confirm i (key_asserted g0 i) t0 k0 hst (by rw [hkc1]; exact hkcst)
  -- bounds on the poll times
  rw [List.pairwise_cons] at hmono
  obtain ⟨hge, hrest⟩ := hmono
  rw [List.pairwise_append] at hrest
  obtain ⟨_, _, hle⟩ := hrest
  have hmid2 : ∀ q ∈ mid, q.key_index = i ∧ key_asserted q.gpio i = true ∧ t0 ≤ q.now ∧
      q.now < t0 + 20 := by
    intro q hq
    have hqm : q.now ∈ mid.map key_poll.now := List.mem_map_of_mem _ hq
    have h1 := hge q.now (List.mem_append_left _ hqm)
    have h2 := hle q.now hqm td (List.mem_singleton.mpr rfl)
    exact ⟨(hmid q hq).1, (hmid q hq).2, h1, by omega⟩
  -- the three phases
  have hA : key_scan_seq [⟨i, g0, t0⟩] ks
      = some ([0], ks.set i ⟨key_state_t.KEY_STATE_CONFIRM, k0.click_cnt, t0,
          k0.release_time⟩) := by
    simp [key_scan_seq, key_scan_of_lt hi hk, hsw]
  have hkc2 : (ks.set i ⟨key_state_t.KEY_STATE_CONFIRM, k0.click_cnt, t0,
      k0.release_time⟩)[i]?
      = some ⟨key_state_t.KEY_STATE_CONFIRM, k0.click_cnt, t0, k0.release_time⟩ :=
    getElem?_set_self hk
  have hB := confirm_hold i hi k0.click_cnt t0 k0.release_time mid _ hkc2 hmid2
  have hC : key_scan_seq [⟨i, gd, td⟩]
      (ks.set i ⟨key_state_t.KEY_STATE_CONFIRM, k0.click_cnt, t0, k0.release_time⟩)
      = some ([0], ks.set i ⟨key_state_t.KEY_STATE_RELEASE, k0.click_cnt, t0,
          k0.release_time⟩) := by
    simp [key_scan_seq, key_scan_of_lt hi hkc2, key_scan_switch, hd, List.set_set]
  have hBC := key_scan_seq_append _ _ _ _ _ _ _ hB hC
  have hABC := key_scan_seq_append _ _ _ _ _ _ _ hA hBC
  refine ⟨ks.set i ⟨key_state_t.KEY_STATE_RELEASE, k0.click_cnt, t0, k0.release_time⟩,
    ⟨key_state_t.KEY_STATE_RELEASE, k0.click_cnt, t0, k0.release_time⟩, ?_,
    getElem?_set_self hk, rfl, rfl, rfl⟩
  rw [List.singleton_append] at hABC
  have hrep : [0] ++ (List.replicate mid.length 0 ++ [0])
      = List.replicate (mid.length + 2) 0 := by
    rw [← List.replicate_succ', List.singleton_append, ← List.replicate_succ]
  rw [hABC, hrep]

/-- Witness for C4: button 0 of the zero-initialised array sees the level asserted at the
polls at `t = 100, 105, 105, 119` and deasserted at the next poll, still at `t = 119`:
the five polls return 0 and the button is RELEASED with `click_cnt = 0` and
`release_time = 0` as before. -/
theorem bounce_rejection_witness :
    ∃ ks1 k1, key_scan_seq (⟨0, fun _ _ => FlagStatus.RESET, 100⟩ ::
          ([⟨0, fun _ _ => FlagStatus.RESET, 105⟩, ⟨0, fun _ _ => FlagStatus.RESET, 105⟩,
            ⟨0, fun _ _ => FlagStatus.RESET, 119⟩] ++ [⟨0, fun _ _ => FlagStatus.SET, 119⟩]))
          g_key_info_init
        = some (List.replicate
            ([(⟨0, fun _ _ => FlagStatus.RESET, 105⟩ : key_poll),
              ⟨0, fun _ _ => FlagStatus.RESET, 105⟩,
              ⟨0, fun _ _ => FlagStatus.RESET, 119⟩].length + 2) 0, ks1) ∧
      ks1[0]? = some k1 ∧ k1.state = key_state_t.KEY_STATE_RELEASE ∧
      k1.click_cnt = (⟨key_state_t.KEY_STATE_RELEASE, 0, 0, 0⟩ : key_info_t).click_cnt ∧
      k1.release_time
        = (⟨key_state_t.KEY_STATE_RELEASE, 0, 0, 0⟩ : key_info_t).release_time :=
  bounce_rejection 0 (by decide) g_key_info_init ⟨key_state_t.KEY_STATE_RELEASE, 0, 0, 0⟩
    rfl rfl (fun _ _ => FlagStatus.RESET) 100
    ⟨0, _, _, rfl, rfl, rfl⟩
    [⟨0, fun _ _ => FlagStatus.RESET, 105⟩, ⟨0, fun _ _ => FlagStatus.RESET, 105⟩,
      ⟨0, fun _ _ => FlagStatus.RESET, 119⟩]
    (by
      intro q hq
      simp only [List.mem_cons, List.mem_singleton, List.not_mem_nil, or_false] at hq
      rcases hq with h | h | h <;> subst h <;> exact ⟨rfl, rfl⟩)
    (fun _ _ => FlagStatus.SET) 119 rfl (by decide)
    (by simp)

/-! ## The `click_cnt` invariant -/

theorem switch_click_cnt_le (i : Nat) (pressed : Bool) (now : Nat) (k : key_info_t)
    (hcc : k.click_cnt ≤ 1) : (key_scan_switch i pressed now k).2.click_cnt ≤ 1 := by
  obtain ⟨st, cc, pt, rt⟩ := k
  simp only at hcc
  cases st <;> cases pressed <;> simp only [key_scan_switch] <;> split_ifs <;>
    simp_all

theorem switch_event_click_cnt (i : Nat) (pressed : Bool) (now : Nat) (k : key_info_t)
    (hr : (key_scan_switch i pressed now k).1 ≠ 0) :
    (key_scan_switch i pressed now k).2.click_cnt = 0 := by
  obtain ⟨st, cc, pt, rt⟩ := k
  revert hr
  cases st <;> cases pressed <;> simp only [key_scan_switch] <;> split_ifs <;>
    simp_all

theorem getElem?_of_lt_length {ks : List key_info_t} {i : Nat} (h : i < ks.length) :
    ∃ k, ks[i]? = some k ∧ k ∈ ks :=
  ⟨ks[i], List.getElem?_eq_getElem h, List.getElem_mem h⟩

theorem key_scan_click_cnt_inv (g : gpio_port → Nat → FlagStatus) (now : Nat)
    (ks : List key_info_t) (i : Nat) (hinv : click_cnt_inv ks) :
    ∃ r ks1, key_scan g now ks i = some (r, ks1) ∧ click_cnt_inv ks1 := by
  by_cases hi : i < KEY_MAX_NUM
  · obtain ⟨k, hk, hmem⟩ := getElem?_of_lt_length (by rw [hinv.1]; exact hi : i < ks.length)
    refine ⟨_, _, key_scan_of_lt hi hk, ?_, ?_⟩
    · rw [List.length_set]; exact hinv.1
    · intro k1 hk1
      rcases List.mem_or_eq_of_mem_set hk1 with h | h
      · exact hinv.2 k1 h
      · rw [h]; exact switch_click_cnt_le i _ now k (hinv.2 k hmem)
  · exact ⟨_, _, key_scan_of_ge (Nat.le_of_not_lt hi), hinv⟩

theorem key_scan_seq_click_cnt_inv :
    ∀ (polls : List key_poll) (ks : List key_info_t), click_cnt_inv ks →
      ∃ rs ks1, key_scan_seq polls ks = some (rs, ks1) ∧ click_cnt_inv ks1 := by
  intro polls
  induction polls with
  | nil => intro ks h; exact ⟨_, _, rfl, h⟩
  | cons q qs ih =>
    intro ks h
    obtain ⟨r, ks1, h1, hinv1⟩ := key_scan_click_cnt_inv q.gpio q.now ks q.key_index h
    obtain ⟨rs, ks2, h2, hinv2⟩ := ih ks1 hinv1
    exact ⟨r :: rs, ks2, by simp [key_scan_seq, h1, h2], hinv2⟩

theorem click_cnt_inv_init : click_cnt_inv g_key_info_init := by
  refine ⟨by simp [g_key_info_init], ?_⟩
  intro k hk
  rw [g_key_info_init, List.mem_replicate] at hk
  rw [hk.2]
  exact Nat.zero_le 1

/-- C5: the `click_cnt` invariant.  For a valid index `i` whose button has
`click_cnt ≤ 1`, every level and every time, `key_scan` returns, the button again has
`click_cnt ≤ 1`, and `click_cnt = 0` whenever the returned byte is an event (non-zero:
ShortPress, DoublePress or LongPress).  Hence, starting from the zero-initialised array,
after every sequence of `key_scan` calls (any indices, levels and times) every button
has `click_cnt ≤ 1`. -/
theorem click_cnt_invariant (i : Nat) (hi : i < KEY_MAX_NUM)
    (g : gpio_port → Nat → FlagStatus) (now : Nat)
    (ks : List key_info_t) (k : key_info_t) (hk : ks[i]? = some k)
    (hcc : k.click_cnt ≤ 1) :
    (∃ r ks1 k1, key_scan g now ks i = some (r, ks1) ∧ ks1[i]? = some k1 ∧
      k1.click_cnt ≤ 1 ∧ (r ≠ 0 → k1.click_cnt = 0)) ∧
    (∀ polls : List key_poll, ∃ rs ks1,
      key_scan_seq polls g_key_info_init = some (rs, ks1) ∧
      ∀ k1 ∈ ks1, k1.click_cnt = 0 ∨ k1.click_cnt = 1) := by
  constructor
  · exact ⟨_, _, _, key_scan_of_lt hi hk, getElem?_set_self hk,
      switch_click_cnt_le i _ now k hcc, switch_event_click_cnt i _ now k⟩
  · intro polls
    obtain ⟨rs, ks1, h1, h2⟩ := key_scan_seq_click_cnt_inv polls _ click_cnt_inv_init
    refine ⟨rs, ks1, h1, ?_⟩
    intro k1 hk1
    have := h2.2 k1 hk1
    omega

/-- Witness for C5: button 2 of an array in which it is PRESSING with `click_cnt = 1`,
released at `now = 500` (first release at 400). -/
theorem click_cnt_invariant_witness :
    (∃ r ks1 k1, key_scan (fun _ _ => FlagStatus.SET) 500
        (g_key_info_init.set 2 ⟨key_state_t.KEY_STATE_PRESSING, 1, 450, 400⟩) 2
        = some (r, ks1) ∧ ks1[2]? = some k1 ∧
      k1.click_cnt ≤ 1 ∧ (r ≠ 0 → k1.click_cnt = 0)) ∧
    (∀ polls : List key_poll, ∃ rs ks1,
      key_scan_seq polls g_key_info_init = some (rs, ks1) ∧
      ∀ k1 ∈ ks1, k1.click_cnt = 0 ∨ k1.click_cnt = 1) :=
  click_cnt_invariant 2 (by decide) (fun _ _ => FlagStatus.SET) 500
    (g_key_info_init.set 2 ⟨key_state_t.KEY_STATE_PRESSING, 1, 450, 400⟩)
    ⟨key_state_t.KEY_STATE_PRESSING, 1, 450, 400⟩ rfl (by decide)

/-! ## Delayed reporting of a short press -/

theorem switch_short_press_iff (i : Nat) (hi : i < KEY_MAX_NUM) (pressed : Bool) (now : Nat)
    (k : key_info_t) :
    (key_scan_switch i pressed now k).1 = i + 0x01 ↔
      (k.state = key_state_t.KEY_STATE_RELEASE ∧ k.click_cnt = 1 ∧
        u64_sub now k.release_time > KEY_DOUBLE_GAP_MS) := by
  obtain ⟨st, cc, pt, rt⟩ := k
  rw [KEY_MAX_NUM_eq] at hi
  have h1 : u8 (i + 0x01) = i + 0x01 := u8_of_lt (by omega)
  have h2 : u8 (i + 0x51) = i + 0x51 := u8_of_lt (by omega)
  have h3 : u8 (i + 0x81) = i + 0x81 := u8_of_lt (by omega)
  cases st <;> cases pressed <;> simp only [key_scan_switch, h1, h2, h3] <;> split_ifs <;>
    simp_all

/-- C6: delayed short-press reporting.  For a valid index `i`, `key_scan` returns
ShortPress (`i + 0x01`) if and only if, before the call, the button is RELEASED with
`click_cnt = 1` and `now - release_time > 300` (in `uint64_t` arithmetic); in
particular a call that finds the button PRESSING, such as the poll that observes its
release, never returns ShortPress. -/
theorem short_press_iff (i : Nat) (hi : i < KEY_MAX_NUM)
    (g : gpio_port → Nat → FlagStatus) (now : Nat)
    (ks : List key_info_t) (k : key_info_t) (hk : ks[i]? = some k) :
    ((∃ ks1, key_scan g now ks i = some (i + 0x01, ks1)) ↔
      (k.state = key_state_t.KEY_STATE_RELEASE ∧ k.click_cnt = 1 ∧
        u64_sub now k.release_time > 300)) ∧
    (k.state = key_state_t.KEY_STATE_PRESSING →
      ∀ ks1, key_scan g now ks i ≠ some (i + 0x01, ks1)) := by
  have hsw := switch_short_press_iff i hi (key_asserted g i) now k
  have hiff : (∃ ks1, key_scan g now ks i = some (i + 0x01, ks1)) ↔
      (key_scan_switch i (key_asserted g i) now k).1 = i + 0x01 := by
    rw [key_scan_of_lt hi hk]
    constructor
    · rintro ⟨ks1, h⟩
      simp only [Option.some.injEq, Prod.mk.injEq] at h
      exact h.1
    · intro h
      exact ⟨_, by rw [h]⟩
  constructor
  · rw [hiff, hsw]; rfl
  · intro hst ks1 h
    have := (hsw.mp (hiff.mp ⟨ks1, h⟩)).1
    rw [hst] at this
    exact key_state_t.noConfusion this

/-- Witness for C6: button 1 RELEASED with `click_cnt = 1`, released at 1000, polled at
1301 with the level deasserted. -/
theorem short_press_iff_witness :
    ((∃ ks1, key_scan (fun _ _ => FlagStatus.SET) 1301
        (g_key_info_init.set 1 ⟨key_state_t.KEY_STATE_RELEASE, 1, 900, 1000⟩) 1
        = some (1 + 0x01, ks1)) ↔
      ((⟨key_state_t.KEY_STATE_RELEASE, 1, 900, 1000⟩ : key_info_t).state
          = key_state_t.KEY_STATE_RELEASE ∧
        (⟨key_state_t.KEY_STATE_RELEASE, 1, 900, 1000⟩ : key_info_t).click_cnt = 1 ∧
        u64_sub 1301 (⟨key_state_t.KEY_STATE_RELEASE, 1, 900, 1000⟩ : key_info_t).release_time
          > 300)) ∧
    ((⟨key_state_t.KEY_STATE_RELEASE, 1, 900, 1000⟩ : key_info_t).state
        = key_state_t.KEY_STATE_PRESSING →
      ∀ ks1, key_scan (fun _ _ => FlagStatus.SET) 1301
        (g_key_info_init.set 1 ⟨key_state_t.KEY_STATE_RELEASE, 1, 900, 1000⟩) 1
        ≠ some (1 + 0x01, ks1)) :=
  short_press_iff 1 (by decide) (fun _ _ => FlagStatus.SET) 1301
    (g_key_info_init.set 1 ⟨key_state_t.KEY_STATE_RELEASE, 1, 900, 1000⟩)
    ⟨key_state_t.KEY_STATE_RELEASE, 1, 900, 1000⟩ rfl

/-! ## A pending timeout is resolved before a new press starts -/

/-- C7: timeout before new press.  For a valid button that is RELEASED with
`click_cnt = 1` and `now - release_time > 300`, `key_scan` returns ShortPress
(`i + 0x01`), sets `click_cnt` to 0 and leaves `state = RELEASE`, `press_time` and
`release_time` unchanged, whatever the sampled level (also when it is asserted); a
following poll that sees the level asserted, at any time `now2`, returns 0 and enters
CONFIRM with `press_time = now2`. -/
theorem timeout_before_new_press (i : Nat) (hi : i < KEY_MAX_NUM)
    (g : gpio_port → Nat → FlagStatus) (now : Nat)
    (ks : List key_info_t) (k : key_info_t) (hk : ks[i]? = some k)
    (hst : k.state = key_state_t.KEY_STATE_RELEASE) (hcc : k.click_cnt = 1)
    (hto : u64_sub now k.release_time > 300) :
    key_scan g now ks i
      = some (i + 0x01,
          ks.set i ⟨key_state_t.KEY_STATE_RELEASE, 0, k.press_time, k.release_time⟩) ∧
    (∀ (g2 : gpio_port → Nat → FlagStatus) (now2 : Nat), key_asserted g2 i = true →
      key_scan g2 now2
          (ks.set i ⟨key_state_t.KEY_STATE_RELEASE, 0, k.press_time, k.release_time⟩) i
        = some (0, ks.set i ⟨key_state_t.KEY_STATE_CONFIRM, 0, now2, k.release_time⟩)) := by
  obtain ⟨st, cc, pt, rt⟩ := k
  simp only at hst hcc hto
  subst hst hcc
  have hi4 : i < 4 := hi
  have h1 : u8 (i + 0x01) = i + 0x01 := u8_of_lt (by omega)
  constructor
  · rw [key_scan_of_lt hi hk]
    simp [key_scan_switch, KEY_DOUBLE_GAP_MS, hto, h1]
  · intro g2 now2 ha
    rw [key_scan_of_lt hi (getElem?_set_self hk)]
    simp [key_scan_switch, ha, List.set_set]

/-- Witness for C7: button 3, released at 1000 with one pending click, polled at 1301
while the level is already asserted again. -/
theorem timeout_before_new_press_witness :
    key_scan (fun _ _ => FlagStatus.RESET) 1301
        (g_key_info_init.set 3 ⟨key_state_t.KEY_STATE_RELEASE, 1, 900, 1000⟩) 3
      = some (3 + 0x01,
          (g_key_info_init.set 3 ⟨key_state_t.KEY_STATE_RELEASE, 1, 900, 1000⟩).set 3
            ⟨key_state_t.KEY_STATE_RELEASE, 0,
              (⟨key_state_t.KEY_STATE_RELEASE, 1, 900, 1000⟩ : key_info_t).press_time,
              (⟨key_state_t.KEY_STATE_RELEASE, 1, 900, 1000⟩ : key_info_t).release_time⟩) ∧
    (∀ (g2 : gpio_port → Nat → FlagStatus) (now2 : Nat), key_asserted g2 3 = true →
      key_scan g2 now2
          ((g_key_info_init.set 3 ⟨key_state_t.KEY_STATE_RELEASE, 1, 900, 1000⟩).set 3
            ⟨key_state_t.KEY_STATE_RELEASE, 0,
              (⟨key_state_t.KEY_STATE_RELEASE, 1, 900, 1000⟩ : key_info_t).press_time,
              (⟨key_state_t.KEY_STATE_RELEASE, 1, 900, 1000⟩ : key_info_t).release_time⟩) 3
        = some (0, (g_key_info_init.set 3 ⟨key_state_t.KEY_STATE_RELEASE, 1, 900, 1000⟩).set 3
            ⟨key_state_t.KEY_STATE_CONFIRM, 0, now2,
              (⟨key_state_t.KEY_STATE_RELEASE, 1, 900, 1000⟩ : key_info_t).release_time⟩)) :=
  timeout_before_new_press 3 (by decide) (fun _ _ => FlagStatus.RESET) 1301
    (g_key_info_init.set 3 ⟨key_state_t.KEY_STATE_RELEASE, 1, 900, 1000⟩)
    ⟨key_state_t.KEY_STATE_RELEASE, 1, 900, 1000⟩ rfl rfl rfl (by decide)

/-! ## `drv_get_key_val`: scan priority -/

theorem drv_get_key_val_loop_zero (gpio : Nat → gpio_port → Nat → FlagStatus)
    (tick : Nat → Nat) (fuel i res : Nat) (ks : List key_info_t) (polled : List Nat)
    (k : key_info_t) (hi : i < KEY_MAX_NUM) (hk : ks[i]? = some k)
    (hr : (key_scan_switch i (key_asserted (gpio polled.length) i)
      (tick polled.length) k).1 = 0) :
    drv_get_key_val_loop gpio tick (fuel + 1) i res ks polled
      = drv_get_key_val_loop gpio tick fuel (u8 (i + 1)) 0
          (ks.set i (key_scan_switch i (key_asserted (gpio polled.length) i)
            (tick polled.length) k).2) (polled ++ [i]) := by
  simp [drv_get_key_val_loop, hi, key_scan_of_lt hi hk, hr]

theorem drv_get_key_val_loop_event (gpio : Nat → gpio_port → Nat → FlagStatus)
    (tick : Nat → Nat) (fuel i res : Nat) (ks : List key_info_t) (polled : List Nat)
    (k : key_info_t) (hi : i < KEY_MAX_NUM) (hk : ks[i]? = some k)
    (hr : (key_scan_switch i (key_asserted (gpio polled.length) i)
      (tick polled.length) k).1 ≠ 0) :
    drv_get_key_val_loop gpio tick (fuel + 1) i res ks polled
      = some ((key_scan_switch i (key_asserted (gpio polled.length) i)
            (tick polled.length) k).1,
          ks.set i (key_scan_switch i (key_asserted (gpio polled.length) i)
            (tick polled.length) k).2, polled ++ [i]) := by
  simp [drv_get_key_val_loop, hi, key_scan_of_lt hi hk, hr]

theorem drv_get_key_val_loop_done (gpio : Nat → gpio_port → Nat → FlagStatus)
    (tick : Nat → Nat) (fuel i res : Nat) (ks : List key_info_t) (polled : List Nat)
    (hi : ¬ i < KEY_MAX_NUM) :
    drv_get_key_val_loop gpio tick (fuel + 1) i res ks polled = some (res, ks, polled) := by
  simp [drv_get_key_val_loop, hi]

theorem length_four {ks : List key_info_t} (h : ks.length = KEY_MAX_NUM) :
    ∃ k0 k1 k2 k3, ks = [k0, k1, k2, k3] := by
  rw [KEY_MAX_NUM_eq] at h
  match ks, h with
  | [k0, k1, k2, k3], _ => exact ⟨k0, k1, k2, k3, rfl⟩

/-- C8: scan priority.  For an array of `KEY_MAX_NUM` buttons, `drv_get_key_val` returns
and makes exactly the calls `key_scan(0)`, `key_scan(1)`, .., `key_scan(m - 1)`, in this
order, for some `1 ≤ m ≤ KEY_MAX_NUM`: its array afterwards is the one these calls
produce.  Every call but the last returns 0 and the value returned is that of the last
call, `key_scan(m - 1)`; it is non-zero unless all `KEY_MAX_NUM` buttons were polled.
Every button with index `≥ m` is unchanged, and every button `j < m` has made exactly
one step of the state machine. -/
theorem scan_priority (gpio : Nat → gpio_port → Nat → FlagStatus) (tick : Nat → Nat)
    (ks : List key_info_t) (hlen : ks.length = KEY_MAX_NUM) :
    ∃ m res rs ks1, 1 ≤ m ∧ m ≤ KEY_MAX_NUM ∧
      drv_get_key_val gpio tick ks = some (res, ks1, List.range m) ∧
      key_scan_seq (scan_polls gpio tick m) ks = some (rs, ks1) ∧
      rs = List.replicate (m - 1) 0 ++ [res] ∧
      (res ≠ 0 ∨ m = KEY_MAX_NUM) ∧
      (∀ j, m ≤ j → ks1[j]? = ks[j]?) ∧
      (∀ j, j < m → ∃ k, ks[j]? = some k ∧
        ks1[j]? = some (key_scan_switch j (key_asserted (gpio j) j) (tick j) k).2 ∧
        (key_scan_switch j (key_asserted (gpio j) j) (tick j) k).1
          = if j + 1 = m then res else 0) := by
  obtain ⟨k0, k1, k2, k3, rfl⟩ := length_four hlen
  set a0 := key_scan_switch 0 (key_asserted (gpio 0) 0) (tick 0) k0 with ha0
  set a1 := key_scan_switch 1 (key_asserted (gpio 1) 1) (tick 1) k1 with ha1
  set a2 := key_scan_switch 2 (key_asserted (gpio 2) 2) (tick 2) k2 with ha2
  set a3 := key_scan_switch 3 (key_asserted (gpio 3) 3) (tick 3) k3 with ha3
  have s0 : key_scan (gpio 0) (tick 0) [k0, k1, k2, k3] 0
      = some (a0.1, [a0.2, k1, k2, k3]) :=
    key_scan_of_lt (by decide) rfl
  have s1 : key_scan (gpio 1) (tick 1) [a0.2, k1, k2, k3] 1
      = some (a1.1, [a0.2, a1.2, k2, k3]) :=
    key_scan_of_lt (by decide) rfl
  have s2 : key_scan (gpio 2) (tick 2) [a0.2, a1.2, k2, k3] 2
      = some (a2.1, [a0.2, a1.2, a2.2, k3]) :=
    key_scan_of_lt (by decide) rfl
  have s3 : key_scan (gpio 3) (tick 3) [a0.2, a1.2, a2.2, k3] 3
      = some (a3.1, [a0.2, a1.2, a2.2, a3.2]) :=
    key_scan_of_lt (by decide) rfl
  by_cases h0 : a0.1 = 0
  swap
  · refine ⟨1, a0.1, List.replicate (1 - 1) 0 ++ [a0.1], [a0.2, k1, k2, k3],
      by decide, by decide, ?_, ?_, rfl, ?_, ?_, ?_⟩
    · exact (drv_get_key_val_loop_event gpio tick 4 0 0 [k0, k1, k2, k3] [] k0
          (by decide) rfl h0)
    · simp only [scan_polls, List.range_succ, List.range_zero, List.nil_append,
        List.map_append, List.map_cons, List.map_nil, List.cons_append, key_scan_seq, s0]
      rfl
    · exact Or.inl h0
    · intro j hj
      obtain ⟨d, rfl⟩ := Nat.exists_eq_add_of_le' hj
      simp
    · intro j hj
      interval_cases j
      · exact ⟨k0, rfl, rfl, by rw [if_pos rfl]⟩
  by_cases h1 : a1.1 = 0
  swap
  · refine ⟨2, a1.1, List.replicate (2 - 1) 0 ++ [a1.1], [a0.2, a1.2, k2, k3],
      by decide, by decide, ?_, ?_, rfl, ?_, ?_, ?_⟩
    · exact Eq.trans (drv_get_key_val_loop_zero gpio tick 4 0 0 [k0, k1, k2, k3] [] k0
          (by decide) rfl h0)
        ((drv_get_key_val_loop_event gpio tick 3 1 0 [a0.2, k1, k2, k3] [0] k1
          (by decide) rfl h1))
    · simp only [scan_polls, List.range_succ, List.range_zero, List.nil_append,
        List.map_append, List.map_cons, List.map_nil, List.cons_append, key_scan_seq, s0, s1]
      rw [h0]
      rfl
    · exact Or.inl h1
    · intro j hj
      obtain ⟨d, rfl⟩ := Nat.exists_eq_add_of_le' hj
      simp
    · intro j hj
      interval_cases j
      · exact ⟨k0, rfl, rfl, by rw [if_neg (by decide)]; exact h0⟩
      · exact ⟨k1, rfl, rfl, by rw [if_pos rfl]⟩
  by_cases h2 : a2.1 = 0
  swap
  · refine ⟨3, a2.1, List.replicate (3 - 1) 0 ++ [a2.1], [a0.2, a1.2, a2.2, k3],
      by decide, by decide, ?_, ?_, rfl, ?_, ?_, ?_⟩
    · exact Eq.trans (drv_get_key_val_loop_zero gpio tick 4 0 0 [k0, k1, k2, k3] [] k0
          (by decide) rfl h0)
        (Eq.trans (drv_get_key_val_loop_zero gpio tick 3 1 0 [a0.2, k1, k2, k3] [0] k1
          (by decide) rfl h1)
        ((drv_get_key_val_loop_event gpio tick 2 2 0 [a0.2, a1.2, k2, k3] [0, 1] k2
          (by decide) rfl h2)))
    · simp only [scan_polls, List.range_succ, List.range_zero, List.nil_append,
        List.map_append, List.map_cons, List.map_nil, List.cons_append, key_scan_seq, s0, s1, s2]
      rw [h0, h1]
      rfl
    · exact Or.inl h2
    · intro j hj
      obtain ⟨d, rfl⟩ := Nat.exists_eq_add_of_le' hj
      simp
    · intro j hj
      interval_cases j
      · exact ⟨k0, rfl, rfl, by rw [if_neg (by decide)]; exact h0⟩
      · exact ⟨k1, rfl, rfl, by rw [if_neg (by decide)]; exact h1⟩
      · exact ⟨k2, rfl, rfl, by rw [if_pos rfl]⟩
  by_cases h3 : a3.1 = 0
  · refine ⟨4, a3.1, List.replicate (4 - 1) 0 ++ [a3.1], [a0.2, a1.2, a2.2, a3.2],
      by decide, by decide, ?_, ?_, rfl, ?_, ?_, ?_⟩
    · exact Eq.trans (drv_get_key_val_loop_zero gpio tick 4 0 0 [k0, k1, k2, k3] [] k0
          (by decide) rfl h0)
        (Eq.trans (drv_get_key_val_loop_zero gpio tick 3 1 0 [a0.2, k1, k2, k3] [0] k1
          (by decide) rfl h1)
        (Eq.trans (drv_get_key_val_loop_zero gpio tick 2 2 0 [a0.2, a1.2, k2, k3] [0, 1] k2
          (by decide) rfl h2)
        (Eq.trans (drv_get_key_val_loop_zero gpio tick 1 3 0 [a0.2, a1.2, a2.2, k3] [0, 1, 2] k3
          (by decide) rfl h3)
        (((drv_get_key_val_loop_done gpio tick 0 4 0 [a0.2, a1.2, a2.2, a3.2] [0, 1, 2, 3]
          (by decide)).trans (by rw [h3]; rfl))))))
    · simp only [scan_polls, List.range_succ, List.range_zero, List.nil_append,
        List.map_append, List.map_cons, List.map_nil, List.cons_append, key_scan_seq, s0, s1, s2, s3]
      rw [h0, h1, h2]
      rfl
    · exact Or.inr rfl
    · intro j hj
      obtain ⟨d, rfl⟩ := Nat.exists_eq_add_of_le' hj
      simp
    · intro j hj
      interval_cases j
      · exact ⟨k0, rfl, rfl, by rw [if_neg (by decide)]; exact h0⟩
      · exact ⟨k1, rfl, rfl, by rw [if_neg (by decide)]; exact h1⟩
      · exact ⟨k2, rfl, rfl, by rw [if_neg (by decide)]; exact h2⟩
      · exact ⟨k3, rfl, rfl, by rw [if_pos rfl]⟩
  · refine ⟨4, a3.1, List.replicate (4 - 1) 0 ++ [a3.1], [a0.2, a1.2, a2.2, a3.2],
      by decide, by decide, ?_, ?_, rfl, ?_, ?_, ?_⟩
    · exact Eq.trans (drv_get_key_val_loop_zero gpio tick 4 0 0 [k0, k1, k2, k3] [] k0
          (by decide) rfl h0)
        (Eq.trans (drv_get_key_val_loop_zero gpio tick 3 1 0 [a0.2, k1, k2, k3] [0] k1
          (by decide) rfl h1)
        (Eq.trans (drv_get_key_val_loop_zero gpio tick 2 2 0 [a0.2, a1.2, k2, k3] [0, 1] k2
          (by decide) rfl h2)
        ((drv_get_key_val_loop_event gpio tick 1 3 0 [a0.2, a1.2, a2.2, k3] [0, 1, 2] k3
          (by decide) rfl h3))))
    · simp only [scan_polls, List.range_succ, List.range_zero, List.nil_append,
        List.map_append, List.map_cons, List.map_nil, List.cons_append, key_scan_seq, s0, s1, s2, s3]
      rw [h0, h1, h2]
      rfl
    · exact Or.inl h3
    · intro j hj
      obtain ⟨d, rfl⟩ := Nat.exists_eq_add_of_le' hj
      simp
    · intro j hj
      interval_cases j
      · exact ⟨k0, rfl, rfl, by rw [if_neg (by decide)]; exact h0⟩
      · exact ⟨k1, rfl, rfl, by rw [if_neg (by decide)]; exact h1⟩
      · exact ⟨k2, rfl, rfl, by rw [if_neg (by decide)]; exact h2⟩
      · exact ⟨k3, rfl, rfl, by rw [if_pos rfl]⟩

/-- Witness for C8: the zero-initialised array with KEY2 (index 1) pending a ShortPress
(released at 0, polled at 1000) and KEY3 (index 2) in the same situation. -/
theorem scan_priority_witness :
    ∃ m res rs ks1, 1 ≤ m ∧ m ≤ KEY_MAX_NUM ∧
      drv_get_key_val (fun _ _ _ => FlagStatus.SET) (fun _ => 1000)
          [⟨key_state_t.KEY_STATE_RELEASE, 0, 0, 0⟩, ⟨key_state_t.KEY_STATE_RELEASE, 1, 0, 0⟩,
            ⟨key_state_t.KEY_STATE_RELEASE, 1, 0, 0⟩, ⟨key_state_t.KEY_STATE_RELEASE, 0, 0, 0⟩]
        = some (res, ks1, List.range m) ∧
      key_scan_seq (scan_polls (fun _ _ _ => FlagStatus.SET) (fun _ => 1000) m)
          [⟨key_state_t.KEY_STATE_RELEASE, 0, 0, 0⟩, ⟨key_state_t.KEY_STATE_RELEASE, 1, 0, 0⟩,
            ⟨key_state_t.KEY_STATE_RELEASE, 1, 0, 0⟩, ⟨key_state_t.KEY_STATE_RELEASE, 0, 0, 0⟩]
        = some (rs, ks1) ∧
      rs = List.replicate (m - 1) 0 ++ [res] ∧
      (res ≠ 0 ∨ m = KEY_MAX_NUM) ∧
      (∀ j, m ≤ j → ks1[j]?
        = ([⟨key_state_t.KEY_STATE_RELEASE, 0, 0, 0⟩, ⟨key_state_t.KEY_STATE_RELEASE, 1, 0, 0⟩,
            ⟨key_state_t.KEY_STATE_RELEASE, 1, 0, 0⟩, ⟨key_state_t.KEY_STATE_RELEASE, 0, 0, 0⟩]
            : List key_info_t)[j]?) ∧
      (∀ j, j < m → ∃ k,
        ([⟨key_state_t.KEY_STATE_RELEASE, 0, 0, 0⟩, ⟨key_state_t.KEY_STATE_RELEASE, 1, 0, 0⟩,
            ⟨key_state_t.KEY_STATE_RELEASE, 1, 0, 0⟩, ⟨key_state_t.KEY_STATE_RELEASE, 0, 0, 0⟩]
            : List key_info_t)[j]? = some k ∧
        ks1[j]? = some (key_scan_switch j
          (key_asserted ((fun _ _ _ => FlagStatus.SET : Nat → gpio_port → Nat → FlagStatus) j) j)
          ((fun _ => 1000 : Nat → Nat) j) k).2 ∧
        (key_scan_switch j
          (key_asserted ((fun _ _ _ => FlagStatus.SET : Nat → gpio_port → Nat → FlagStatus) j) j)
          ((fun _ => 1000 : Nat → Nat) j) k).1
          = if j + 1 = m then res else 0) :=
  scan_priority (fun _ _ _ => FlagStatus.SET) (fun _ => 1000)
    [⟨key_state_t.KEY_STATE_RELEASE, 0, 0, 0⟩, ⟨key_state_t.KEY_STATE_RELEASE, 1, 0, 0⟩,
      ⟨key_state_t.KEY_STATE_RELEASE, 1, 0, 0⟩, ⟨key_state_t.KEY_STATE_RELEASE, 0, 0, 0⟩] rfl

/-! ## Out-of-range index -/

/-- C9: out-of-range index.  For every `key_index ≥ KEY_MAX_NUM` (also
`key_index = KEY_MAX_NUM`), whatever the pin levels, the time and the array, `key_scan`
returns the sentinel `0xFF` and leaves the array unchanged.  Neither table is indexed:
at such an index `g_gpio_list` has no entry, nor has an array of `KEY_MAX_NUM` buttons,
and an access there makes the model return `none`. -/
theorem key_scan_out_of_range (key_index : Nat) (h : KEY_MAX_NUM ≤ key_index)
    (g : gpio_port → Nat → FlagStatus) (now : Nat) (ks : List key_info_t) :
    key_scan g now ks key_index = some (0xFF, ks) ∧
    g_gpio_list[key_index]? = none ∧
    (ks.length = KEY_MAX_NUM → ks[key_index]? = none) := by
  refine ⟨key_scan_of_ge h, ?_, ?_⟩
  · exact List.getElem?_eq_none h
  · intro hlen
    exact List.getElem?_eq_none (by rw [hlen]; exact h)

/-- Witness for C9: `key_index = KEY_MAX_NUM = 4`, one past the valid range. -/
theorem key_scan_out_of_range_witness :
    key_scan (fun _ _ => FlagStatus.RESET) 0 g_key_info_init 4
      = some (0xFF, g_key_info_init) ∧
    g_gpio_list[4]? = none ∧
    (g_key_info_init.length = KEY_MAX_NUM → g_key_info_init[4]? = none) :=
  key_scan_out_of_range 4 (by decide) (fun _ _ => FlagStatus.RESET) 0 g_key_info_init

/-! ## Event byte encoding -/

theorem switch_result_cases (i : Nat) (hi : i < KEY_MAX_NUM) (pressed : Bool) (now : Nat)
    (k : key_info_t) :
    (key_scan_switch i pressed now k).1 = 0x00 ∨
    (key_scan_switch i pressed now k).1 = i + 0x01 ∨
    (key_scan_switch i pressed now k).1 = i + 0x51 ∨
    (key_scan_switch i pressed now k).1 = i + 0x81 := by
  obtain ⟨st, cc, pt, rt⟩ := k
  rw [KEY_MAX_NUM_eq] at hi
  have h1 : u8 (i + 0x01) = i + 0x01 := u8_of_lt (by omega)
  have h2 : u8 (i + 0x51) = i + 0x51 := u8_of_lt (by omega)
  have h3 : u8 (i + 0x81) = i + 0x81 := u8_of_lt (by omega)
  cases st <;> cases pressed <;> simp only [key_scan_switch, h1, h2, h3] <;> split_ifs <;>
    simp

theorem drv_get_key_val_loop_result (gpio : Nat → gpio_port → Nat → FlagStatus)
    (tick : Nat → Nat) :
    ∀ (fuel i res : Nat) (ks : List key_info_t) (polled : List Nat),
      ks.length = KEY_MAX_NUM → i ≤ KEY_MAX_NUM → KEY_MAX_NUM - i < fuel →
      (res = 0x00 ∨ (0x01 ≤ res ∧ res ≤ 0x04) ∨ (0x51 ≤ res ∧ res ≤ 0x54) ∨
        (0x81 ≤ res ∧ res ≤ 0x84)) →
      ∃ r ks1 polled1, drv_get_key_val_loop gpio tick fuel i res ks polled
          = some (r, ks1, polled1) ∧
        (r = 0x00 ∨ (0x01 ≤ r ∧ r ≤ 0x04) ∨ (0x51 ≤ r ∧ r ≤ 0x54) ∨
          (0x81 ≤ r ∧ r ≤ 0x84)) := by
  intro fuel
  induction fuel with
  | zero => intro i res ks polled _ _ h; omega
  | succ fuel ih =>
    intro i res ks polled hlen hi hfuel hres
    by_cases hlt : i < KEY_MAX_NUM
    · obtain ⟨k, hk, _⟩ := getElem?_of_lt_length (by rw [hlen]; exact hlt : i < ks.length)
      have hi4 : i < 4 := hlt
      by_cases hr : (key_scan_switch i (key_asserted (gpio polled.length) i)
          (tick polled.length) k).1 = 0
      · rw [drv_get_key_val_loop_zero gpio tick fuel i res ks polled k hlt hk hr]
        have hu : u8 (i + 1) = i + 1 := u8_of_lt (by omega)
        rw [hu]
        exact ih (i + 1) 0 _ _ (by rw [List.length_set]; exact hlen) hlt (by omega)
          (Or.inl rfl)
      · rw [drv_get_key_val_loop_event gpio tick fuel i res ks polled k hlt hk hr]
        refine ⟨_, _, _, rfl, ?_⟩
        rcases switch_result_cases i hlt (key_asserted (gpio polled.length) i)
          (tick polled.length) k with h | h | h | h <;> rw [h] <;> omega
    · rw [drv_get_key_val_loop_done gpio tick fuel i res ks polled hlt]
      exact ⟨_, _, _, rfl, hres⟩

/-- C10: event byte encoding.  For a valid index `i`, `key_scan` returns one of `0x00`,
`i + 0x01`, `i + 0x51`, `i + 0x81`, never `0xFF`; so the result of `drv_get_key_val`
is `0x00` or lies in `0x01..0x04`, `0x51..0x54` or `0x81..0x84`; and an event byte
`j + c` with `j < KEY_MAX_NUM` and class offset `c` among `0x01`, `0x51`, `0x81` is
never 0 and determines both `j` and `c`. -/
theorem event_encoding (i : Nat) (hi : i < KEY_MAX_NUM)
    (g : gpio_port → Nat → FlagStatus) (now : Nat)
    (gpio : Nat → gpio_port → Nat → FlagStatus) (tick : Nat → Nat)
    (ks : List key_info_t) (hlen : ks.length = KEY_MAX_NUM) :
    (∃ r ks1, key_scan g now ks i = some (r, ks1) ∧
      (r = 0x00 ∨ r = i + 0x01 ∨ r = i + 0x51 ∨ r = i + 0x81) ∧ r ≠ 0xFF) ∧
    (∃ r ks1 polled, drv_get_key_val gpio tick ks = some (r, ks1, polled) ∧
      (r = 0x00 ∨ (0x01 ≤ r ∧ r ≤ 0x04) ∨ (0x51 ≤ r ∧ r ≤ 0x54) ∨
        (0x81 ≤ r ∧ r ≤ 0x84))) ∧
    (∀ j1 j2 c1 c2 : Nat, j1 < KEY_MAX_NUM → j2 < KEY_MAX_NUM →
      c1 ∈ [0x01, 0x51, 0x81] → c2 ∈ [0x01, 0x51, 0x81] →
      (j1 + c1 ≠ 0 ∧ (j1 + c1 = j2 + c2 → j1 = j2 ∧ c1 = c2))) := by
  have hi4 : i < 4 := hi
  refine ⟨?_, ?_, ?_⟩
  · obtain ⟨k, hk, _⟩ := getElem?_of_lt_length (by rw [hlen]; exact hi : i < ks.length)
    refine ⟨_, _, key_scan_of_lt hi hk, switch_result_cases i hi _ now k, ?_⟩
    rcases switch_result_cases i hi (key_asserted g i) now k with h | h | h | h <;>
      rw [h] <;> omega
  · exact drv_get_key_val_loop_result gpio tick (KEY_MAX_NUM + 1) 0 0 ks [] hlen
      (Nat.zero_le _) (by omega) (Or.inl rfl)
  · intro j1 j2 c1 c2 h1 h2 hc1 hc2
    have h1' : j1 < 4 := h1
    have h2' : j2 < 4 := h2
    simp only [List.mem_cons, List.mem_singleton, List.not_mem_nil, or_false] at hc1 hc2
    omega

/-- Witness for C10: button 0 of the zero-initialised array. -/
theorem event_encoding_witness :
    (∃ r ks1, key_scan (fun _ _ => FlagStatus.RESET) 7 g_key_info_init 0 = some (r, ks1) ∧
      (r = 0x00 ∨ r = 0 + 0x01 ∨ r = 0 + 0x51 ∨ r = 0 + 0x81) ∧ r ≠ 0xFF) ∧
    (∃ r ks1 polled, drv_get_key_val (fun _ _ _ => FlagStatus.RESET) (fun _ => 7)
        g_key_info_init = some (r, ks1, polled) ∧
      (r = 0x00 ∨ (0x01 ≤ r ∧ r ≤ 0x04) ∨ (0x51 ≤ r ∧ r ≤ 0x54) ∨
        (0x81 ≤ r ∧ r ≤ 0x84))) ∧
    (∀ j1 j2 c1 c2 : Nat, j1 < KEY_MAX_NUM → j2 < KEY_MAX_NUM →
      c1 ∈ [0x01, 0x51, 0x81] → c2 ∈ [0x01, 0x51, 0x81] →
      (j1 + c1 ≠ 0 ∧ (j1 + c1 = j2 + c2 → j1 = j2 ∧ c1 = c2))) :=
  event_encoding 0 (by decide) (fun _ _ => FlagStatus.RESET) 7
    (fun _ _ _ => FlagStatus.RESET) (fun _ => 7) g_key_info_init rfl

/-! ## Scheduler: `task_tick_hook` -/

theorem TASK_COUNT_of_lt {tbl : List task_t} (h : tbl.length < 256) :
    TASK_COUNT tbl = tbl.length := u8_of_lt h

theorem task_getElem?_of_lt {tbl : List task_t} {i : Nat} (h : i < tbl.length) :
    ∃ t, tbl[i]? = some t ∧ t ∈ tbl :=
  ⟨tbl[i], List.getElem?_eq_getElem h, List.getElem_mem h⟩

/-- The loop of `task_tick_hook` from index `i` applies `task_tick_one` to every task with
index `≥ i` and leaves the others as they are. -/
theorem task_tick_hook_loop_spec (n : Nat) (hn : n < 256) :
    ∀ (fuel i : Nat) (tbl : List task_t), tbl.length = n → i ≤ n → n - i < fuel →
      ∃ tbl1, task_tick_hook_loop n fuel i tbl = some tbl1 ∧ tbl1.length = n ∧
        ∀ j, tbl1[j]? = if i ≤ j then (tbl[j]?).map task_tick_one else tbl[j]? := by
  intro fuel
  induction fuel with
  | zero => intro i tbl _ _ h; omega
  | succ fuel ih =>
    intro i tbl hlen hi hfuel
    by_cases hlt : i < n
    · obtain ⟨t, ht, _⟩ := task_getElem?_of_lt (by rw [hlen]; exact hlt : i < tbl.length)
      have hu : u8 (i + 1) = i + 1 := u8_of_lt (by omega)
      by_cases hp : t.period_ticks = 0
      · obtain ⟨tbl1, h1, h2, h3⟩ := ih (i + 1) tbl hlen hlt (by omega)
        refine ⟨tbl1, ?_, h2, ?_⟩
        · simp only [task_tick_hook_loop, if_pos hlt, ht, if_pos hp, hu, h1]
        · intro j
          rw [h3 j]
          by_cases hj : i + 1 ≤ j
          · rw [if_pos hj, if_pos (by omega)]
          · rw [if_neg hj]
            by_cases hji : i ≤ j
            · have hje : j = i := by omega
              subst hje
              rw [if_pos hji, ht]
              simp [task_tick_one, hp]
            · rw [if_neg hji]
      · obtain ⟨tbl1, h1, h2, h3⟩ := ih (i + 1) (tbl.set i (task_tick_update t))
          (by rw [List.length_set]; exact hlen) hlt (by omega)
        refine ⟨tbl1, ?_, h2, ?_⟩
        · simp only [task_tick_hook_loop, if_pos hlt, ht, if_neg hp, hu, h1]
        · intro j
          rw [h3 j, List.getElem?_set]
          by_cases hj : i + 1 ≤ j
          · rw [if_pos hj, if_pos (show i ≤ j by omega), if_neg (show ¬ i = j by omega)]
          · rw [if_neg hj]
            by_cases hji : i ≤ j
            · have hje : i = j := by omega
              subst hje
              rw [if_pos hji, if_pos rfl, if_pos (by rw [hlen]; exact hlt), ht]
              simp [task_tick_one, hp]
            · rw [if_neg hji, if_neg (show ¬ i = j by omega)]
    · have hin : i = n := by omega
      refine ⟨tbl, ?_, hlen, ?_⟩
      · simp only [task_tick_hook_loop, if_neg hlt]
      · intro j
        by_cases hji : i ≤ j
        · rw [if_pos hji, List.getElem?_eq_none (by omega)]
          rfl
        · rw [if_neg hji]

/-- One call of `task_tick_hook` on a table that `TASK_COUNT` covers applies
`task_tick_one` to every task, changes nothing else and makes no call. -/
theorem task_tick_hook_eq {W : Type} (w : fw_state W) (hlen : w.g_task_table.length < 256) :
    task_tick_hook w
      = some ({ w with g_task_table := w.g_task_table.map task_tick_one }, []) := by
  obtain ⟨tbl1, h1, _, h3⟩ := task_tick_hook_loop_spec w.g_task_table.length hlen
    (w.g_task_table.length + 1) 0 w.g_task_table rfl (Nat.zero_le _) (by omega)
  have hmap : tbl1 = w.g_task_table.map task_tick_one := by
    apply List.ext_getElem?
    intro j
    rw [h3 j, if_pos (Nat.zero_le _), List.getElem?_map]
  simp only [task_tick_hook, TASK_COUNT_of_lt hlen, h1, hmap]

/-! ## Scheduler: `task_loop` -/

theorem task_call_set_ne (tbl : List task_t) (i j : Nat) (x : task_t) (h : i ≠ j) :
    task_call (tbl.set i x) j = task_call tbl j := by
  simp only [task_call, List.getElem?_set, if_neg h]

theorem task_call_fst {tbl : List task_t} {j : Nat} {c : Nat × fn_ptr}
    (h : task_call tbl j = some c) : c.1 = j := by
  unfold task_call at h
  cases ht : tbl[j]? with
  | none => simp [ht] at h
  | some t =>
    simp only [ht] at h
    by_cases hr : t.is_ready = true
    · rw [if_pos hr] at h
      cases hc : t.cb with
      | none => simp [hc] at h
      | some f =>
        simp only [hc, Option.map_some', Option.some.injEq] at h
        rw [← h]
    · rw [if_neg hr] at h
      exact Option.noConfusion h

theorem task_call_eq_some (tbl : List task_t) (j : Nat) (c : Nat × fn_ptr) :
    task_call tbl j = some c ↔
      ∃ t, tbl[j]? = some t ∧ t.is_ready = true ∧ t.cb = some c.2 ∧ c.1 = j := by
  obtain ⟨c1, c2⟩ := c
  unfold task_call
  cases ht : tbl[j]? with
  | none => simp
  | some t =>
    cases hr : t.is_ready <;> cases hc : t.cb <;> simp [hr, hc]
    constructor
    · rintro ⟨h1, h2⟩; exact ⟨h2, h1.symm⟩
    · rintro ⟨h1, h2⟩; exact ⟨h2.symm, h1⟩

/-- The loop of `task_loop` from index `i`, when the callbacks of the tasks still to be
visited are benign: it calls `task_call` for every index `≥ i` in ascending order and
clears the ready flag of these tasks. -/
theorem task_loop_loop_spec {W : Type} (extern_code : Nat → fw_state W → Option (fw_state W))
    (n : Nat) (hn : n < 256) :
    ∀ (fuel i : Nat) (w : fw_state W) (calls : List (Nat × fn_ptr)),
      w.g_task_table.length = n → i ≤ n → n - i < fuel →
      (∀ j t, i ≤ j → w.g_task_table[j]? = some t → ∀ f, t.cb = some f →
        cb_benign extern_code f) →
      ∃ w1, task_loop_loop extern_code n fuel i w calls
          = some (w1, calls ++ (List.range' i (n - i)).filterMap (task_call w.g_task_table)) ∧
        w1.g_task_table.length = n ∧
        ∀ j, w1.g_task_table[j]?
          = if i ≤ j then (w.g_task_table[j]?).map task_clear else w.g_task_table[j]? := by
  intro fuel
  induction fuel with
  | zero => intro i w calls _ _ h; omega
  | succ fuel ih =>
    intro i w calls hlen hi hfuel hb
    by_cases hlt : i < n
    · obtain ⟨t, ht, _⟩ :=
        task_getElem?_of_lt (by rw [hlen]; exact hlt : i < w.g_task_table.length)
      obtain ⟨r, tl, pt, c⟩ := t
      have hu : u8 (i + 1) = i + 1 := u8_of_lt (by omega)
      have hrange : List.range' i (n - i) = i :: List.range' (i + 1) (n - (i + 1)) := by
        have : n - i = (n - (i + 1)) + 1 := by omega
        rw [this, List.range'_succ]
      cases r with
      | true =>
        -- the flag is cleared
        have hcongr : ∀ (tbl2 : List task_t),
            tbl2 = w.g_task_table.set i ⟨false, tl, pt, c⟩ →
            (List.range' (i + 1) (n - (i + 1))).filterMap (task_call tbl2)
              = (List.range' (i + 1) (n - (i + 1))).filterMap (task_call w.g_task_table) := by
          intro tbl2 h2
          apply List.filterMap_congr
          intro j hj
          rw [List.mem_range'_1] at hj
          rw [h2, task_call_set_ne _ _ _ _ (show i ≠ j by omega)]
        have htab : ∀ (tbl2 : List task_t),
            tbl2 = w.g_task_table.set i ⟨false, tl, pt, c⟩ →
            ∀ j, (if i + 1 ≤ j then (tbl2[j]?).map task_clear else tbl2[j]?)
              = if i ≤ j then (w.g_task_table[j]?).map task_clear
                else w.g_task_table[j]? := by
          intro tbl2 h2 j
          rw [h2, List.getElem?_set]
          by_cases hj : i + 1 ≤ j
          · rw [if_pos hj, if_pos (show i ≤ j by omega), if_neg (show ¬ i = j by omega)]
          · rw [if_neg hj]
            by_cases hji : i ≤ j
            · have hje : i = j := by omega
              subst hje
              rw [if_pos hji, if_pos rfl, if_pos (by rw [hlen]; exact hlt), ht]
              rfl
            · rw [if_neg hji, if_neg (show ¬ i = j by omega)]
        cases c with
        | none =>
          obtain ⟨w1, h1, h2, h3⟩ := ih (i + 1)
            { w with g_task_table := w.g_task_table.set i ⟨false, tl, pt, none⟩ } calls
            (by simp only [List.length_set]; exact hlen) hlt (by omega)
            (by
              intro j t1 hj hj1 f hf
              simp only [List.getElem?_set, if_neg (show ¬ i = j by omega)] at hj1
              exact hb j t1 (by omega) hj1 f hf)
          simp only at h1 h3
          rw [hcongr _ rfl] at h1
          refine ⟨w1, ?_, h2, ?_⟩
          · have hcall : task_call w.g_task_table i = none := by
              simp [task_call, ht]
            simp only [task_loop_loop, if_pos hlt, ht, if_true, hu, h1, hrange,
              List.filterMap_cons, hcall]
          · intro j
            rw [h3 j]
            exact htab _ rfl j
        | some f =>
          obtain ⟨w2, hw2, hw2t⟩ := hb i _ (Nat.le_refl i) ht f rfl
            { w with g_task_table := w.g_task_table.set i ⟨false, tl, pt, some f⟩ }
          simp only at hw2t
          obtain ⟨w1, h1, h2, h3⟩ := ih (i + 1) w2 (calls ++ [(i, f)])
            (by rw [hw2t, List.length_set]; exact hlen) hlt (by omega)
            (by
              intro j t1 hj hj1 f1 hf1
              rw [hw2t] at hj1
              simp only [List.getElem?_set, if_neg (show ¬ i = j by omega)] at hj1
              exact hb j t1 (by omega) hj1 f1 hf1)
          rw [hcongr _ hw2t] at h1
          refine ⟨w1, ?_, h2, ?_⟩
          · have hcall : task_call w.g_task_table i = some (i, f) := by
              simp [task_call, ht]
            simp only [task_loop_loop, if_pos hlt, ht, if_true, hu, hw2, h1, hrange,
              List.filterMap_cons, hcall, List.append_assoc, List.singleton_append]
          · intro j
            rw [h3 j]
            exact htab _ hw2t j
      | false =>
        -- not ready: the task is skipped
        obtain ⟨w1, h1, h2, h3⟩ := ih (i + 1) w calls hlen hlt (by omega)
          (fun j t1 hj => hb j t1 (by omega))
        refine ⟨w1, ?_, h2, ?_⟩
        · have hcall : task_call w.g_task_table i = none := by
            simp [task_call, ht]
          simp [task_loop_loop, hlt, ht, hu, h1, hrange, List.filterMap_cons, hcall]
        · intro j
          rw [h3 j]
          by_cases hj : i + 1 ≤ j
          · rw [if_pos hj, if_pos (show i ≤ j by omega)]
          · rw [if_neg hj]
            by_cases hji : i ≤ j
            · have hje : j = i := by omega
              subst hje
              rw [if_pos hji, ht]
              rfl
            · rw [if_neg hji]
    · have hin : i = n := by omega
      refine ⟨w, ?_, hlen, ?_⟩
      · subst hin
        simp [task_loop_loop]
      · intro j
        by_cases hji : i ≤ j
        · rw [if_pos hji, List.getElem?_eq_none (by omega)]
          rfl
        · rw [if_neg hji]

theorem cbs_benign_getElem {W : Type} {extern_code : Nat → fw_state W → Option (fw_state W)}
    {tbl : List task_t} (hb : cbs_benign extern_code tbl) {j : Nat} {t : task_t}
    (ht : tbl[j]? = some t) {f : fn_ptr} (hf : t.cb = some f) : cb_benign extern_code f := by
  have hj : j < tbl.length := by
    by_contra h
    rw [List.getElem?_eq_none (Nat.le_of_not_lt h)] at ht
    exact Option.noConfusion ht
  have hmem : t ∈ tbl := by
    rw [List.getElem?_eq_getElem hj] at ht
    rw [← Option.some.inj ht]
    exact List.getElem_mem hj
  exact hb t hmem f hf

/-- One call of `task_loop` on a table that `TASK_COUNT` covers and whose callbacks are
benign: the calls made are `task_call` of the indices in ascending order, and the table
afterwards is the old one with every ready flag cleared. -/
theorem task_loop_eq {W : Type} (extern_code : Nat → fw_state W → Option (fw_state W))
    (w : fw_state W) (hlen : w.g_task_table.length < 256)
    (hb : cbs_benign extern_code w.g_task_table) :
    ∃ w1, task_loop extern_code w
        = some (w1, (List.range w.g_task_table.length).filterMap (task_call w.g_task_table)) ∧
      w1.g_task_table = w.g_task_table.map task_clear := by
  obtain ⟨w1, h1, _, h3⟩ := task_loop_loop_spec extern_code w.g_task_table.length hlen
    (w.g_task_table.length + 1) 0 w [] rfl (Nat.zero_le _) (by omega)
    (fun j t _ ht f hf => cbs_benign_getElem hb ht hf)
  refine ⟨w1, ?_, ?_⟩
  · simp only [task_loop, TASK_COUNT_of_lt hlen, h1, List.nil_append, Nat.sub_zero,
      List.range_eq_range']
  · apply List.ext_getElem?
    intro j
    rw [h3 j, if_pos (Nat.zero_le _), List.getElem?_map]

/-- With no ready task the loop of `task_loop` calls nothing and changes nothing,
whatever the callbacks are. -/
theorem task_loop_loop_idle {W : Type} (extern_code : Nat → fw_state W → Option (fw_state W))
    (n : Nat) (hn : n < 256) (w : fw_state W) (calls : List (Nat × fn_ptr))
    (hlen : w.g_task_table.length = n)
    (hidle : ∀ t ∈ w.g_task_table, t.is_ready = false) :
    ∀ (fuel i : Nat), i ≤ n → n - i < fuel →
      task_loop_loop extern_code n fuel i w calls = some (w, calls) := by
  intro fuel
  induction fuel with
  | zero => intro i _ h; omega
  | succ fuel ih =>
    intro i hi hfuel
    by_cases hlt : i < n
    · obtain ⟨t, ht, hmem⟩ :=
        task_getElem?_of_lt (by rw [hlen]; exact hlt : i < w.g_task_table.length)
      have hu : u8 (i + 1) = i + 1 := u8_of_lt (by omega)
      have hr := hidle t hmem
      simp [task_loop_loop, hlt, ht, hr, hu, ih (i + 1) hlt (by omega)]
    · simp [task_loop_loop, hlt]

theorem task_calls_mem (tbl : List task_t) (c : Nat × fn_ptr) :
    c ∈ (List.range tbl.length).filterMap (task_call tbl) ↔
      ∃ t, tbl[c.1]? = some t ∧ t.is_ready = true ∧ t.cb = some c.2 := by
  rw [List.mem_filterMap]
  constructor
  · rintro ⟨j, _, hj⟩
    obtain ⟨t, h1, h2, h3, h4⟩ := (task_call_eq_some tbl j c).mp hj
    exact ⟨t, by rw [h4]; exact h1, h2, h3⟩
  · rintro ⟨t, h1, h2, h3⟩
    have hlt : c.1 < tbl.length := by
      by_contra h
      rw [List.getElem?_eq_none (Nat.le_of_not_lt h)] at h1
      exact Option.noConfusion h1
    exact ⟨c.1, List.mem_range.mpr hlt, (task_call_eq_some tbl c.1 c).mpr ⟨t, h1, h2, h3, rfl⟩⟩

theorem task_calls_pairwise (tbl : List task_t) :
    ((List.range tbl.length).filterMap (task_call tbl)).Pairwise (fun a b => a.1 < b.1) := by
  apply List.Pairwise.filterMap (task_call tbl) _ (List.pairwise_lt_range tbl.length)
  intro a a1 haa b hb b1 hb1
  rw [task_call_fst (Option.mem_def.mp hb), task_call_fst (Option.mem_def.mp hb1)]
  exact haa

theorem filter_index_nil (l : List (Nat × fn_ptr)) (i : Nat)
    (h : ∀ c ∈ l, c.1 ≠ i) : l.filter (fun c => decide (c.1 = i)) = [] := by
  rw [List.filter_eq_nil_iff]
  intro c hc
  simpa using h c hc

/-- In a list of calls with strictly ascending indices, the calls for index `i` are a
single one. -/
theorem filter_index_unique (i : Nat) (f : fn_ptr) :
    ∀ (l : List (Nat × fn_ptr)), l.Pairwise (fun a b => a.1 < b.1) → (i, f) ∈ l →
      l.filter (fun c => decide (c.1 = i)) = [(i, f)] := by
  intro l
  induction l with
  | nil => intro _ h; exact absurd h (List.not_mem_nil _)
  | cons x xs ih =>
    intro hp hm
    rw [List.pairwise_cons] at hp
    obtain ⟨hx, hxs⟩ := hp
    by_cases hxi : x.1 = i
    · have hxe : x = (i, f) := by
        rcases List.mem_cons.mp hm with h | h
        · exact h.symm
        · have := hx (i, f) h
          simp only at this
          omega
      have hnil : xs.filter (fun c => decide (c.1 = i)) = [] := by
        apply filter_index_nil
        intro c hc
        have := hx c hc
        omega
      rw [List.filter_cons, if_pos (by simpa using hxi), hnil, hxe]
    · have hm1 : (i, f) ∈ xs := by
        rcases List.mem_cons.mp hm with h | h
        · rw [← h] at hxi
          exact absurd rfl hxi
        · exact h
      rw [List.filter_cons, if_neg (by simpa using hxi)]
      exact ih hxs hm1

theorem task_clear_is_ready (tbl : List task_t) :
    ∀ t ∈ tbl.map task_clear, t.is_ready = false := by
  intro t ht
  rw [List.mem_map] at ht
  obtain ⟨t0, _, h⟩ := ht
  rw [← h]
  rfl

/-! ## Scheduler: repeated ticks -/

theorem succ_mod_cases (n P : Nat) (hP : 1 ≤ P) :
    (n % P + 1 = P ∧ (n + 1) % P = 0) ∨ (n % P + 1 < P ∧ (n + 1) % P = n % P + 1) := by
  have hr : n % P < P := Nat.mod_lt n (by omega)
  have hn : P * (n / P) + n % P = n := Nat.div_add_mod n P
  by_cases h : n % P + 1 = P
  · left
    refine ⟨h, ?_⟩
    have : n + 1 = P * (n / P + 1) := by
      rw [Nat.mul_add, Nat.mul_one]; omega
    rw [this, Nat.mul_mod_right]
  · right
    have hlt : n % P + 1 < P := by omega
    refine ⟨hlt, ?_⟩
    have : n + 1 = P * (n / P) + (n % P + 1) := by omega
    rw [this, Nat.mul_add_mod, Nat.mod_eq_of_lt hlt]

/-- State of a task of period `P ≥ 1` that starts with `ticks_left = P` and
`is_ready = false`, after `n` ticks and no drain. -/
theorem task_tick_one_iterate (P : Nat) (hP : 1 ≤ P) (cb : Option fn_ptr) :
    ∀ n : Nat, task_tick_one^[n] ⟨false, P, P, cb⟩ = ⟨decide (P ≤ n), P - n % P, P, cb⟩ := by
  intro n
  induction n with
  | zero =>
    have h0 : ¬ P ≤ 0 := by omega
    simp [h0]
  | succ n ih =>
    rw [Function.iterate_succ_apply', ih]
    have hr : n % P < P := Nat.mod_lt n (by omega)
    have hne : ¬ P = 0 := by omega
    have hpos : P - n % P > 0 := by omega
    rcases succ_mod_cases n P hP with ⟨h1, h2⟩ | ⟨h1, h2⟩
    · have hz : P - n % P - 1 = 0 := by omega
      have hle : P ≤ n + 1 := by
        have := Nat.mod_le n P
        omega
      simp [task_tick_one, task_tick_update, hne, hpos, hz, h2, hle]
    · have hz : ¬ P - n % P - 1 = 0 := by omega
      have hiff : decide (P ≤ n) = decide (P ≤ n + 1) := by
        by_cases hle : P ≤ n
        · simp [hle, Nat.le_succ_of_le hle]
        · have hlt : n < P := by omega
          have hmod : n % P = n := Nat.mod_eq_of_lt hlt
          have : ¬ P ≤ n + 1 := by omega
          simp [hle, this]
      simp only [task_tick_one, task_tick_update, if_neg hne, if_pos hpos, if_neg hz, h2, hiff]
      congr 1

/-- Any number of calls of `task_tick_hook` in a row: `task_tick_one` iterated on every
task, and no call. -/
theorem sched_run_ticks {W : Type} (extern_code : Nat → fw_state W → Option (fw_state W)) :
    ∀ (n : Nat) (w : fw_state W), w.g_task_table.length < 256 →
      sched_run extern_code (List.replicate n sched_op.tick) w
        = some ({ w with g_task_table := w.g_task_table.map (task_tick_one^[n]) }, []) := by
  intro n
  induction n with
  | zero =>
    intro w _
    simp [sched_run]
  | succ n ih =>
    intro w hlen
    have h1 := ih { w with g_task_table := w.g_task_table.map task_tick_one }
      (by simpa using hlen)
    simp only [List.replicate_succ, sched_run, task_tick_hook_eq w hlen, h1, List.map_map,
      List.nil_append]
    rfl

/-! ## Scheduler: the claims on `task_tick_hook` -/

theorem map_getElem?_some {tbl : List task_t} {g : task_t → task_t} {i : Nat} {t : task_t}
    (ht : tbl[i]? = some t) : (tbl.map g)[i]? = some (g t) := by
  rw [List.getElem?_map, ht]
  rfl

/-- C11: scheduler tick.  For every task table (that `TASK_COUNT`, a `uint8_t`, covers),
`task_tick_hook` returns, makes no call, leaves the tick counter, the registered hook and
the rest of the state unchanged, and transforms each task `t` with `period_ticks ≠ 0` as
follows: with `d` the value of `ticks_left` decremented by 1 if it is `> 0`, if `d = 0`
then `is_ready` becomes true and `ticks_left` becomes `period_ticks`, otherwise
`is_ready` is unchanged and `ticks_left` becomes `d`.  `period_ticks` and `cb` of every
task, whatever its period, are unchanged. -/
theorem scheduler_tick {W : Type} (w : fw_state W) (hlen : w.g_task_table.length < 256) :
    ∃ w1, task_tick_hook w = some (w1, []) ∧
      w1.g_sys_tick_count = w.g_sys_tick_count ∧ w1.p_sys_callback = w.p_sys_callback ∧
      w1.ext = w.ext ∧ w1.g_task_table.length = w.g_task_table.length ∧
      ∀ (i : Nat) (t : task_t), w.g_task_table[i]? = some t →
        ∃ t1 : task_t, w1.g_task_table[i]? = some t1 ∧
          t1.period_ticks = t.period_ticks ∧ t1.cb = t.cb ∧
          (t.period_ticks ≠ 0 →
            ((if t.ticks_left > 0 then t.ticks_left - 1 else t.ticks_left) = 0 →
              t1.is_ready = true ∧ t1.ticks_left = t.period_ticks) ∧
            ((if t.ticks_left > 0 then t.ticks_left - 1 else t.ticks_left) ≠ 0 →
              t1.is_ready = t.is_ready ∧
              t1.ticks_left = (if t.ticks_left > 0 then t.ticks_left - 1 else t.ticks_left))) := by
  refine ⟨_, task_tick_hook_eq w hlen, rfl, rfl, rfl, by simp, ?_⟩
  intro i t ht
  refine ⟨task_tick_one t, map_getElem?_some ht, ?_, ?_, ?_⟩
  · obtain ⟨r, tl, pt, c⟩ := t
    simp only [task_tick_one, task_tick_update]
    split_ifs <;> rfl
  · obtain ⟨r, tl, pt, c⟩ := t
    simp only [task_tick_one, task_tick_update]
    split_ifs <;> rfl
  · intro hp
    obtain ⟨r, tl, pt, c⟩ := t
    simp only at hp
    by_cases hpos : tl > 0
    · by_cases hz : tl - 1 = 0
      · simp [task_tick_one, task_tick_update, hp, hpos, hz]
      · simp [task_tick_one, task_tick_update, hp, hpos, hz]
    · have htl : tl = 0 := by omega
      subst htl
      simp [task_tick_one, task_tick_update, hp]

/-- Witness for C11: the initial table of `task.c`. -/
theorem scheduler_tick_witness :
    ∃ w1, task_tick_hook (⟨0, none, g_task_table_init, ()⟩ : fw_state Unit) = some (w1, []) ∧
      w1.g_sys_tick_count = (⟨0, none, g_task_table_init, ()⟩ : fw_state Unit).g_sys_tick_count ∧
      w1.p_sys_callback = (⟨0, none, g_task_table_init, ()⟩ : fw_state Unit).p_sys_callback ∧
      w1.ext = (⟨0, none, g_task_table_init, ()⟩ : fw_state Unit).ext ∧
      w1.g_task_table.length
        = (⟨0, none, g_task_table_init, ()⟩ : fw_state Unit).g_task_table.length ∧
      ∀ (i : Nat) (t : task_t),
        (⟨0, none, g_task_table_init, ()⟩ : fw_state Unit).g_task_table[i]? = some t →
        ∃ t1 : task_t, w1.g_task_table[i]? = some t1 ∧
          t1.period_ticks = t.period_ticks ∧ t1.cb = t.cb ∧
          (t.period_ticks ≠ 0 →
            ((if t.ticks_left > 0 then t.ticks_left - 1 else t.ticks_left) = 0 →
              t1.is_ready = true ∧ t1.ticks_left = t.period_ticks) ∧
            ((if t.ticks_left > 0 then t.ticks_left - 1 else t.ticks_left) ≠ 0 →
              t1.is_ready = t.is_ready ∧
              t1.ticks_left = (if t.ticks_left > 0 then t.ticks_left - 1 else t.ticks_left))) :=
  scheduler_tick ⟨0, none, g_task_table_init, ()⟩ (by decide)

/-- C17: countdown monotonicity.  For every task with `period_ticks ≠ 0` of a table that
`TASK_COUNT` covers, a call of `task_tick_hook` either decreases `ticks_left` by exactly 1
and leaves `is_ready` as it is, or sets `is_ready = true` and reloads `ticks_left` to
`period_ticks`; so if `ticks_left` is larger after the tick than before, the tick has
raised `is_ready` and reloaded. -/
theorem countdown_monotone {W : Type} (w : fw_state W) (hlen : w.g_task_table.length < 256)
    (i : Nat) (t : task_t) (ht : w.g_task_table[i]? = some t) (hp : t.period_ticks ≠ 0) :
    ∃ w1 t1, task_tick_hook w = some (w1, []) ∧ w1.g_task_table[i]? = some t1 ∧
      ((t1.ticks_left + 1 = t.ticks_left ∧ t1.is_ready = t.is_ready) ∨
        (t1.is_ready = true ∧ t1.ticks_left = t.period_ticks)) ∧
      (t.ticks_left < t1.ticks_left →
        t1.is_ready = true ∧ t1.ticks_left = t.period_ticks) ∧
      (¬ (t1.is_ready = true ∧ t1.ticks_left = t.period_ticks) →
        t1.ticks_left < t.ticks_left) := by
  refine ⟨_, task_tick_one t, task_tick_hook_eq w hlen, map_getElem?_some ht, ?_⟩
  obtain ⟨r, tl, pt, c⟩ := t
  simp only at hp
  by_cases hpos : tl > 0
  · by_cases hz : tl - 1 = 0
    · simp [task_tick_one, task_tick_update, hp, hpos, hz]
    · simp only [task_tick_one, task_tick_update, if_neg hp, if_pos hpos, if_neg hz]
      refine ⟨Or.inl ⟨by omega, trivial⟩, fun h => by omega, fun _ => by omega⟩
  · have htl : tl = 0 := by omega
    subst htl
    simp [task_tick_one, task_tick_update, hp]

/-- Witness for C17: the KEY task (index 1, period 5) of the initial table. -/
theorem countdown_monotone_witness :
    ∃ w1 t1, task_tick_hook (⟨0, none, g_task_table_init, ()⟩ : fw_state Unit) = some (w1, []) ∧
      w1.g_task_table[1]? = some t1 ∧
      ((t1.ticks_left + 1 = (⟨false, 5, 5, some (fn_ptr.extern_fn 1)⟩ : task_t).ticks_left ∧
          t1.is_ready = (⟨false, 5, 5, some (fn_ptr.extern_fn 1)⟩ : task_t).is_ready) ∨
        (t1.is_ready = true ∧
          t1.ticks_left = (⟨false, 5, 5, some (fn_ptr.extern_fn 1)⟩ : task_t).period_ticks)) ∧
      ((⟨false, 5, 5, some (fn_ptr.extern_fn 1)⟩ : task_t).ticks_left < t1.ticks_left →
        t1.is_ready = true ∧
          t1.ticks_left = (⟨false, 5, 5, some (fn_ptr.extern_fn 1)⟩ : task_t).period_ticks) ∧
      (¬ (t1.is_ready = true ∧
          t1.ticks_left = (⟨false, 5, 5, some (fn_ptr.extern_fn 1)⟩ : task_t).period_ticks) →
        t1.ticks_left < (⟨false, 5, 5, some (fn_ptr.extern_fn 1)⟩ : task_t).ticks_left) :=
  countdown_monotone ⟨0, none, g_task_table_init, ()⟩ (by decide) 1
    ⟨false, 5, 5, some (fn_ptr.extern_fn 1)⟩ rfl (by decide)

/-! ## Scheduler: the claims on `task_loop` -/

theorem task_tick_one_cb (t : task_t) : (task_tick_one t).cb = t.cb := by
  obtain ⟨r, tl, pt, c⟩ := t
  simp only [task_tick_one, task_tick_update]
  split_ifs <;> rfl

theorem cbs_benign_map {W : Type} {extern_code : Nat → fw_state W → Option (fw_state W)}
    {tbl : List task_t} (g : task_t → task_t) (hg : ∀ t, (g t).cb = t.cb)
    (hb : cbs_benign extern_code tbl) : cbs_benign extern_code (tbl.map g) := by
  intro t ht f hf
  rw [List.mem_map] at ht
  obtain ⟨t0, ht0, h⟩ := ht
  rw [← h, hg t0] at hf
  exact hb t0 ht0 f hf

/-- External functions that return at once without touching the state are benign. -/
theorem cb_benign_skip {W : Type} (a : Nat) :
    cb_benign (fun (_ : Nat) (w : fw_state W) => some w) (fn_ptr.extern_fn a) :=
  fun w => ⟨w, rfl, rfl⟩

theorem cbs_benign_init {W : Type} :
    cbs_benign (fun (_ : Nat) (w : fw_state W) => some w) g_task_table_init := by
  intro t ht f hf
  simp only [g_task_table_init, List.mem_cons, List.mem_singleton, List.not_mem_nil,
    or_false] at ht
  rcases ht with h | h | h | h <;> subst h <;> simp only [Option.some.injEq] at hf <;>
    subst hf <;> exact cb_benign_skip _

/-- C12: scheduler drain.  For every task table (that `TASK_COUNT` covers) whose callbacks
return and do not modify the table, one call of `task_loop` returns; it calls `(i, f)`,
the callback `f` of the task with index `i`, exactly when that task was ready at entry
and `f` is its non-null callback; the calls are made in strictly ascending order of the
index, so each is made once; and on return every ready flag is false, the tasks being
otherwise unchanged. -/
theorem scheduler_drain {W : Type} (extern_code : Nat → fw_state W → Option (fw_state W))
    (w : fw_state W) (hlen : w.g_task_table.length < 256)
    (hb : cbs_benign extern_code w.g_task_table) :
    ∃ w1 calls, task_loop extern_code w = some (w1, calls) ∧
      (∀ (i : Nat) (f : fn_ptr), (i, f) ∈ calls ↔
        ∃ t : task_t, w.g_task_table[i]? = some t ∧ t.is_ready = true ∧ t.cb = some f) ∧
      calls.Pairwise (fun a b => a.1 < b.1) ∧
      (∀ t1 ∈ w1.g_task_table, t1.is_ready = false) ∧
      w1.g_task_table = w.g_task_table.map (fun t => { t with is_ready := false }) := by
  obtain ⟨w1, h1, h2⟩ := task_loop_eq extern_code w hlen hb
  refine ⟨w1, _, h1, ?_, task_calls_pairwise _, ?_, h2⟩
  · intro i f
    exact task_calls_mem w.g_task_table (i, f)
  · rw [h2]
    exact task_clear_is_ready _

/-- Witness for C12: the initial table with the KEY task and the watchdog task ready, and
callbacks that return at once. -/
theorem scheduler_drain_witness :
    ∃ w1 calls, task_loop (fun (_ : Nat) (w : fw_state Unit) => some w)
        ⟨7, none, [⟨false, 93, 100, some (fn_ptr.extern_fn 0)⟩,
          ⟨true, 5, 5, some (fn_ptr.extern_fn 1)⟩, ⟨false, 93, 100, some (fn_ptr.extern_fn 2)⟩,
          ⟨true, 1000, 1000, some (fn_ptr.extern_fn 3)⟩], ()⟩ = some (w1, calls) ∧
      (∀ (i : Nat) (f : fn_ptr), (i, f) ∈ calls ↔
        ∃ t : task_t, (⟨7, none, [⟨false, 93, 100, some (fn_ptr.extern_fn 0)⟩,
          ⟨true, 5, 5, some (fn_ptr.extern_fn 1)⟩, ⟨false, 93, 100, some (fn_ptr.extern_fn 2)⟩,
          ⟨true, 1000, 1000, some (fn_ptr.extern_fn 3)⟩], ()⟩ : fw_state Unit).g_task_table[i]?
            = some t ∧ t.is_ready = true ∧ t.cb = some f) ∧
      calls.Pairwise (fun a b => a.1 < b.1) ∧
      (∀ t1 ∈ w1.g_task_table, t1.is_ready = false) ∧
      w1.g_task_table = (⟨7, none, [⟨false, 93, 100, some (fn_ptr.extern_fn 0)⟩,
          ⟨true, 5, 5, some (fn_ptr.extern_fn 1)⟩, ⟨false, 93, 100, some (fn_ptr.extern_fn 2)⟩,
          ⟨true, 1000, 1000, some (fn_ptr.extern_fn 3)⟩], ()⟩ : fw_state Unit).g_task_table.map
            (fun t => { t with is_ready := false }) :=
  scheduler_drain (fun (_ : Nat) (w : fw_state Unit) => some w)
    ⟨7, none, [⟨false, 93, 100, some (fn_ptr.extern_fn 0)⟩,
      ⟨true, 5, 5, some (fn_ptr.extern_fn 1)⟩, ⟨false, 93, 100, some (fn_ptr.extern_fn 2)⟩,
      ⟨true, 1000, 1000, some (fn_ptr.extern_fn 3)⟩], ()⟩ (by decide)
    (by
      intro t ht f hf
      simp only [List.mem_cons, List.mem_singleton, List.not_mem_nil, or_false] at ht
      rcases ht with h | h | h | h <;> subst h <;> simp only [Option.some.injEq] at hf <;>
        subst hf <;> exact cb_benign_skip _)

/-- C14: drain with nothing ready.  For a table that `TASK_COUNT` covers: if no task is
ready, `task_loop` makes no call and returns the state unchanged, whatever the callbacks
are; consequently, when the callbacks return and do not modify the table, a second
`task_loop` right after a first one makes no call and changes nothing. -/
theorem drain_nothing_ready {W : Type} (extern_code : Nat → fw_state W → Option (fw_state W))
    (w : fw_state W) (hlen : w.g_task_table.length < 256) :
    ((∀ t ∈ w.g_task_table, t.is_ready = false) → task_loop extern_code w = some (w, [])) ∧
    (cbs_benign extern_code w.g_task_table →
      ∃ w1 calls, task_loop extern_code w = some (w1, calls) ∧
        task_loop extern_code w1 = some (w1, [])) := by
  have hidle : ∀ w0 : fw_state W, w0.g_task_table.length < 256 →
      (∀ t ∈ w0.g_task_table, t.is_ready = false) →
      task_loop extern_code w0 = some (w0, []) := by
    intro w0 hl h
    simp only [task_loop, TASK_COUNT_of_lt hl]
    exact task_loop_loop_idle extern_code _ hl w0 [] rfl h _ 0 (Nat.zero_le _) (by omega)
  refine ⟨hidle w hlen, ?_⟩
  intro hb
  obtain ⟨w1, h1, h2⟩ := task_loop_eq extern_code w hlen hb
  refine ⟨w1, _, h1, hidle w1 ?_ ?_⟩
  · rw [h2, List.length_map]; exact hlen
  · rw [h2]; exact task_clear_is_ready _

/-- Witness for C14: the initial table, in which no task is ready. -/
theorem drain_nothing_ready_witness :
    ((∀ t ∈ (⟨0, none, g_task_table_init, ()⟩ : fw_state Unit).g_task_table,
        t.is_ready = false) →
      task_loop (fun (_ : Nat) (w : fw_state Unit) => some w)
        ⟨0, none, g_task_table_init, ()⟩ = some (⟨0, none, g_task_table_init, ()⟩, [])) ∧
    (cbs_benign (fun (_ : Nat) (w : fw_state Unit) => some w)
        (⟨0, none, g_task_table_init, ()⟩ : fw_state Unit).g_task_table →
      ∃ w1 calls, task_loop (fun (_ : Nat) (w : fw_state Unit) => some w)
          ⟨0, none, g_task_table_init, ()⟩ = some (w1, calls) ∧
        task_loop (fun (_ : Nat) (w : fw_state Unit) => some w) w1 = some (w1, [])) :=
  drain_nothing_ready (fun (_ : Nat) (w : fw_state Unit) => some w)
    ⟨0, none, g_task_table_init, ()⟩ (by decide)

/-! ## Scheduler: missed ticks, disabled tasks, single-writer discipline -/

theorem task_tick_one_iterate_cb (n : Nat) (t : task_t) : (task_tick_one^[n] t).cb = t.cb := by
  induction n with
  | zero => rfl
  | succ n ih => rw [Function.iterate_succ_apply', task_tick_one_cb, ih]

/-- C13 (amended): missed-tick semantics.  In a table that `TASK_COUNT` covers and whose
callbacks return and do not modify the table, take a task with `period_ticks = P ≥ 1`,
`ticks_left = P` and `is_ready = false`.  After `n ≥ P` calls of `task_tick_hook` with no
`task_loop` in between, no callback has been called and the task has `is_ready = true`
and `ticks_left = P - n % P`: this is `P` after `P` ticks and after every further multiple
of `P`, and smaller in between.  A following `task_loop` then calls the task's callback
exactly once (not at all if it is null), whatever `n` is, and clears the flag. -/
theorem missed_tick {W : Type} (extern_code : Nat → fw_state W → Option (fw_state W))
    (w : fw_state W) (hlen : w.g_task_table.length < 256)
    (hb : cbs_benign extern_code w.g_task_table)
    (i P : Nat) (cb : Option fn_ptr) (hP : 1 ≤ P)
    (ht : w.g_task_table[i]? = some ⟨false, P, P, cb⟩) (n : Nat) (hn : P ≤ n) :
    ∃ w1, sched_run extern_code (List.replicate n sched_op.tick) w = some (w1, []) ∧
      w1.g_task_table[i]? = some ⟨true, P - n % P, P, cb⟩ ∧
      (n % P = 0 → w1.g_task_table[i]? = some ⟨true, P, P, cb⟩) ∧
      ∃ w2 calls, task_loop extern_code w1 = some (w2, calls) ∧
        w2.g_task_table[i]? = some ⟨false, P - n % P, P, cb⟩ ∧
        (∀ f, cb = some f → calls.filter (fun c => decide (c.1 = i)) = [(i, f)]) ∧
        (cb = none → calls.filter (fun c => decide (c.1 = i)) = []) := by
  have hrun := sched_run_ticks extern_code n w hlen
  have hti : (w.g_task_table.map (task_tick_one^[n]))[i]? = some ⟨true, P - n % P, P, cb⟩ := by
    rw [map_getElem?_some ht, task_tick_one_iterate P hP cb n]
    simp [hn]
  have hlen1 : (w.g_task_table.map (task_tick_one^[n])).length < 256 := by
    rw [List.length_map]; exact hlen
  have hb1 : cbs_benign extern_code (w.g_task_table.map (task_tick_one^[n])) :=
    cbs_benign_map _ (task_tick_one_iterate_cb n) hb
  obtain ⟨w2, h1, h2⟩ := task_loop_eq extern_code
    { w with g_task_table := w.g_task_table.map (task_tick_one^[n]) } hlen1 hb1
  refine ⟨_, hrun, hti, ?_, w2, _, h1, ?_, ?_, ?_⟩
  · intro hmod
    rw [hti, hmod, Nat.sub_zero]
  · rw [h2]
    exact map_getElem?_some hti
  · intro f hf
    apply filter_index_unique i f _ (task_calls_pairwise _)
    rw [task_calls_mem]
    exact ⟨_, hti, rfl, hf⟩
  · intro hnone
    apply filter_index_nil
    intro c hc hci
    rw [task_calls_mem] at hc
    obtain ⟨t, h3, _, h5⟩ := hc
    simp only at h3
    rw [hci, hti] at h3
    rw [← Option.some.inj h3] at h5
    simp only [hnone] at h5
    exact Option.noConfusion h5

/-- Witness for C13: the KEY task (index 1, period 5) of the initial table after 12 ticks
without a drain, with callbacks that return at once. -/
theorem missed_tick_witness :
    ∃ w1, sched_run (fun (_ : Nat) (w : fw_state Unit) => some w)
        (List.replicate 12 sched_op.tick) ⟨0, none, g_task_table_init, ()⟩ = some (w1, []) ∧
      w1.g_task_table[1]? = some ⟨true, 5 - 12 % 5, 5, some (fn_ptr.extern_fn 1)⟩ ∧
      (12 % 5 = 0 → w1.g_task_table[1]? = some ⟨true, 5, 5, some (fn_ptr.extern_fn 1)⟩) ∧
      ∃ w2 calls, task_loop (fun (_ : Nat) (w : fw_state Unit) => some w) w1
          = some (w2, calls) ∧
        w2.g_task_table[1]? = some ⟨false, 5 - 12 % 5, 5, some (fn_ptr.extern_fn 1)⟩ ∧
        (∀ f, some (fn_ptr.extern_fn 1) = some f →
          calls.filter (fun c => decide (c.1 = 1)) = [(1, f)]) ∧
        (some (fn_ptr.extern_fn 1) = none → calls.filter (fun c => decide (c.1 = 1)) = []) :=
  missed_tick (fun (_ : Nat) (w : fw_state Unit) => some w) ⟨0, none, g_task_table_init, ()⟩
    (by decide) cbs_benign_init 1 5 (some (fn_ptr.extern_fn 1)) (by decide) rfl 12 (by decide)

/-- Counterexample to C13 as stated (`ticks_left = P` after any further ticks): in the
initial table the KEY task has `P = 5`; after 6 calls of `task_tick_hook` without a drain
it is ready with `ticks_left = 4`, not 5. -/
theorem missed_tick_further_counterexample :
    (sched_run (fun (_ : Nat) (w : fw_state Unit) => some w) (List.replicate 6 sched_op.tick)
        ⟨0, none, g_task_table_init, ()⟩).map (fun r => r.1.g_task_table[1]?)
      = some (some ⟨true, 4, 5, some (fn_ptr.extern_fn 1)⟩) := by
  decide

/-- A task with `period_ticks = 0` and `is_ready = false` is neither changed nor called by
any sequence of `task_tick_hook` and `task_loop` calls. -/
theorem sched_run_disabled {W : Type} (extern_code : Nat → fw_state W → Option (fw_state W))
    (i : Nat) (t : task_t) (hp : t.period_ticks = 0) (hr : t.is_ready = false) :
    ∀ (ops : List sched_op) (w : fw_state W), w.g_task_table.length < 256 →
      cbs_benign extern_code w.g_task_table → w.g_task_table[i]? = some t →
      ∃ w1 calls, sched_run extern_code ops w = some (w1, calls) ∧
        w1.g_task_table[i]? = some t ∧ ∀ c ∈ calls, c.1 ≠ i := by
  have hone : task_tick_one t = t := by simp [task_tick_one, hp]
  have hclear : task_clear t = t := by
    obtain ⟨r, tl, pt, c⟩ := t
    simp only at hr
    subst hr
    rfl
  intro ops
  induction ops with
  | nil =>
    intro w _ _ ht
    exact ⟨w, [], rfl, ht, fun c hc => absurd hc (List.not_mem_nil c)⟩
  | cons op ops ih =>
    intro w hlen hb ht
    cases op with
    | tick =>
      obtain ⟨w1, calls, h1, h2, h3⟩ :=
        ih { w with g_task_table := w.g_task_table.map task_tick_one }
          (by simpa using hlen) (cbs_benign_map _ task_tick_one_cb hb)
          (by rw [map_getElem?_some ht, hone])
      refine ⟨w1, calls, ?_, h2, h3⟩
      simp only [sched_run, task_tick_hook_eq w hlen, h1, List.nil_append]
    | loop =>
      obtain ⟨wl, hl1, hl2⟩ := task_loop_eq extern_code w hlen hb
      obtain ⟨w1, calls, h1, h2, h3⟩ := ih wl
        (by rw [hl2, List.length_map]; exact hlen)
        (by rw [hl2]; exact cbs_benign_map _ (fun _ => rfl) hb)
        (by rw [hl2, map_getElem?_some ht, hclear])
      refine ⟨w1, (List.range w.g_task_table.length).filterMap (task_call w.g_task_table)
        ++ calls, ?_, h2, ?_⟩
      · simp only [sched_run, hl1, h1]
      · intro c hc
        rcases List.mem_append.mp hc with h | h
        · intro hci
          rw [task_calls_mem] at h
          obtain ⟨t0, h4, h5, _⟩ := h
          rw [hci, ht] at h4
          rw [← Option.some.inj h4, hr] at h5
          exact Bool.noConfusion h5
        · exact h3 c h

/-- C15: disabled task.  In a table that `TASK_COUNT` covers, a task with
`period_ticks = 0` is left completely unchanged by `task_tick_hook` (all fields, also when
`ticks_left = 0`).  So, when it starts with `is_ready = false` and the callbacks return
and do not modify the table, after any sequence of `task_tick_hook` and `task_loop` calls
the task is still unchanged, with `is_ready = false`, and none of the `task_loop` calls
has called its callback. -/
theorem disabled_task {W : Type} (extern_code : Nat → fw_state W → Option (fw_state W))
    (w : fw_state W) (hlen : w.g_task_table.length < 256)
    (i : Nat) (t : task_t) (ht : w.g_task_table[i]? = some t) (hp : t.period_ticks = 0) :
    (∃ w1, task_tick_hook w = some (w1, []) ∧ w1.g_task_table[i]? = some t) ∧
    (t.is_ready = false → cbs_benign extern_code w.g_task_table →
      ∀ ops : List sched_op, ∃ w1 calls, sched_run extern_code ops w = some (w1, calls) ∧
        w1.g_task_table[i]? = some t ∧ ∀ c ∈ calls, c.1 ≠ i) := by
  constructor
  · refine ⟨_, task_tick_hook_eq w hlen, ?_⟩
    rw [map_getElem?_some ht]
    simp [task_tick_one, hp]
  · intro hr hb ops
    exact sched_run_disabled extern_code i t hp hr ops w hlen hb ht

/-- Witness for C15: a table whose second task is disabled with `ticks_left = 0`. -/
theorem disabled_task_witness :
    (∃ w1, task_tick_hook (⟨0, none, [⟨false, 100, 100, some (fn_ptr.extern_fn 0)⟩,
        ⟨false, 0, 0, some (fn_ptr.extern_fn 1)⟩], ()⟩ : fw_state Unit) = some (w1, []) ∧
      w1.g_task_table[1]? = some ⟨false, 0, 0, some (fn_ptr.extern_fn 1)⟩) ∧
    ((⟨false, 0, 0, some (fn_ptr.extern_fn 1)⟩ : task_t).is_ready = false →
      cbs_benign (fun (_ : Nat) (w : fw_state Unit) => some w)
        (⟨0, none, [⟨false, 100, 100, some (fn_ptr.extern_fn 0)⟩,
          ⟨false, 0, 0, some (fn_ptr.extern_fn 1)⟩], ()⟩ : fw_state Unit).g_task_table →
      ∀ ops : List sched_op, ∃ w1 calls,
        sched_run (fun (_ : Nat) (w : fw_state Unit) => some w) ops
          ⟨0, none, [⟨false, 100, 100, some (fn_ptr.extern_fn 0)⟩,
            ⟨false, 0, 0, some (fn_ptr.extern_fn 1)⟩], ()⟩ = some (w1, calls) ∧
        w1.g_task_table[1]? = some ⟨false, 0, 0, some (fn_ptr.extern_fn 1)⟩ ∧
        ∀ c ∈ calls, c.1 ≠ 1) :=
  disabled_task (fun (_ : Nat) (w : fw_state Unit) => some w)
    ⟨0, none, [⟨false, 100, 100, some (fn_ptr.extern_fn 0)⟩,
      ⟨false, 0, 0, some (fn_ptr.extern_fn 1)⟩], ()⟩ (by decide) 1
    ⟨false, 0, 0, some (fn_ptr.extern_fn 1)⟩ rfl rfl

theorem task_tick_one_keeps_ready (t : task_t) (h : t.is_ready = true) :
    (task_tick_one t).is_ready = true := by
  obtain ⟨r, tl, pt, c⟩ := t
  simp only at h
  subst h
  simp only [task_tick_one, task_tick_update]
  split_ifs <;> rfl

/-- C16: single-writer discipline.  For a table that `TASK_COUNT` covers:
`task_tick_hook` makes no callback call, and a task that is ready before it is ready
after it; `task_loop`, when the callbacks return and do not modify the table, leaves
`ticks_left`, `period_ticks` and `cb` of every task as they are, and a task that is not
ready before it is not ready after it. -/
theorem single_writer {W : Type} (extern_code : Nat → fw_state W → Option (fw_state W))
    (w : fw_state W) (hlen : w.g_task_table.length < 256)
    (hb : cbs_benign extern_code w.g_task_table) :
    (∃ w1, task_tick_hook w = some (w1, []) ∧
      ∀ (i : Nat) (t : task_t), w.g_task_table[i]? = some t → t.is_ready = true →
        ∃ t1 : task_t, w1.g_task_table[i]? = some t1 ∧ t1.is_ready = true) ∧
    (∃ w1 calls, task_loop extern_code w = some (w1, calls) ∧
      ∀ (i : Nat) (t : task_t), w.g_task_table[i]? = some t →
        ∃ t1 : task_t, w1.g_task_table[i]? = some t1 ∧ t1.ticks_left = t.ticks_left ∧
          t1.period_ticks = t.period_ticks ∧ t1.cb = t.cb ∧
          (t.is_ready = false → t1.is_ready = false)) := by
  constructor
  · refine ⟨_, task_tick_hook_eq w hlen, ?_⟩
    intro i t ht hr
    exact ⟨task_tick_one t, map_getElem?_some ht, task_tick_one_keeps_ready t hr⟩
  · obtain ⟨w1, h1, h2⟩ := task_loop_eq extern_code w hlen hb
    refine ⟨w1, _, h1, ?_⟩
    intro i t ht
    refine ⟨task_clear t, ?_, rfl, rfl, rfl, fun _ => rfl⟩
    rw [h2]
    exact map_getElem?_some ht

/-- Witness for C16: the initial table with the KEY task ready, and callbacks that return
at once. -/
theorem single_writer_witness :
    (∃ w1, task_tick_hook (⟨7, none, [⟨false, 93, 100, some (fn_ptr.extern_fn 0)⟩,
        ⟨true, 5, 5, some (fn_ptr.extern_fn 1)⟩], ()⟩ : fw_state Unit) = some (w1, []) ∧
      ∀ (i : Nat) (t : task_t),
        (⟨7, none, [⟨false, 93, 100, some (fn_ptr.extern_fn 0)⟩,
          ⟨true, 5, 5, some (fn_ptr.extern_fn 1)⟩], ()⟩ : fw_state Unit).g_task_table[i]?
            = some t → t.is_ready = true →
        ∃ t1 : task_t, w1.g_task_table[i]? = some t1 ∧ t1.is_ready = true) ∧
    (∃ w1 calls, task_loop (fun (_ : Nat) (w : fw_state Unit) => some w)
        ⟨7, none, [⟨false, 93, 100, some (fn_ptr.extern_fn 0)⟩,
          ⟨true, 5, 5, some (fn_ptr.extern_fn 1)⟩], ()⟩ = some (w1, calls) ∧
      ∀ (i : Nat) (t : task_t),
        (⟨7, none, [⟨false, 93, 100, some (fn_ptr.extern_fn 0)⟩,
          ⟨true, 5, 5, some (fn_ptr.extern_fn 1)⟩], ()⟩ : fw_state Unit).g_task_table[i]?
            = some t →
        ∃ t1 : task_t, w1.g_task_table[i]? = some t1 ∧ t1.ticks_left = t.ticks_left ∧
          t1.period_ticks = t.period_ticks ∧ t1.cb = t.cb ∧
          (t.is_ready = false → t1.is_ready = false)) :=
  single_writer (fun (_ : Nat) (w : fw_state Unit) => some w)
    ⟨7, none, [⟨false, 93, 100, some (fn_ptr.extern_fn 0)⟩,
      ⟨true, 5, 5, some (fn_ptr.extern_fn 1)⟩], ()⟩ (by decide)
    (by
      intro t ht f hf
      simp only [List.mem_cons, List.mem_singleton, List.not_mem_nil, or_false] at ht
      rcases ht with h | h <;> subst h <;> simp only [Option.some.injEq] at hf <;>
        subst hf <;> exact cb_benign_skip _)

/-! ## Time source: `SysTick_Handler` -/

/-- C20: time source.  A call of `SysTick_Handler` with no callback registered adds 1 to
`g_sys_tick_count` modulo `2^64`, changes nothing else and calls nothing.  With a
callback `f` registered whose call returns, the handler calls `f`, and only `f`, once,
on the state with the incremented counter.  After `task_init` the callback is
`task_tick_hook`: for a table that `TASK_COUNT` covers the handler returns, the call made
is the one of `task_tick_hook`, the table has made exactly one tick, and the value of
`sys_tick_get_runtime` has increased by exactly 1 modulo `2^64`: the new value minus the
old one is 1 in `uint64_t` arithmetic, and the new value is the old one plus 1 as long as
the counter does not wrap. -/
theorem time_source {W : Type} (extern_code : Nat → fw_state W → Option (fw_state W))
    (w : fw_state W) (hlen : w.g_task_table.length < 256) :
    (w.p_sys_callback = none →
      SysTick_Handler extern_code w
        = some ({ w with g_sys_tick_count := (w.g_sys_tick_count + 1) % 2 ^ 64 }, [])) ∧
    (∀ (f : fn_ptr) (w2 : fw_state W), w.p_sys_callback = some f →
      call_ptr extern_code f { w with g_sys_tick_count := (w.g_sys_tick_count + 1) % 2 ^ 64 }
        = some w2 →
      SysTick_Handler extern_code w = some (w2, [f])) ∧
    (∃ w1, SysTick_Handler extern_code (task_init w) = some (w1, [fn_ptr.task_tick_hook]) ∧
      task_tick_hook { task_init w with g_sys_tick_count := (w.g_sys_tick_count + 1) % 2 ^ 64 }
        = some (w1, []) ∧
      w1.g_task_table = w.g_task_table.map task_tick_one ∧
      sys_tick_get_runtime w1 = (sys_tick_get_runtime w + 1) % 2 ^ 64 ∧
      u64_sub (sys_tick_get_runtime w1) (sys_tick_get_runtime w) = 1 ∧
      (sys_tick_get_runtime w + 1 < 2 ^ 64 →
        sys_tick_get_runtime w1 = sys_tick_get_runtime w + 1)) := by
  refine ⟨?_, ?_, ?_⟩
  · intro h
    simp [SysTick_Handler, h]
  · intro f w2 h hcall
    rw [h] at hcall
    simp only [SysTick_Handler, h, hcall]
  · have hlen1 : ({ task_init w with
        g_sys_tick_count := (w.g_sys_tick_count + 1) % 2 ^ 64 } : fw_state W).g_task_table.length
        < 256 := hlen
    have hhook := task_tick_hook_eq _ hlen1
    refine ⟨_, ?_, hhook, rfl, rfl, ?_, ?_⟩
    · simp only [SysTick_Handler, task_init, sys_callback, call_ptr]
      simp only [task_init, sys_callback] at hhook
      rw [hhook]
      rfl
    · simp only [sys_tick_get_runtime, u64_sub]
      omega
    · intro h
      simp only [sys_tick_get_runtime] at h ⊢
      exact Nat.mod_eq_of_lt h

/-- Witness for C20: the initial table at time 41. -/
theorem time_source_witness :
    ((⟨41, none, g_task_table_init, ()⟩ : fw_state Unit).p_sys_callback = none →
      SysTick_Handler (fun (_ : Nat) (w : fw_state Unit) => some w)
          ⟨41, none, g_task_table_init, ()⟩
        = some ({ (⟨41, none, g_task_table_init, ()⟩ : fw_state Unit) with
            g_sys_tick_count :=
              ((⟨41, none, g_task_table_init, ()⟩ : fw_state Unit).g_sys_tick_count + 1)
                % 2 ^ 64 }, [])) ∧
    (∀ (f : fn_ptr) (w2 : fw_state Unit),
      (⟨41, none, g_task_table_init, ()⟩ : fw_state Unit).p_sys_callback = some f →
      call_ptr (fun (_ : Nat) (w : fw_state Unit) => some w) f
          { (⟨41, none, g_task_table_init, ()⟩ : fw_state Unit) with
            g_sys_tick_count :=
              ((⟨41, none, g_task_table_init, ()⟩ : fw_state Unit).g_sys_tick_count + 1)
                % 2 ^ 64 }
        = some w2 →
      SysTick_Handler (fun (_ : Nat) (w : fw_state Unit) => some w)
        ⟨41, none, g_task_table_init, ()⟩ = some (w2, [f])) ∧
    (∃ w1, SysTick_Handler (fun (_ : Nat) (w : fw_state Unit) => some w)
        (task_init ⟨41, none, g_task_table_init, ()⟩) = some (w1, [fn_ptr.task_tick_hook]) ∧
      task_tick_hook { task_init (⟨41, none, g_task_table_init, ()⟩ : fw_state Unit) with
          g_sys_tick_count :=
            ((⟨41, none, g_task_table_init, ()⟩ : fw_state Unit).g_sys_tick_count + 1)
              % 2 ^ 64 }
        = some (w1, []) ∧
      w1.g_task_table
        = (⟨41, none, g_task_table_init, ()⟩ : fw_state Unit).g_task_table.map task_tick_one ∧
      sys_tick_get_runtime w1
        = (sys_tick_get_runtime (⟨41, none, g_task_table_init, ()⟩ : fw_state Unit) + 1)
            % 2 ^ 64 ∧
      u64_sub (sys_tick_get_runtime w1)
        (sys_tick_get_runtime (⟨41, none, g_task_table_init, ()⟩ : fw_state Unit)) = 1 ∧
      (sys_tick_get_runtime (⟨41, none, g_task_table_init, ()⟩ : fw_state Unit) + 1 < 2 ^ 64 →
        sys_tick_get_runtime w1
          = sys_tick_get_runtime (⟨41, none, g_task_table_init, ()⟩ : fw_state Unit) + 1)) :=
  time_source (fun (_ : Nat) (w : fw_state Unit) => some w)
    ⟨41, none, g_task_table_init, ()⟩ (by decide)

/-! ## Key driver: poll frame and state graph -/

/-- C18: poll frame.  For a valid index `i`, `key_scan(i)` returns and leaves the array
element of every button `j ≠ i` (its `state`, `click_cnt`, `press_time` and
`release_time`) as it is; the array keeps its length. -/
theorem poll_frame (i : Nat) (hi : i < KEY_MAX_NUM)
    (g : gpio_port → Nat → FlagStatus) (now : Nat)
    (ks : List key_info_t) (k : key_info_t) (hk : ks[i]? = some k) :
    ∃ r ks1, key_scan g now ks i = some (r, ks1) ∧ ks1.length = ks.length ∧
      ∀ j, j ≠ i → ks1[j]? = ks[j]? := by
  refine ⟨_, _, key_scan_of_lt hi hk, List.length_set _ _ _, ?_⟩
  intro j hj
  rw [List.getElem?_set, if_neg (fun h => hj h.symm)]

/-- Witness for C18: a poll of button 2 that moves it to CONFIRM. -/
theorem poll_frame_witness :
    ∃ r ks1, key_scan (fun _ _ => FlagStatus.RESET) 10 g_key_info_init 2 = some (r, ks1) ∧
      ks1.length = g_key_info_init.length ∧
      ∀ j, j ≠ 2 → ks1[j]? = g_key_info_init[j]? :=
  poll_frame 2 (by decide) (fun _ _ => FlagStatus.RESET) 10 g_key_info_init
    ⟨key_state_t.KEY_STATE_RELEASE, 0, 0, 0⟩ rfl

theorem switch_state_edge (i : Nat) (pressed : Bool) (now : Nat) (k : key_info_t) :
    key_state_edge k.state (key_scan_switch i pressed now k).2.state = true := by
  obtain ⟨st, cc, pt, rt⟩ := k
  cases st <;> cases pressed <;> simp only [key_scan_switch] <;> split_ifs <;> rfl

theorem switch_deasserted_release (i : Nat) (now : Nat) (k : key_info_t) :
    (key_scan_switch i false now k).2.state = key_state_t.KEY_STATE_RELEASE := by
  obtain ⟨st, cc, pt, rt⟩ := k
  cases st <;> simp only [key_scan_switch] <;> split_ifs <;> first | rfl | simp_all

/-- Every edge of `key_state_edge` is made by some step of the state machine. -/
theorem switch_edge_exists (i : Nat) (s s1 : key_state_t) (h : key_state_edge s s1 = true) :
    ∃ (pressed : Bool) (now : Nat) (k : key_info_t),
      k.state = s ∧ (key_scan_switch i pressed now k).2.state = s1 := by
  cases s <;> cases s1 <;> first
    | exact absurd h (by decide)
    | exact ⟨false, 0, ⟨_, 0, 0, 0⟩, rfl, rfl⟩
    | exact ⟨true, 0, ⟨_, 0, 0, 0⟩, rfl, rfl⟩
    | exact ⟨true, 20, ⟨_, 0, 0, 0⟩, rfl, rfl⟩
    | exact ⟨true, 800, ⟨_, 0, 0, 0⟩, rfl, rfl⟩

theorem key_asserted_const (i : Nat) (hi : i < KEY_MAX_NUM) (pressed : Bool) :
    key_asserted (fun _ _ => if pressed then FlagStatus.RESET else FlagStatus.SET) i
      = pressed := by
  obtain ⟨pin, hpin⟩ := g_gpio_list_some hi
  cases pressed <;> simp [key_asserted, hpin]

/-- C19: state graph.  A call of `key_scan` for a valid index takes the state `s` of the
button to a state `s1` with `key_state_edge s s1`, that is RELEASE to RELEASE or CONFIRM,
CONFIRM to CONFIRM, PRESSING or RELEASE, PRESSING to PRESSING, LONG or RELEASE, LONG to
LONG or RELEASE; a poll with a deasserted level leaves the button in RELEASE from every
state; and each of these transitions is made by some call of `key_scan` for this index
(some level, time and contents of the button's array element). -/
theorem state_graph (i : Nat) (hi : i < KEY_MAX_NUM)
    (g : gpio_port → Nat → FlagStatus) (now : Nat)
    (ks : List key_info_t) (k : key_info_t) (hk : ks[i]? = some k) :
    (∃ r ks1 k1, key_scan g now ks i = some (r, ks1) ∧ ks1[i]? = some k1 ∧
      key_state_edge k.state k1.state = true ∧
      (key_asserted g i = false → k1.state = key_state_t.KEY_STATE_RELEASE)) ∧
    (∀ s s1 : key_state_t, key_state_edge s s1 = true →
      ∃ (g0 : gpio_port → Nat → FlagStatus) (now0 : Nat) (k0 : key_info_t) (r : Nat)
        (ks1 : List key_info_t) (k1 : key_info_t),
        k0.state = s ∧ key_scan g0 now0 (ks.set i k0) i = some (r, ks1) ∧
        ks1[i]? = some k1 ∧ k1.state = s1) := by
  constructor
  · refine ⟨_, _, _, key_scan_of_lt hi hk, getElem?_set_self hk,
      switch_state_edge i _ now k, ?_⟩
    intro ha
    rw [ha]
    exact switch_deasserted_release i now k
  · intro s s1 h
    obtain ⟨pressed, now0, k0, h1, h2⟩ := switch_edge_exists i s s1 h
    have hk0 : (ks.set i k0)[i]? = some k0 := getElem?_set_self hk
    refine ⟨fun _ _ => if pressed then FlagStatus.RESET else FlagStatus.SET, now0, k0, _, _, _,
      h1, key_scan_of_lt hi hk0, getElem?_set_self hk0, ?_⟩
    rw [key_asserted_const i hi pressed]
    exact h2

/-- Witness for C19: button 0 of the zero-initialised array polled with the level
asserted. -/
theorem state_graph_witness :
    (∃ r ks1 k1, key_scan (fun _ _ => FlagStatus.RESET) 10 g_key_info_init 0 = some (r, ks1) ∧
      ks1[0]? = some k1 ∧
      key_state_edge (⟨key_state_t.KEY_STATE_RELEASE, 0, 0, 0⟩ : key_info_t).state k1.state
        = true ∧
      (key_asserted (fun _ _ => FlagStatus.RESET) 0 = false →
        k1.state = key_state_t.KEY_STATE_RELEASE)) ∧
    (∀ s s1 : key_state_t, key_state_edge s s1 = true →
      ∃ (g0 : gpio_port → Nat → FlagStatus) (now0 : Nat) (k0 : key_info_t) (r : Nat)
        (ks1 : List key_info_t) (k1 : key_info_t),
        k0.state = s ∧ key_scan g0 now0 (g_key_info_init.set 0 k0) 0 = some (r, ks1) ∧
        ks1[0]? = some k1 ∧ k1.state = s1) :=
  state_graph 0 (by decide) (fun _ _ => FlagStatus.RESET) 10 g_key_info_init
    ⟨key_state_t.KEY_STATE_RELEASE, 0, 0, 0⟩ rfl

/-! ## LED driver: the bounds guard -/

/-- Claim C21, at the input where the code departs from it: with `led_id = LED_NUM_MAX = 3`
the guard `led_id > LED_NUM_MAX` of `drv_led_on`, `drv_led_off` and `drv_led_toggle` does not
return, and each of them indexes `g_gpio_list` at position 3, outside its three entries. Every
`led_id` above 3 does return with the outputs untouched. -/
theorem led_guard_off_by_one (o : drv_led.gpio_out) :
    drv_led.LED_NUM_MAX = 3 ∧
    drv_led_on 3 o = none ∧ drv_led_off 3 o = none ∧ drv_led_toggle 3 o = none ∧
    ∀ led_id : Nat, 3 < led_id →
      drv_led_on led_id o = some o ∧ drv_led_off led_id o = some o ∧
      drv_led_toggle led_id o = some o := by
  refine ⟨rfl, rfl, rfl, rfl, ?_⟩
  intro led_id h
  have h3 : led_id > drv_led.LED_NUM_MAX := h
  simp [drv_led_on, drv_led_off, drv_led_toggle, h3]

/-! ## NTC temperature sensor: range of `adc_temp_10mpl` -/

/-- Claim C30, at inputs where the code departs from it: below the last table entry (259)
the search returns the last index and the interpolation extrapolates, so `adc_temp_10mpl`
returns 1313 for `adcval = 0` and 991 for `adcval = 258`, both above 990; at `adcval = 259`
it returns 990 and at 4095 it returns 0. -/
theorem adc_temp_10mpl_below_table :
    adc_temp_10mpl 0 = some 1313 ∧ adc_temp_10mpl 258 = some 991 ∧
    adc_temp_10mpl 259 = some 990 ∧ adc_temp_10mpl 4095 = some 0 := by
  refine ⟨by decide, by decide, by decide, by decide⟩

/-! ## Key driver: timing origins of debounce and long press -/

theorem hold_step (i : Nat) (k0 : key_info_t)
    (hst : k0.state = key_state_t.KEY_STATE_RELEASE)
    (t0 e : Nat) (hp : click_pending k0 t0 = false) (he : e ≤ 2 ^ 64)
    (t : Nat) (hs : t0 ≤ t) (hte : t < e) :
    key_scan_switch i true t (hold_state k0 t0 t) = (0, hold_state k0 t0 (t + 1)) := by
  obtain ⟨st, cc0, pt0, rt0⟩ := k0
  simp only at hst
  subst hst
  have ht64 : t < 2 ^ 64 := by omega
  rcases Nat.lt_or_ge t (t0 + 1) with h1 | h1
  · have : t = t0 := by omega
    subst this
    have hp1 : ¬ (cc0 = 1 ∧ u64_sub t rt0 > KEY_DOUBLE_GAP_MS) := by
      simpa [click_pending] using hp
    simp (disch := omega) only [hold_state, if_pos, if_neg]
    simp [key_scan_switch, hp1]
  rcases Nat.lt_or_ge t (t0 + 20) with h2 | h2
  · have hsub : u64_sub t t0 = t - t0 := u64_sub_of_le (by omega) ht64
    simp (disch := omega) only [hold_state, if_pos, if_neg]
    simp [key_scan_switch, hsub, KEY_DEBOUNCE_MS]
    omega
  rcases Nat.lt_or_ge t (t0 + 21) with h3 | h3
  · have : t = t0 + 20 := by omega
    subst this
    have hsub : u64_sub (t0 + 20) t0 = 20 := by
      rw [u64_sub_of_le (by omega) ht64]; omega
    simp (disch := omega) only [hold_state, if_pos, if_neg]
    simp [key_scan_switch, hsub, KEY_DEBOUNCE_MS]
  rcases Nat.lt_or_ge t (t0 + 820) with h4 | h4
  · have hsub : u64_sub t (t0 + 20) = t - (t0 + 20) := u64_sub_of_le (by omega) ht64
    simp (disch := omega) only [hold_state, if_pos, if_neg]
    simp [key_scan_switch, hsub, KEY_LONG_MS]
    omega
  rcases Nat.lt_or_ge t (t0 + 821) with h5 | h5
  · have : t = t0 + 820 := by omega
    subst this
    have hsub : u64_sub (t0 + 820) (t0 + 20) = 800 := by
      rw [u64_sub_of_le (by omega) ht64]; omega
    simp (disch := omega) only [hold_state, if_pos, if_neg]
    simp [key_scan_switch, hsub, KEY_LONG_MS]
  · simp (disch := omega) only [hold_state, if_pos, if_neg]
    simp [key_scan_switch]

/-- C23: timing origins of debounce and long press.  Button `i` is RELEASED with no
ShortPress due at `t0` (in particular when `click_cnt = 0`) and is polled every
millisecond from `t0` with the level asserted.  Then for every number `m` of polls made
so far all polls have returned 0, and the button is: CONFIRM with `press_time = t0` after
the polls at `t0 .. t0 + 19`; PRESSING with `press_time = t0 + 20` after the polls at
`t0 + 20 .. t0 + 819`; LONG after the poll at `t0 + 820` and every later one.  So PRESSING
is entered exactly by the poll at `t0 + 20` and LONG exactly by the poll at `t0 + 820`. -/
theorem press_timing (i : Nat) (hi : i < KEY_MAX_NUM)
    (ks : List key_info_t) (k0 : key_info_t) (hk : ks[i]? = some k0)
    (hst : k0.state = key_state_t.KEY_STATE_RELEASE)
    (gpio : Nat → gpio_port → Nat → FlagStatus) (t0 n : Nat)
    (hp : click_pending k0 t0 = false) (hmax : t0 + n ≤ 2 ^ 64)
    (hpress : ∀ t, t0 ≤ t → t < t0 + n → key_asserted (gpio t) i = true)
    (m : Nat) (hm : m ≤ n) :
    ∃ k : key_info_t,
      key_scan_seq (key_polls_every_ms i gpio t0 m) ks
        = some (List.replicate m 0, ks.set i k) ∧
      k.click_cnt = k0.click_cnt ∧ k.release_time = k0.release_time ∧
      (1 ≤ m → m ≤ 20 → k.state = key_state_t.KEY_STATE_CONFIRM ∧ k.press_time = t0) ∧
      (21 ≤ m → m ≤ 820 →
        k.state = key_state_t.KEY_STATE_PRESSING ∧ k.press_time = t0 + 20) ∧
      (821 ≤ m → k.state = key_state_t.KEY_STATE_LONG ∧ k.press_time = t0 + 20) := by
  have hσ : ks[i]? = some (hold_state k0 t0 t0) := by simp [hold_state, hk]
  have hrun := key_scan_seq_trace i hi gpio (hold_state k0 t0) (fun _ => 0) m t0 ks hσ
    (fun t h1 h2 => by
      rw [hpress t h1 (by omega)]
      exact hold_step i k0 hst t0 (t0 + n) hp hmax t h1 (by omega))
  refine ⟨hold_state k0 t0 (t0 + m), ?_, ?_, ?_, ?_, ?_, ?_⟩
  · rw [hrun]
    simp only [List.map_const', List.length_range']
  · simp only [hold_state]; split_ifs <;> rfl
  · simp only [hold_state]; split_ifs <;> rfl
  · intro h1 h2
    simp (disch := omega) only [hold_state, if_pos, if_neg, and_self]
  · intro h1 h2
    simp (disch := omega) only [hold_state, if_pos, if_neg, and_self]
  · intro h1
    simp (disch := omega) only [hold_state, if_pos, if_neg, and_self]

/-- Witness for C23: button 2 of the zero-initialised array held from `t0 = 1000`, seen
after the 21 polls at 1000 .. 1020. -/
theorem press_timing_witness :
    ∃ k : key_info_t,
      key_scan_seq (key_polls_every_ms 2 (fun _ _ _ => FlagStatus.RESET) 1000 21)
          g_key_info_init
        = some (List.replicate 21 0, g_key_info_init.set 2 k) ∧
      k.click_cnt = (⟨key_state_t.KEY_STATE_RELEASE, 0, 0, 0⟩ : key_info_t).click_cnt ∧
      k.release_time = (⟨key_state_t.KEY_STATE_RELEASE, 0, 0, 0⟩ : key_info_t).release_time ∧
      (1 ≤ 21 → 21 ≤ 20 → k.state = key_state_t.KEY_STATE_CONFIRM ∧ k.press_time = 1000) ∧
      (21 ≤ 21 → 21 ≤ 820 →
        k.state = key_state_t.KEY_STATE_PRESSING ∧ k.press_time = 1000 + 20) ∧
      (821 ≤ 21 → k.state = key_state_t.KEY_STATE_LONG ∧ k.press_time = 1000 + 20) :=
  press_timing 2 (by decide) g_key_info_init ⟨key_state_t.KEY_STATE_RELEASE, 0, 0, 0⟩
    rfl rfl (fun _ _ _ => FlagStatus.RESET) 1000 900 (by decide) (by norm_num)
    (fun _ _ _ => rfl) 21 (by norm_num)

/-! ## Key driver: the long press fires on release only -/

theorem switch_long_press_iff (i : Nat) (hi : i < KEY_MAX_NUM) (pressed : Bool) (now : Nat)
    (k : key_info_t) :
    (key_scan_switch i pressed now k).1 = i + 0x81 ↔
      (k.state = key_state_t.KEY_STATE_LONG ∧ pressed = false) := by
  obtain ⟨st, cc, pt, rt⟩ := k
  rw [KEY_MAX_NUM_eq] at hi
  have h1 : u8 (i + 0x01) = i + 0x01 := u8_of_lt (by omega)
  have h2 : u8 (i + 0x51) = i + 0x51 := u8_of_lt (by omega)
  have h3 : u8 (i + 0x81) = i + 0x81 := u8_of_lt (by omega)
  cases st <;> cases pressed <;> simp only [key_scan_switch, h1, h2, h3] <;> split_ifs <;>
    simp_all

theorem long_hold (i : Nat) (hi : i < KEY_MAX_NUM) (k : key_info_t)
    (hst : k.state = key_state_t.KEY_STATE_LONG) :
    ∀ (polls : List key_poll) (ks : List key_info_t), ks[i]? = some k →
      (∀ q ∈ polls, q.key_index = i ∧ key_asserted q.gpio i = true) →
      key_scan_seq polls ks = some (List.replicate polls.length 0, ks) := by
  intro polls
  induction polls with
  | nil => intro ks _ _; rfl
  | cons q qs ih =>
    intro ks hk hq
    obtain ⟨hqi, hqa⟩ := hq q (List.mem_cons_self q qs)
    have hstep : key_scan q.gpio q.now ks q.key_index = some (0, ks) := by
      rw [hqi, key_scan_of_lt hi hk]
      obtain ⟨st, cc, pt, rt⟩ := k
      simp only at hst
      subst hst
      have hk1 := set_same hk
      simp [key_scan_switch, hqa, hk1]
    have hrest := ih ks hk (fun q1 h1 => hq q1 (List.mem_cons_of_mem q h1))
    simp [key_scan_seq, hstep, hrest, List.replicate_succ]

/-- C24: the long press fires on release only.  For a valid index `i`, `key_scan` returns
LongPress (`i + 0x81`) if and only if the button is LONG before the call and the sampled
level is deasserted.  While the button is LONG, any sequence of polls of button `i` that
sample the level asserted, at any times and however many, returns 0 at every poll and
leaves the whole array `g_key_info` as it was. -/
theorem long_press_on_release (i : Nat) (hi : i < KEY_MAX_NUM)
    (g : gpio_port → Nat → FlagStatus) (now : Nat)
    (ks : List key_info_t) (k : key_info_t) (hk : ks[i]? = some k) :
    ((∃ ks1, key_scan g now ks i = some (i + 0x81, ks1)) ↔
      (k.state = key_state_t.KEY_STATE_LONG ∧ key_asserted g i = false)) ∧
    (k.state = key_state_t.KEY_STATE_LONG →
      ∀ polls : List key_poll,
        (∀ q ∈ polls, q.key_index = i ∧ key_asserted q.gpio i = true) →
        key_scan_seq polls ks = some (List.replicate polls.length 0, ks)) := by
  have hsw := switch_long_press_iff i hi (key_asserted g i) now k
  constructor
  · rw [key_scan_of_lt hi hk, ← hsw]
    constructor
    · rintro ⟨ks1, h⟩
      simp only [Option.some.injEq, Prod.mk.injEq] at h
      exact h.1
    · intro h
      exact ⟨_, by rw [h]⟩
  · intro hst polls hq
    exact long_hold i hi k hst polls ks hk hq

/-- Witness for C24: button 3 LONG since a press confirmed at 120, polled at 5000. -/
theorem long_press_on_release_witness :
    ((∃ ks1, key_scan (fun _ _ => FlagStatus.SET) 5000
        (g_key_info_init.set 3 ⟨key_state_t.KEY_STATE_LONG, 0, 120, 0⟩) 3
        = some (3 + 0x81, ks1)) ↔
      ((⟨key_state_t.KEY_STATE_LONG, 0, 120, 0⟩ : key_info_t).state
          = key_state_t.KEY_STATE_LONG ∧
        key_asserted (fun _ _ => FlagStatus.SET) 3 = false)) ∧
    ((⟨key_state_t.KEY_STATE_LONG, 0, 120, 0⟩ : key_info_t).state
        = key_state_t.KEY_STATE_LONG →
      ∀ polls : List key_poll,
        (∀ q ∈ polls, q.key_index = 3 ∧ key_asserted q.gpio 3 = true) →
        key_scan_seq polls (g_key_info_init.set 3 ⟨key_state_t.KEY_STATE_LONG, 0, 120, 0⟩)
          = some (List.replicate polls.length 0,
              g_key_info_init.set 3 ⟨key_state_t.KEY_STATE_LONG, 0, 120, 0⟩)) :=
  long_press_on_release 3 (by decide) (fun _ _ => FlagStatus.SET) 5000
    (g_key_info_init.set 3 ⟨key_state_t.KEY_STATE_LONG, 0, 120, 0⟩)
    ⟨key_state_t.KEY_STATE_LONG, 0, 120, 0⟩ rfl

/-! ## Key driver: a second click released after the double-click window -/

theorem late_release_step (i : Nat) (hi : i < KEY_MAX_NUM) (k0 : key_info_t)
    (hst : k0.state = key_state_t.KEY_STATE_RELEASE) (hcc : k0.click_cnt = 0)
    (lvl : Nat → Bool) (s t0 t1 p t2 e : Nat)
    (h01 : t0 + 20 < t1) (h800 : t1 ≤ t0 + 820) (h1p : t1 < p) (hin : p - t1 ≤ 300)
    (hp2 : p + 20 < t2) (h2800 : t2 ≤ p + 820)
    (hgap : 300 < t2 - t1) (he : e ≤ 2 ^ 64)
    (hidle : ∀ t, s ≤ t → t < t0 → lvl t = false)
    (hpress1 : ∀ t, t0 ≤ t → t < t1 → lvl t = true)
    (hrel1 : ∀ t, t1 ≤ t → t < p → lvl t = false)
    (hpress2 : ∀ t, p ≤ t → t < t2 → lvl t = true)
    (hrel2 : ∀ t, t2 ≤ t → t < e → lvl t = false)
    (t : Nat) (hs : s ≤ t) (hte : t < e) :
    key_scan_switch i (lvl t) t (late_release_state k0 t0 t1 p t2 t)
      = (late_release_event i t2 t, late_release_state k0 t0 t1 p t2 (t + 1)) := by
  obtain ⟨st, cc, pt, rt⟩ := k0
  simp only at hst hcc
  subst hst hcc
  rw [KEY_MAX_NUM_eq] at hi
  have ht64 : t < 2 ^ 64 := by omega
  rcases Nat.lt_or_ge t t0 with c1 | c1
  · have hl := hidle t hs c1
    simp (disch := omega) only [late_release_state, late_release_event, if_pos, if_neg]
    simp [key_scan_switch, hl]
  rcases Nat.lt_or_ge t t1 with c2 | c2
  · have hl := hpress1 t c1 c2
    rcases Nat.eq_or_lt_of_le c1 with c3 | c3
    · subst c3
      simp (disch := omega) only [late_release_state, late_release_event, if_pos, if_neg]
      simp [key_scan_switch, hl]
    rcases Nat.lt_or_ge t (t0 + 20) with c4 | c4
    · have hsub : ¬ 20 ≤ u64_sub t t0 := by
        rw [u64_sub_of_le (by omega) ht64]; omega
      simp (disch := omega) only [late_release_state, late_release_event, if_pos, if_neg]
      simp [key_scan_switch, hl, hsub, KEY_DEBOUNCE_MS]
    rcases Nat.eq_or_lt_of_le c4 with c5 | c5
    · subst c5
      have hsub : 20 ≤ u64_sub (t0 + 20) t0 := by
        rw [u64_sub_of_le (by omega) ht64]; omega
      simp (disch := omega) only [late_release_state, late_release_event, if_pos, if_neg]
      simp [key_scan_switch, hl, hsub, KEY_DEBOUNCE_MS]
    · have hsub : ¬ 800 ≤ u64_sub t (t0 + 20) := by
        rw [u64_sub_of_le (by omega) ht64]; omega
      simp (disch := omega) only [late_release_state, late_release_event, if_pos, if_neg]
      simp [key_scan_switch, hl, hsub, KEY_LONG_MS]
  rcases Nat.lt_or_ge t p with c6 | c6
  · have hl := hrel1 t c2 c6
    rcases Nat.eq_or_lt_of_le c2 with c7 | c7
    · subst c7
      simp (disch := omega) only [late_release_state, late_release_event, if_pos, if_neg]
      simp [key_scan_switch, hl, u8]
    · have hsub : ¬ 300 < u64_sub t t1 := by
        rw [u64_sub_of_le (by omega) ht64]; omega
      simp (disch := omega) only [late_release_state, late_release_event, if_pos, if_neg]
      simp [key_scan_switch, hl, hsub, KEY_DOUBLE_GAP_MS]
  rcases Nat.lt_or_ge t t2 with c8 | c8
  · have hl := hpress2 t c6 c8
    rcases Nat.eq_or_lt_of_le c6 with c9 | c9
    · subst c9
      have hsub : ¬ 300 < u64_sub p t1 := by
        rw [u64_sub_of_le (by omega) ht64]; omega
      simp (disch := omega) only [late_release_state, late_release_event, if_pos, if_neg]
      simp [key_scan_switch, hl, hsub, KEY_DOUBLE_GAP_MS]
    rcases Nat.lt_or_ge t (p + 20) with c10 | c10
    · have hsub : ¬ 20 ≤ u64_sub t p := by
        rw [u64_sub_of_le (by omega) ht64]; omega
      simp (disch := omega) only [late_release_state, late_release_event, if_pos, if_neg]
      simp [key_scan_switch, hl, hsub, KEY_DEBOUNCE_MS]
    rcases Nat.eq_or_lt_of_le c10 with c11 | c11
    · subst c11
      have hsub : 20 ≤ u64_sub (p + 20) p := by
        rw [u64_sub_of_le (by omega) ht64]; omega
      simp (disch := omega) only [late_release_state, late_release_event, if_pos, if_neg]
      simp [key_scan_switch, hl, hsub, KEY_DEBOUNCE_MS]
    · have hsub : ¬ 800 ≤ u64_sub t (p + 20) := by
        rw [u64_sub_of_le (by omega) ht64]; omega
      simp (disch := omega) only [late_release_state, late_release_event, if_pos, if_neg]
      simp [key_scan_switch, hl, hsub, KEY_LONG_MS]
  have hl := hrel2 t c8 hte
  rcases Nat.eq_or_lt_of_le c8 with c12 | c12
  · subst c12
    have hsub : ¬ u64_sub t2 t1 ≤ 300 := by
      rw [u64_sub_of_le (by omega) ht64]; omega
    simp (disch := omega) only [late_release_state, late_release_event, if_pos, if_neg]
    simp [key_scan_switch, hl, hsub, KEY_DOUBLE_GAP_MS, u8]
  rcases Nat.lt_or_ge t (t2 + 301) with c13 | c13
  · have hsub : ¬ 300 < u64_sub t t2 := by
      rw [u64_sub_of_le (by omega) ht64]; omega
    simp (disch := omega) only [late_release_state, late_release_event, if_pos, if_neg]
    simp [key_scan_switch, hl, hsub, KEY_DOUBLE_GAP_MS]
  rcases Nat.eq_or_lt_of_le c13 with c14 | c14
  · subst c14
    have hsub : 300 < u64_sub (t2 + 301) t2 := by
      rw [u64_sub_of_le (by omega) ht64]; omega
    simp (disch := omega) only [late_release_state, late_release_event, if_pos, if_neg]
    simp [key_scan_switch, hl, hsub, KEY_DOUBLE_GAP_MS, u8]
    omega
  · simp (disch := omega) only [late_release_state, late_release_event, if_pos, if_neg]
    simp [key_scan_switch, hl]

theorem late_release_event_eq (i t2 t : Nat) :
    late_release_event i t2 t = i + 0x01 ↔ t = t2 + 301 := by
  by_cases h : t = t2 + 301 <;> simp [late_release_event, h]

theorem switch_late_release (i : Nat) (now : Nat) (k : key_info_t)
    (hst : k.state = key_state_t.KEY_STATE_PRESSING) (hcc : k.click_cnt = 1)
    (hlate : u64_sub now k.release_time > 300) :
    key_scan_switch i false now k
      = (0, ⟨key_state_t.KEY_STATE_RELEASE, 1, k.press_time, now⟩) := by
  obtain ⟨st, cc, pt, rt⟩ := k
  simp only at hst hcc hlate
  subst hst hcc
  have h : ¬ u64_sub now rt ≤ 300 := by omega
  simp [key_scan_switch, u8, h, KEY_DOUBLE_GAP_MS]

/-- C26: late second release.  First, for a valid index `i`: when the button is PRESSING
with `click_cnt = 1` and `key_scan` samples the level deasserted at a time `now` with
`now - release_time > 300`, the call returns 0 and leaves the button RELEASED with
`click_cnt = 1`, `release_time = now` and `press_time` unchanged.  Second, the scenario:
the button starts RELEASED with `click_cnt = 0` and is polled every millisecond at
`s, .., s + n - 1`; the level is asserted on `[t0, t1)` and `[p, t2)`, both presses are
confirmed and neither is long, the second press begins within the window
(`p - t1 ≤ 300`) and is released outside it (`t2 - t1 > 300`).  Then the poll at
`t2 + 301` returns ShortPress (`i + 0x01`) and every other poll returns 0: exactly one
ShortPress, more than 300 ms after the second release, and no DoublePress
(`i + 0x51`). -/
theorem late_second_release (i : Nat) (hi : i < KEY_MAX_NUM)
    (ks : List key_info_t) (k0 : key_info_t) (hk : ks[i]? = some k0)
    (hst : k0.state = key_state_t.KEY_STATE_RELEASE) (hcc : k0.click_cnt = 0)
    (gpio : Nat → gpio_port → Nat → FlagStatus) (s n t0 t1 p t2 : Nat)
    (hs : s ≤ t0) (hconf1 : t0 + 20 < t1) (hshort1 : t1 ≤ t0 + 820) (h1p : t1 < p)
    (hin : p - t1 ≤ 300) (hconf2 : p + 20 < t2) (hshort2 : t2 ≤ p + 820)
    (hgap : 300 < t2 - t1) (hlast : t2 + 301 < s + n) (hmax : s + n ≤ 2 ^ 64)
    (hidle : ∀ t, s ≤ t → t < t0 → key_asserted (gpio t) i = false)
    (hpress1 : ∀ t, t0 ≤ t → t < t1 → key_asserted (gpio t) i = true)
    (hrel1 : ∀ t, t1 ≤ t → t < p → key_asserted (gpio t) i = false)
    (hpress2 : ∀ t, p ≤ t → t < t2 → key_asserted (gpio t) i = true)
    (hrel2 : ∀ t, t2 ≤ t → t < s + n → key_asserted (gpio t) i = false) :
    (∀ (g : gpio_port → Nat → FlagStatus) (now : Nat) (ksa : List key_info_t)
        (k : key_info_t), ksa[i]? = some k →
      k.state = key_state_t.KEY_STATE_PRESSING → k.click_cnt = 1 →
      key_asserted g i = false → u64_sub now k.release_time > 300 →
      key_scan g now ksa i
        = some (0, ksa.set i ⟨key_state_t.KEY_STATE_RELEASE, 1, k.press_time, now⟩)) ∧
    ∃ evs ks1, key_scan_seq (key_polls_every_ms i gpio s n) ks = some (evs, ks1) ∧
      evs = (List.range' s n).map (fun t => if t = t2 + 301 then i + 0x01 else 0) ∧
      evs.count (i + 0x01) = 1 ∧ evs[t2 + 301 - s]? = some (i + 0x01) ∧
      evs.count (i + 0x51) = 0 := by
  constructor
  · intro g now ksa k hka hstk hcck hg hlate
    rw [key_scan_of_lt hi hka, hg, switch_late_release i now k hstk hcck hlate]
  have hσ : ks[i]? = some (late_release_state k0 t0 t1 p t2 s) := by
    simp [late_release_state, hs, hk]
  have htr := key_scan_seq_trace i hi gpio (late_release_state k0 t0 t1 p t2)
    (late_release_event i t2) n s ks hσ
    (fun t h1 h2 => late_release_step i hi k0 hst hcc (fun t => key_asserted (gpio t) i)
      s t0 t1 p t2 (s + n) hconf1 hshort1 h1p hin hconf2 hshort2 hgap hmax hidle hpress1
      hrel1 hpress2 hrel2 t h1 h2)
  refine ⟨_, _, htr, rfl, ?_, ?_, ?_⟩
  · apply count_map_range'_unique _ _ (t2 + 301)
    · intro t _ _
      exact late_release_event_eq i t2 t
    · omega
    · omega
  · rw [getElem?_map_range', if_pos (by omega)]
    have : s + (t2 + 301 - s) = t2 + 301 := by omega
    simp [late_release_event, this]
  · apply count_map_range'_zero
    intro t _ _
    by_cases h : t = t2 + 301 <;> simp [late_release_event, h]

/-- Witness for C26: button 0 of the zero-initialised array, asserted on `[0, 50)` and
`[300, 400)`, polled at the times `0..999`: the second press begins 250 ms after the first
release and ends 350 ms after it; the only event is the ShortPress at `t = 701`. -/
theorem late_second_release_witness :
    (∀ (g : gpio_port → Nat → FlagStatus) (now : Nat) (ksa : List key_info_t)
        (k : key_info_t), ksa[0]? = some k →
      k.state = key_state_t.KEY_STATE_PRESSING → k.click_cnt = 1 →
      key_asserted g 0 = false → u64_sub now k.release_time > 300 →
      key_scan g now ksa 0
        = some (0, ksa.set 0 ⟨key_state_t.KEY_STATE_RELEASE, 1, k.press_time, now⟩)) ∧
    ∃ evs ks1, key_scan_seq (key_polls_every_ms 0
        (gpio_of_level (fun t => decide (t < 50 ∨ (300 ≤ t ∧ t < 400)))) 0 1000)
        g_key_info_init = some (evs, ks1) ∧
      evs = (List.range' 0 1000).map (fun t => if t = 400 + 301 then 0 + 0x01 else 0) ∧
      evs.count (0 + 0x01) = 1 ∧ evs[400 + 301 - 0]? = some (0 + 0x01) ∧
      evs.count (0 + 0x51) = 0 :=
  late_second_release 0 (by decide) g_key_info_init ⟨key_state_t.KEY_STATE_RELEASE, 0, 0, 0⟩
    rfl rfl rfl (gpio_of_level (fun t => decide (t < 50 ∨ (300 ≤ t ∧ t < 400))))
    0 1000 0 50 300 400 (by norm_num) (by norm_num) (by norm_num) (by norm_num)
    (by norm_num) (by norm_num) (by norm_num) (by norm_num) (by norm_num) (by norm_num)
    (fun t h1 h2 => by omega)
    (fun t h1 h2 => by
      rw [key_asserted_gpio_of_level _ _ _ (by decide)]
      exact decide_eq_true (Or.inl h2))
    (fun t h1 h2 => by
      rw [key_asserted_gpio_of_level _ _ _ (by decide)]
      exact decide_eq_false (by omega))
    (fun t h1 h2 => by
      rw [key_asserted_gpio_of_level _ _ _ (by decide)]
      exact decide_eq_true (Or.inr ⟨h1, h2⟩))
    (fun t h1 h2 => by
      rw [key_asserted_gpio_of_level _ _ _ (by decide)]
      exact decide_eq_false (by omega))

/-! ## Scheduler: exact periodicity -/

theorem sched_run_append {W : Type} (extern_code : Nat → fw_state W → Option (fw_state W)) :
    ∀ (a b : List sched_op) (w w1 w2 : fw_state W) (c1 c2 : List (Nat × fn_ptr)),
      sched_run extern_code a w = some (w1, c1) →
      sched_run extern_code b w1 = some (w2, c2) →
      sched_run extern_code (a ++ b) w = some (w2, c1 ++ c2) := by
  intro a
  induction a with
  | nil =>
    intro b w w1 w2 c1 c2 ha hb
    simp only [sched_run, Option.some.injEq, Prod.mk.injEq] at ha
    obtain ⟨h1, h2⟩ := ha
    subst h1 h2
    simpa using hb
  | cons op ops ih =>
    intro b w w1 w2 c1 c2 ha hb
    simp only [sched_run, List.cons_append] at ha ⊢
    cases hop : (match op with
      | sched_op.tick => task_tick_hook w
      | sched_op.loop => task_loop extern_code w) with
    | none => simp [hop] at ha
    | some r =>
      obtain ⟨wa, ca⟩ := r
      simp only [hop] at ha ⊢
      cases hrest : sched_run extern_code ops wa with
      | none => simp [hrest] at ha
      | some r2 =>
        obtain ⟨wb, cb⟩ := r2
        simp only [hrest, Option.some.injEq, Prod.mk.injEq] at ha
        obtain ⟨h1, h2⟩ := ha
        subst h1 h2
        have hih := ih b wa wb w2 cb c2 hrest hb
        show (match sched_run extern_code (ops ++ b) wa with
          | none => none
          | some (w2, calls2) => some (w2, ca ++ calls2)) = some (w2, ca ++ cb ++ c2)
        rw [hih]
        simp [List.append_assoc]

theorem task_tick_one_phase (P k : Nat) (hP : 1 ≤ P) (cb : Option fn_ptr) :
    task_tick_one ⟨false, P - k % P, P, cb⟩
      = ⟨decide ((k + 1) % P = 0), P - (k + 1) % P, P, cb⟩ := by
  have hlt : k % P < P := Nat.mod_lt k (by omega)
  have hP0 : P ≠ 0 := by omega
  rcases succ_mod_cases k P hP with ⟨h1, h2⟩ | ⟨h1, h2⟩
  · have h3 : P - k % P = 1 := by omega
    simp [task_tick_one, task_tick_update, hP0, h2, h3]
  · have h3 : 0 < P - k % P := by omega
    have h4 : P - k % P - 1 ≠ 0 := by omega
    have h5 : ¬ (k % P + 1 = 0) := by omega
    simp [task_tick_one, task_tick_update, hP0, h2, h3, h4]
    omega

theorem tick_drain_round {W : Type} (extern_code : Nat → fw_state W → Option (fw_state W))
    (w : fw_state W) (hlen : w.g_task_table.length < 256)
    (hb : cbs_benign extern_code w.g_task_table)
    (i P k : Nat) (f : fn_ptr) (hP : 1 ≤ P)
    (ht : w.g_task_table[i]? = some ⟨false, P - k % P, P, some f⟩) :
    ∃ w1 w2 calls, task_tick_hook w = some (w1, []) ∧
      w1.g_task_table[i]? = some ⟨decide ((k + 1) % P = 0), P - (k + 1) % P, P, some f⟩ ∧
      task_loop extern_code w1 = some (w2, calls) ∧
      w2.g_task_table.length < 256 ∧ cbs_benign extern_code w2.g_task_table ∧
      w2.g_task_table[i]? = some ⟨false, P - (k + 1) % P, P, some f⟩ ∧
      calls.filter (fun c => decide (c.1 = i))
        = if (k + 1) % P = 0 then [(i, f)] else [] := by
  have htick := task_tick_hook_eq w hlen
  have hti : (w.g_task_table.map task_tick_one)[i]?
      = some ⟨decide ((k + 1) % P = 0), P - (k + 1) % P, P, some f⟩ := by
    rw [map_getElem?_some ht, task_tick_one_phase P k hP]
  have hlen1 : (w.g_task_table.map task_tick_one).length < 256 := by
    rw [List.length_map]; exact hlen
  have hb1 : cbs_benign extern_code (w.g_task_table.map task_tick_one) :=
    cbs_benign_map _ task_tick_one_cb hb
  obtain ⟨w2, h1, h2⟩ := task_loop_eq extern_code
    { w with g_task_table := w.g_task_table.map task_tick_one } hlen1 hb1
  refine ⟨_, w2, _, htick, hti, h1, ?_, ?_, ?_, ?_⟩
  · rw [h2, List.length_map]; exact hlen1
  · rw [h2]
    exact cbs_benign_map _ (fun _ => rfl) hb1
  · rw [h2]
    exact map_getElem?_some hti
  · by_cases hk : (k + 1) % P = 0
    · rw [if_pos hk]
      apply filter_index_unique i f _ (task_calls_pairwise _)
      rw [task_calls_mem]
      exact ⟨_, hti, by simp [hk], rfl⟩
    · rw [if_neg hk]
      apply filter_index_nil
      intro c hc hci
      rw [task_calls_mem] at hc
      obtain ⟨t, h3, h4, _⟩ := hc
      simp only at h3
      rw [hci, hti] at h3
      rw [← Option.some.inj h3] at h4
      simp [hk] at h4

theorem tick_drain_rounds_spec {W : Type}
    (extern_code : Nat → fw_state W → Option (fw_state W))
    (i P : Nat) (f : fn_ptr) (hP : 1 ≤ P) :
    ∀ (n k : Nat) (w : fw_state W), w.g_task_table.length < 256 →
      cbs_benign extern_code w.g_task_table →
      w.g_task_table[i]? = some ⟨false, P - k % P, P, some f⟩ →
      ∃ w2 calls, sched_run extern_code (tick_drain_rounds n) w = some (w2, calls) ∧
        w2.g_task_table.length < 256 ∧ cbs_benign extern_code w2.g_task_table ∧
        w2.g_task_table[i]? = some ⟨false, P - (k + n) % P, P, some f⟩ ∧
        calls.filter (fun c => decide (c.1 = i))
          = List.replicate ((k + n) / P - k / P) (i, f) := by
  intro n
  induction n with
  | zero =>
    intro k w hlen hb ht
    exact ⟨w, [], rfl, hlen, hb, ht, by simp⟩
  | succ n ih =>
    intro k w hlen hb ht
    obtain ⟨w1, w2, calls, h1, _, h3, h4, h5, h6, h7⟩ :=
      tick_drain_round extern_code w hlen hb i P k f hP ht
    obtain ⟨w3, calls3, g1, g2, g3, g4, g5⟩ := ih (k + 1) w2 h4 h5 h6
    refine ⟨w3, calls ++ calls3, ?_, g2, g3, ?_, ?_⟩
    · simp only [tick_drain_rounds, sched_run, h1, h3, g1, List.nil_append]
    · rw [g4]
      have : k + 1 + n = k + (n + 1) := by omega
      rw [this]
    · rw [List.filter_append, h7, g5]
      have e1 : k + 1 + n = k + (n + 1) := by omega
      have hmono : (k + 1) / P ≤ (k + (n + 1)) / P :=
        Nat.div_le_div_right (by omega)
      have hsucc := Nat.succ_div k P
      rw [e1]
      by_cases hk : (k + 1) % P = 0
      · have hdvd : P ∣ k + 1 := Nat.dvd_of_mod_eq_zero hk
        rw [if_pos hk]
        rw [if_pos hdvd] at hsucc
        have e2 : (k + (n + 1)) / P - k / P = ((k + (n + 1)) / P - (k + 1) / P) + 1 := by
          omega
        rw [e2, List.replicate_succ]
        rfl
      · have hdvd : ¬ P ∣ k + 1 := fun h => hk (Nat.mod_eq_zero_of_dvd h)
        rw [if_neg hk]
        rw [if_neg hdvd] at hsucc
        have e2 : (k + (n + 1)) / P - k / P = (k + (n + 1)) / P - (k + 1) / P := by
          omega
        rw [e2]
        rfl

/-- C25: exact periodicity.  Task `i` of a table of fewer than 256 entries has
`period_ticks = P ≥ 1`, `ticks_left = P`, is not ready and has callback `f`; all callbacks
return and leave the table alone.  (1) After `n` calls of `task_tick_hook` alone,
`ticks_left = P - n % P`, which lies in `1 .. P`.  (2) With `task_loop` run after every
tick, after `n` ticks the task is not ready, `ticks_left = P - n % P`, and the callback of
task `i` has been called exactly `n / P` times.  (3) In that schedule the next call of
`task_tick_hook`, the `(n + 1)`-th, finds the task not ready and leaves it ready if and
only if `n + 1` is a multiple of `P`. -/
theorem exact_periodicity {W : Type} (extern_code : Nat → fw_state W → Option (fw_state W))
    (w : fw_state W) (hlen : w.g_task_table.length < 256)
    (hb : cbs_benign extern_code w.g_task_table)
    (i P : Nat) (f : fn_ptr) (hP : 1 ≤ P)
    (ht : w.g_task_table[i]? = some ⟨false, P, P, some f⟩) (n : Nat) :
    (∃ w1 t1, sched_run extern_code (List.replicate n sched_op.tick) w = some (w1, []) ∧
      w1.g_task_table[i]? = some t1 ∧ t1.ticks_left = P - n % P ∧
      1 ≤ t1.ticks_left ∧ t1.ticks_left ≤ P ∧ t1.period_ticks = P) ∧
    (∃ w2 calls, sched_run extern_code (tick_drain_rounds n) w = some (w2, calls) ∧
      w2.g_task_table[i]? = some ⟨false, P - n % P, P, some f⟩ ∧
      calls.filter (fun c => decide (c.1 = i)) = List.replicate (n / P) (i, f) ∧
      ∃ w3 t3, task_tick_hook w2 = some (w3, []) ∧ w3.g_task_table[i]? = some t3 ∧
        (t3.is_ready = true ↔ (n + 1) % P = 0)) := by
  have hlt : n % P < P := Nat.mod_lt n (by omega)
  constructor
  · refine ⟨_, ⟨decide (P ≤ n), P - n % P, P, some f⟩,
      sched_run_ticks extern_code n w hlen, ?_, ?_, ?_, ?_, ?_⟩
    · show (w.g_task_table.map (task_tick_one^[n]))[i]? = _
      rw [map_getElem?_some ht, task_tick_one_iterate P hP (some f) n]
    · rfl
    · show 1 ≤ P - n % P
      omega
    · show P - n % P ≤ P
      omega
    · rfl
  · have ht0 : w.g_task_table[i]? = some ⟨false, P - 0 % P, P, some f⟩ := by
      simpa using ht
    obtain ⟨w2, calls, h1, h2, h3, h4, h5⟩ :=
      tick_drain_rounds_spec extern_code i P f hP n 0 w hlen hb ht0
    rw [Nat.zero_add] at h4 h5
    rw [Nat.zero_div, Nat.sub_zero] at h5
    obtain ⟨w3, _, _, g1, g2, _⟩ := tick_drain_round extern_code w2 h2 h3 i P n f hP h4
    refine ⟨w2, calls, h1, h4, h5, w3,
      ⟨decide ((n + 1) % P = 0), P - (n + 1) % P, P, some f⟩, g1, g2, ?_⟩
    simp

/-- Witness for C25: the KEY task (index 1, period 5) of the initial table after 12 ticks,
with callbacks that return at once. -/
theorem exact_periodicity_witness :
    (∃ w1 t1, sched_run (fun (_ : Nat) (w : fw_state Unit) => some w)
        (List.replicate 12 sched_op.tick) ⟨0, none, g_task_table_init, ()⟩ = some (w1, []) ∧
      w1.g_task_table[1]? = some t1 ∧ t1.ticks_left = 5 - 12 % 5 ∧
      1 ≤ t1.ticks_left ∧ t1.ticks_left ≤ 5 ∧ t1.period_ticks = 5) ∧
    (∃ w2 calls, sched_run (fun (_ : Nat) (w : fw_state Unit) => some w)
        (tick_drain_rounds 12) ⟨0, none, g_task_table_init, ()⟩ = some (w2, calls) ∧
      w2.g_task_table[1]? = some ⟨false, 5 - 12 % 5, 5, some (fn_ptr.extern_fn 1)⟩ ∧
      calls.filter (fun c => decide (c.1 = 1))
        = List.replicate (12 / 5) (1, fn_ptr.extern_fn 1) ∧
      ∃ w3 t3, task_tick_hook w2 = some (w3, []) ∧ w3.g_task_table[1]? = some t3 ∧
        (t3.is_ready = true ↔ (12 + 1) % 5 = 0)) :=
  exact_periodicity (fun (_ : Nat) (w : fw_state Unit) => some w)
    ⟨0, none, g_task_table_init, ()⟩ (by decide) cbs_benign_init 1 5 (fn_ptr.extern_fn 1)
    (by decide) rfl 12

/-! ## UART parser: general lemmas -/

theorem cal_xor_sum_loop_eq (data : List Nat) :
    ∀ (n i acc : Nat), i + n ≤ data.length →
      cal_xor_sum_loop data n i acc
        = some (((data.drop i).take n).foldl (fun a b => a ^^^ b) acc) := by
  intro n
  induction n with
  | zero => intro i acc _; simp [cal_xor_sum_loop]
  | succ n ih =>
    intro i acc h
    have hi : i < data.length := by omega
    have hd : data.drop i = data[i] :: data.drop (i + 1) := List.drop_eq_getElem_cons hi
    rw [cal_xor_sum_loop, List.getElem?_eq_getElem hi]
    simp only
    rw [ih (i + 1) _ (by omega), hd]
    rfl

theorem cal_xor_sum_eq (data : List Nat) (len : Nat) (h : len ≤ data.length) :
    cal_xor_sum data len = some ((data.take len).foldl (fun a b => a ^^^ b) 0) := by
  rw [cal_xor_sum, cal_xor_sum_loop_eq data len 0 0 (by omega)]
  simp

theorem hex_dump_loop_eq (data : List Nat) :
    ∀ (n i : Nat), i + n ≤ data.length →
      hex_dump_loop data n i = some ((data.drop i).take n) := by
  intro n
  induction n with
  | zero => intro i _; simp [hex_dump_loop]
  | succ n ih =>
    intro i h
    have hi : i < data.length := by omega
    have hd : data.drop i = data[i] :: data.drop (i + 1) := List.drop_eq_getElem_cons hi
    rw [hex_dump_loop, List.getElem?_eq_getElem hi]
    simp only
    rw [ih (i + 1) (by omega), hd]
    rfl

theorem led_dispatch_some (data : List Nat) (len : Nat) (h : 6 ≤ data.length) :
    ∃ calls, led_dispatch data len = some calls := by
  have h3 : data[FUNC_DATA_IDX]? = some data[3] :=
    List.getElem?_eq_getElem (show 3 < data.length by omega)
  have h4 : data[FUNC_DATA_IDX + 1]? = some data[4] :=
    List.getElem?_eq_getElem (show 4 < data.length by omega)
  have h5 : data[FUNC_DATA_IDX + 2]? = some data[5] :=
    List.getElem?_eq_getElem (show 5 < data.length by omega)
  simp only [led_dispatch, h3, h4, h5]
  split_ifs <;> exact ⟨_, rfl⟩

/-! ## UART parser: frame buffer safety -/

theorem app_uart_task_step_inv (p : uart_fsm) (byte : Nat) (hb : byte < 256)
    (h : uart_inv p) :
    ∃ p1 calls, app_uart_task_step p byte = some (p1, calls) ∧ uart_inv p1 := by
  obtain ⟨st, frame, idx, len, need⟩ := p
  obtain ⟨hlen, hpay⟩ := h
  simp only [PACKET_DATA_LEN_MAX] at hlen hpay
  have h0 : 0 < frame.length := by omega
  have h1l : 1 < frame.length := by omega
  have h2l : 2 < frame.length := by omega
  cases st with
  | ST_WAIT_HEAD1 =>
    by_cases h1 : byte = DATA_HEAD_ONE
    · simp only [app_uart_task_step, frame_write, h1, if_true, h0]
      refine ⟨_, _, rfl, ?_⟩
      simp [uart_inv, hlen, PACKET_DATA_LEN_MAX]
    · simp only [app_uart_task_step, h1, if_false]
      refine ⟨_, _, rfl, ?_⟩
      simp [uart_inv, hlen, PACKET_DATA_LEN_MAX]
  | ST_WAIT_HEAD2 =>
    by_cases h2 : byte = DATA_HEAD_TWO
    · simp only [app_uart_task_step, frame_write, h2, if_true, h1l]
      refine ⟨_, _, rfl, ?_⟩
      simp [uart_inv, hlen, PACKET_DATA_LEN_MAX]
    · by_cases h1 : byte = DATA_HEAD_ONE
      · simp only [app_uart_task_step, frame_write, h2, h1, if_true, if_false, h0]
        refine ⟨_, _, rfl, ?_⟩
        simp [uart_inv, hlen, PACKET_DATA_LEN_MAX]
      · simp only [app_uart_task_step, h2, h1, if_false]
        refine ⟨_, _, rfl, ?_⟩
        simp [uart_inv, hlen, PACKET_DATA_LEN_MAX]
  | ST_WAIT_LEN =>
    by_cases hl : byte < 1 ∨ (byte + 4) % 65536 > PACKET_DATA_LEN_MAX
    · simp only [app_uart_task_step, hl, if_true]
      refine ⟨_, _, rfl, ?_⟩
      simp [uart_inv, hlen, PACKET_DATA_LEN_MAX]
    · simp only [app_uart_task_step, frame_write, hl, if_false, h2l, if_true]
      refine ⟨_, _, rfl, ?_⟩
      simp only [PACKET_DATA_LEN_MAX] at hl
      have hu : u8 (byte + 1) = byte + 1 := u8_of_lt (by omega)
      simp only [uart_inv, List.length_set, hlen, PACKET_DATA_LEN_MAX, hu, true_and]
      intro _
      omega
  | ST_WAIT_PAYLOAD_XOR =>
    obtain ⟨g1, g2, g3, g4, g5⟩ := hpay rfl
    have hidx : idx < frame.length := by omega
    have hset : (frame.set idx byte).length = 11 := by rw [List.length_set]; exact hlen
    by_cases hn : need = 1
    · have hu0 : u8 (need + 255) = 0 := by subst hn; rfl
      have hu3 : u8 (len + 3) = len + 3 := u8_of_lt (by omega)
      have hu4 : u8 (len + 4) = len + 4 := u8_of_lt (by omega)
      have hx := cal_xor_sum_eq (frame.set idx byte) (len + 3) (by omega)
      have hr : (frame.set idx byte)[len + 3]? = some (frame.set idx byte)[len + 3] :=
        List.getElem?_eq_getElem (by omega)
      obtain ⟨calls, hd⟩ := led_dispatch_some (frame.set idx byte) len (by omega)
      have hp := hex_dump_loop_eq (frame.set idx byte) (len + 4) 0 (by omega)
      by_cases hc : (List.take (len + 3) (frame.set idx byte)).foldl (fun a b => a ^^^ b) 0
          = (frame.set idx byte)[len + 3]
      · simp only [app_uart_task_step, frame_write, hidx, if_true, hu0, hu3, hu4, hx, hr,
          hc, hd, hp]
        refine ⟨_, _, rfl, ?_⟩
        simp [uart_inv, hset, PACKET_DATA_LEN_MAX]
      · simp only [app_uart_task_step, frame_write, hidx, if_true, hu0, hu3, hu4, hx, hr,
          hc, if_false]
        refine ⟨_, _, rfl, ?_⟩
        simp [uart_inv, hset, PACKET_DATA_LEN_MAX]
    · have hu0 : u8 (need + 255) = need - 1 := by
        simp only [u8]; omega
      have hu1 : u8 (idx + 1) = idx + 1 := u8_of_lt (by omega)
      have hne : ¬ (need - 1 = 0) := by omega
      simp only [app_uart_task_step, frame_write, hidx, if_true, hu0, hu1, hne, if_false]
      refine ⟨_, _, rfl, ?_⟩
      simp only [uart_inv, hset, PACKET_DATA_LEN_MAX, true_and]
      intro _
      omega

theorem app_uart_task_inv :
    ∀ (queue : List Nat) (p : uart_fsm), (∀ b ∈ queue, b < 256) → uart_inv p →
      ∃ p1 calls, app_uart_task queue p = some (p1, calls) ∧ uart_inv p1 := by
  intro queue
  induction queue with
  | nil => intro p _ h; exact ⟨p, [], rfl, h⟩
  | cons byte rest ih =>
    intro p hb h
    obtain ⟨p1, c1, h1, h2⟩ :=
      app_uart_task_step_inv p byte (hb byte (List.mem_cons_self byte rest)) h
    obtain ⟨p2, c2, h3, h4⟩ := ih p1 (fun b hm => hb b (List.mem_cons_of_mem byte hm)) h2
    exact ⟨p2, c1 ++ c2, by simp only [app_uart_task, h1, h3], h4⟩

theorem uart_inv_init : uart_inv uart_fsm_init := by
  refine ⟨rfl, ?_⟩
  intro h
  exact parse_state_t.noConfusion h

/-- C28: frame buffer safety of `app_uart_task`.  For every sequence of bytes (values of
`uint8_t`) processed from the initial statics, the call returns without an access outside
the 11-byte `frame`: in the model every write `frame[idx]`, the checksum read
`frame[len + 3]` and all other reads of `frame` are checked, and the result is not `none`.
Afterwards `frame` still has 11 bytes, and if a payload is being collected the next write
index and the checksum index are in range: `idx < 11` and `len + 3 < 11`. -/
theorem frame_buffer_safety (queue : List Nat) (hb : ∀ b ∈ queue, b < 256) :
    ∃ p calls, app_uart_task queue uart_fsm_init = some (p, calls) ∧
      p.frame.length = PACKET_DATA_LEN_MAX ∧
      (p.st = parse_state_t.ST_WAIT_PAYLOAD_XOR →
        p.idx < PACKET_DATA_LEN_MAX ∧ p.len + 3 < PACKET_DATA_LEN_MAX) := by
  obtain ⟨p, calls, h1, h2, h3⟩ := app_uart_task_inv queue uart_fsm_init hb uart_inv_init
  refine ⟨p, calls, h1, h2, ?_⟩
  intro hst
  obtain ⟨g1, g2, g3, g4, g5⟩ := h3 hst
  simp only [PACKET_DATA_LEN_MAX]
  omega

/-- Witness for C28: a frame with the largest accepted length 7 followed by the first
bytes of another frame. -/
theorem frame_buffer_safety_witness :
    ∃ p calls, app_uart_task
        [0x55, 0xAA, 7, 6, 2, 1, 9, 9, 9, 9, 0xFC, 0x55, 0xAA, 7, 1, 2] uart_fsm_init
        = some (p, calls) ∧
      p.frame.length = PACKET_DATA_LEN_MAX ∧
      (p.st = parse_state_t.ST_WAIT_PAYLOAD_XOR →
        p.idx < PACKET_DATA_LEN_MAX ∧ p.len + 3 < PACKET_DATA_LEN_MAX) :=
  frame_buffer_safety [0x55, 0xAA, 7, 6, 2, 1, 9, 9, 9, 9, 0xFC, 0x55, 0xAA, 7, 1, 2]
    (by decide)

/-! ## UART parser: one frame through `app_uart_task` -/

theorem app_uart_task_append :
    ∀ (a b : List Nat) (p p1 : uart_fsm) (c1 : List led_ctrl_info_t),
      app_uart_task a p = some (p1, c1) →
      app_uart_task (a ++ b) p
        = match app_uart_task b p1 with
          | none => none
          | some (p2, c2) => some (p2, c1 ++ c2) := by
  intro a
  induction a with
  | nil =>
    intro b p p1 c1 h
    simp only [app_uart_task, Option.some.injEq, Prod.mk.injEq] at h
    obtain ⟨h1, h2⟩ := h
    subst h1 h2
    rw [List.nil_append]
    cases app_uart_task b p with
    | none => rfl
    | some r => obtain ⟨p2, c2⟩ := r; rfl
  | cons byte rest ih =>
    intro b p p1 c1 h
    simp only [app_uart_task, List.cons_append] at h ⊢
    cases hs : app_uart_task_step p byte with
    | none => simp [hs] at h
    | some r =>
      obtain ⟨pa, ca⟩ := r
      simp only [hs] at h ⊢
      cases hr : app_uart_task rest pa with
      | none => simp [hr] at h
      | some r2 =>
        obtain ⟨pb, cb⟩ := r2
        simp only [hr, Option.some.injEq, Prod.mk.injEq] at h
        obtain ⟨h1, h2⟩ := h
        subst h1 h2
        show (match app_uart_task (rest ++ b) pa with
          | none => none
          | some (p2, calls2) => some (p2, ca ++ calls2)) = _
        rw [ih b pa pb cb hr]
        cases app_uart_task b pb with
        | none => rfl
        | some r3 => simp [List.append_assoc]

theorem set_append_length (pre tail : List Nat) (t v : Nat) :
    (pre ++ t :: tail).set pre.length v = pre ++ v :: tail := by
  induction pre with
  | nil => rfl
  | cons a pre ih => simp [List.set, ih]

theorem payload_run :
    ∀ (bs pre tail : List Nat) (len need : Nat),
      bs.length < need → need ≤ tail.length → pre.length + need < 256 →
      app_uart_task bs ⟨parse_state_t.ST_WAIT_PAYLOAD_XOR, pre ++ tail, pre.length, len, need⟩
        = some (⟨parse_state_t.ST_WAIT_PAYLOAD_XOR, pre ++ bs ++ tail.drop bs.length,
            pre.length + bs.length, len, need - bs.length⟩, []) := by
  intro bs
  induction bs with
  | nil => intro pre tail len need _ _ _; simp [app_uart_task]
  | cons b rest ih =>
    intro pre tail len need h1 h2 h3
    simp only [List.length_cons] at h1
    cases tail with
    | nil => simp only [List.length_nil] at h2; omega
    | cons t tail1 =>
      simp only [List.length_cons] at h2
      have hidx : pre.length < (pre ++ t :: tail1).length := by
        rw [List.length_append, List.length_cons]; omega
      have hu0 : u8 (need + 255) = need - 1 := by simp only [u8]; omega
      have hu1 : u8 (pre.length + 1) = pre.length + 1 := u8_of_lt (by omega)
      have hne : ¬ (need - 1 = 0) := by omega
      have hstep : app_uart_task_step
          ⟨parse_state_t.ST_WAIT_PAYLOAD_XOR, pre ++ t :: tail1, pre.length, len, need⟩ b
          = some (⟨parse_state_t.ST_WAIT_PAYLOAD_XOR, (pre ++ [b]) ++ tail1,
              (pre ++ [b]).length, len, need - 1⟩, []) := by
        simp only [app_uart_task_step, frame_write, hidx, if_true, hu0, hu1, hne, if_false,
          set_append_length, List.length_append, List.length_singleton]
        simp
      have hrest := ih (pre ++ [b]) tail1 len (need - 1) (by omega) (by omega)
        (by rw [List.length_append, List.length_singleton]; omega)
      simp only [app_uart_task, hstep, hrest, List.nil_append]
      have e1 : (pre ++ [b]).length + rest.length = pre.length + (rest.length + 1) := by
        rw [List.length_append, List.length_singleton]; omega
      have e2 : need - 1 - rest.length = need - (rest.length + 1) := by omega
      rw [e1, e2]
      simp

theorem led_dispatch_frame (LEN X : Nat) (bs tl : List Nat) (h1 : 1 ≤ LEN)
    (hbs : bs.length = LEN) :
    led_dispatch ((0x55 :: 0xAA :: LEN :: bs) ++ X :: tl) LEN
      = some (if bs.head? = some 0x06 ∧ 3 ≤ LEN then [⟨bs.getD 1 0, bs.getD 2 0⟩] else []) := by
  match bs, hbs with
  | [], hbs => simp only [List.length_nil] at hbs; omega
  | [b1], hbs =>
    simp only [List.length_cons, List.length_nil] at hbs
    subst hbs
    by_cases h6 : b1 = 6 <;> simp [led_dispatch, FUNC_DATA_IDX, LED_CTRL_CODE, h6]
  | [b1, b2], hbs =>
    simp only [List.length_cons, List.length_nil] at hbs
    subst hbs
    by_cases h6 : b1 = 6 <;> simp [led_dispatch, FUNC_DATA_IDX, LED_CTRL_CODE, h6]
  | b1 :: b2 :: b3 :: rest, hbs =>
    simp only [List.length_cons] at hbs
    have h3 : 3 ≤ LEN := by omega
    by_cases h6 : b1 = 6 <;> simp [led_dispatch, FUNC_DATA_IDX, LED_CTRL_CODE, h6, h3]

theorem payload_last (LEN X t : Nat) (bs tl : List Nat) (h1 : 1 ≤ LEN) (h7 : LEN ≤ 7)
    (hbs : bs.length = LEN) :
    app_uart_task_step ⟨parse_state_t.ST_WAIT_PAYLOAD_XOR,
        (0x55 :: 0xAA :: LEN :: bs) ++ t :: tl, LEN + 3, LEN, 1⟩ X
      = some (⟨parse_state_t.ST_WAIT_HEAD1, (0x55 :: 0xAA :: LEN :: bs) ++ X :: tl, 0, LEN, 0⟩,
          frame_led_calls LEN bs X) := by
  have hpl : (0x55 :: 0xAA :: LEN :: bs).length = LEN + 3 := by
    simp only [List.length_cons, hbs]
  have hidx : LEN + 3 < ((0x55 :: 0xAA :: LEN :: bs) ++ t :: tl).length := by
    rw [List.length_append, hpl, List.length_cons]; omega
  have hset : ((0x55 :: 0xAA :: LEN :: bs) ++ t :: tl).set (LEN + 3) X
      = (0x55 :: 0xAA :: LEN :: bs) ++ X :: tl := by
    rw [← hpl]; exact set_append_length _ _ _ _
  have hlen1 : ((0x55 :: 0xAA :: LEN :: bs) ++ X :: tl).length = LEN + 4 + tl.length := by
    rw [List.length_append, hpl, List.length_cons]; omega
  have hu0 : u8 (1 + 255) = 0 := rfl
  have hu3 : u8 (LEN + 3) = LEN + 3 := u8_of_lt (by omega)
  have hu4 : u8 (LEN + 4) = LEN + 4 := u8_of_lt (by omega)
  have hx := cal_xor_sum_eq ((0x55 :: 0xAA :: LEN :: bs) ++ X :: tl) (LEN + 3) (by omega)
  have htake : List.take (LEN + 3) ((0x55 :: 0xAA :: LEN :: bs) ++ X :: tl)
      = 0x55 :: 0xAA :: LEN :: bs := by
    rw [← hpl]; exact List.take_left' rfl
  rw [htake] at hx
  have hr : ((0x55 :: 0xAA :: LEN :: bs) ++ X :: tl)[LEN + 3]? = some X := by
    rw [← hpl, List.getElem?_append_right (Nat.le_refl _)]
    simp
  have hd := led_dispatch_frame LEN X bs tl h1 hbs
  have hp := hex_dump_loop_eq ((0x55 :: 0xAA :: LEN :: bs) ++ X :: tl) (LEN + 4) 0 (by omega)
  by_cases hc : (0x55 :: 0xAA :: LEN :: bs).foldl (fun a b => a ^^^ b) 0 = X
  · have hc1 : X = (0x55 :: 0xAA :: LEN :: bs).foldl (fun a b => a ^^^ b) 0 := hc.symm
    simp only [app_uart_task_step, frame_write, hidx, if_true, hset, hu0, hu3, hu4, hx, hr,
      hc, hd, hp]
    by_cases hh : bs.head? = some 0x06 ∧ 3 ≤ LEN
    · have : X = (0x55 :: 0xAA :: LEN :: bs).foldl (fun a b => a ^^^ b) 0 ∧
          bs.head? = some 0x06 ∧ 3 ≤ LEN := ⟨hc1, hh⟩
      rw [frame_led_calls, if_pos this, if_pos hh]
    · have : ¬ (X = (0x55 :: 0xAA :: LEN :: bs).foldl (fun a b => a ^^^ b) 0 ∧
          bs.head? = some 0x06 ∧ 3 ≤ LEN) := fun h => hh h.2
      rw [frame_led_calls, if_neg this, if_neg hh]
  · have : ¬ (X = (0x55 :: 0xAA :: LEN :: bs).foldl (fun a b => a ^^^ b) 0 ∧
        bs.head? = some 0x06 ∧ 3 ≤ LEN) := fun h => hc h.1.symm
    simp only [app_uart_task_step, frame_write, hidx, if_true, hset, hu0, hu3, hu4, hx, hr,
      hc, if_false]
    rw [frame_led_calls, if_neg this]

theorem length_eleven {frame : List Nat} (h : frame.length = 11) :
    ∃ f0 f1 f2 tail, frame = f0 :: f1 :: f2 :: tail ∧ tail.length = 8 := by
  match frame, h with
  | f0 :: f1 :: f2 :: tail, h =>
    refine ⟨f0, f1, f2, tail, rfl, ?_⟩
    simp only [List.length_cons] at h
    omega

theorem frame_prefix_run (p : uart_fsm) (hst : p.st = parse_state_t.ST_WAIT_HEAD1)
    (hfl : p.frame.length = 11) (LEN : Nat) (bs : List Nat) (h1 : 1 ≤ LEN) (h7 : LEN ≤ 7)
    (hbs : bs.length = LEN) :
    ∃ (t : Nat) (tl : List Nat), tl.length = 7 - LEN ∧
      app_uart_task (0x55 :: 0xAA :: LEN :: bs) p
        = some (⟨parse_state_t.ST_WAIT_PAYLOAD_XOR, (0x55 :: 0xAA :: LEN :: bs) ++ t :: tl,
            LEN + 3, LEN, 1⟩, []) := by
  obtain ⟨st, frame, idx, len, need⟩ := p
  simp only at hst hfl
  subst hst
  obtain ⟨f0, f1, f2, tail, hf, htl⟩ := length_eleven hfl
  subst hf
  have hs1 : app_uart_task_step
      ⟨parse_state_t.ST_WAIT_HEAD1, f0 :: f1 :: f2 :: tail, idx, len, need⟩ 0x55
      = some (⟨parse_state_t.ST_WAIT_HEAD2, 0x55 :: f1 :: f2 :: tail, 1, len, need⟩, []) := by
    simp [app_uart_task_step, frame_write, DATA_HEAD_ONE]
  have hs2 : app_uart_task_step
      ⟨parse_state_t.ST_WAIT_HEAD2, 0x55 :: f1 :: f2 :: tail, 1, len, need⟩ 0xAA
      = some (⟨parse_state_t.ST_WAIT_LEN, 0x55 :: 0xAA :: f2 :: tail, 2, len, need⟩, []) := by
    simp [app_uart_task_step, frame_write, DATA_HEAD_TWO]
  have hlv : ¬ (LEN < 1 ∨ (LEN + 4) % 65536 > PACKET_DATA_LEN_MAX) := by
    simp only [PACKET_DATA_LEN_MAX]; omega
  have hu : u8 (LEN + 1) = LEN + 1 := u8_of_lt (by omega)
  have hs3 : app_uart_task_step
      ⟨parse_state_t.ST_WAIT_LEN, 0x55 :: 0xAA :: f2 :: tail, 2, len, need⟩ LEN
      = some (⟨parse_state_t.ST_WAIT_PAYLOAD_XOR, [0x55, 0xAA, LEN] ++ tail,
          ([0x55, 0xAA, LEN] : List Nat).length, LEN, LEN + 1⟩, []) := by
    simp only [app_uart_task_step, frame_write, hlv, if_false, hu]
    simp
  have hpay := payload_run bs [0x55, 0xAA, LEN] tail LEN (LEN + 1) (by omega) (by omega)
    (by simp only [List.length_cons, List.length_nil]; omega)
  have hdl : (tail.drop bs.length).length = 8 - LEN := by
    rw [List.length_drop, htl, hbs]
  obtain ⟨t, tl, htd⟩ : ∃ t tl, tail.drop bs.length = t :: tl := by
    cases hd : tail.drop bs.length with
    | nil => rw [hd] at hdl; simp only [List.length_nil] at hdl; omega
    | cons t tl => exact ⟨t, tl, rfl⟩
  have hpl : ([0x55, 0xAA, LEN] : List Nat).length + bs.length = LEN + 3 := by
    simp only [List.length_cons, List.length_nil, hbs]; omega
  have hn1 : LEN + 1 - bs.length = 1 := by omega
  rw [htd, hpl, hn1] at hpay
  have hdl1 : tl.length = 7 - LEN := by
    have := congrArg List.length htd
    rw [hdl, List.length_cons] at this
    omega
  refine ⟨t, tl, hdl1, ?_⟩
  simp only [app_uart_task, hs1, hs2, hs3, List.nil_append]
  rw [hpay]
  rfl

theorem frame_run (p : uart_fsm) (hst : p.st = parse_state_t.ST_WAIT_HEAD1)
    (hfl : p.frame.length = 11) (LEN X : Nat) (bs : List Nat) (h1 : 1 ≤ LEN) (h7 : LEN ≤ 7)
    (hbs : bs.length = LEN) :
    ∃ p1, app_uart_task (0x55 :: 0xAA :: LEN :: (bs ++ [X])) p
        = some (p1, frame_led_calls LEN bs X) ∧
      p1.st = parse_state_t.ST_WAIT_HEAD1 ∧ p1.frame.length = 11 := by
  obtain ⟨t, tl, htl, hrun⟩ := frame_prefix_run p hst hfl LEN bs h1 h7 hbs
  have hlast := payload_last LEN X t bs tl h1 h7 hbs
  refine ⟨⟨parse_state_t.ST_WAIT_HEAD1, (0x55 :: 0xAA :: LEN :: bs) ++ X :: tl, 0, LEN, 0⟩,
    ?_, rfl, ?_⟩
  · have e : 0x55 :: 0xAA :: LEN :: (bs ++ [X]) = (0x55 :: 0xAA :: LEN :: bs) ++ [X] := rfl
    rw [e, app_uart_task_append _ [X] _ _ _ hrun]
    simp only [app_uart_task, hlast, List.nil_append, List.append_nil]
  · simp only [List.length_append, List.length_cons, hbs, htl]
    omega

/-- C27: UART frame acceptance.  From any statics with `st = ST_WAIT_HEAD1` (and the
11-byte `frame`), `app_uart_task` fed the bytes `0x55 0xAA LEN b1..bLEN X` with
`1 ≤ LEN ≤ 7` returns, is back in `ST_WAIT_HEAD1`, and has called `ctrl_led` exactly once,
with `led_num = b2` and `led_state = b3`, if `X` is the XOR of all bytes before it,
`b1 = 0x06` and `LEN ≥ 3`; otherwise it has made no call.  A length byte of 0 or above 7
(a `uint8_t`) after `0x55 0xAA` is rejected at once: the parser is back in
`ST_WAIT_HEAD1` and no call is made. -/
theorem frame_acceptance (p : uart_fsm) (hst : p.st = parse_state_t.ST_WAIT_HEAD1)
    (hfl : p.frame.length = PACKET_DATA_LEN_MAX) (LEN X : Nat) (bs : List Nat)
    (h1 : 1 ≤ LEN) (h7 : LEN ≤ 7) (hbs : bs.length = LEN) :
    (∃ p1, app_uart_task (0x55 :: 0xAA :: LEN :: (bs ++ [X])) p
        = some (p1,
            if X = (0x55 :: 0xAA :: LEN :: bs).foldl (fun a b => a ^^^ b) 0 ∧
                bs.head? = some 0x06 ∧ 3 ≤ LEN then
              [⟨bs.getD 1 0, bs.getD 2 0⟩]
            else []) ∧
      p1.st = parse_state_t.ST_WAIT_HEAD1) ∧
    (∀ L : Nat, L = 0 ∨ 7 < L → L < 256 →
      ∃ p1, app_uart_task [0x55, 0xAA, L] p = some (p1, []) ∧
        p1.st = parse_state_t.ST_WAIT_HEAD1) := by
  constructor
  · obtain ⟨p1, g1, g2, _⟩ := frame_run p hst hfl LEN X bs h1 h7 hbs
    exact ⟨p1, g1, g2⟩
  · intro L hL h256
    obtain ⟨st, frame, idx, len, need⟩ := p
    simp only [PACKET_DATA_LEN_MAX] at hst hfl
    subst hst
    obtain ⟨f0, f1, f2, tail, hf, _⟩ := length_eleven hfl
    subst hf
    have hlv : L < 1 ∨ (L + 4) % 65536 > PACKET_DATA_LEN_MAX := by
      simp only [PACKET_DATA_LEN_MAX]; omega
    refine ⟨⟨parse_state_t.ST_WAIT_HEAD1, 0x55 :: 0xAA :: f2 :: tail, 0, L, need⟩, ?_, rfl⟩
    have hlv2 : L = 0 ∨ PACKET_DATA_LEN_MAX < (L + 4) % 65536 := by
      simp only [PACKET_DATA_LEN_MAX]; omega
    simp [app_uart_task, app_uart_task_step, frame_write, DATA_HEAD_ONE, DATA_HEAD_TWO, hlv2]

/-- Witness for C27: the frame `55 AA 03 06 02 01 F9` from the initial statics. -/
theorem frame_acceptance_witness :
    (∃ p1, app_uart_task (0x55 :: 0xAA :: 3 :: ([0x06, 0x02, 0x01] ++ [0xF9])) uart_fsm_init
        = some (p1,
            if 0xF9 = (0x55 :: 0xAA :: 3 :: [0x06, 0x02, 0x01]).foldl (fun a b => a ^^^ b) 0 ∧
                [0x06, 0x02, 0x01].head? = some 0x06 ∧ 3 ≤ 3 then
              [⟨[0x06, 0x02, 0x01].getD 1 0, [0x06, 0x02, 0x01].getD 2 0⟩]
            else []) ∧
      p1.st = parse_state_t.ST_WAIT_HEAD1) ∧
    (∀ L : Nat, L = 0 ∨ 7 < L → L < 256 →
      ∃ p1, app_uart_task [0x55, 0xAA, L] uart_fsm_init = some (p1, []) ∧
        p1.st = parse_state_t.ST_WAIT_HEAD1) :=
  frame_acceptance uart_fsm_init rfl rfl 3 0xF9 [0x06, 0x02, 0x01] (by decide) (by decide)
    rfl

/-! ## UART parser: the state-machine parser from `ST_WAIT_HEAD1`, case by case -/

theorem fsm_skip (a : Nat) (u : List Nat) (p : uart_fsm)
    (hst : p.st = parse_state_t.ST_WAIT_HEAD1) (ha : a ≠ DATA_HEAD_ONE) :
    app_uart_task (a :: u) p = app_uart_task u p ∧
      uart_run_clean (a :: u) p = uart_run_clean u p := by
  obtain ⟨st, frame, idx, len, need⟩ := p
  simp only at hst
  subst hst
  have hs : app_uart_task_step ⟨parse_state_t.ST_WAIT_HEAD1, frame, idx, len, need⟩ a
      = some (⟨parse_state_t.ST_WAIT_HEAD1, frame, idx, len, need⟩, []) := by
    simp only [app_uart_task_step, ha, if_false]
  constructor
  · simp only [app_uart_task, hs, List.nil_append]
    cases app_uart_task u ⟨parse_state_t.ST_WAIT_HEAD1, frame, idx, len, need⟩ with
    | none => rfl
    | some r => rfl
  · simp only [uart_run_clean, hs, uart_step_discards, Bool.true_and]

theorem fsm_head2_miss (b : Nat) (u : List Nat) (p : uart_fsm)
    (hst : p.st = parse_state_t.ST_WAIT_HEAD1) (hfl : p.frame.length = 11)
    (hb2 : b ≠ DATA_HEAD_TWO) (hb1 : b ≠ DATA_HEAD_ONE) :
    ∃ q : uart_fsm, q.st = parse_state_t.ST_WAIT_HEAD1 ∧ q.frame.length = 11 ∧
      app_uart_task (0x55 :: b :: u) p = app_uart_task u q ∧
      uart_run_clean (0x55 :: b :: u) p = uart_run_clean u q := by
  obtain ⟨st, frame, idx, len, need⟩ := p
  simp only at hst hfl
  subst hst
  obtain ⟨f0, f1, f2, tail, hf, htl⟩ := length_eleven hfl
  subst hf
  have hs1 : app_uart_task_step
      ⟨parse_state_t.ST_WAIT_HEAD1, f0 :: f1 :: f2 :: tail, idx, len, need⟩ 0x55
      = some (⟨parse_state_t.ST_WAIT_HEAD2, 0x55 :: f1 :: f2 :: tail, 1, len, need⟩, []) := by
    simp [app_uart_task_step, frame_write, DATA_HEAD_ONE]
  have hs2 : app_uart_task_step
      ⟨parse_state_t.ST_WAIT_HEAD2, 0x55 :: f1 :: f2 :: tail, 1, len, need⟩ b
      = some (⟨parse_state_t.ST_WAIT_HEAD1, 0x55 :: f1 :: f2 :: tail, 0, len, need⟩, []) := by
    simp only [app_uart_task_step, hb2, hb1, if_false]
  refine ⟨⟨parse_state_t.ST_WAIT_HEAD1, 0x55 :: f1 :: f2 :: tail, 0, len, need⟩, rfl, ?_, ?_, ?_⟩
  · simp only [List.length_cons, htl]
  · simp only [app_uart_task, hs1, hs2, List.nil_append]
    cases app_uart_task u
        ⟨parse_state_t.ST_WAIT_HEAD1, 0x55 :: f1 :: f2 :: tail, 0, len, need⟩ with
    | none => rfl
    | some r => rfl
  · simp [uart_run_clean, hs1, hs2, uart_step_discards, DATA_HEAD_ONE, DATA_HEAD_TWO]

theorem fsm_head1_again (u : List Nat) (p : uart_fsm)
    (hst : p.st = parse_state_t.ST_WAIT_HEAD1) (hfl : p.frame.length = 11) :
    ∃ q : uart_fsm, q.st = parse_state_t.ST_WAIT_HEAD1 ∧ q.frame.length = 11 ∧
      app_uart_task (0x55 :: 0x55 :: u) p = app_uart_task (0x55 :: u) q ∧
      uart_run_clean (0x55 :: 0x55 :: u) p = uart_run_clean (0x55 :: u) q := by
  obtain ⟨st, frame, idx, len, need⟩ := p
  simp only at hst hfl
  subst hst
  obtain ⟨f0, f1, f2, tail, hf, htl⟩ := length_eleven hfl
  subst hf
  have hs1 : ∀ (g0 i0 : Nat), app_uart_task_step
      ⟨parse_state_t.ST_WAIT_HEAD1, g0 :: f1 :: f2 :: tail, i0, len, need⟩ 0x55
      = some (⟨parse_state_t.ST_WAIT_HEAD2, 0x55 :: f1 :: f2 :: tail, 1, len, need⟩, []) := by
    intro g0 i0
    simp [app_uart_task_step, frame_write, DATA_HEAD_ONE]
  have hs2 : app_uart_task_step
      ⟨parse_state_t.ST_WAIT_HEAD2, 0x55 :: f1 :: f2 :: tail, 1, len, need⟩ 0x55
      = some (⟨parse_state_t.ST_WAIT_HEAD2, 0x55 :: f1 :: f2 :: tail, 1, len, need⟩, []) := by
    simp [app_uart_task_step, frame_write, DATA_HEAD_ONE, DATA_HEAD_TWO]
  refine ⟨⟨parse_state_t.ST_WAIT_HEAD1, 0x55 :: f1 :: f2 :: tail, 0, len, need⟩, rfl, ?_, ?_, ?_⟩
  · simp only [List.length_cons, htl]
  · simp only [app_uart_task, hs1, hs2, List.nil_append]
    cases app_uart_task u
        ⟨parse_state_t.ST_WAIT_HEAD2, 0x55 :: f1 :: f2 :: tail, 1, len, need⟩ with
    | none => rfl
    | some r => rfl
  · simp [uart_run_clean, hs1, hs2, uart_step_discards, DATA_HEAD_ONE, DATA_HEAD_TWO]

theorem fsm_bad_len (L : Nat) (u : List Nat) (p : uart_fsm)
    (hst : p.st = parse_state_t.ST_WAIT_HEAD1) (hfl : p.frame.length = 11)
    (hL : L < 1 ∨ (L + 4) % 65536 > PACKET_DATA_LEN_MAX) :
    ∃ q : uart_fsm, q.st = parse_state_t.ST_WAIT_HEAD1 ∧ q.frame.length = 11 ∧
      app_uart_task (0x55 :: 0xAA :: L :: u) p = app_uart_task u q ∧
      uart_run_clean (0x55 :: 0xAA :: L :: u) p
        = (no_frame_start_in [0xAA, L] u && uart_run_clean u q) := by
  obtain ⟨st, frame, idx, len, need⟩ := p
  simp only at hst hfl
  subst hst
  obtain ⟨f0, f1, f2, tail, hf, htl⟩ := length_eleven hfl
  subst hf
  have hs1 : app_uart_task_step
      ⟨parse_state_t.ST_WAIT_HEAD1, f0 :: f1 :: f2 :: tail, idx, len, need⟩ 0x55
      = some (⟨parse_state_t.ST_WAIT_HEAD2, 0x55 :: f1 :: f2 :: tail, 1, len, need⟩, []) := by
    simp [app_uart_task_step, frame_write, DATA_HEAD_ONE]
  have hs2 : app_uart_task_step
      ⟨parse_state_t.ST_WAIT_HEAD2, 0x55 :: f1 :: f2 :: tail, 1, len, need⟩ 0xAA
      = some (⟨parse_state_t.ST_WAIT_LEN, 0x55 :: 0xAA :: f2 :: tail, 2, len, need⟩, []) := by
    simp [app_uart_task_step, frame_write, DATA_HEAD_TWO]
  have hs3 : app_uart_task_step
      ⟨parse_state_t.ST_WAIT_LEN, 0x55 :: 0xAA :: f2 :: tail, 2, len, need⟩ L
      = some (⟨parse_state_t.ST_WAIT_HEAD1, 0x55 :: 0xAA :: f2 :: tail, 0, L, need⟩, []) := by
    simp only [app_uart_task_step, hL, if_true]
  refine ⟨⟨parse_state_t.ST_WAIT_HEAD1, 0x55 :: 0xAA :: f2 :: tail, 0, L, need⟩, rfl, ?_, ?_, ?_⟩
  · simp only [List.length_cons, htl]
  · simp only [app_uart_task, hs1, hs2, hs3, List.nil_append]
    cases app_uart_task u
        ⟨parse_state_t.ST_WAIT_HEAD1, 0x55 :: 0xAA :: f2 :: tail, 0, L, need⟩ with
    | none => rfl
    | some r => rfl
  · have hL2 : L = 0 ∨ PACKET_DATA_LEN_MAX < (L + 4) % 65536 := by
      rcases hL with h | h
      · left; omega
      · right; exact h
    simp [uart_run_clean, hs1, hs2, hs3, uart_step_discards, hL2]

theorem uart_run_clean_append :
    ∀ (a b : List Nat) (p p1 : uart_fsm) (c1 : List led_ctrl_info_t),
      app_uart_task a p = some (p1, c1) → uart_run_clean (a ++ b) p = true →
      uart_run_clean b p1 = true := by
  intro a
  induction a with
  | nil =>
    intro b p p1 c1 h hc
    simp only [app_uart_task, Option.some.injEq, Prod.mk.injEq] at h
    rw [← h.1]
    exact hc
  | cons byte rest ih =>
    intro b p p1 c1 h hc
    simp only [app_uart_task] at h
    simp only [List.cons_append, uart_run_clean, Bool.and_eq_true] at hc
    cases hs : app_uart_task_step p byte with
    | none => simp [hs] at h
    | some r =>
      obtain ⟨pa, ca⟩ := r
      simp only [hs] at h hc
      cases hr : app_uart_task rest pa with
      | none => simp [hr] at h
      | some r2 =>
        obtain ⟨pb, cb⟩ := r2
        simp only [hr, Option.some.injEq, Prod.mk.injEq] at h
        rw [← h.1]
        exact ih b pa pb cb hr hc.2

theorem fsm_one (a : Nat) (p : uart_fsm) (hst : p.st = parse_state_t.ST_WAIT_HEAD1)
    (hfl : p.frame.length = 11) :
    (app_uart_task [a] p).map Prod.snd = some [] := by
  obtain ⟨st, frame, idx, len, need⟩ := p
  simp only at hst hfl
  subst hst
  have h0 : 0 < frame.length := by omega
  by_cases ha : a = DATA_HEAD_ONE
  · simp [app_uart_task, app_uart_task_step, frame_write, ha, h0]
  · simp [app_uart_task, app_uart_task_step, ha]

theorem fsm_short (s : List Nat) (p : uart_fsm)
    (hst : p.st = parse_state_t.ST_WAIT_HEAD1) (hfl : p.frame.length = 11)
    (hs : s.length < 3) :
    (app_uart_task s p).map Prod.snd = some [] := by
  match s, hs with
  | [], _ => rfl
  | [a], _ => exact fsm_one a p hst hfl
  | [a, b], _ =>
    by_cases ha : a = DATA_HEAD_ONE
    · subst ha
      by_cases hb1 : b = DATA_HEAD_ONE
      · subst hb1
        obtain ⟨q, q1, q2, q3, _⟩ := fsm_head1_again [] p hst hfl
        have e : app_uart_task [DATA_HEAD_ONE, DATA_HEAD_ONE] p
            = app_uart_task [DATA_HEAD_ONE] q := q3
        rw [e]
        exact fsm_one _ q q1 q2
      · by_cases hb2 : b = DATA_HEAD_TWO
        · subst hb2
          obtain ⟨st, frame, idx, len, need⟩ := p
          simp only at hst hfl
          subst hst
          obtain ⟨f0, f1, f2, tail, hf, _⟩ := length_eleven hfl
          subst hf
          simp [app_uart_task, app_uart_task_step, frame_write, DATA_HEAD_ONE, DATA_HEAD_TWO]
        · obtain ⟨q, _, _, q3, _⟩ := fsm_head2_miss b [] p hst hfl hb2 hb1
          have e : app_uart_task [DATA_HEAD_ONE, b] p = app_uart_task [] q := q3
          rw [e]
          rfl
    · rw [(fsm_skip a [b] p hst ha).1]
      exact fsm_one b p hst hfl

theorem fsm_incomplete (L : Nat) (u : List Nat) (p : uart_fsm)
    (hst : p.st = parse_state_t.ST_WAIT_HEAD1) (hfl : p.frame.length = 11)
    (h1 : 1 ≤ L) (h7 : L ≤ 7) (hu : u.length < L + 1) :
    (app_uart_task (0x55 :: 0xAA :: L :: u) p).map Prod.snd = some [] := by
  obtain ⟨st, frame, idx, len, need⟩ := p
  simp only at hst hfl
  subst hst
  obtain ⟨f0, f1, f2, tail, hf, htl⟩ := length_eleven hfl
  subst hf
  have hs1 : app_uart_task_step
      ⟨parse_state_t.ST_WAIT_HEAD1, f0 :: f1 :: f2 :: tail, idx, len, need⟩ 0x55
      = some (⟨parse_state_t.ST_WAIT_HEAD2, 0x55 :: f1 :: f2 :: tail, 1, len, need⟩, []) := by
    simp [app_uart_task_step, frame_write, DATA_HEAD_ONE]
  have hs2 : app_uart_task_step
      ⟨parse_state_t.ST_WAIT_HEAD2, 0x55 :: f1 :: f2 :: tail, 1, len, need⟩ 0xAA
      = some (⟨parse_state_t.ST_WAIT_LEN, 0x55 :: 0xAA :: f2 :: tail, 2, len, need⟩, []) := by
    simp [app_uart_task_step, frame_write, DATA_HEAD_TWO]
  have hlv : ¬ (L < 1 ∨ (L + 4) % 65536 > PACKET_DATA_LEN_MAX) := by
    simp only [PACKET_DATA_LEN_MAX]; omega
  have hu8 : u8 (L + 1) = L + 1 := u8_of_lt (by omega)
  have hs3 : app_uart_task_step
      ⟨parse_state_t.ST_WAIT_LEN, 0x55 :: 0xAA :: f2 :: tail, 2, len, need⟩ L
      = some (⟨parse_state_t.ST_WAIT_PAYLOAD_XOR, [0x55, 0xAA, L] ++ tail,
          ([0x55, 0xAA, L] : List Nat).length, L, L + 1⟩, []) := by
    simp only [app_uart_task_step, frame_write, hlv, if_false, hu8]
    simp
  have hpay := payload_run u [0x55, 0xAA, L] tail L (L + 1) hu (by omega)
    (by simp only [List.length_cons, List.length_nil]; omega)
  simp only [app_uart_task, hs1, hs2, hs3, List.nil_append]
  rw [hpay]
  rfl

theorem fsm_frame (L X : Nat) (bs rest : List Nat) (p : uart_fsm)
    (hst : p.st = parse_state_t.ST_WAIT_HEAD1) (hfl : p.frame.length = 11)
    (h1 : 1 ≤ L) (h7 : L ≤ 7) (hbs : bs.length = L) :
    ∃ q : uart_fsm, q.st = parse_state_t.ST_WAIT_HEAD1 ∧ q.frame.length = 11 ∧
      app_uart_task (0x55 :: 0xAA :: L :: (bs ++ X :: rest)) p
        = (match app_uart_task rest q with
          | none => none
          | some (p2, c2) => some (p2, frame_led_calls L bs X ++ c2)) ∧
      (uart_run_clean (0x55 :: 0xAA :: L :: (bs ++ X :: rest)) p = true →
        ((0x55 :: 0xAA :: L :: bs).foldl (fun a b => a ^^^ b) 0 = X ∨
          no_frame_start_in (0xAA :: L :: (bs ++ [X])) rest = true) ∧
          uart_run_clean rest q = true) := by
  obtain ⟨t, tl, htl, hrun⟩ := frame_prefix_run p hst hfl L bs h1 h7 hbs
  have hlast := payload_last L X t bs tl h1 h7 hbs
  have e : 0x55 :: 0xAA :: L :: (bs ++ X :: rest)
      = (0x55 :: 0xAA :: L :: bs) ++ X :: rest := rfl
  refine ⟨⟨parse_state_t.ST_WAIT_HEAD1, (0x55 :: 0xAA :: L :: bs) ++ X :: tl, 0, L, 0⟩,
    rfl, ?_, ?_, ?_⟩
  · simp only [List.length_append, List.length_cons, hbs, htl]
    omega
  · rw [e, app_uart_task_append _ (X :: rest) _ _ _ hrun]
    simp only [app_uart_task, hlast, List.nil_append]
    cases app_uart_task rest
        ⟨parse_state_t.ST_WAIT_HEAD1, (0x55 :: 0xAA :: L :: bs) ++ X :: tl, 0, L, 0⟩ with
    | none => rfl
    | some r => rfl
  · intro hc
    rw [e] at hc
    have hc1 := uart_run_clean_append _ (X :: rest) _ _ _ hrun hc
    simp only [uart_run_clean, hlast, Bool.and_eq_true] at hc1
    refine ⟨?_, hc1.2⟩
    have hd := hc1.1
    have hpl : (0x55 :: 0xAA :: L :: bs).length = L + 3 := by
      simp only [List.length_cons, hbs]
    have hidx : L + 3 < ((0x55 :: 0xAA :: L :: bs) ++ t :: tl).length := by
      rw [List.length_append, hpl, List.length_cons]; omega
    have hset : ((0x55 :: 0xAA :: L :: bs) ++ t :: tl).set (L + 3) X
        = (0x55 :: 0xAA :: L :: bs) ++ X :: tl := by
      rw [← hpl]; exact set_append_length _ _ _ _
    have hu0 : u8 (1 + 255) = 0 := rfl
    have hu3 : u8 (L + 3) = L + 3 := u8_of_lt (by omega)
    have hx := cal_xor_sum_eq ((0x55 :: 0xAA :: L :: bs) ++ X :: tl) (L + 3)
      (by rw [List.length_append, hpl, List.length_cons]; omega)
    have htake : List.take (L + 3) ((0x55 :: 0xAA :: L :: bs) ++ X :: tl)
        = 0x55 :: 0xAA :: L :: bs := by
      rw [← hpl]; exact List.take_left' rfl
    rw [htake] at hx
    have hr : ((0x55 :: 0xAA :: L :: bs) ++ X :: tl)[L + 3]? = some X := by
      rw [← hpl, List.getElem?_append_right (Nat.le_refl _)]
      simp
    have htk : List.take (L + 3) ((0x55 :: 0xAA :: L :: bs) ++ t :: tl)
        = 0x55 :: 0xAA :: L :: bs := by
      rw [← hpl]; exact List.take_left' rfl
    simp only [uart_step_discards, frame_write, hidx, if_true, hset, hu0, hu3, hx, hr,
      Option.some.injEq, htk] at hd
    by_cases hxx : (0x55 :: 0xAA :: L :: bs).foldl (fun a b => a ^^^ b) 0 = X
    · exact Or.inl hxx
    · rw [if_neg hxx] at hd
      exact Or.inr hd

/-! ## UART parser: the stream parser, case by case -/

theorem loop_short (f : Nat) (s : List Nat) (hs : s.length < 3) :
    app_uart_task2_loop (f + 1) s = some (s, []) := by
  simp only [app_uart_task2_loop, hs, if_true]

theorem loop_drop (f a b c : Nat) (t : List Nat)
    (h : a ≠ DATA_HEAD_ONE ∨ b ≠ DATA_HEAD_TWO ∨
      (c < 1 ∨ (c + 4) % 65536 > PACKET_DATA_LEN_MAX)) :
    app_uart_task2_loop (f + 1) (a :: b :: c :: t) = app_uart_task2_loop f (b :: c :: t) := by
  have hl : ¬ (a :: b :: c :: t).length < 3 := by simp only [List.length_cons]; omega
  simp only [app_uart_task2_loop, hl, if_false, List.getElem?_cons_zero,
    List.getElem?_cons_succ, List.tail_cons]
  by_cases ha : a = DATA_HEAD_ONE
  · by_cases hb : b = DATA_HEAD_TWO
    · have hc : c < 1 ∨ (c + 4) % 65536 > PACKET_DATA_LEN_MAX := by
        rcases h with h | h | h
        · exact absurd ha h
        · exact absurd hb h
        · exact h
      simp only [ha, hb, ne_eq, not_true_eq_false, if_false, hc, if_true]
    · simp only [ha, hb, ne_eq, not_true_eq_false, not_false_eq_true, if_false, if_true]
  · simp only [ha, ne_eq, not_false_eq_true, if_true]

theorem loop_incomplete (f L : Nat) (u : List Nat) (h1 : 1 ≤ L) (h7 : L ≤ 7)
    (hu : u.length < L + 1) :
    app_uart_task2_loop (f + 1) (0x55 :: 0xAA :: L :: u)
      = some (0x55 :: 0xAA :: L :: u, []) := by
  have hl : ¬ (0x55 :: 0xAA :: L :: u).length < 3 := by simp only [List.length_cons]; omega
  have hlv : ¬ (L < 1 ∨ (L + 4) % 65536 > PACKET_DATA_LEN_MAX) := by
    simp only [PACKET_DATA_LEN_MAX]; omega
  have hu4 : u8 (L + 4) = L + 4 := u8_of_lt (by omega)
  have hlt : (0x55 :: 0xAA :: L :: u).length < L + 4 := by
    simp only [List.length_cons]; omega
  simp only [app_uart_task2_loop, hl, if_false, List.getElem?_cons_zero,
    List.getElem?_cons_succ, DATA_HEAD_ONE, DATA_HEAD_TWO, ne_eq, not_true_eq_false, hlv, hu4,
    hlt, if_true]

theorem loop_frame (f L X : Nat) (bs rest : List Nat) (h1 : 1 ≤ L) (h7 : L ≤ 7)
    (hbs : bs.length = L)
    (hx : (0x55 :: 0xAA :: L :: bs).foldl (fun a b => a ^^^ b) 0 = X) :
    app_uart_task2_loop (f + 1) (0x55 :: 0xAA :: L :: (bs ++ X :: rest))
      = (match app_uart_task2_loop f rest with
        | none => none
        | some (s1, c1) => some (s1, frame_led_calls L bs X ++ c1)) := by
  have e : 0x55 :: 0xAA :: L :: (bs ++ X :: rest)
      = (0x55 :: 0xAA :: L :: bs) ++ X :: rest := rfl
  have hpl : (0x55 :: 0xAA :: L :: bs).length = L + 3 := by
    simp only [List.length_cons, hbs]
  have hlen : ((0x55 :: 0xAA :: L :: bs) ++ X :: rest).length = L + 4 + rest.length := by
    rw [List.length_append, hpl, List.length_cons]; omega
  have hl : ¬ ((0x55 :: 0xAA :: L :: bs) ++ X :: rest).length < 3 := by omega
  have hlv : ¬ (L < 1 ∨ (L + 4) % 65536 > PACKET_DATA_LEN_MAX) := by
    simp only [PACKET_DATA_LEN_MAX]; omega
  have hu3 : u8 (L + 3) = L + 3 := u8_of_lt (by omega)
  have hu4 : u8 (L + 4) = L + 4 := u8_of_lt (by omega)
  have hlt : ¬ ((0x55 :: 0xAA :: L :: bs) ++ X :: rest).length < L + 4 := by omega
  have hg0 : ((0x55 :: 0xAA :: L :: bs) ++ X :: rest)[0]? = some 0x55 := rfl
  have hg1 : ((0x55 :: 0xAA :: L :: bs) ++ X :: rest)[1]? = some 0xAA := rfl
  have hg2 : ((0x55 :: 0xAA :: L :: bs) ++ X :: rest)[2]? = some L := by simp
  have hxs := cal_xor_sum_eq ((0x55 :: 0xAA :: L :: bs) ++ X :: rest) (L + 3) (by omega)
  have htake : List.take (L + 3) ((0x55 :: 0xAA :: L :: bs) ++ X :: rest)
      = 0x55 :: 0xAA :: L :: bs := by
    rw [← hpl]; exact List.take_left' rfl
  rw [htake, hx] at hxs
  have hr : ((0x55 :: 0xAA :: L :: bs) ++ X :: rest)[L + 3]? = some X := by
    rw [← hpl, List.getElem?_append_right (Nat.le_refl _)]
    simp
  have hd := led_dispatch_frame L X bs rest h1 hbs
  have hp := hex_dump_loop_eq ((0x55 :: 0xAA :: L :: bs) ++ X :: rest) (L + 4) 0 (by omega)
  have hdrop : List.drop (L + 4) ((0x55 :: 0xAA :: L :: bs) ++ X :: rest) = rest := by
    have : L + 4 = ((0x55 :: 0xAA :: L :: bs) ++ [X]).length := by
      rw [List.length_append, hpl]; rfl
    rw [this]
    have e2 : (0x55 :: 0xAA :: L :: bs) ++ X :: rest
        = ((0x55 :: 0xAA :: L :: bs) ++ [X]) ++ rest := by simp
    rw [e2]
    exact List.drop_left' rfl
  have hcalls : frame_led_calls L bs X
      = if bs.head? = some 0x06 ∧ 3 ≤ L then [⟨bs.getD 1 0, bs.getD 2 0⟩] else [] := by
    by_cases hh : bs.head? = some 0x06 ∧ 3 ≤ L
    · rw [frame_led_calls, if_pos ⟨hx.symm, hh⟩, if_pos hh]
    · have : ¬ (X = (0x55 :: 0xAA :: L :: bs).foldl (fun a b => a ^^^ b) 0 ∧
          bs.head? = some 0x06 ∧ 3 ≤ L) := fun h => hh h.2
      rw [frame_led_calls, if_neg this, if_neg hh]
  rw [e, hcalls]
  simp only [app_uart_task2_loop, hl, if_false, hg0, hg1, hg2, DATA_HEAD_ONE, DATA_HEAD_TWO,
    ne_eq, not_true_eq_false, hlv, hu3, hu4, hlt, hxs, hr, hd, hp, hdrop]

theorem loop_bad_xor (f L X : Nat) (bs rest : List Nat) (h1 : 1 ≤ L) (h7 : L ≤ 7)
    (hbs : bs.length = L)
    (hx : (0x55 :: 0xAA :: L :: bs).foldl (fun a b => a ^^^ b) 0 ≠ X) :
    app_uart_task2_loop (f + 1) (0x55 :: 0xAA :: L :: (bs ++ X :: rest))
      = app_uart_task2_loop f (0xAA :: L :: (bs ++ X :: rest)) := by
  have e : 0x55 :: 0xAA :: L :: (bs ++ X :: rest)
      = (0x55 :: 0xAA :: L :: bs) ++ X :: rest := rfl
  have hpl : (0x55 :: 0xAA :: L :: bs).length = L + 3 := by
    simp only [List.length_cons, hbs]
  have hlen : ((0x55 :: 0xAA :: L :: bs) ++ X :: rest).length = L + 4 + rest.length := by
    rw [List.length_append, hpl, List.length_cons]; omega
  have hl : ¬ ((0x55 :: 0xAA :: L :: bs) ++ X :: rest).length < 3 := by omega
  have hlv : ¬ (L < 1 ∨ (L + 4) % 65536 > PACKET_DATA_LEN_MAX) := by
    simp only [PACKET_DATA_LEN_MAX]; omega
  have hu3 : u8 (L + 3) = L + 3 := u8_of_lt (by omega)
  have hu4 : u8 (L + 4) = L + 4 := u8_of_lt (by omega)
  have hlt : ¬ ((0x55 :: 0xAA :: L :: bs) ++ X :: rest).length < L + 4 := by omega
  have hg0 : ((0x55 :: 0xAA :: L :: bs) ++ X :: rest)[0]? = some 0x55 := rfl
  have hg1 : ((0x55 :: 0xAA :: L :: bs) ++ X :: rest)[1]? = some 0xAA := rfl
  have hg2 : ((0x55 :: 0xAA :: L :: bs) ++ X :: rest)[2]? = some L := by simp
  have hxs := cal_xor_sum_eq ((0x55 :: 0xAA :: L :: bs) ++ X :: rest) (L + 3) (by omega)
  have htake : List.take (L + 3) ((0x55 :: 0xAA :: L :: bs) ++ X :: rest)
      = 0x55 :: 0xAA :: L :: bs := by
    rw [← hpl]; exact List.take_left' rfl
  rw [htake] at hxs
  have hr : ((0x55 :: 0xAA :: L :: bs) ++ X :: rest)[L + 3]? = some X := by
    rw [← hpl, List.getElem?_append_right (Nat.le_refl _)]
    simp
  have htail : ((0x55 :: 0xAA :: L :: bs) ++ X :: rest).tail
      = 0xAA :: L :: (bs ++ X :: rest) := rfl
  rw [e]
  simp only [app_uart_task2_loop, hl, if_false, hg0, hg1, hg2, DATA_HEAD_ONE, DATA_HEAD_TWO,
    ne_eq, not_true_eq_false, hlv, hu3, hu4, hlt, hxs, hr, hx, not_false_eq_true, if_true,
    htail]

theorem frame_start_false (c : Nat) (t : List Nat) (hc256 : c < 256)
    (hv : ¬ (c < 1 ∨ (c + 4) % 65536 > PACKET_DATA_LEN_MAX))
    (h : frame_start (0x55 :: 0xAA :: c :: t) = false) :
    ∃ bs X rest, t = bs ++ X :: rest ∧ bs.length = c ∧
      (0x55 :: 0xAA :: c :: bs).foldl (fun a b => a ^^^ b) 0 ≠ X := by
  have h1 : 1 ≤ c := by simp only [PACKET_DATA_LEN_MAX] at hv; omega
  have h7 : c ≤ 7 := by simp only [PACKET_DATA_LEN_MAX] at hv; omega
  have hu3 : u8 (c + 3) = c + 3 := u8_of_lt (by omega)
  have hu4 : u8 (c + 4) = c + 4 := u8_of_lt (by omega)
  have hg0 : (0x55 :: 0xAA :: c :: t)[0]? = some 0x55 := rfl
  have hg1 : (0x55 :: 0xAA :: c :: t)[1]? = some 0xAA := rfl
  have hg2 : (0x55 :: 0xAA :: c :: t)[2]? = some c := by simp
  simp only [frame_start, hg0, hg1, hg2, DATA_HEAD_ONE, DATA_HEAD_TWO, hv, hu3, hu4,
    decide_True, decide_False, Bool.not_false, Bool.true_and, Bool.or_eq_false_iff,
    decide_eq_false_iff_not, List.length_cons] at h
  obtain ⟨hlen, hxne⟩ := h
  have htk : (t.take c).length = c := by
    rw [List.length_take]; omega
  have hdl : (t.drop c).length = t.length - c := List.length_drop c t
  obtain ⟨X, rest, hxr⟩ : ∃ X rest, t.drop c = X :: rest := by
    cases hd : t.drop c with
    | nil => rw [hd] at hdl; simp only [List.length_nil] at hdl; omega
    | cons X rest => exact ⟨X, rest, rfl⟩
  have ht : t = t.take c ++ X :: rest := by
    rw [← hxr]; exact (List.take_append_drop c t).symm
  refine ⟨t.take c, X, rest, ht, htk, ?_⟩
  intro hx
  apply hxne
  have e : 0x55 :: 0xAA :: c :: t = (0x55 :: 0xAA :: c :: t.take c) ++ X :: rest := by
    rw [List.cons_append, List.cons_append, List.cons_append, ← ht]
  have hpl : (0x55 :: 0xAA :: c :: t.take c).length = c + 3 := by
    simp only [List.length_cons, htk]
  have hxs := cal_xor_sum_eq ((0x55 :: 0xAA :: c :: t.take c) ++ X :: rest) (c + 3)
    (by rw [List.length_append, hpl, List.length_cons]; omega)
  have htake : List.take (c + 3) ((0x55 :: 0xAA :: c :: t.take c) ++ X :: rest)
      = 0x55 :: 0xAA :: c :: t.take c := by
    rw [← hpl]; exact List.take_left' rfl
  rw [htake, hx] at hxs
  have hr : ((0x55 :: 0xAA :: c :: t.take c) ++ X :: rest)[c + 3]? = some X := by
    rw [← hpl, List.getElem?_append_right (Nat.le_refl _)]
    simp
  rw [e, hxs, hr]

theorem loop_calls_skip (f b : Nat) (u : List Nat) (hu : ∀ x ∈ u, x < 256)
    (h : frame_start (b :: u) = false) :
    (app_uart_task2_loop (f + 2) (b :: u)).map Prod.snd
      = (app_uart_task2_loop (f + 1) u).map Prod.snd := by
  match u, hu, h with
  | [], _, _ =>
    rw [loop_short (f + 1) [b] (by simp), loop_short f [] (by simp)]; rfl
  | [c], _, _ =>
    rw [loop_short (f + 1) [b, c] (by simp), loop_short f [c] (by simp)]; rfl
  | c :: d :: t, hu, h =>
    by_cases hb : b = DATA_HEAD_ONE
    · by_cases hc : c = DATA_HEAD_TWO
      · by_cases hd : d < 1 ∨ (d + 4) % 65536 > PACKET_DATA_LEN_MAX
        · rw [loop_drop (f + 1) b c d t (Or.inr (Or.inr hd))]
        · subst hb hc
          have hd256 : d < 256 := hu d (List.mem_cons_of_mem _ (List.mem_cons_self d t))
          obtain ⟨bs, X, rest, ht, hbs, hx⟩ := frame_start_false d t hd256 hd h
          have h1 : 1 ≤ d := by simp only [PACKET_DATA_LEN_MAX] at hd; omega
          have h7 : d ≤ 7 := by simp only [PACKET_DATA_LEN_MAX] at hd; omega
          rw [ht]
          rw [show DATA_HEAD_ONE = 0x55 from rfl, show DATA_HEAD_TWO = 0xAA from rfl,
            loop_bad_xor (f + 1) d X bs rest h1 h7 hbs hx]
      · rw [loop_drop (f + 1) b c d t (Or.inr (Or.inl hc))]
    · rw [loop_drop (f + 1) b c d t (Or.inl hb)]

theorem loop_calls_skip_many :
    ∀ (d r : List Nat) (f : Nat), (∀ x ∈ d ++ r, x < 256) → no_frame_start_in d r = true →
      (app_uart_task2_loop (f + 1 + d.length) (d ++ r)).map Prod.snd
        = (app_uart_task2_loop (f + 1) r).map Prod.snd := by
  intro d
  induction d with
  | nil => intro r f _ _; rfl
  | cons b d ih =>
    intro r f hb h
    simp only [no_frame_start_in, Bool.and_eq_true, Bool.not_eq_true'] at h
    have e : f + 1 + (b :: d).length = (f + d.length) + 2 := by
      simp only [List.length_cons]; omega
    have e2 : f + d.length + 1 = f + 1 + d.length := by omega
    rw [e, List.cons_append,
      loop_calls_skip (f + d.length) b (d ++ r)
        (fun x hx => hb x (List.mem_cons_of_mem _ hx)) h.1, e2]
    exact ih r f (fun x hx => hb x (List.mem_cons_of_mem _ hx)) h.2

/-! ## UART parser: agreement of the two parsers when no discarded block hides a frame start -/

theorem calls_prepend_congr (k : List led_ctrl_info_t)
    (x : Option (List Nat × List led_ctrl_info_t))
    (y : Option (uart_fsm × List led_ctrl_info_t))
    (h : x.map Prod.snd = y.map Prod.snd) :
    (match x with
      | none => none
      | some (s1, c1) => some (s1, k ++ c1)).map Prod.snd
    = (match y with
      | none => none
      | some (p2, c2) => some (p2, k ++ c2)).map Prod.snd := by
  cases x with
  | none =>
    cases y with
    | none => rfl
    | some r => simp at h
  | some r =>
    cases y with
    | none => simp at h
    | some r2 =>
      simp only [Option.map_some', Option.some.injEq] at h
      simp only [Option.map_some', h]

theorem frame_start_head_ne (b : Nat) (u : List Nat) (hb : b ≠ DATA_HEAD_ONE) :
    frame_start (b :: u) = false := by
  match u with
  | [] => rfl
  | [c] => rfl
  | c :: d :: t =>
    have hg2 : (b :: c :: d :: t)[2]? = some d := by simp
    simp [frame_start, hg2, hb]

theorem no_frame_start_in_of_no_head1 (d r : List Nat) (h : ∀ x ∈ d, x ≠ DATA_HEAD_ONE) :
    no_frame_start_in d r = true := by
  induction d with
  | nil => rfl
  | cons b d ih =>
    simp only [no_frame_start_in, Bool.and_eq_true, Bool.not_eq_true']
    exact ⟨frame_start_head_ne b (d ++ r) (h b (List.mem_cons_self b d)),
      ih (fun x hx => h x (List.mem_cons_of_mem b hx))⟩

theorem parsers_agree :
    ∀ (n : Nat) (s : List Nat) (p : uart_fsm) (f : Nat), s.length ≤ n → s.length < f →
      p.st = parse_state_t.ST_WAIT_HEAD1 → p.frame.length = 11 → (∀ b ∈ s, b < 256) →
      uart_run_clean s p = true →
      (app_uart_task2_loop f s).map Prod.snd = (app_uart_task s p).map Prod.snd := by
  intro n
  induction n with
  | zero =>
    intro s p f hn hf _ _ _ _
    have hs : s = [] := List.eq_nil_of_length_eq_zero (by omega)
    subst hs
    obtain ⟨g, rfl⟩ : ∃ g, f = g + 1 := ⟨f - 1, by omega⟩
    rw [loop_short g [] (by simp)]
    rfl
  | succ n ih =>
    intro s p f hn hf hst hfl hbytes hclean
    match s, hn, hf, hbytes, hclean with
    | [], _, hf, _, _ =>
      obtain ⟨g, rfl⟩ : ∃ g, f = g + 1 := ⟨f - 1, by omega⟩
      rw [loop_short g [] (by simp)]
      rfl
    | [a], _, hf, _, _ =>
      obtain ⟨g, rfl⟩ : ∃ g, f = g + 1 := ⟨f - 1, by omega⟩
      rw [loop_short g [a] (by simp), fsm_short [a] p hst hfl (by simp)]
      rfl
    | [a, b], _, hf, _, _ =>
      obtain ⟨g, rfl⟩ : ∃ g, f = g + 1 := ⟨f - 1, by omega⟩
      rw [loop_short g [a, b] (by simp), fsm_short [a, b] p hst hfl (by simp)]
      rfl
    | a :: b :: c :: t, hn, hf, hbytes, hclean =>
      simp only [List.length_cons] at hn hf
      obtain ⟨g, rfl⟩ : ∃ g, f = g + 4 := ⟨f - 4, by omega⟩
      have hbt : ∀ x ∈ t, x < 256 := fun x hx =>
        hbytes x (List.mem_cons_of_mem _ (List.mem_cons_of_mem _ (List.mem_cons_of_mem _ hx)))
      have hbc : ∀ x ∈ c :: t, x < 256 := fun x hx =>
        hbytes x (List.mem_cons_of_mem _ (List.mem_cons_of_mem _ hx))
      have hbb : ∀ x ∈ b :: c :: t, x < 256 := fun x hx =>
        hbytes x (List.mem_cons_of_mem _ hx)
      have hc256 : c < 256 := hbc c (List.mem_cons_self c t)
      by_cases ha : a = DATA_HEAD_ONE
      · subst ha
        by_cases hb : b = DATA_HEAD_TWO
        · subst hb
          by_cases hc : c < 1 ∨ (c + 4) % 65536 > PACKET_DATA_LEN_MAX
          · obtain ⟨q, q1, q2, q3, q4⟩ := fsm_bad_len c t p hst hfl hc
            have e1 : app_uart_task (DATA_HEAD_ONE :: DATA_HEAD_TWO :: c :: t) p
                = app_uart_task t q := q3
            have e2 : uart_run_clean (DATA_HEAD_ONE :: DATA_HEAD_TWO :: c :: t) p
                = (no_frame_start_in [0xAA, c] t && uart_run_clean t q) := q4
            rw [e2] at hclean
            simp only [Bool.and_eq_true] at hclean
            have hskip := loop_calls_skip_many [0xAA, c] t g
              (fun x hx => hbb x hx) hclean.1
            rw [e1, loop_drop (g + 3) _ _ c t (Or.inr (Or.inr hc))]
            have e3 : g + 1 + ([0xAA, c] : List Nat).length = g + 3 := rfl
            rw [e3] at hskip
            rw [show DATA_HEAD_TWO :: c :: t = [0xAA, c] ++ t from rfl, hskip]
            exact ih t q (g + 1) (by omega) (by omega) q1 q2 hbt hclean.2
          · have h1 : 1 ≤ c := by
              simp only [PACKET_DATA_LEN_MAX] at hc; omega
            have h7 : c ≤ 7 := by
              simp only [PACKET_DATA_LEN_MAX] at hc; omega
            by_cases hlen : t.length < c + 1
            · rw [show DATA_HEAD_ONE = 0x55 from rfl, show DATA_HEAD_TWO = 0xAA from rfl,
                loop_incomplete (g + 3) c t h1 h7 hlen, fsm_incomplete c t p hst hfl h1 h7 hlen]
              rfl
            · have hsplit : t = t.take c ++ t.drop c := (List.take_append_drop c t).symm
              have htk : (t.take c).length = c := by
                rw [List.length_take]; omega
              have hdl : (t.drop c).length = t.length - c := List.length_drop c t
              obtain ⟨X, rest, hxr⟩ : ∃ X rest, t.drop c = X :: rest := by
                cases hd : t.drop c with
                | nil => rw [hd] at hdl; simp only [List.length_nil] at hdl; omega
                | cons X rest => exact ⟨X, rest, rfl⟩
              have ht : t = t.take c ++ X :: rest := by rw [← hxr]; exact hsplit
              have hrl : rest.length + c + 1 = t.length := by
                have := congrArg List.length ht
                rw [List.length_append, htk, List.length_cons] at this
                omega
              have hbr : ∀ x ∈ rest, x < 256 := fun x hx => hbt x (by
                rw [ht]; exact List.mem_append_right _ (List.mem_cons_of_mem _ hx))
              obtain ⟨q, q1, q2, q3, q4⟩ :=
                fsm_frame c X (t.take c) rest p hst hfl h1 h7 htk
              rw [← ht] at q3 q4
              obtain ⟨hx, hcr⟩ := q4 hclean
              by_cases hxx : (0x55 :: 0xAA :: c :: t.take c).foldl (fun a b => a ^^^ b) 0 = X
              · have hloop := loop_frame (g + 3) c X (t.take c) rest h1 h7 htk hxx
                rw [← ht] at hloop
                rw [show DATA_HEAD_ONE = 0x55 from rfl, show DATA_HEAD_TWO = 0xAA from rfl,
                  hloop, q3]
                exact calls_prepend_congr _ _ _
                  (ih rest q (g + 3) (by omega) (by omega) q1 q2 hbr hcr)
              · have hnf : no_frame_start_in (0xAA :: c :: (t.take c ++ [X])) rest = true := by
                  rcases hx with h | h
                  · exact absurd h hxx
                  · exact h
                have hloop := loop_bad_xor (g + 3) c X (t.take c) rest h1 h7 htk hxx
                rw [← ht] at hloop
                have hcalls : frame_led_calls c (t.take c) X = [] := by
                  rw [frame_led_calls, if_neg (fun h => hxx h.1.symm)]
                have hd : (0xAA :: c :: (t.take c ++ [X])) ++ rest = 0xAA :: c :: t := by
                  rw [List.cons_append, List.cons_append, List.append_assoc,
                    List.singleton_append, ← ht]
                have hdlen : (0xAA :: c :: (t.take c ++ [X])).length = c + 3 := by
                  simp only [List.length_cons, List.length_append, htk, List.length_nil]
                obtain ⟨g2, hg2⟩ : ∃ g2, g + 3 = g2 + 1 + (c + 3) := ⟨g - c - 1, by omega⟩
                have hskip := loop_calls_skip_many (0xAA :: c :: (t.take c ++ [X])) rest g2
                  (by rw [hd]; exact hbb) hnf
                rw [hd, hdlen, ← hg2] at hskip
                rw [show DATA_HEAD_ONE = 0x55 from rfl, show DATA_HEAD_TWO = 0xAA from rfl,
                  hloop, hskip, q3, hcalls]
                have hih := ih rest q (g2 + 1) (by omega) (by omega) q1 q2 hbr hcr
                rw [hih]
                cases app_uart_task rest q with
                | none => rfl
                | some r => rfl
        · by_cases hb1 : b = DATA_HEAD_ONE
          · subst hb1
            obtain ⟨q, q1, q2, q3, q4⟩ := fsm_head1_again (c :: t) p hst hfl
            have e1 : app_uart_task (DATA_HEAD_ONE :: DATA_HEAD_ONE :: c :: t) p
                = app_uart_task (DATA_HEAD_ONE :: c :: t) q := q3
            have e2 : uart_run_clean (DATA_HEAD_ONE :: DATA_HEAD_ONE :: c :: t) p
                = uart_run_clean (DATA_HEAD_ONE :: c :: t) q := q4
            rw [e2] at hclean
            rw [e1, loop_drop (g + 3) _ _ c t (Or.inr (Or.inl hb))]
            exact ih (DATA_HEAD_ONE :: c :: t) q (g + 3)
              (by simp only [List.length_cons]; omega)
              (by simp only [List.length_cons]; omega) q1 q2 hbb hclean
          · obtain ⟨q, q1, q2, q3, q4⟩ := fsm_head2_miss b (c :: t) p hst hfl hb hb1
            have e1 : app_uart_task (DATA_HEAD_ONE :: b :: c :: t) p
                = app_uart_task (c :: t) q := q3
            have e2 : uart_run_clean (DATA_HEAD_ONE :: b :: c :: t) p
                = uart_run_clean (c :: t) q := q4
            rw [e2] at hclean
            rw [e1, loop_drop (g + 3) _ _ c t (Or.inr (Or.inl hb)),
              loop_calls_skip (g + 1) b (c :: t) hbc (frame_start_head_ne b (c :: t) hb1)]
            exact ih (c :: t) q (g + 2)
              (by simp only [List.length_cons]; omega)
              (by simp only [List.length_cons]; omega) q1 q2 hbc hclean
      · obtain ⟨e1, e2⟩ := fsm_skip a (b :: c :: t) p hst ha
        rw [e2] at hclean
        rw [e1, loop_drop (g + 3) a b c t (Or.inl ha)]
        exact ih (b :: c :: t) p (g + 3)
          (by simp only [List.length_cons]; omega)
          (by simp only [List.length_cons]; omega) hst hfl hbb hclean

theorem stream_fill :
    ∀ (queue stream : List Nat), stream.length + queue.length ≤ RX_BUF_SIZE * 2 →
      queue.foldl stream_push stream = stream ++ queue := by
  intro queue
  induction queue with
  | nil => intro stream _; simp
  | cons b rest ih =>
    intro stream h
    simp only [List.length_cons] at h
    have hlt : stream.length < RX_BUF_SIZE * 2 := by omega
    rw [List.foldl_cons, stream_push, if_pos hlt,
      ih (stream ++ [b]) (by rw [List.length_append, List.length_singleton]; omega)]
    simp

/-- C29 (amended): parser equivalence when no discarded block hides a frame start.  For
every batch of at most 77 bytes (values of `uint8_t`) delivered to the initial statics, if
no block of bytes thrown away by `app_uart_task` (the header with a rejected length byte,
or a collected frame whose checksum does not match) has, after its first byte, a byte that
begins a frame `app_uart_task2` would wait for or take (`0x55 0xAA LEN` with an accepted
`LEN`, then either cut off by the end of the batch or closed by a matching checksum), then
both parsers return and `app_uart_task2` makes the same `ctrl_led` calls, in the same
order, as `app_uart_task`.  Checksum mismatches and rejected length bytes are allowed. -/
theorem parser_equivalence_clean (queue : List Nat) (hlen : queue.length ≤ RX_BUF_SIZE)
    (hb : ∀ b ∈ queue, b < 256) (hclean : uart_run_clean queue uart_fsm_init = true) :
    ∃ calls p stream, app_uart_task queue uart_fsm_init = some (p, calls) ∧
      app_uart_task2 queue [] = some (stream, calls) := by
  obtain ⟨p, calls, h1, _⟩ := app_uart_task_inv queue uart_fsm_init hb uart_inv_init
  have hfill : queue.foldl stream_push [] = queue :=
    by rw [stream_fill queue [] (by simp only [RX_BUF_SIZE] at hlen ⊢; simp; omega)]; simp
  have hagree := parsers_agree queue.length queue uart_fsm_init (queue.length + 1)
    (Nat.le_refl _) (Nat.lt_succ_self _) rfl rfl hb hclean
  rw [h1] at hagree
  have h2 : app_uart_task2 queue [] = app_uart_task2_loop (queue.length + 1) queue := by
    simp only [app_uart_task2, hfill]
  cases hl : app_uart_task2_loop (queue.length + 1) queue with
  | none => rw [hl] at hagree; simp at hagree
  | some r =>
    obtain ⟨stream, calls2⟩ := r
    rw [hl] at hagree
    simp only [Option.map_some', Option.some.injEq] at hagree
    exact ⟨calls, p, stream, h1, by rw [h2, hl, hagree]⟩

/-- Witness for C29 (amended): a collected frame `55 AA 03 55 01 55 00` with a wrong
checksum and two further `0x55` bytes in it, a header with the rejected length 9, and the
valid LED frame `55 AA 03 06 02 01 F9`. -/
theorem parser_equivalence_clean_witness :
    ∃ calls p stream,
      app_uart_task [0x55, 0xAA, 0x03, 0x55, 0x01, 0x55, 0x00, 0x55, 0xAA, 0x09,
        0x55, 0xAA, 0x03, 0x06, 0x02, 0x01, 0xF9] uart_fsm_init = some (p, calls) ∧
      app_uart_task2 [0x55, 0xAA, 0x03, 0x55, 0x01, 0x55, 0x00, 0x55, 0xAA, 0x09,
        0x55, 0xAA, 0x03, 0x06, 0x02, 0x01, 0xF9] [] = some (stream, calls) :=
  parser_equivalence_clean [0x55, 0xAA, 0x03, 0x55, 0x01, 0x55, 0x00, 0x55, 0xAA, 0x09,
    0x55, 0xAA, 0x03, 0x06, 0x02, 0x01, 0xF9] (by decide) (by decide) (by decide)

/-- Counterexample to C29 as stated: the 10-byte batch `55 AA 03 55 AA 03 06 01 01 FA`
from the initial state.  `app_uart_task` collects `55 AA 03 55 AA 03 06`, finds the
checksum wrong, drops all seven bytes and makes no `ctrl_led` call; `app_uart_task2` drops
one byte at a time after the failed checksum, finds the valid frame
`55 AA 03 06 01 01 FA` and calls `ctrl_led` with `led_num = 1`, `led_state = 1`. -/
theorem parser_equivalence_counterexample :
    [0x55, 0xAA, 0x03, 0x55, 0xAA, 0x03, 0x06, 0x01, 0x01, 0xFA].length ≤ RX_BUF_SIZE ∧
    (app_uart_task [0x55, 0xAA, 0x03, 0x55, 0xAA, 0x03, 0x06, 0x01, 0x01, 0xFA]
      uart_fsm_init).map Prod.snd = some [] ∧
    (app_uart_task2 [0x55, 0xAA, 0x03, 0x55, 0xAA, 0x03, 0x06, 0x01, 0x01, 0xFA]
      []).map Prod.snd = some [⟨1, 1⟩] := by
  refine ⟨by decide, by decide, by decide⟩

theorem getElem?_task_lt {tbl : List task_t} {i : Nat} {t : task_t}
    (h : tbl[i]? = some t) : i < tbl.length := by
  by_contra hc
  rw [List.getElem?_eq_none (by omega)] at h
  exact Option.noConfusion h

/-! ## Scheduler: the statement-level pass agrees with `task_loop` -/

theorem task_loop_finish_step {W : Type}
    (extern_code : Nat → fw_state W → Option (fw_state W)) (n fuel : Nat)
    (pc pc1 : loop_pc) (w w1 : fw_state W) (calls c1 : List (Nat × fn_ptr))
    (hpc : pc ≠ loop_pc.done)
    (hs : task_loop_stmt extern_code n pc w = some (pc1, w1, c1)) :
    task_loop_finish extern_code n (fuel + 1) pc w calls
      = task_loop_finish extern_code n fuel pc1 w1 (calls ++ c1) := by
  simp only [task_loop_finish, hpc, if_false, hs]

theorem task_loop_finish_done {W : Type}
    (extern_code : Nat → fw_state W → Option (fw_state W)) (n fuel : Nat)
    (w : fw_state W) (calls : List (Nat × fn_ptr)) :
    task_loop_finish extern_code n (fuel + 1) loop_pc.done w calls = some (w, calls) := by
  simp only [task_loop_finish, if_true]

theorem task_loop_finish_eq {W : Type}
    (extern_code : Nat → fw_state W → Option (fw_state W)) (n : Nat) (hn : n < 256) :
    ∀ (fuel i : Nat) (w : fw_state W) (calls : List (Nat × fn_ptr))
      (r : fw_state W × List (Nat × fn_ptr)), i ≤ n →
      task_loop_loop extern_code n fuel i w calls = some r →
      ∀ fuel2, 6 * (n - i) + 2 ≤ fuel2 →
        task_loop_finish extern_code n fuel2 (loop_pc.for_test i) w calls = some r := by
  intro fuel
  induction fuel with
  | zero => intro i w calls r _ h; simp [task_loop_loop] at h
  | succ fuel ih =>
    intro i w calls r hi h fuel2 hf
    by_cases hlt : i < n
    · obtain ⟨g, rfl⟩ : ∃ g, fuel2 = g + 8 := ⟨fuel2 - 8, by omega⟩
      have hu : u8 (i + 1) = i + 1 := u8_of_lt (by omega)
      have s1 : task_loop_stmt extern_code n (loop_pc.for_test i) w
          = some (loop_pc.ready_test i, w, []) := by
        simp only [task_loop_stmt, hlt, if_true]
      have hnext : ∀ (w3 : fw_state W) (calls3 : List (Nat × fn_ptr)) (g3 : Nat),
          6 * (n - (i + 1)) + 2 ≤ g3 →
          task_loop_loop extern_code n fuel (u8 (i + 1)) w3 calls3 = some r →
          task_loop_finish extern_code n (g3 + 1) (loop_pc.incr i) w3 calls3 = some r := by
        intro w3 calls3 g3 hg3 h3
        rw [hu] at h3
        rw [task_loop_finish_step extern_code n g3 (loop_pc.incr i) (loop_pc.for_test (i + 1))
          w3 w3 calls3 [] (by simp) (by simp only [task_loop_stmt, hu]), List.append_nil]
        exact ih (i + 1) w3 calls3 r hlt h3 g3 hg3
      simp only [task_loop_loop, if_pos hlt] at h
      cases ht : w.g_task_table[i]? with
      | none => simp [ht] at h
      | some t =>
        simp only [ht] at h
        have hil : i < w.g_task_table.length := getElem?_task_lt ht
        rw [task_loop_finish_step extern_code n (g + 7) _ _ w w calls [] (by simp) s1,
          List.append_nil]
        obtain ⟨rdy, tl, pt, c⟩ := t
        cases rdy with
        | true =>
          simp only [if_true] at h
          have s2 : task_loop_stmt extern_code n (loop_pc.ready_test i) w
              = some (loop_pc.clear i, w, []) := by
            simp only [task_loop_stmt, ht, if_true]
          have s3 : task_loop_stmt extern_code n (loop_pc.clear i) w
              = some (loop_pc.cb_test i,
                  { w with g_task_table := w.g_task_table.set i ⟨false, tl, pt, c⟩ }, []) := by
            simp only [task_loop_stmt, ht]
          have ht1 : (w.g_task_table.set i ⟨false, tl, pt, c⟩)[i]?
              = some ⟨false, tl, pt, c⟩ := by
            rw [List.getElem?_set]; simp [hil]
          rw [task_loop_finish_step extern_code n (g + 6) _ _ w w calls [] (by simp) s2,
            List.append_nil,
            task_loop_finish_step extern_code n (g + 5) _ _ w _ calls [] (by simp) s3,
            List.append_nil]
          cases c with
          | none =>
            simp only at h
            have s4 : task_loop_stmt extern_code n (loop_pc.cb_test i)
                { w with g_task_table := w.g_task_table.set i ⟨false, tl, pt, none⟩ }
                = some (loop_pc.incr i,
                  { w with g_task_table := w.g_task_table.set i ⟨false, tl, pt, none⟩ },
                  []) := by
              simp only [task_loop_stmt, ht1]
            rw [task_loop_finish_step extern_code n (g + 4) _ _ _ _ calls [] (by simp) s4,
              List.append_nil]
            exact hnext _ calls (g + 3) (by omega) h
          | some f =>
            simp only at h
            have s4 : task_loop_stmt extern_code n (loop_pc.cb_test i)
                { w with g_task_table := w.g_task_table.set i ⟨false, tl, pt, some f⟩ }
                = some (loop_pc.call i,
                  { w with g_task_table := w.g_task_table.set i ⟨false, tl, pt, some f⟩ },
                  []) := by
              simp only [task_loop_stmt, ht1]
            rw [task_loop_finish_step extern_code n (g + 4) _ _ _ _ calls [] (by simp) s4,
              List.append_nil]
            cases hcall : call_ptr extern_code f
                { w with g_task_table := w.g_task_table.set i ⟨false, tl, pt, some f⟩ } with
            | none => simp [hcall] at h
            | some w2 =>
              simp only [hcall] at h
              have s5 : task_loop_stmt extern_code n (loop_pc.call i)
                  { w with g_task_table := w.g_task_table.set i ⟨false, tl, pt, some f⟩ }
                  = some (loop_pc.incr i, w2, [(i, f)]) := by
                simp only [task_loop_stmt, ht1, hcall]
              rw [task_loop_finish_step extern_code n (g + 3) _ _ _ _ calls _ (by simp) s5]
              exact hnext w2 (calls ++ [(i, f)]) (g + 2) (by omega) h
        | false =>
          simp only [Bool.false_eq_true, if_false] at h
          have s2 : task_loop_stmt extern_code n (loop_pc.ready_test i) w
              = some (loop_pc.incr i, w, []) := by
            simp only [task_loop_stmt, ht, Bool.false_eq_true, if_false]
          rw [task_loop_finish_step extern_code n (g + 6) _ _ w w calls [] (by simp) s2,
            List.append_nil]
          exact hnext w calls (g + 5) (by omega) h
    · obtain ⟨g, rfl⟩ : ∃ g, fuel2 = g + 2 := ⟨fuel2 - 2, by omega⟩
      simp only [task_loop_loop, if_neg hlt, Option.some.injEq] at h
      have s1 : task_loop_stmt extern_code n (loop_pc.for_test i) w
          = some (loop_pc.done, w, []) := by
        simp only [task_loop_stmt, hlt, if_false]
      rw [task_loop_finish_step extern_code n (g + 1) _ _ w w calls [] (by simp) s1,
        List.append_nil, task_loop_finish_done, h]

theorem task_loop_finish_spec {W : Type}
    (extern_code : Nat → fw_state W → Option (fw_state W)) (n : Nat) (hn : n < 256)
    (i : Nat) (w : fw_state W) (calls : List (Nat × fn_ptr))
    (hlen : w.g_task_table.length = n) (hi : i ≤ n)
    (hb : ∀ j t, i ≤ j → w.g_task_table[j]? = some t → ∀ f, t.cb = some f →
      cb_benign extern_code f)
    (fuel2 : Nat) (hf : 6 * (n - i) + 2 ≤ fuel2) :
    ∃ w1, task_loop_finish extern_code n fuel2 (loop_pc.for_test i) w calls
        = some (w1, calls ++ (List.range' i (n - i)).filterMap (task_call w.g_task_table)) ∧
      w1.g_task_table.length = n ∧
      ∀ j, w1.g_task_table[j]?
        = if i ≤ j then (w.g_task_table[j]?).map task_clear else w.g_task_table[j]? := by
  obtain ⟨w1, h1, h2, h3⟩ := task_loop_loop_spec extern_code n hn (n - i + 1) i w calls hlen hi
    (by omega) hb
  exact ⟨w1, task_loop_finish_eq extern_code n hn _ i w calls _ hi h1 fuel2 hf, h2, h3⟩

theorem task_clear_of_not_ready (t : task_t) (h : t.is_ready = false) : task_clear t = t := by
  obtain ⟨rdy, tl, pt, c⟩ := t
  simp only at h
  subst h
  rfl

theorem range_succ_filterMap_none (tbl : List task_t) (i : Nat)
    (h : task_call tbl i = none) :
    (List.range (i + 1)).filterMap (task_call tbl) = (List.range i).filterMap (task_call tbl) := by
  rw [List.range_succ, List.filterMap_append]
  simp [h]

theorem range_succ_filterMap_some (tbl : List task_t) (i : Nat) (c : Nat × fn_ptr)
    (h : task_call tbl i = some c) :
    (List.range (i + 1)).filterMap (task_call tbl)
      = (List.range i).filterMap (task_call tbl) ++ [c] := by
  rw [List.range_succ, List.filterMap_append]
  simp [h]

/-! ## Scheduler: invariant of the uninterrupted pass -/

theorem task_loop_stmt_inv {W : Type}
    (extern_code : Nat → fw_state W → Option (fw_state W)) (n : Nat) (hn : n < 256)
    (tbl0 : List task_t) (hlen0 : tbl0.length = n) (hb : cbs_benign extern_code tbl0)
    (pc : loop_pc) (w : fw_state W) (calls : List (Nat × fn_ptr))
    (hinv : loop_inv tbl0 n pc w.g_task_table calls) :
    ∃ pc1 w1 c1, task_loop_stmt extern_code n pc w = some (pc1, w1, c1) ∧
      loop_inv tbl0 n pc1 w1.g_task_table (calls ++ c1) := by
  obtain ⟨hok, hlen, htab, hcalls⟩ := hinv
  cases pc with
  | for_test i =>
    simp only [loop_pc_ok, loop_pc_cleared, loop_pc_called] at hok htab hcalls
    by_cases hlt : i < n
    · refine ⟨loop_pc.ready_test i, w, [], by simp only [task_loop_stmt, hlt, if_true], ?_⟩
      exact ⟨hlt, hlen, htab, by rw [List.append_nil]; exact hcalls⟩
    · have hin : i = n := by omega
      subst hin
      refine ⟨loop_pc.done, w, [], by simp only [task_loop_stmt, hlt, if_false], ?_⟩
      exact ⟨trivial, hlen, htab, by rw [List.append_nil]; exact hcalls⟩
  | ready_test i =>
    simp only [loop_pc_ok, loop_pc_cleared, loop_pc_called] at hok htab hcalls
    obtain ⟨t, ht0, _⟩ := task_getElem?_of_lt (by rw [hlen0]; exact hok : i < tbl0.length)
    have hti : w.g_task_table[i]? = some t := by
      rw [htab i, if_neg (Nat.lt_irrefl i), ht0]
    by_cases hr : t.is_ready = true
    · refine ⟨loop_pc.clear i, w, [], by simp only [task_loop_stmt, hti, hr, if_true], ?_⟩
      exact ⟨⟨hok, t, ht0, hr⟩, hlen, htab, by rw [List.append_nil]; exact hcalls⟩
    · have hrf : t.is_ready = false := by simpa using hr
      refine ⟨loop_pc.incr i, w, [], by simp [task_loop_stmt, hti, hrf], ?_⟩
      refine ⟨hok, hlen, ?_, ?_⟩
      · intro j
        simp only [loop_pc_cleared]
        by_cases hj : j < i
        · rw [htab j, if_pos hj, if_pos (by omega)]
        · by_cases hji : j = i
          · subst hji
            rw [hti, if_pos (Nat.lt_succ_self j), ht0, Option.map_some',
              task_clear_of_not_ready t hrf]
          · rw [htab j, if_neg hj, if_neg (by omega)]
      · simp only [loop_pc_called]
        rw [List.append_nil, hcalls, range_succ_filterMap_none]
        simp [task_call, ht0, hrf]
  | clear i =>
    simp only [loop_pc_ok, loop_pc_cleared, loop_pc_called] at hok htab hcalls
    obtain ⟨hlt, t, ht0, hr⟩ := hok
    have hti : w.g_task_table[i]? = some t := by
      rw [htab i, if_neg (Nat.lt_irrefl i), ht0]
    refine ⟨loop_pc.cb_test i,
      { w with g_task_table := w.g_task_table.set i { t with is_ready := false } }, [],
      by simp only [task_loop_stmt, hti], ?_⟩
    refine ⟨⟨hlt, t, ht0, hr⟩, by simp only [List.length_set]; exact hlen, ?_,
      by rw [List.append_nil]; exact hcalls⟩
    intro j
    simp only [loop_pc_cleared, List.getElem?_set]
    by_cases hji : i = j
    · subst hji
      rw [if_pos rfl, if_pos (by rw [hlen]; exact hlt), if_pos (Nat.lt_succ_self i), ht0]
      rfl
    · rw [if_neg hji, htab j]
      by_cases hj : j < i
      · rw [if_pos hj, if_pos (by omega)]
      · rw [if_neg hj, if_neg (by omega)]
  | cb_test i =>
    simp only [loop_pc_ok, loop_pc_cleared, loop_pc_called] at hok htab hcalls
    obtain ⟨hlt, t, ht0, hr⟩ := hok
    obtain ⟨rdy, tl, pt, c⟩ := t
    simp only at hr
    subst hr
    have hti : w.g_task_table[i]? = some ⟨false, tl, pt, c⟩ := by
      rw [htab i, if_pos (Nat.lt_succ_self i), ht0]
      rfl
    cases c with
    | none =>
      refine ⟨loop_pc.incr i, w, [], by simp only [task_loop_stmt, hti], ?_⟩
      refine ⟨hlt, hlen, htab, ?_⟩
      simp only [loop_pc_called]
      rw [List.append_nil, hcalls, range_succ_filterMap_none]
      simp [task_call, ht0]
    | some f =>
      refine ⟨loop_pc.call i, w, [], by simp only [task_loop_stmt, hti], ?_⟩
      exact ⟨⟨hlt, _, f, ht0, rfl, rfl⟩, hlen, htab, by rw [List.append_nil]; exact hcalls⟩
  | call i =>
    simp only [loop_pc_ok, loop_pc_cleared, loop_pc_called] at hok htab hcalls
    obtain ⟨hlt, t, f, ht0, hr, hc⟩ := hok
    obtain ⟨rdy, tl, pt, c⟩ := t
    simp only at hr hc
    subst hr hc
    have hti : w.g_task_table[i]? = some ⟨false, tl, pt, some f⟩ := by
      rw [htab i, if_pos (Nat.lt_succ_self i), ht0]
      rfl
    obtain ⟨w1, hw1, hw1t⟩ := cbs_benign_getElem hb ht0 rfl w
    refine ⟨loop_pc.incr i, w1, [(i, f)], by simp only [task_loop_stmt, hti, hw1], ?_⟩
    refine ⟨hlt, by rw [hw1t]; exact hlen, by rw [hw1t]; exact htab, ?_⟩
    simp only [loop_pc_called]
    rw [hcalls, range_succ_filterMap_some tbl0 i (i, f)]
    simp [task_call, ht0]
  | incr i =>
    simp only [loop_pc_ok, loop_pc_cleared, loop_pc_called] at hok htab hcalls
    have hu : u8 (i + 1) = i + 1 := u8_of_lt (by omega)
    refine ⟨loop_pc.for_test (i + 1), w, [], by simp only [task_loop_stmt, hu], ?_⟩
    exact ⟨by simp only [loop_pc_ok]; omega, hlen, htab, by rw [List.append_nil]; exact hcalls⟩
  | done =>
    refine ⟨loop_pc.done, w, [], by simp only [task_loop_stmt], ?_⟩
    exact ⟨hok, hlen, htab, by rw [List.append_nil]; exact hcalls⟩

theorem task_loop_steps_inv {W : Type}
    (extern_code : Nat → fw_state W → Option (fw_state W)) (n : Nat) (hn : n < 256)
    (tbl0 : List task_t) (hlen0 : tbl0.length = n) (hb : cbs_benign extern_code tbl0) :
    ∀ (k : Nat) (pc : loop_pc) (w : fw_state W) (calls : List (Nat × fn_ptr)),
      loop_inv tbl0 n pc w.g_task_table calls →
      ∃ pc1 w1 calls1, task_loop_steps extern_code n k pc w calls = some (pc1, w1, calls1) ∧
        loop_inv tbl0 n pc1 w1.g_task_table calls1 := by
  intro k
  induction k with
  | zero => intro pc w calls h; exact ⟨pc, w, calls, rfl, h⟩
  | succ k ih =>
    intro pc w calls h
    obtain ⟨pc1, w1, c1, h1, h2⟩ := task_loop_stmt_inv extern_code n hn tbl0 hlen0 hb pc w calls h
    obtain ⟨pc2, w2, calls2, h3, h4⟩ := ih pc1 w1 (calls ++ c1) h2
    exact ⟨pc2, w2, calls2, by simp only [task_loop_steps, h1, h3], h4⟩

/-! ## Scheduler: the rest of the pass after the interrupting tick -/

theorem task_call_congr (tbl tbl1 : List task_t) (j : Nat) (h : tbl[j]? = tbl1[j]?) :
    task_call tbl j = task_call tbl1 j := by
  simp only [task_call, h]

theorem task_clear_cb (t : task_t) : (task_clear t).cb = t.cb := rfl

theorem irq_finish_for {W : Type}
    (extern_code : Nat → fw_state W → Option (fw_state W)) (n : Nat) (hn : n < 256)
    (tbl0 : List task_t) (hlen0 : tbl0.length = n) (hb : cbs_benign extern_code tbl0)
    (w : fw_state W) (i : Nat) (hi : i ≤ n) (hlen : w.g_task_table.length = n)
    (htab : irq_pre tbl0 i w.g_task_table) (calls : List (Nat × fn_ptr))
    (fuel : Nat) (hf : 6 * (n - i) + 2 ≤ fuel) :
    ∃ w1, task_loop_finish extern_code n fuel (loop_pc.for_test i) w calls
        = some (w1, calls ++
            (List.range' i (n - i)).filterMap (task_call (tbl0.map task_tick_one))) ∧
      irq_post tbl0 i w1.g_task_table := by
  have hben : ∀ j t, i ≤ j → w.g_task_table[j]? = some t → ∀ f, t.cb = some f →
      cb_benign extern_code f := by
    intro j t hj ht f hf
    rw [htab j, if_neg (by omega)] at ht
    cases ht0 : tbl0[j]? with
    | none => rw [ht0] at ht; exact Option.noConfusion ht
    | some t0 =>
      rw [ht0, Option.map_some', Option.some.injEq] at ht
      rw [← ht, task_tick_one_cb] at hf
      exact cbs_benign_getElem hb ht0 hf
  obtain ⟨w1, h1, _, h3⟩ :=
    task_loop_finish_spec extern_code n hn i w calls hlen hi hben fuel hf
  have hcongr : (List.range' i (n - i)).filterMap (task_call w.g_task_table)
      = (List.range' i (n - i)).filterMap (task_call (tbl0.map task_tick_one)) := by
    apply List.filterMap_congr
    intro j hj
    rw [List.mem_range'_1] at hj
    apply task_call_congr
    rw [htab j, if_neg (by omega), List.getElem?_map]
  rw [hcongr] at h1
  refine ⟨w1, h1, ?_⟩
  intro j
  rw [h3 j, htab j]
  by_cases hj : j < i
  · rw [if_neg (by omega), if_pos hj, if_pos hj]
  · rw [if_pos (by omega), if_neg hj, if_neg hj, Option.map_map]
    rfl

theorem irq_finish_incr {W : Type}
    (extern_code : Nat → fw_state W → Option (fw_state W)) (n : Nat) (hn : n < 256)
    (tbl0 : List task_t) (hlen0 : tbl0.length = n) (hb : cbs_benign extern_code tbl0)
    (w : fw_state W) (i : Nat) (hi : i < n) (hlen : w.g_task_table.length = n)
    (htab : irq_pre tbl0 (i + 1) w.g_task_table) (calls : List (Nat × fn_ptr))
    (fuel : Nat) (hf : 6 * (n - (i + 1)) + 2 ≤ fuel) :
    ∃ w1, task_loop_finish extern_code n (fuel + 1) (loop_pc.incr i) w calls
        = some (w1, calls ++
            (List.range' (i + 1) (n - (i + 1))).filterMap
              (task_call (tbl0.map task_tick_one))) ∧
      irq_post tbl0 (i + 1) w1.g_task_table := by
  have hu : u8 (i + 1) = i + 1 := u8_of_lt (by omega)
  rw [task_loop_finish_step extern_code n fuel (loop_pc.incr i) (loop_pc.for_test (i + 1))
    w w calls [] (by simp) (by simp only [task_loop_stmt, hu]), List.append_nil]
  exact irq_finish_for extern_code n hn tbl0 hlen0 hb w (i + 1) hi hlen htab calls fuel hf

theorem irq_finish_call {W : Type}
    (extern_code : Nat → fw_state W → Option (fw_state W)) (n : Nat) (hn : n < 256)
    (tbl0 : List task_t) (hlen0 : tbl0.length = n) (hb : cbs_benign extern_code tbl0)
    (w : fw_state W) (i : Nat) (hi : i < n) (hlen : w.g_task_table.length = n)
    (htab : irq_pre tbl0 (i + 1) w.g_task_table) (calls : List (Nat × fn_ptr))
    (t : task_t) (f : fn_ptr) (ht0 : tbl0[i]? = some t) (hc : t.cb = some f)
    (fuel : Nat) (hf : 6 * (n - (i + 1)) + 2 ≤ fuel) :
    ∃ w1, task_loop_finish extern_code n (fuel + 2) (loop_pc.call i) w calls
        = some (w1, calls ++ [(i, f)] ++
            (List.range' (i + 1) (n - (i + 1))).filterMap
              (task_call (tbl0.map task_tick_one))) ∧
      irq_post tbl0 (i + 1) w1.g_task_table := by
  have hti : w.g_task_table[i]? = some (task_tick_one (task_clear t)) := by
    rw [htab i, if_pos (Nat.lt_succ_self i), ht0]
    rfl
  have hcb : (task_tick_one (task_clear t)).cb = some f := by
    rw [task_tick_one_cb, task_clear_cb, hc]
  obtain ⟨w2, hw2, hw2t⟩ := cbs_benign_getElem hb ht0 hc w
  have s1 : task_loop_stmt extern_code n (loop_pc.call i) w
      = some (loop_pc.incr i, w2, [(i, f)]) := by
    simp only [task_loop_stmt, hti, hcb, hw2]
  rw [task_loop_finish_step extern_code n (fuel + 1) _ _ w w2 calls _ (by simp) s1]
  exact irq_finish_incr extern_code n hn tbl0 hlen0 hb w2 i hi (by rw [hw2t]; exact hlen)
    (by rw [hw2t]; exact htab) (calls ++ [(i, f)]) fuel hf

theorem irq_finish_cb_test {W : Type}
    (extern_code : Nat → fw_state W → Option (fw_state W)) (n : Nat) (hn : n < 256)
    (tbl0 : List task_t) (hlen0 : tbl0.length = n) (hb : cbs_benign extern_code tbl0)
    (w : fw_state W) (i : Nat) (hi : i < n) (hlen : w.g_task_table.length = n)
    (htab : irq_pre tbl0 (i + 1) w.g_task_table) (calls : List (Nat × fn_ptr))
    (t : task_t) (ht0 : tbl0[i]? = some t) (hr : t.is_ready = true)
    (fuel : Nat) (hf : 6 * (n - (i + 1)) + 2 ≤ fuel) :
    ∃ w1, task_loop_finish extern_code n (fuel + 3) (loop_pc.cb_test i) w calls
        = some (w1, calls ++ (task_call tbl0 i).toList ++
            (List.range' (i + 1) (n - (i + 1))).filterMap
              (task_call (tbl0.map task_tick_one))) ∧
      irq_post tbl0 (i + 1) w1.g_task_table := by
  have hti : w.g_task_table[i]? = some (task_tick_one (task_clear t)) := by
    rw [htab i, if_pos (Nat.lt_succ_self i), ht0]
    rfl
  cases hc : t.cb with
  | none =>
    have hcb : (task_tick_one (task_clear t)).cb = none := by
      rw [task_tick_one_cb, task_clear_cb, hc]
    have hcall : task_call tbl0 i = none := by
      simp [task_call, ht0, hr, hc]
    have s1 : task_loop_stmt extern_code n (loop_pc.cb_test i) w
        = some (loop_pc.incr i, w, []) := by
      simp only [task_loop_stmt, hti, hcb]
    rw [task_loop_finish_step extern_code n (fuel + 2) _ _ w w calls _ (by simp) s1,
      List.append_nil, hcall, Option.toList_none, List.append_nil]
    obtain ⟨w1, h1, h2⟩ := irq_finish_incr extern_code n hn tbl0 hlen0 hb w i hi hlen htab
      calls (fuel + 1) (by omega)
    exact ⟨w1, h1, h2⟩
  | some f =>
    have hcb : (task_tick_one (task_clear t)).cb = some f := by
      rw [task_tick_one_cb, task_clear_cb, hc]
    have hcall : task_call tbl0 i = some (i, f) := by
      simp [task_call, ht0, hr, hc]
    have s1 : task_loop_stmt extern_code n (loop_pc.cb_test i) w
        = some (loop_pc.call i, w, []) := by
      simp only [task_loop_stmt, hti, hcb]
    rw [task_loop_finish_step extern_code n (fuel + 2) _ _ w w calls _ (by simp) s1,
      List.append_nil, hcall, Option.toList_some]
    exact irq_finish_call extern_code n hn tbl0 hlen0 hb w i hi hlen htab calls t f ht0 hc
      fuel hf

theorem range_succ_filterMap (tbl : List task_t) (i : Nat) :
    (List.range (i + 1)).filterMap (task_call tbl)
      = (List.range i).filterMap (task_call tbl) ++ (task_call tbl i).toList := by
  rw [List.range_succ, List.filterMap_append]
  cases h : task_call tbl i <;> simp [h]

/-- The interrupted pass, whatever the number `k` of statements before the tick: there is a
split index `m` such that the first `m` tasks are handled as by `task_loop` followed by
the tick and the others as by the tick followed by `task_loop`. -/
theorem task_loop_irq_spec {W : Type}
    (extern_code : Nat → fw_state W → Option (fw_state W))
    (w : fw_state W) (hlen : w.g_task_table.length < 256)
    (hb : cbs_benign extern_code w.g_task_table) (k : Nat) :
    ∃ m w1, m ≤ w.g_task_table.length ∧
      task_loop_irq extern_code k w = some (w1, irq_calls w.g_task_table m) ∧
      irq_post w.g_task_table m w1.g_task_table := by
  have hTC : TASK_COUNT w.g_task_table = w.g_task_table.length := TASK_COUNT_of_lt hlen
  have hinv0 : loop_inv w.g_task_table w.g_task_table.length (loop_pc.for_test 0)
      w.g_task_table [] := by
    refine ⟨Nat.zero_le _, rfl, ?_, ?_⟩
    · intro j
      simp [loop_pc_cleared]
    · simp [loop_pc_called]
  obtain ⟨pc, w1, calls1, h1, hok, hl1, htab1, hcalls1⟩ :=
    task_loop_steps_inv extern_code w.g_task_table.length hlen w.g_task_table rfl hb k
      (loop_pc.for_test 0) w [] hinv0
  have htick := task_tick_hook_eq w1 (by rw [hl1]; exact hlen)
  have hl2 : (w1.g_task_table.map task_tick_one).length = w.g_task_table.length := by
    rw [List.length_map]; exact hl1
  have hpre : irq_pre w.g_task_table (loop_pc_cleared w.g_task_table.length pc)
      (w1.g_task_table.map task_tick_one) := by
    intro j
    rw [List.getElem?_map, htab1 j]
    by_cases hj : j < loop_pc_cleared w.g_task_table.length pc
    · rw [if_pos hj, if_pos hj, Option.map_map]
      rfl
    · rw [if_neg hj, if_neg hj]
  simp only [task_loop_irq, hTC, h1, htick]
  cases pc with
  | for_test i =>
    simp only [loop_pc_ok, loop_pc_cleared, loop_pc_called] at hok hpre hcalls1
    obtain ⟨w3, g1, g2⟩ := irq_finish_for extern_code _ hlen w.g_task_table rfl hb
      { w1 with g_task_table := w1.g_task_table.map task_tick_one } i hok hl2 hpre calls1
      (6 * w.g_task_table.length + 2) (by omega)
    exact ⟨i, w3, hok, by rw [g1, hcalls1]; rfl, g2⟩
  | ready_test i =>
    simp only [loop_pc_ok, loop_pc_cleared, loop_pc_called] at hok hpre hcalls1
    obtain ⟨w3, g1, g2⟩ := irq_finish_for extern_code _ hlen w.g_task_table rfl hb
      { w1 with g_task_table := w1.g_task_table.map task_tick_one } i (Nat.le_of_lt hok) hl2
      hpre calls1 (6 * w.g_task_table.length + 2 + 1) (by omega)
    have s1 : task_loop_stmt extern_code w.g_task_table.length (loop_pc.for_test i)
        { w1 with g_task_table := w1.g_task_table.map task_tick_one }
        = some (loop_pc.ready_test i,
            { w1 with g_task_table := w1.g_task_table.map task_tick_one }, []) := by
      simp only [task_loop_stmt, hok, if_true]
    rw [task_loop_finish_step extern_code _ _ _ _ _ _ calls1 [] (by simp) s1,
      List.append_nil] at g1
    exact ⟨i, w3, Nat.le_of_lt hok, by rw [g1, hcalls1]; rfl, g2⟩
  | clear i =>
    simp only [loop_pc_ok, loop_pc_cleared, loop_pc_called] at hok hpre hcalls1
    obtain ⟨hlt, t, ht0, hr⟩ := hok
    obtain ⟨w3, g1, g2⟩ := irq_finish_for extern_code _ hlen w.g_task_table rfl hb
      { w1 with g_task_table := w1.g_task_table.map task_tick_one } i (Nat.le_of_lt hlt) hl2
      hpre calls1 (6 * w.g_task_table.length + 2 + 1 + 1) (by omega)
    have hti : (w1.g_task_table.map task_tick_one)[i]? = some (task_tick_one t) := by
      rw [hpre i, if_neg (Nat.lt_irrefl i), ht0]
      rfl
    have hrt : (task_tick_one t).is_ready = true := task_tick_one_keeps_ready t hr
    have s1 : task_loop_stmt extern_code w.g_task_table.length (loop_pc.for_test i)
        { w1 with g_task_table := w1.g_task_table.map task_tick_one }
        = some (loop_pc.ready_test i,
            { w1 with g_task_table := w1.g_task_table.map task_tick_one }, []) := by
      simp only [task_loop_stmt, hlt, if_true]
    have s2 : task_loop_stmt extern_code w.g_task_table.length (loop_pc.ready_test i)
        { w1 with g_task_table := w1.g_task_table.map task_tick_one }
        = some (loop_pc.clear i,
            { w1 with g_task_table := w1.g_task_table.map task_tick_one }, []) := by
      simp only [task_loop_stmt, hti, hrt, if_true]
    rw [task_loop_finish_step extern_code _ _ _ _ _ _ calls1 [] (by simp) s1,
      List.append_nil,
      task_loop_finish_step extern_code _ _ _ _ _ _ calls1 [] (by simp) s2,
      List.append_nil] at g1
    exact ⟨i, w3, Nat.le_of_lt hlt, by rw [g1, hcalls1]; rfl, g2⟩
  | cb_test i =>
    simp only [loop_pc_ok, loop_pc_cleared, loop_pc_called] at hok hpre hcalls1
    obtain ⟨hlt, t, ht0, hr⟩ := hok
    obtain ⟨g, hg, hg2⟩ : ∃ g, 6 * w.g_task_table.length + 2 = g + 3 ∧
        6 * (w.g_task_table.length - (i + 1)) + 2 ≤ g :=
      ⟨6 * w.g_task_table.length - 1, by omega, by omega⟩
    obtain ⟨w3, g1, g2⟩ := irq_finish_cb_test extern_code _ hlen w.g_task_table rfl hb
      { w1 with g_task_table := w1.g_task_table.map task_tick_one } i hlt hl2 hpre calls1
      t ht0 hr g hg2
    refine ⟨i + 1, w3, hlt, ?_, g2⟩
    rw [hg, g1, hcalls1, irq_calls, range_succ_filterMap]
  | call i =>
    simp only [loop_pc_ok, loop_pc_cleared, loop_pc_called] at hok hpre hcalls1
    obtain ⟨hlt, t, f, ht0, hr, hc⟩ := hok
    obtain ⟨g, hg, hg2⟩ : ∃ g, 6 * w.g_task_table.length + 2 = g + 2 ∧
        6 * (w.g_task_table.length - (i + 1)) + 2 ≤ g :=
      ⟨6 * w.g_task_table.length, by omega, by omega⟩
    obtain ⟨w3, g1, g2⟩ := irq_finish_call extern_code _ hlen w.g_task_table rfl hb
      { w1 with g_task_table := w1.g_task_table.map task_tick_one } i hlt hl2 hpre calls1
      t f ht0 hc g hg2
    have hcall : task_call w.g_task_table i = some (i, f) := by
      simp [task_call, ht0, hr, hc]
    refine ⟨i + 1, w3, hlt, ?_, g2⟩
    rw [hg, g1, hcalls1, irq_calls, range_succ_filterMap, hcall, Option.toList_some]
  | incr i =>
    simp only [loop_pc_ok, loop_pc_cleared, loop_pc_called] at hok hpre hcalls1
    obtain ⟨w3, g1, g2⟩ := irq_finish_incr extern_code _ hlen w.g_task_table rfl hb
      { w1 with g_task_table := w1.g_task_table.map task_tick_one } i hok hl2 hpre calls1
      (6 * w.g_task_table.length + 1) (by omega)
    exact ⟨i + 1, w3, hok, by rw [g1, hcalls1]; rfl, g2⟩
  | done =>
    simp only [loop_pc_cleared, loop_pc_called] at hpre hcalls1
    refine ⟨w.g_task_table.length,
      { w1 with g_task_table := w1.g_task_table.map task_tick_one }, Nat.le_refl _, ?_, ?_⟩
    · rw [task_loop_finish_done, hcalls1, irq_calls]
      simp
    · intro j
      rw [hpre j]
      by_cases hj : j < w.g_task_table.length
      · rw [if_pos hj, if_pos hj]
      · rw [if_neg hj, if_neg hj, List.getElem?_eq_none (by omega)]
        rfl

/-! ## Scheduler: the tick/drain race -/

theorem filter_task_calls (tbl : List task_t) (j : Nat) :
    ∀ L : List Nat, (L.filterMap (task_call tbl)).filter (fun c => decide (c.1 = j))
      = (L.filter (fun x => decide (x = j))).filterMap (task_call tbl) := by
  intro L
  induction L with
  | nil => rfl
  | cons x L ih =>
    cases hx : task_call tbl x with
    | none =>
      rw [List.filterMap_cons_none hx, ih]
      by_cases hxj : x = j
      · rw [List.filter_cons_of_pos (by simpa using hxj), List.filterMap_cons_none hx]
      · rw [List.filter_cons_of_neg (by simpa using hxj)]
    | some c =>
      have hc : c.1 = x := task_call_fst hx
      rw [List.filterMap_cons_some hx]
      by_cases hxj : x = j
      · rw [List.filter_cons_of_pos (by simpa [hc] using hxj),
          List.filter_cons_of_pos (by simpa using hxj), List.filterMap_cons_some hx, ih]
      · rw [List.filter_cons_of_neg (by simpa [hc] using hxj),
          List.filter_cons_of_neg (by simpa using hxj), ih]

theorem range'_filter_eq (j : Nat) :
    ∀ (len s : Nat), (List.range' s len).filter (fun x => decide (x = j))
      = if s ≤ j ∧ j < s + len then [j] else [] := by
  intro len
  induction len with
  | zero =>
    intro s
    rw [if_neg (by omega)]
    rfl
  | succ len ih =>
    intro s
    rw [List.range'_succ]
    by_cases hs : s = j
    · subst hs
      rw [List.filter_cons_of_pos (by simp), ih (s + 1), if_neg (by omega), if_pos (by omega)]
    · rw [List.filter_cons_of_neg (by simpa using hs), ih (s + 1)]
      by_cases h : s + 1 ≤ j ∧ j < s + 1 + len
      · rw [if_pos h, if_pos (by omega)]
      · rw [if_neg h, if_neg (by omega)]

theorem task_call_none_of_ge (tbl : List task_t) (j : Nat) (h : tbl.length ≤ j) :
    task_call tbl j = none := by
  simp only [task_call, List.getElem?_eq_none h]

theorem irq_calls_filter (tbl0 : List task_t) (m j : Nat) (hm : m ≤ tbl0.length) :
    (irq_calls tbl0 m).filter (fun c => decide (c.1 = j))
      = if j < m then (task_call tbl0 j).toList
        else (task_call (tbl0.map task_tick_one) j).toList := by
  rw [irq_calls, List.filter_append, filter_task_calls, filter_task_calls,
    List.range_eq_range', range'_filter_eq, range'_filter_eq]
  by_cases hj : j < m
  · rw [if_pos (by omega), if_neg (by omega), if_pos hj]
    cases h : task_call tbl0 j <;> simp [h]
  · rw [if_neg (by omega), if_neg hj]
    by_cases hjn : j < tbl0.length
    · rw [if_pos (by omega)]
      cases h : task_call (tbl0.map task_tick_one) j <;> simp [h]
    · rw [if_neg (by omega),
        task_call_none_of_ge _ j (by rw [List.length_map]; omega)]
      rfl

theorem task_calls_filter (tbl : List task_t) (j : Nat) :
    ((List.range tbl.length).filterMap (task_call tbl)).filter (fun c => decide (c.1 = j))
      = (task_call tbl j).toList := by
  rw [filter_task_calls, List.range_eq_range', range'_filter_eq]
  by_cases hjn : j < tbl.length
  · rw [if_pos (by omega)]
    cases h : task_call tbl j <;> simp [h]
  · rw [if_neg (by omega), task_call_none_of_ge tbl j (by omega)]
    rfl

theorem task_tick_one_ready_or (t : task_t) :
    (task_tick_one t).is_ready = (t.is_ready || (task_tick_one (task_clear t)).is_ready) := by
  obtain ⟨rdy, tl, pt, c⟩ := t
  cases rdy <;> simp only [task_tick_one, task_tick_update, task_clear] <;> split_ifs <;> simp

theorem task_tick_one_clear_fields (t : task_t) :
    (task_tick_one (task_clear t)).ticks_left = (task_tick_one t).ticks_left ∧
    (task_tick_one (task_clear t)).period_ticks = (task_tick_one t).period_ticks ∧
    (task_tick_one (task_clear t)).cb = t.cb := by
  obtain ⟨rdy, tl, pt, c⟩ := t
  simp only [task_tick_one, task_tick_update, task_clear]
  split_ifs <;> simp

theorem sched_run_loop_tick {W : Type}
    (extern_code : Nat → fw_state W → Option (fw_state W))
    (w : fw_state W) (hlen : w.g_task_table.length < 256)
    (hb : cbs_benign extern_code w.g_task_table) :
    ∃ wa, sched_run extern_code [sched_op.loop, sched_op.tick] w
        = some (wa, (List.range w.g_task_table.length).filterMap (task_call w.g_task_table)) ∧
      wa.g_task_table = (w.g_task_table.map task_clear).map task_tick_one := by
  obtain ⟨wl, h1, h2⟩ := task_loop_eq extern_code w hlen hb
  have h3 := task_tick_hook_eq wl (by rw [h2, List.length_map]; exact hlen)
  refine ⟨{ wl with g_task_table := wl.g_task_table.map task_tick_one }, ?_, by rw [h2]⟩
  simp only [sched_run, h1, h3, List.append_nil]

theorem sched_run_tick_loop {W : Type}
    (extern_code : Nat → fw_state W → Option (fw_state W))
    (w : fw_state W) (hlen : w.g_task_table.length < 256)
    (hb : cbs_benign extern_code w.g_task_table) :
    ∃ wb, sched_run extern_code [sched_op.tick, sched_op.loop] w
        = some (wb, (List.range (w.g_task_table.map task_tick_one).length).filterMap
            (task_call (w.g_task_table.map task_tick_one))) ∧
      wb.g_task_table = (w.g_task_table.map task_tick_one).map task_clear := by
  have h1 := task_tick_hook_eq w hlen
  obtain ⟨wb, h2, h3⟩ := task_loop_eq extern_code
    { w with g_task_table := w.g_task_table.map task_tick_one }
    (by rw [List.length_map]; exact hlen) (cbs_benign_map _ task_tick_one_cb hb)
  refine ⟨wb, ?_, h3⟩
  simp only [sched_run, h1, h2, List.nil_append, List.append_nil]

/-- C22: the tick/drain race is benign.  The table has fewer than 256 entries and every
callback returns and leaves the table alone.  One complete `task_tick_hook` interrupts a
`task_loop` pass after any number `k` of its statements (`task_loop_irq`).  Then the
pass returns, and with `wa`, `callsa` the outcome of the order `task_loop`, tick and
`wb`, `callsb` that of the order tick, `task_loop`:
(1) every task ends with the `ticks_left` and `period_ticks` the tick alone gives it, and
its callback pointer unchanged;
(2) every task's callback is called at most once in the pass;
(3) for every index `j`, the final table entry and the calls made for task `j` are those of
one of the two non-interleaved orders;
(4) for a task with a callback, count the flag set before the pass and the flag raised by
the tick as pending, and the call made in the pass and the flag left set as served: served
is at most pending, and pending is at most served plus one, so at most one raised
readiness per task is lost. -/
theorem tick_drain_race {W : Type} (extern_code : Nat → fw_state W → Option (fw_state W))
    (w : fw_state W) (hlen : w.g_task_table.length < 256)
    (hb : cbs_benign extern_code w.g_task_table) (k : Nat) :
    ∃ w1 calls wa callsa wb callsb,
      task_loop_irq extern_code k w = some (w1, calls) ∧
      sched_run extern_code [sched_op.loop, sched_op.tick] w = some (wa, callsa) ∧
      sched_run extern_code [sched_op.tick, sched_op.loop] w = some (wb, callsb) ∧
      (∀ (j : Nat) (t : task_t), w.g_task_table[j]? = some t →
        ∃ t1 : task_t, w1.g_task_table[j]? = some t1 ∧
          t1.ticks_left = (task_tick_one t).ticks_left ∧
          t1.period_ticks = (task_tick_one t).period_ticks ∧ t1.cb = t.cb) ∧
      (∀ j : Nat, (calls.filter (fun c => decide (c.1 = j))).length ≤ 1) ∧
      (∀ j : Nat,
        (w1.g_task_table[j]? = wa.g_task_table[j]? ∧
          calls.filter (fun c => decide (c.1 = j))
            = callsa.filter (fun c => decide (c.1 = j))) ∨
        (w1.g_task_table[j]? = wb.g_task_table[j]? ∧
          calls.filter (fun c => decide (c.1 = j))
            = callsb.filter (fun c => decide (c.1 = j)))) ∧
      (∀ (j : Nat) (t : task_t) (f : fn_ptr), w.g_task_table[j]? = some t → t.cb = some f →
        ∃ t1 : task_t, w1.g_task_table[j]? = some t1 ∧
          (calls.filter (fun c => decide (c.1 = j))).length + t1.is_ready.toNat
            ≤ t.is_ready.toNat + (task_tick_one (task_clear t)).is_ready.toNat ∧
          t.is_ready.toNat + (task_tick_one (task_clear t)).is_ready.toNat
            ≤ (calls.filter (fun c => decide (c.1 = j))).length + t1.is_ready.toNat + 1) := by
  obtain ⟨m, w1, hm, h1, h2⟩ := task_loop_irq_spec extern_code w hlen hb k
  obtain ⟨wa, ha1, ha2⟩ := sched_run_loop_tick extern_code w hlen hb
  obtain ⟨wb, hb1, hb2⟩ := sched_run_tick_loop extern_code w hlen hb
  have hfilt := fun j => irq_calls_filter w.g_task_table m j hm
  refine ⟨w1, _, wa, _, wb, _, h1, ha1, hb1, ?_, ?_, ?_, ?_⟩
  · intro j t ht
    obtain ⟨e1, e2, e3⟩ := task_tick_one_clear_fields t
    by_cases hj : j < m
    · refine ⟨task_tick_one (task_clear t), ?_, e1, e2, e3⟩
      rw [h2 j, if_pos hj, ht]
      rfl
    · refine ⟨task_clear (task_tick_one t), ?_, rfl, rfl, task_tick_one_cb t⟩
      rw [h2 j, if_neg hj, ht]
      rfl
  · intro j
    rw [hfilt j]
    by_cases hj : j < m
    · rw [if_pos hj]
      cases task_call w.g_task_table j <;> simp
    · rw [if_neg hj]
      cases task_call (w.g_task_table.map task_tick_one) j <;> simp
  · intro j
    rw [hfilt j]
    by_cases hj : j < m
    · left
      rw [if_pos hj, h2 j, if_pos hj, ha2, task_calls_filter]
      refine ⟨?_, rfl⟩
      rw [List.getElem?_map, List.getElem?_map, Option.map_map]
      rfl
    · right
      rw [if_neg hj, h2 j, if_neg hj, hb2, task_calls_filter]
      refine ⟨?_, rfl⟩
      rw [List.getElem?_map, List.getElem?_map, Option.map_map]
      rfl
  · intro j t f ht hc
    rw [hfilt j]
    by_cases hj : j < m
    · refine ⟨task_tick_one (task_clear t), ?_, ?_⟩
      · rw [h2 j, if_pos hj, ht]
        rfl
      · rw [if_pos hj]
        have hcall : task_call w.g_task_table j
            = if t.is_ready then some (j, f) else none := by
          simp [task_call, ht, hc]
        rw [hcall]
        cases t.is_ready <;> cases (task_tick_one (task_clear t)).is_ready <;> simp
    · refine ⟨task_clear (task_tick_one t), ?_, ?_⟩
      · rw [h2 j, if_neg hj, ht]
        rfl
      · rw [if_neg hj]
        have hcall : task_call (w.g_task_table.map task_tick_one) j
            = if (task_tick_one t).is_ready then some (j, f) else none := by
          simp [task_call, ht, task_tick_one_cb, hc]
        rw [hcall, task_tick_one_ready_or t]
        have hcl : (task_clear (task_tick_one t)).is_ready = false := rfl
        rw [hcl]
        cases t.is_ready <;> cases (task_tick_one (task_clear t)).is_ready <;> simp

/-- Witness for C22: task 0 is ready with `ticks_left = 1`, task 1 is not ready with
`ticks_left = 1`; the tick arrives after two statements of the pass, between the test of
the ready flag of task 0 and its clearing. -/
theorem tick_drain_race_witness :
    ∃ w1 calls wa callsa wb callsb,
      task_loop_irq (fun (_ : Nat) (w : fw_state Unit) => some w) 2
        ⟨0, none, [⟨true, 1, 5, some (fn_ptr.extern_fn 0)⟩,
          ⟨false, 1, 3, some (fn_ptr.extern_fn 1)⟩], ()⟩ = some (w1, calls) ∧
      sched_run (fun (_ : Nat) (w : fw_state Unit) => some w) [sched_op.loop, sched_op.tick]
        ⟨0, none, [⟨true, 1, 5, some (fn_ptr.extern_fn 0)⟩,
          ⟨false, 1, 3, some (fn_ptr.extern_fn 1)⟩], ()⟩ = some (wa, callsa) ∧
      sched_run (fun (_ : Nat) (w : fw_state Unit) => some w) [sched_op.tick, sched_op.loop]
        ⟨0, none, [⟨true, 1, 5, some (fn_ptr.extern_fn 0)⟩,
          ⟨false, 1, 3, some (fn_ptr.extern_fn 1)⟩], ()⟩ = some (wb, callsb) ∧
      (∀ (j : Nat) (t : task_t),
        ([⟨true, 1, 5, some (fn_ptr.extern_fn 0)⟩,
          ⟨false, 1, 3, some (fn_ptr.extern_fn 1)⟩] : List task_t)[j]? = some t →
        ∃ t1 : task_t, w1.g_task_table[j]? = some t1 ∧
          t1.ticks_left = (task_tick_one t).ticks_left ∧
          t1.period_ticks = (task_tick_one t).period_ticks ∧ t1.cb = t.cb) ∧
      (∀ j : Nat, (calls.filter (fun c => decide (c.1 = j))).length ≤ 1) ∧
      (∀ j : Nat,
        (w1.g_task_table[j]? = wa.g_task_table[j]? ∧
          calls.filter (fun c => decide (c.1 = j))
            = callsa.filter (fun c => decide (c.1 = j))) ∨
        (w1.g_task_table[j]? = wb.g_task_table[j]? ∧
          calls.filter (fun c => decide (c.1 = j))
            = callsb.filter (fun c => decide (c.1 = j)))) ∧
      (∀ (j : Nat) (t : task_t) (f : fn_ptr),
        ([⟨true, 1, 5, some (fn_ptr.extern_fn 0)⟩,
          ⟨false, 1, 3, some (fn_ptr.extern_fn 1)⟩] : List task_t)[j]? = some t →
        t.cb = some f →
        ∃ t1 : task_t, w1.g_task_table[j]? = some t1 ∧
          (calls.filter (fun c => decide (c.1 = j))).length + t1.is_ready.toNat
            ≤ t.is_ready.toNat + (task_tick_one (task_clear t)).is_ready.toNat ∧
          t.is_ready.toNat + (task_tick_one (task_clear t)).is_ready.toNat
            ≤ (calls.filter (fun c => decide (c.1 = j))).length + t1.is_ready.toNat + 1) :=
  tick_drain_race (fun (_ : Nat) (w : fw_state Unit) => some w)
    ⟨0, none, [⟨true, 1, 5, some (fn_ptr.extern_fn 0)⟩,
      ⟨false, 1, 3, some (fn_ptr.extern_fn 1)⟩], ()⟩ (by decide)
    (by
      intro t ht f hf
      simp only [List.mem_cons, List.mem_singleton, List.not_mem_nil, or_false] at ht
      rcases ht with h | h <;> subst h <;> simp only [Option.some.injEq] at hf <;>
        subst hf <;> exact cb_benign_skip _)
    2

end GD32
